import Mathlib

/-!
# RPMPLv2 `RealVectorSpace` collision and distance engine

A shallow embedding of `src/state_spaces/real_vector_space/RealVectorSpace.cpp`.

Number model.  A C++ `float`/`double` is an exact rational (`ℚ`); rounding is
not modelled, with the one exception told below for the sphere engine.  The
three non-finite situations the code can create are kept explicit:

* `INFINITY` (initial `d_c`, `dist_AB_obs`, the plane parameter `t` of a
  segment parallel to a face) is a separate constructor or `none`;
* `0/0` (NaN) in the parametric systems of the segment primitives is `none`
  or `Dist.nan`; every comparison with it is false, as in IEEE arithmetic;
* matrices that are read before being assigned are `Pts.invalid`, and a run
  that reads an unassigned edge matrix has no result (`none`).

Norms.  Every Euclidean norm the code computes is carried as its square
(`Dist.fin sq` stands for the float `√sq`).  The code only ever compares norms
with one another, with scalars, or subtracts the capsule radius once at the
very end, so comparisons are the comparisons of the squares (`normLt`,
`normGt`, justified against `Real.sqrt` by `normLt_iff`, `normGt_iff`), and
the final `d_c -= radius` is recorded in the field `sub` of the result.
The sphere engine is treated the same way: the triangle height and the two
angle tests are carried by the squares of the three sides (`heron_height`,
`acuteAngle_iff`).  The argument of `acos` in an angle test is not clamped by
the code; for a flat triangle its exact value is `1` or `-1` and the computed
one can exceed `1`, which turns the angle into NaN and the test into false.
That outcome of rounding changes the branch taken, so it is a parameter of the
model (`nanA`, `nanB` of `distanceCapsuleToSphere`).

`interpolate` is stated over an arbitrary linearly ordered field, so that the
step and the distance may be irrational norms; the library norm, the
threshold and the validity test are its parameters.

The facade (`isValid`, `computeDistanceAndPlanes`, `randomState`).  The robot
and the environment are not part of the file: what the code asks of them
(type `xarm6` or not, number of parts, skeleton, radii; node type and bounds of
every obstacle) is a parameter (`Robot`, `Obstacle`), and so is the raw random
draw.  The matrix `distances` of `computeDistanceAndPlanes` is not initialised
by its constructor; what the memory holds is the parameter `junk`, and an
entry of `distances` is the float `√d_c - sub` (`Clearance`), compared through
the squares (`sqrtDiffLt`, justified by `sqrtDiffLt_iff`).
-/

namespace RealVectorSpace

/-! ## Vectors -/

/-- `Eigen::Vector3f`. -/
structure V3 where
  x : ℚ
  y : ℚ
  z : ℚ
  deriving DecidableEq, Repr

/-- `Eigen::Vector2f`. -/
structure V2 where
  a : ℚ
  b : ℚ
  deriving DecidableEq, Repr

/-- Coefficient access `v(i)` of a 3-vector. -/
def V3.get (v : V3) (i : Nat) : ℚ :=
  if i = 0 then v.x else if i = 1 then v.y else v.z

/-- Coefficient access `v(i)` of a 2-vector. -/
def V2.get (v : V2) (i : Nat) : ℚ :=
  if i = 0 then v.a else v.b

def V3.add (u v : V3) : V3 := ⟨u.x + v.x, u.y + v.y, u.z + v.z⟩

def V3.sub (u v : V3) : V3 := ⟨u.x - v.x, u.y - v.y, u.z - v.z⟩

def V3.smul (k : ℚ) (v : V3) : V3 := ⟨k * v.x, k * v.y, k * v.z⟩

def V3.dot (u v : V3) : ℚ := u.x * v.x + u.y * v.y + u.z * v.z

/-- `v.squaredNorm()`. -/
def V3.squaredNorm (v : V3) : ℚ := v.dot v

def V2.add (u v : V2) : V2 := ⟨u.a + v.a, u.b + v.b⟩

def V2.sub (u v : V2) : V2 := ⟨u.a - v.a, u.b - v.b⟩

def V2.smul (k : ℚ) (v : V2) : V2 := ⟨k * v.a, k * v.b⟩

def V2.squaredNorm (v : V2) : ℚ := v.a * v.a + v.b * v.b

/-- The obstacle vector `obs = (x_min, y_min, z_min, x_max, y_max, z_max)`. -/
structure Box where
  x_min : ℚ
  y_min : ℚ
  z_min : ℚ
  x_max : ℚ
  y_max : ℚ
  z_max : ℚ
  deriving DecidableEq, Repr

/-- Coefficient access `obs(i)`. -/
def Box.get (o : Box) (i : Nat) : ℚ :=
  if i = 0 then o.x_min else if i = 1 then o.y_min else if i = 2 then o.z_min
  else if i = 3 then o.x_max else if i = 4 then o.y_max else o.z_max

/-- The 4-vector `rec = (min1, min2, max1, max2)` of a face rectangle. -/
structure Rec4 where
  r0 : ℚ
  r1 : ℚ
  r2 : ℚ
  r3 : ℚ
  deriving DecidableEq, Repr

/-! ## Norm-valued floats -/

/-- The float `√sq` is `< r`. -/
def normLt (sq r : ℚ) : Bool := decide (0 < r ∧ sq < r * r)

/-- The float `√sq` is `> r`. -/
def normGt (sq r : ℚ) : Bool := decide (r < 0 ∨ r * r < sq)

/-- The float `x` is `< r * sqrt(3) / 3`, the comparison against `r_new`. -/
def ltRNew (x r : ℚ) : Bool :=
  if 0 ≤ r then decide (x < 0 ∨ 3 * (x * x) < r * r)
  else decide (x < 0 ∧ r * r < 3 * (x * x))

/-- A float that holds a Euclidean norm: NaN, `INFINITY`, or `√sq`. -/
inductive Dist where
  | nan : Dist
  | inf : Dist
  | fin (sq : ℚ) : Dist
  deriving DecidableEq, Repr

/-- Float comparison `a < b` of two norm-valued floats. -/
def Dist.lt : Dist → Dist → Bool
  | Dist.fin p, Dist.fin q => decide (p < q)
  | Dist.fin _, Dist.inf => true
  | _, _ => false

/-- The `std::min(a, b)` of the standard library: `(b < a) ? b : a`. -/
def Dist.min (a b : Dist) : Dist := if Dist.lt b a then b else a

/-- Float comparison `d < r` against a scalar. -/
def Dist.ltScalar : Dist → ℚ → Bool
  | Dist.fin p, r => normLt p r
  | _, _ => false

/-- Float comparison `d > r` against a scalar. -/
def Dist.gtScalar : Dist → ℚ → Bool
  | Dist.fin p, r => normGt p r
  | Dist.inf, _ => true
  | Dist.nan, _ => false

/-- Float comparison `d > 0`. -/
def Dist.gtZero : Dist → Bool
  | Dist.fin p => decide (0 < p)
  | Dist.inf => true
  | Dist.nan => false

/-- Float comparison `d <= 0`. -/
def Dist.leZero : Dist → Bool
  | Dist.fin p => decide (p ≤ 0)
  | _ => false

/-- The `shared_ptr<Eigen::MatrixXf>` of nearest points: the null pointer, a
matrix whose entries were never assigned (or are NaN), or the two columns
`col(0)` (point on the capsule axis) and `col(1)` (point on the obstacle). -/
inductive Pts where
  | null : Pts
  | invalid : Pts
  | pts (P Q : V3) : Pts
  deriving DecidableEq, Repr

/-! ## Segment primitives -/

/-- `get3DPoint(point, coord_value, coord)`. -/
def get3DPoint (point : V2) (coord_value : ℚ) (coord : Nat) : V3 :=
  if coord = 0 then ⟨coord_value, point.a, point.b⟩
  else if coord = 1 then ⟨point.a, coord_value, point.b⟩
  else ⟨point.a, point.b, coord_value⟩

/-- One pass `i` of the loop of `distanceLineSegToLineSeg` over the four
boundary-clamped cases: the candidate pair `nearest_pts_temp`, or `none` when
`opt(i)` is NaN (`0/0`, a zero-length segment). -/
def segSegCandidate (A B C D : V3) (i : Nat) : Option (V3 × V3) :=
  let alpha1 := (B.sub A).squaredNorm
  let alpha3 := (C.sub D).squaredNorm
  let num :=
    if i = 0 then (A.sub C).dot (A.sub B)
    else if i = 1 then (A.sub D).dot (A.sub B)
    else if i = 2 then (A.sub C).dot (D.sub C)
    else (B.sub C).dot (D.sub C)
  let den := if i = 0 ∨ i = 1 then alpha1 else alpha3
  if den = 0 then none
  else
    let opt := num / den
    if opt < 0 then
      if i = 0 ∨ i = 2 then some (A, C)
      else if i = 1 then some (A, D)
      else some (B, C)
    else if opt > 1 then
      if i = 1 ∨ i = 3 then some (B, D)
      else if i = 0 then some (B, C)
      else some (A, D)
    else
      if i = 0 then some (A.add (V3.smul opt (B.sub A)), C)
      else if i = 1 then some (A.add (V3.smul opt (B.sub A)), D)
      else if i = 2 then some (A, C.add (V3.smul opt (D.sub C)))
      else some (B, C.add (V3.smul opt (D.sub C)))

/-- The update `if (d_c_temp < d_c) { d_c = d_c_temp; *nearest_pts = ... }` of
the loop of `distanceLineSegToLineSeg`. -/
def segSegStep (A B C D : V3) (st : Dist × Pts) (i : Nat) : Dist × Pts :=
  match segSegCandidate A B C D i with
  | none => st
  | some (P, Q) =>
    let d_c_temp := Dist.fin (Q.sub P).squaredNorm
    if Dist.lt d_c_temp st.1 then (d_c_temp, Pts.pts P Q) else st

/-- The first test of `distanceLineSegToLineSeg` (and of
`collisionLineSegToLineSeg`): the solution `(t, s)` of the 2 x 2 system when
`t > 0 && t < 1 && s > 0 && s < 1`, as the pair of points `A + t (B - A)`,
`C + s (D - C)`.  A zero determinant makes `s` (and then `t`) NaN or infinite,
so the test fails. -/
def segSegInterior (A B C D : V3) : Option (V3 × V3) :=
  let alpha1 := (B.sub A).squaredNorm
  let alpha2 := (B.sub A).dot (D.sub C)
  let beta1 := (C.sub D).dot (B.sub A)
  let beta2 := (C.sub D).dot (D.sub C)
  let gamma1 := (A.sub C).dot (A.sub B)
  let gamma2 := (A.sub C).dot (C.sub D)
  let det := alpha1 * beta2 - alpha2 * beta1
  let s := (alpha1 * gamma2 - alpha2 * gamma1) / det
  let t := (gamma1 - beta1 * s) / alpha1
  if det ≠ 0 ∧ t > 0 ∧ t < 1 ∧ s > 0 ∧ s < 1 then
    some (A.add (V3.smul t (B.sub A)), C.add (V3.smul s (D.sub C)))
  else none

/-- `distanceLineSegToLineSeg(A, B, C, D)`; `thr` is
`RealVectorSpaceConfig::EQUALITY_THRESHOLD`. -/
def distanceLineSegToLineSeg (thr : ℚ) (A B C D : V3) : Dist × Pts :=
  match segSegInterior A B C D with
  | some (P, Q) =>
    let d_c := (Q.sub P).squaredNorm
    if normLt d_c thr then (Dist.fin 0, Pts.null)
    else (Dist.fin d_c, Pts.pts P Q)
  | none => [0, 1, 2, 3].foldl (segSegStep A B C D) (Dist.inf, Pts.invalid)

/-- `distanceLineSegToPoint(A, B, C)`.  For `A = B` the parameter is `0/0`, the
nearest point and the distance are NaN, and `NaN < threshold` is false. -/
def distanceLineSegToPoint (thr : ℚ) (A B C : V3) : Dist × Pts :=
  if (B.sub A).squaredNorm = 0 then (Dist.nan, Pts.invalid)
  else
    let t_opt := (C.sub A).dot (B.sub A) / (B.sub A).squaredNorm
    let P :=
      if t_opt < 0 then A
      else if t_opt > 1 then B
      else A.add (V3.smul t_opt (B.sub A))
    let d_c := (C.sub P).squaredNorm
    if normLt d_c thr then (Dist.fin 0, Pts.null)
    else (Dist.fin d_c, Pts.pts P C)

/-! ## Capsule against one face rectangle -/

/-- The vector `rec` built in `collisionCapsuleToRectangle` from
`obs.head(coord), obs.segment(coord+1, 2-coord), obs.segment(3, coord),
obs.tail(2-coord)`, for `coord` already reduced to `0..2`. -/
def faceRec (obs : Box) (coord : Nat) : Rec4 :=
  if coord = 0 then ⟨obs.get 1, obs.get 2, obs.get 4, obs.get 5⟩
  else if coord = 1 then ⟨obs.get 0, obs.get 2, obs.get 3, obs.get 5⟩
  else ⟨obs.get 0, obs.get 1, obs.get 3, obs.get 4⟩

/-- The 2-vector `A.head(coord), A.tail(2-coord)`. -/
def dropCoord (A : V3) (coord : Nat) : V2 :=
  if coord = 0 then ⟨A.get 1, A.get 2⟩
  else if coord = 1 then ⟨A.get 0, A.get 2⟩
  else ⟨A.get 0, A.get 1⟩

/-- `checkCases(A, B, rec, point, obs_coord, coord)`. -/
def checkCases (thr : ℚ) (A B : V3) (rct : Rec4) (point : V2) (obs_coord : ℚ) (coord : Nat) :
    Dist :=
  let d_c1 :=
    if point.get 0 < rct.r0 then
      (distanceLineSegToLineSeg thr A B (get3DPoint ⟨rct.r0, rct.r1⟩ obs_coord coord)
        (get3DPoint ⟨rct.r0, rct.r3⟩ obs_coord coord)).1
    else if point.get 0 > rct.r2 then
      (distanceLineSegToLineSeg thr A B (get3DPoint ⟨rct.r2, rct.r1⟩ obs_coord coord)
        (get3DPoint ⟨rct.r2, rct.r3⟩ obs_coord coord)).1
    else Dist.inf
  let d_c2 :=
    if d_c1.gtZero ∧ point.get 1 < rct.r1 then
      (distanceLineSegToLineSeg thr A B (get3DPoint ⟨rct.r0, rct.r1⟩ obs_coord coord)
        (get3DPoint ⟨rct.r2, rct.r1⟩ obs_coord coord)).1
    else if d_c1.gtZero ∧ point.get 1 > rct.r3 then
      (distanceLineSegToLineSeg thr A B (get3DPoint ⟨rct.r0, rct.r3⟩ obs_coord coord)
        (get3DPoint ⟨rct.r2, rct.r3⟩ obs_coord coord)).1
    else Dist.inf
  Dist.min d_c1 d_c2

/-- The test `p(0) > rec(0) && p(0) < rec(2) && p(1) > rec(1) && p(1) < rec(3)`. -/
def insideRec (p : V2) (rct : Rec4) : Bool :=
  decide (p.get 0 > rct.r0 ∧ p.get 0 < rct.r2 ∧ p.get 1 > rct.r1 ∧ p.get 1 < rct.r3)

/-- The six-way disjunction tested on the crossing point `M` (lines 210-215). -/
def crossingHits (M : V2) (rct : Rec4) (radius : ℚ) : Bool :=
  decide (M.get 0 > rct.r0 - radius ∧ M.get 0 < rct.r2 + radius ∧
      M.get 1 > rct.r1 ∧ M.get 1 < rct.r3) ||
  decide (M.get 1 > rct.r1 - radius ∧ M.get 1 < rct.r3 + radius ∧
      M.get 0 > rct.r0 ∧ M.get 0 < rct.r2) ||
  (decide (M.get 0 < rct.r0 ∧ M.get 1 < rct.r2) &&
      normLt (M.sub ⟨rct.r0, rct.r2⟩).squaredNorm radius) ||
  (decide (M.get 0 < rct.r0 ∧ M.get 1 > rct.r3) &&
      normLt (M.sub ⟨rct.r0, rct.r3⟩).squaredNorm radius) ||
  (decide (M.get 0 > rct.r1 ∧ M.get 1 < rct.r2) &&
      normLt (M.sub ⟨rct.r1, rct.r2⟩).squaredNorm radius) ||
  (decide (M.get 0 > rct.r1 ∧ M.get 1 > rct.r3) &&
      normLt (M.sub ⟨rct.r1, rct.r3⟩).squaredNorm radius)

/-- The part of `collisionCapsuleToRectangle` under
`// Considering collision between capsule and rectangle` (lines 223-253). -/
def capsuleRectangleTail (thr : ℚ) (A B : V3) (radius : ℚ) (rct : Rec4) (A_rec B_rec : V2)
    (A_proj B_proj : V3) (obs_coord : ℚ) (coord : Nat) : Bool :=
  let dA := Dist.fin (A.sub A_proj).squaredNorm
  let dB := Dist.fin (B.sub B_proj).squaredNorm
  if radius > 0 then
    if insideRec A_rec rct then
      if insideRec B_rec rct then
        (Dist.min dA dB).ltScalar radius
      else
        (Dist.min (checkCases thr A B rct B_rec obs_coord coord) dA).ltScalar radius
    else if insideRec B_rec rct then
      (Dist.min (checkCases thr A B rct A_rec obs_coord coord) dB).ltScalar radius
    else
      if (checkCases thr A B rct A_rec obs_coord coord).ltScalar radius then true
      else (checkCases thr A B rct B_rec obs_coord coord).ltScalar radius
  else false

/-- `collisionCapsuleToRectangle(A, B, radius, obs, coord)`.  When
`B(coord) = A(coord)` the parameter `t` is `INFINITY` and `t < 1` is false. -/
def collisionCapsuleToRectangle (thr : ℚ) (A B : V3) (radius : ℚ) (obs : Box) (coord : Nat) :
    Bool :=
  let obs_coord := obs.get coord
  let coord := if coord > 2 then coord - 3 else coord
  let rct := faceRec obs coord
  let A_rec := dropCoord A coord
  let B_rec := dropCoord B coord
  let t := (obs_coord - A.get coord) / (B.get coord - A.get coord)
  let M := A_rec.add (V2.smul t (B_rec.sub A_rec))
  let A_proj := get3DPoint A_rec obs_coord coord
  let B_proj := get3DPoint B_rec obs_coord coord
  if B.get coord - A.get coord ≠ 0 ∧ t > 0 ∧ t < 1 then
    if (M.get 0 > rct.r0 - radius ∧ M.get 0 < rct.r2 + radius ∧
        M.get 1 > rct.r1 - radius ∧ M.get 1 < rct.r3 + radius) ∧ crossingHits M rct radius then
      true
    else capsuleRectangleTail thr A B radius rct A_rec B_rec A_proj B_proj obs_coord coord
  else if (Dist.min (Dist.fin (A.sub A_proj).squaredNorm)
      (Dist.fin (B.sub B_proj).squaredNorm)).gtScalar radius then
    false
  else capsuleRectangleTail thr A B radius rct A_rec B_rec A_proj B_proj obs_coord coord

/-! ## Capsule against box: boolean test -/

/-- The fast-accept test on one endpoint (lines 156-157), with
`r_new = radius * sqrt(3) / 3`. -/
def nearBox (P : V3) (radius : ℚ) (obs : Box) : Bool :=
  ltRNew (obs.get 0 - P.get 0) radius && ltRNew (obs.get 1 - P.get 1) radius &&
  ltRNew (obs.get 2 - P.get 2) radius && ltRNew (P.get 0 - obs.get 3) radius &&
  ltRNew (P.get 1 - obs.get 4) radius && ltRNew (P.get 2 - obs.get 5) radius

/-- The fast-reject test (lines 161-163). -/
def separated (A B : V3) (radius : ℚ) (obs : Box) : Bool :=
  decide (A.get 0 < obs.get 0 - radius ∧ B.get 0 < obs.get 0 - radius) ||
  decide (A.get 0 > obs.get 3 + radius ∧ B.get 0 > obs.get 3 + radius) ||
  decide (A.get 1 < obs.get 1 - radius ∧ B.get 1 < obs.get 1 - radius) ||
  decide (A.get 1 > obs.get 4 + radius ∧ B.get 1 > obs.get 4 + radius) ||
  decide (A.get 2 < obs.get 2 - radius ∧ B.get 2 < obs.get 2 - radius) ||
  decide (A.get 2 > obs.get 5 + radius ∧ B.get 2 > obs.get 5 + radius)

/-- The face test of one axis `k` in `collisionCapsuleToBox` (lines 166-169,
173-176, 180-183): the face below or above `A`, if `A` is outside the slab. -/
def axisTest (thr : ℚ) (A B : V3) (radius : ℚ) (obs : Box) (k : Nat) : Bool :=
  if A.get k < obs.get k then collisionCapsuleToRectangle thr A B radius obs k
  else if A.get k > obs.get (k + 3) then collisionCapsuleToRectangle thr A B radius obs (k + 3)
  else false

/-- `collisionCapsuleToBox(A, B, radius, obs)`. -/
def collisionCapsuleToBox (thr : ℚ) (A B : V3) (radius : ℚ) (obs : Box) : Bool :=
  if nearBox A radius obs || nearBox B radius obs then true
  else if separated A B radius obs then false
  else
    let collision := axisTest thr A B radius obs 0
    if !collision then
      let collision := axisTest thr A B radius obs 1
      if !collision then axisTest thr A B radius obs 2
      else collision
    else collision

/-! ## Capsule against box: the distance engine `Capsule_Box` -/

/-- The mutable members of `Capsule_Box`: `d_c`, `nearest_pts`, the 6 x 2
matrix `projections` (row = face, column = endpoint) and `dist_AB_obs`
(`none` is `INFINITY`). -/
structure CapsuleBox where
  d_c : Dist
  nearest_pts : Pts
  projections : Nat → Nat → Bool
  dist_A : Option ℚ
  dist_B : Option ℚ

/-- The state left by the constructor `Capsule_Box(A, B, radius, obs)`. -/
def CapsuleBox.init : CapsuleBox :=
  ⟨Dist.inf, Pts.invalid, fun _ _ => false, none, none⟩

/-- The assignment `projections(row, i) = 1; dist_AB_obs(i) = d`. -/
def CapsuleBox.setProjection (st : CapsuleBox) (row i : Nat) (d : ℚ) : CapsuleBox :=
  { st with
    projections := fun r c => if r = row ∧ c = i then true else st.projections r c
    dist_A := if i = 0 then some d else st.dist_A
    dist_B := if i = 0 then st.dist_B else some d }

/-- The body of the loop of `projectionLineSegOnSide` for endpoint `i`
(`P = AB.col(i)`); the flag tells that the function returned (`d_c = 0`). -/
def projectionStep (obs : Box) (min1 min2 min3 max1 max2 max3 : Nat) (P : V3) (i : Nat)
    (st : CapsuleBox) : CapsuleBox × Bool :=
  if P.get min1 ≥ obs.get min1 ∧ P.get min1 ≤ obs.get max1 ∧
      P.get min2 ≥ obs.get min2 ∧ P.get min2 ≤ obs.get max2 then
    if P.get min3 > obs.get min3 ∧ P.get min3 < obs.get max3 then
      ({ st with d_c := Dist.fin 0 }, true)
    else if P.get min3 ≤ obs.get min3 then
      (st.setProjection min3 i (obs.get min3 - P.get min3), false)
    else if P.get min3 ≥ obs.get max3 then
      (st.setProjection max3 i (P.get min3 - obs.get max3), false)
    else (st, false)
  else (st, false)

/-- `Capsule_Box::projectionLineSegOnSide(min1, min2, min3, max1, max2, max3)`. -/
def projectionLineSegOnSide (A B : V3) (obs : Box) (min1 min2 min3 max1 max2 max3 : Nat)
    (st : CapsuleBox) : CapsuleBox :=
  let r := projectionStep obs min1 min2 min3 max1 max2 max3 A 0 st
  if r.2 then r.1
  else (projectionStep obs min1 min2 min3 max1 max2 max3 B 1 r.1).1

/-- `Capsule_Box::getLineSegments`; `none` is the 3 x 2 matrix returned with
both columns unassigned (no bound violated). -/
def getLineSegments (point : V2) (min1 min2 max1 max2 coord_value : ℚ) (coord : Nat) :
    Option (List (V3 × V3)) :=
  let first : List (V3 × V3) :=
    if point.get 0 < min1 then
      [(get3DPoint ⟨min1, min2⟩ coord_value coord, get3DPoint ⟨min1, max2⟩ coord_value coord)]
    else if point.get 0 > max1 then
      [(get3DPoint ⟨max1, min2⟩ coord_value coord, get3DPoint ⟨max1, max2⟩ coord_value coord)]
    else []
  if point.get 1 < min2 then
    some (first ++
      [(get3DPoint ⟨min1, min2⟩ coord_value coord, get3DPoint ⟨max1, min2⟩ coord_value coord)])
  else if point.get 1 > max2 then
    some (first ++
      [(get3DPoint ⟨min1, max2⟩ coord_value coord, get3DPoint ⟨max1, max2⟩ coord_value coord)])
  else if first = [] then none
  else some first

/-- `Capsule_Box::distanceToMoreLineSegments`, on the list of column pairs
`(col(k), col(k+1))` and the members `(d_c, nearest_pts)`. -/
def distanceToMoreLineSegments (thr : ℚ) (A B : V3) :
    List (V3 × V3) → Dist × Pts → Dist × Pts
  | [], st => st
  | (C, D) :: rest, st =>
    let r := distanceLineSegToLineSeg thr A B C D
    if r.1.leZero then (Dist.fin 0, st.2)
    else if Dist.lt r.1 st.1 then distanceToMoreLineSegments thr A B rest (r.1, r.2)
    else distanceToMoreLineSegments thr A B rest st

/-- The branch of `checkEdges` for one face `f`, with the arguments passed to
`getLineSegments` there; `none` when the edge matrix is read unassigned. -/
def checkEdgesFace (thr : ℚ) (A B : V3) (obs : Box) (f : Nat) (point : V2)
    (min1 min2 max1 max2 : ℚ) (coord : Nat) (st : Dist × Pts) : Option (Dist × Pts) :=
  if !collisionCapsuleToRectangle thr A B 0 obs f then
    match getLineSegments point min1 min2 max1 max2 (obs.get f) coord with
    | none => none
    | some line_segments => some (distanceToMoreLineSegments thr A B line_segments st)
  else some (Dist.fin 0, st.2)

/-- `Capsule_Box::checkEdges(point, idx)`; `none` when it dereferences a null
or unassigned `line_segments`. -/
def checkEdges (thr : ℚ) (A B : V3) (obs : Box) (projections : Nat → Nat → Bool)
    (point : V3) (idx : Nat) (st : Dist × Pts) : Option (Dist × Pts) :=
  if projections 0 idx then
    checkEdgesFace thr A B obs 0 ⟨point.get 1, point.get 2⟩
      (obs.get 1) (obs.get 2) (obs.get 4) (obs.get 5) 0 st
  else if projections 3 idx then
    checkEdgesFace thr A B obs 3 ⟨point.get 1, point.get 2⟩
      (obs.get 1) (obs.get 2) (obs.get 4) (obs.get 5) 0 st
  else if projections 1 idx then
    checkEdgesFace thr A B obs 1 ⟨point.get 0, point.get 2⟩
      (obs.get 0) (obs.get 2) (obs.get 3) (obs.get 5) 1 st
  else if projections 4 idx then
    checkEdgesFace thr A B obs 4 ⟨point.get 0, point.get 2⟩
      (obs.get 0) (obs.get 2) (obs.get 3) (obs.get 5) 1 st
  else if projections 2 idx then
    checkEdgesFace thr A B obs 2 ⟨point.get 0, point.get 1⟩
      (obs.get 0) (obs.get 1) (obs.get 3) (obs.get 4) 2 st
  else if projections 5 idx then
    checkEdgesFace thr A B obs 5 ⟨point.get 0, point.get 1⟩
      (obs.get 0) (obs.get 1) (obs.get 3) (obs.get 4) 2 st
  else none

/-- The column pairs `(col(k), col(k+1))`, `k = 0, 2, 4, ...`, of a
`line_segments` matrix whose three rows are filled with `obs(i)` for the
indices `i` listed in `rowX`, `rowY`, `rowZ`. -/
def lineSegmentsOf (obs : Box) : List Nat → List Nat → List Nat → List (V3 × V3)
  | x0 :: x1 :: xs, y0 :: y1 :: ys, z0 :: z1 :: zs =>
    (⟨obs.get x0, obs.get y0, obs.get z0⟩, ⟨obs.get x1, obs.get y1, obs.get z1⟩) ::
      lineSegmentsOf obs xs ys zs
  | _, _, _ => []

/-- The corner `Eigen::Vector3f(obs(i), obs(j), obs(k))`. -/
def corner (obs : Box) (i j k : Nat) : V3 := ⟨obs.get i, obs.get j, obs.get k⟩

/-- Both endpoints are below the lower bound of axis `k`. -/
def bothBelow (A B : V3) (obs : Box) (k : Nat) : Bool :=
  decide (A.get k < obs.get k ∧ B.get k < obs.get k)

/-- Both endpoints are above the upper bound of axis `k`. -/
def bothAbove (A B : V3) (obs : Box) (k : Nat) : Bool :=
  decide (A.get k > obs.get (k + 3) ∧ B.get k > obs.get (k + 3))

/-- The loop `for kk in 0..5` of `checkOtherCases` (lines 931-938). -/
def anyFaceCrossed (thr : ℚ) (A B : V3) (obs : Box) : Bool :=
  [0, 1, 2, 3, 4, 5].any (fun kk => collisionCapsuleToRectangle thr A B 0 obs kk)

/-- `Capsule_Box::checkOtherCases` on the members `(d_c, nearest_pts)`. -/
def checkOtherCases (thr : ℚ) (A B : V3) (obs : Box) (st : Dist × Pts) : Dist × Pts :=
  let pt := distanceLineSegToPoint thr A B
  let sg := distanceLineSegToLineSeg thr A B
  let more := fun rx ry rz => distanceToMoreLineSegments thr A B (lineSegmentsOf obs rx ry rz) st
  if bothBelow A B obs 0 then
    if bothBelow A B obs 1 then
      if bothBelow A B obs 2 then pt (corner obs 0 1 2)
      else if bothAbove A B obs 2 then pt (corner obs 0 1 5)
      else sg (corner obs 0 1 2) (corner obs 0 1 5)
    else if bothAbove A B obs 1 then
      if bothBelow A B obs 2 then pt (corner obs 0 4 2)
      else if bothAbove A B obs 2 then pt (corner obs 0 4 5)
      else sg (corner obs 0 4 2) (corner obs 0 4 5)
    else
      if bothBelow A B obs 2 then sg (corner obs 0 1 2) (corner obs 0 4 2)
      else if bothAbove A B obs 2 then sg (corner obs 0 1 5) (corner obs 0 4 5)
      else more [0, 0, 0, 0, 0, 0, 0, 0] [1, 4, 4, 4, 4, 1, 1, 1] [2, 2, 2, 5, 5, 5, 5, 2]
  else if bothAbove A B obs 0 then
    if bothBelow A B obs 1 then
      if bothBelow A B obs 2 then pt (corner obs 3 1 2)
      else if bothAbove A B obs 2 then pt (corner obs 3 1 5)
      else sg (corner obs 3 1 2) (corner obs 3 1 5)
    else if bothAbove A B obs 1 then
      if bothBelow A B obs 2 then pt (corner obs 3 4 2)
      else if bothAbove A B obs 2 then pt (corner obs 3 4 5)
      else sg (corner obs 3 4 2) (corner obs 3 4 5)
    else
      if bothBelow A B obs 2 then sg (corner obs 3 1 2) (corner obs 3 4 2)
      else if bothAbove A B obs 2 then sg (corner obs 3 1 5) (corner obs 3 4 5)
      else more [3, 3, 3, 3, 3, 3, 3, 3] [1, 4, 4, 4, 4, 1, 1, 1] [2, 2, 2, 5, 5, 5, 5, 2]
  else
    if bothBelow A B obs 1 then
      if bothBelow A B obs 2 then sg (corner obs 0 1 2) (corner obs 3 1 2)
      else if bothAbove A B obs 2 then sg (corner obs 0 1 5) (corner obs 3 1 5)
      else more [0, 3, 3, 3, 3, 0, 0, 0] [1, 1, 1, 1, 1, 1, 1, 1] [2, 2, 2, 5, 5, 5, 5, 2]
    else if bothAbove A B obs 1 then
      if bothBelow A B obs 2 then sg (corner obs 0 4 2) (corner obs 3 4 2)
      else if bothAbove A B obs 2 then sg (corner obs 0 4 5) (corner obs 3 4 5)
      else more [0, 3, 3, 3, 3, 0, 0, 0] [4, 4, 4, 4, 4, 4, 4, 4] [2, 2, 2, 5, 5, 5, 5, 2]
    else
      if bothBelow A B obs 2 then
        more [0, 3, 3, 3, 3, 0, 0, 0] [1, 1, 1, 4, 4, 4, 4, 1] [2, 2, 2, 2, 2, 2, 2, 2]
      else if bothAbove A B obs 2 then
        more [0, 3, 3, 3, 3, 0, 0, 0] [1, 1, 1, 4, 4, 4, 4, 1] [5, 5, 5, 5, 5, 5, 5, 5]
      else if anyFaceCrossed thr A B obs then (Dist.fin 0, st.2)
      else
        more [0, 3, 3, 3, 3, 0, 0, 0, 0, 3, 3, 3, 3, 0, 0, 0, 0, 0, 3, 3, 3, 3, 0, 0]
          [1, 1, 1, 4, 4, 4, 4, 1, 1, 1, 1, 4, 4, 4, 4, 1, 1, 1, 1, 1, 4, 4, 4, 4]
          [2, 2, 2, 2, 2, 2, 2, 2, 5, 5, 5, 5, 5, 5, 5, 5, 2, 5, 2, 5, 2, 5, 2, 5]

/-- What `distanceCapsuleToBox` returns: the float `√d_c - sub` (with `d_c`
carried as a square, see `Dist`) and the pointer `nearest_pts`. -/
structure BoxDistance where
  d_c : Dist
  sub : ℚ
  nearest_pts : Pts
  deriving DecidableEq, Repr

/-- `(projections.col(0) + projections.col(1)).maxCoeff()`. -/
def numProj (projections : Nat → Nat → Bool) : Nat :=
  ([0, 1, 2, 3, 4, 5].map
    (fun r => (if projections r 0 then 1 else 0) + (if projections r 1 then 1 else 0))).foldl
    max 0

/-- `projections.col(idx).maxCoeff(&idx_coord)`: the first row holding the
largest coefficient of the column. -/
def idxCoord (projections : Nat → Nat → Bool) (idx : Nat) : Nat :=
  if projections 0 idx then 0 else if projections 1 idx then 1
  else if projections 2 idx then 2 else if projections 3 idx then 3
  else if projections 4 idx then 4 else if projections 5 idx then 5 else 0

/-- The comparison `dist_AB_obs(0) < dist_AB_obs(1)`. -/
def distLt : Option ℚ → Option ℚ → Bool
  | some a, some b => decide (a < b)
  | some _, none => true
  | none, _ => false

/-- The three calls of `projectionLineSegOnSide` that open
`Capsule_Box::compute()` (lines 606-608). -/
def projectionStage (A B : V3) (obs : Box) : CapsuleBox :=
  projectionLineSegOnSide A B obs 0 1 2 3 4 5
    (projectionLineSegOnSide A B obs 0 2 1 3 5 4
      (projectionLineSegOnSide A B obs 1 2 0 4 5 3 CapsuleBox.init))

/-- Lines 618-628 of `Capsule_Box::compute()`: the index `idx_point` of the
endpoint with the smaller face distance, and the members `(d_c, nearest_pts)`
set to that distance and to the endpoint with its projection onto the face
`idx_coord`. -/
def nearestProjection (A B : V3) (obs : Box) (st : CapsuleBox) : Nat × (Dist × Pts) :=
  let idx_point := if distLt st.dist_A st.dist_B then 0 else 1
  let m := if idx_point = 0 then st.dist_A else st.dist_B
  let d_c := match m with
    | some v => Dist.fin (v * v)
    | none => Dist.inf
  let P := if idx_point = 0 then A else B
  let idx_coord := idxCoord st.projections idx_point
  let Q : V3 :=
    if idx_coord = 0 ∨ idx_coord = 3 then ⟨obs.get idx_coord, P.get 1, P.get 2⟩
    else if idx_coord = 1 ∨ idx_coord = 4 then ⟨P.get 0, obs.get idx_coord, P.get 2⟩
    else ⟨P.get 0, P.get 1, obs.get idx_coord⟩
  (idx_point, (d_c, Pts.pts P Q))

/-- `Capsule_Box::compute()` followed by the getters, i.e.
`distanceCapsuleToBox(A, B, radius, obs)`; `none` when `checkEdges` reads an
unassigned edge matrix. -/
def distanceCapsuleToBox (thr : ℚ) (A B : V3) (radius : ℚ) (obs : Box) : Option BoxDistance :=
  let st := projectionStage A B obs
  if st.d_c = Dist.fin 0 then some ⟨Dist.fin 0, 0, Pts.null⟩
  else
    let num_proj := numProj st.projections
    if num_proj > 0 then
      let np := nearestProjection A B obs st
      if num_proj = 1 then
        match checkEdges thr A B obs st.projections (if np.1 = 0 then B else A) np.1 np.2 with
        | none => none
        | some r => some ⟨r.1, radius, r.2⟩
      else some ⟨np.2.1, radius, np.2.2⟩
    else
      let r := checkOtherCases thr A B obs (st.d_c, st.nearest_pts)
      some ⟨r.1, radius, r.2⟩

/-! ## Geometry used to state the properties -/

/-- A well-formed box: `min <= max` on each axis. -/
def Box.wf (o : Box) : Prop := o.x_min ≤ o.x_max ∧ o.y_min ≤ o.y_max ∧ o.z_min ≤ o.z_max

/-- The point `b` belongs to the solid box. -/
def inBox (b : V3) (o : Box) : Prop :=
  o.x_min ≤ b.x ∧ b.x ≤ o.x_max ∧ o.y_min ≤ b.y ∧ b.y ≤ o.y_max ∧ o.z_min ≤ b.z ∧ b.z ≤ o.z_max

/-- The point `b` belongs to the surface of the box. -/
def onSurface (b : V3) (o : Box) : Prop :=
  inBox b o ∧ (b.x = o.x_min ∨ b.x = o.x_max ∨ b.y = o.y_min ∨ b.y = o.y_max ∨
    b.z = o.z_min ∨ b.z = o.z_max)

/-- The point `P` lies strictly inside the box. -/
def strictlyInside (P : V3) (o : Box) : Prop :=
  o.x_min < P.x ∧ P.x < o.x_max ∧ o.y_min < P.y ∧ P.y < o.y_max ∧ o.z_min < P.z ∧ P.z < o.z_max

/-- The point `p` lies on the segment `AB`. -/
def onSegment (p A B : V3) : Prop :=
  ∃ t : ℚ, 0 ≤ t ∧ t ≤ 1 ∧ p = A.add (V3.smul t (B.sub A))

/-- The squared Euclidean distance `|p - b|^2`. -/
def sqDist (p b : V3) : ℚ := (p.sub b).squaredNorm

/-- The float `√d_c - sub` returned by `distanceCapsuleToBox` is `<= 0`. -/
def BoxDistance.nonpos (r : BoxDistance) : Bool :=
  match r.d_c with
  | Dist.fin q => decide (0 ≤ r.sub ∧ q ≤ r.sub * r.sub)
  | _ => false

/-- The float `√d_c - sub` returned by `distanceCapsuleToBox` is `> 0`. -/
def BoxDistance.positive (r : BoxDistance) : Bool := r.d_c.gtScalar r.sub

/-- The row of `projections` of the face `(k, hi)`. -/
def faceIndex (k : Nat) (hi : Bool) : Nat := if hi then k + 3 else k

/-- The distance from `P` to the plane of the face of axis `k` (`hi = false`:
the face `min`, `hi = true`: the face `max`), positive on the outer side. -/
def faceDist (P : V3) (obs : Box) (k : Nat) (hi : Bool) : ℚ :=
  if hi then P.get k - obs.get (k + 3) else obs.get k - P.get k

/-- The point `P` with coordinate `k` replaced by `v`. -/
def setCoord (P : V3) (k : Nat) (v : ℚ) : V3 :=
  if k = 0 then ⟨v, P.y, P.z⟩ else if k = 1 then ⟨P.x, v, P.z⟩ else ⟨P.x, P.y, v⟩

/-- The point `P` is outside the box beyond the face `(k, hi)` and projects
orthogonally into the rectangle of that face. -/
def inFrontOf (P : V3) (obs : Box) (k : Nat) (hi : Bool) : Prop :=
  0 < faceDist P obs k hi ∧
    ∀ j, j < 3 → j ≠ k → obs.get j ≤ P.get j ∧ P.get j ≤ obs.get (j + 3)

/-- The test of `projectionLineSegOnSide` that the endpoint projects into the
rectangle of the pair of faces. -/
def projectsInto (obs : Box) (min1 min2 max1 max2 : Nat) (P : V3) : Prop :=
  P.get min1 ≥ obs.get min1 ∧ P.get min1 ≤ obs.get max1 ∧
    P.get min2 ≥ obs.get min2 ∧ P.get min2 ≤ obs.get max2

/-- The point `P` is outside the box beyond the face `(k, hi)` and projects
orthogonally strictly inside the rectangle of that face. -/
def inFrontOfStrict (P : V3) (obs : Box) (k : Nat) (hi : Bool) : Prop :=
  0 < faceDist P obs k hi ∧
    ∀ j, j < 3 → j ≠ k → obs.get j < P.get j ∧ P.get j < obs.get (j + 3)

/-- The float `√d_c - sub` returned by `distanceCapsuleToBox` is `< 0`. -/
def BoxDistance.negative (r : BoxDistance) : Bool := r.d_c.ltScalar r.sub

/-! ## Invariants of the distance engine -/

/-- The pair held by `(d_c, nearest_pts)` joins the segments `AB` and `CD`
and `d_c` is its length. -/
def SegPair (A B C D : V3) (st : Dist × Pts) : Prop :=
  ∀ P Q, st.2 = Pts.pts P Q → onSegment P A B ∧ onSegment Q C D ∧ st.1 = Dist.fin (sqDist P Q)

/-- The pair held by `(d_c, nearest_pts)` joins the segment `AB` and the surface
of the box, and `d_c` is its length unless `d_c` was reset to `0`. -/
def BoxPair (A B : V3) (obs : Box) (st : Dist × Pts) : Prop :=
  ∀ P Q, st.2 = Pts.pts P Q →
    onSegment P A B ∧ onSurface Q obs ∧ (st.1 = Dist.fin (sqDist P Q) ∨ st.1 = Dist.fin 0)

/-- Every point of the segment `e` lies on the surface of the box. -/
def SurfaceEdge (obs : Box) (e : V3 × V3) : Prop :=
  ∀ Q, onSegment Q e.1 e.2 → onSurface Q obs

/-- Each coordinate of `C` is a bound of the box on that axis. -/
def cornerLike (C : V3) (obs : Box) : Prop :=
  (C.x = obs.x_min ∨ C.x = obs.x_max) ∧ (C.y = obs.y_min ∨ C.y = obs.y_max) ∧
    (C.z = obs.z_min ∨ C.z = obs.z_max)

/-- The index rows of a `line_segments` matrix name bounds of the right axes,
and the two ends of every column pair share a coordinate. -/
def rowsOK : List Nat → List Nat → List Nat → Bool
  | x0 :: x1 :: xs, y0 :: y1 :: ys, z0 :: z1 :: zs =>
    decide ((x0 = 0 ∨ x0 = 3) ∧ (x1 = 0 ∨ x1 = 3) ∧ (y0 = 1 ∨ y0 = 4) ∧ (y1 = 1 ∨ y1 = 4) ∧
      (z0 = 2 ∨ z0 = 5) ∧ (z1 = 2 ∨ z1 = 5) ∧ (x0 = x1 ∨ y0 = y1 ∨ z0 = z1)) &&
      rowsOK xs ys zs
  | _, _, _ => true

/-- The entry `dist_AB_obs(i)`. -/
def colDist (st : CapsuleBox) (i : Nat) : Option ℚ := if i = 0 then st.dist_A else st.dist_B

/-- After the calls of `projectionLineSegOnSide` for the axes below `n`: every
row set in column `i` of `projections` is a face of an axis below `n` onto
which `P` projects from the outer side, `dist_AB_obs(i)` is the distance to its
plane, and `dist_AB_obs(i)` is finite only if some row is set. -/
def ProjInv (P : V3) (obs : Box) (i n : Nat) (st : CapsuleBox) : Prop :=
  (∀ r, st.projections r i = true → ∃ d, colDist st i = some d ∧ ∃ k hi, k < n ∧
    r = faceIndex k hi ∧ d = faceDist P obs k hi ∧ 0 ≤ d ∧
    ∀ j, j < 3 → j ≠ k → obs.get j ≤ P.get j ∧ P.get j ≤ obs.get (j + 3)) ∧
  (∀ d, colDist st i = some d → ∃ r, st.projections r i = true)

/-- The coordinates of `P` other than `k` lie strictly between the bounds. -/
def strictlyWithin (P : V3) (obs : Box) (k : Nat) : Prop :=
  (k ≠ 0 → obs.x_min < P.x ∧ P.x < obs.x_max) ∧ (k ≠ 1 → obs.y_min < P.y ∧ P.y < obs.y_max) ∧
    (k ≠ 2 → obs.z_min < P.z ∧ P.z < obs.z_max)

/-- A null `nearest_pts` comes with `d_c = 0`. -/
def NullZero (st : Dist × Pts) : Prop := st.2 = Pts.null → st.1 = Dist.fin 0

/-! ## Notions used for the exchange of the endpoints -/

/-- The float `d_c_temp` of a pass of the loop of `distanceLineSegToLineSeg`
(NaN when `opt(i)` is NaN). -/
def candDist : Option (V3 × V3) → Dist
  | none => Dist.nan
  | some (P, Q) => Dist.fin (Q.sub P).squaredNorm

/-- The segment `AB` crosses the plane of the face `f` at a parameter strictly
between `0` and `1`, at a point strictly inside the rectangle of the face:
what `collisionCapsuleToRectangle` tests when the radius is `0`. -/
def crossesFace (A B : V3) (obs : Box) (f : Nat) : Prop :=
  (B.get (if f > 2 then f - 3 else f) - A.get (if f > 2 then f - 3 else f) ≠ 0 ∧
    (obs.get f - A.get (if f > 2 then f - 3 else f)) /
      (B.get (if f > 2 then f - 3 else f) - A.get (if f > 2 then f - 3 else f)) > 0 ∧
    (obs.get f - A.get (if f > 2 then f - 3 else f)) /
      (B.get (if f > 2 then f - 3 else f) - A.get (if f > 2 then f - 3 else f)) < 1) ∧
  insideRec ((dropCoord A (if f > 2 then f - 3 else f)).add
    (V2.smul ((obs.get f - A.get (if f > 2 then f - 3 else f)) /
      (B.get (if f > 2 then f - 3 else f) - A.get (if f > 2 then f - 3 else f)))
      ((dropCoord B (if f > 2 then f - 3 else f)).sub (dropCoord A (if f > 2 then f - 3 else f)))))
    (faceRec obs (if f > 2 then f - 3 else f)) = true

/-- The second run sees the state of the first with the two endpoint columns
exchanged. -/
def SwapRel (st st' : CapsuleBox) : Prop :=
  st'.d_c = st.d_c ∧ (∀ r, st'.projections r 0 = st.projections r 1) ∧
    (∀ r, st'.projections r 1 = st.projections r 0) ∧ st'.dist_A = st.dist_B ∧
    st'.dist_B = st.dist_A

/-- The endpoint is found inside the box by `projectionLineSegOnSide`. -/
def stepInside (obs : Box) (min1 min2 min3 max1 max2 max3 : Nat) (P : V3) : Prop :=
  (P.get min1 ≥ obs.get min1 ∧ P.get min1 ≤ obs.get max1 ∧
      P.get min2 ≥ obs.get min2 ∧ P.get min2 ≤ obs.get max2) ∧
    (P.get min3 > obs.get min3 ∧ P.get min3 < obs.get max3)

/-- The row and distance recorded for the endpoint by `projectionLineSegOnSide`,
if any. -/
def stepOutcome (obs : Box) (min1 min2 min3 max1 max2 max3 : Nat) (P : V3) : Option (Nat × ℚ) :=
  if P.get min1 ≥ obs.get min1 ∧ P.get min1 ≤ obs.get max1 ∧
      P.get min2 ≥ obs.get min2 ∧ P.get min2 ≤ obs.get max2 then
    if P.get min3 ≤ obs.get min3 then some (min3, obs.get min3 - P.get min3)
    else if P.get min3 ≥ obs.get max3 then some (max3, P.get min3 - obs.get max3)
    else none
  else none

/-- Record an outcome in column `i`. -/
def applyOutcome (st : CapsuleBox) (i : Nat) : Option (Nat × ℚ) → CapsuleBox
  | none => st
  | some (row, d) => st.setProjection row i d

/-- The point of the segment `AB` at parameter `t`, coordinate `j`. -/
def lerpCoord (A B : V3) (t : ℚ) (j : Nat) : ℚ := A.get j + t * (B.get j - A.get j)

/-- The edges handed to `distanceToMoreLineSegments` by the branch of face
`(k, hi)` of `checkEdges` for the other endpoint `P`. -/
def faceSegments (obs : Box) (k : Nat) (hi : Bool) (P : V3) : Option (List (V3 × V3)) :=
  getLineSegments (dropCoord P k) (faceRec obs k).r0 (faceRec obs k).r1 (faceRec obs k).r2
    (faceRec obs k).r3 (obs.get (faceIndex k hi)) k

/-- An end of the edge shared by the faces `(k, hi)` and `(k2, hi2)`. -/
def edgePoint (obs : Box) (k : Nat) (hi : Bool) (k2 : Nat) (hi2 top : Bool) : V3 :=
  ⟨if k = 0 then obs.get (faceIndex k hi) else if k2 = 0 then obs.get (faceIndex k2 hi2)
      else obs.get (faceIndex 0 top),
    if k = 1 then obs.get (faceIndex k hi) else if k2 = 1 then obs.get (faceIndex k2 hi2)
      else obs.get (faceIndex 1 top),
    if k = 2 then obs.get (faceIndex k hi) else if k2 = 2 then obs.get (faceIndex k2 hi2)
      else obs.get (faceIndex 2 top)⟩

/-- The axis of the face of row `r`. -/
def axisOf (r : Nat) : Nat := if r > 2 then r - 3 else r

/-- The row of column `idx` that `checkEdges` serves: the first one set in the
order `0, 3, 1, 4, 2, 5` of its `if` chain. -/
def firstRow (projections : Nat → Nat → Bool) (idx : Nat) : Option Nat :=
  if projections 0 idx then some 0 else if projections 3 idx then some 3
  else if projections 1 idx then some 1 else if projections 4 idx then some 4
  else if projections 2 idx then some 2 else if projections 5 idx then some 5 else none

/-! ## Segment intersection, spheres and interpolation -/

/-- The projection stage of `Capsule_Box::compute()` finds the endpoint `P`
inside the box: in one of the three calls of `projectionLineSegOnSide` the test
of lines 649-651 succeeds for `P`. -/
def detectedInside (P : V3) (obs : Box) : Prop :=
  stepInside obs 1 2 0 4 5 3 P ∨ stepInside obs 0 2 1 3 5 4 P ∨ stepInside obs 0 1 2 3 4 5 P

/-- `collisionLineSegToLineSeg(A, B, C, D)`; `thr` is
`RealVectorSpaceConfig::EQUALITY_THRESHOLD`. -/
def collisionLineSegToLineSeg (thr : ℚ) (A B C D : V3) : Bool :=
  match segSegInterior A B C D with
  | some (P, Q) => normLt (Q.sub P).squaredNorm thr
  | none => false

/-- The cross product of two 3-vectors. -/
def V3.cross (u v : V3) : V3 :=
  ⟨u.y * v.z - u.z * v.y, u.z * v.x - u.x * v.z, u.x * v.y - u.y * v.x⟩

/-- The solution `(t, s)` of the 2 x 2 system of `distanceLineSegToLineSeg` and
`collisionLineSegToLineSeg` (the parameters of the closest points of the two
lines), when the determinant is not zero. -/
def segSegParams (A B C D : V3) : Option (ℚ × ℚ) :=
  let alpha1 := (B.sub A).squaredNorm
  let alpha2 := (B.sub A).dot (D.sub C)
  let beta1 := (C.sub D).dot (B.sub A)
  let beta2 := (C.sub D).dot (D.sub C)
  let gamma1 := (A.sub C).dot (A.sub B)
  let gamma2 := (A.sub C).dot (C.sub D)
  let det := alpha1 * beta2 - alpha2 * beta1
  let s := (alpha1 * gamma2 - alpha2 * gamma1) / det
  let t := (gamma1 - beta1 * s) / alpha1
  if det ≠ 0 then some (t, s) else none

/-- The parameter `t` clamped to `[0, 1]`. -/
def clamp01 (t : ℚ) : ℚ := max 0 (min 1 t)

/-- The point `A + clamp(t, 0, 1) (B - A)` with
`t = (C - A).(B - A) / |B - A|^2`: the projection of `C` on the line `AB`,
clamped to the segment. -/
def nearestOnSegment (A B C : V3) : V3 :=
  A.add (V3.smul (clamp01 ((C.sub A).dot (B.sub A) / (B.sub A).squaredNorm)) (B.sub A))

/-- The pair `(P, Q)` joins the segments `AB` and `CD` and no pair of points of
the two segments is closer. -/
def IsClosestPair (P Q A B C D : V3) : Prop :=
  onSegment P A B ∧ onSegment Q C D ∧
    ∀ p q, onSegment p A B → onSegment q C D → sqDist P Q ≤ sqDist p q

/-- The sphere obstacle `obs = (x_c, y_c, z_c, r)`: `c` is `obs.head(3)` and `r`
is `obs(3)`. -/
structure Sphere where
  c : V3
  r : ℚ
  deriving DecidableEq, Repr

/-- `collisionCapsuleToSphere(A, B, radius, obs)`.  The roots
`t1, t2 = (-b ± √D) / (2 a)` are compared with `0` and `1` through the
comparisons of `√D` with `b`, `2 a + b`, `-b` and `-b - 2 a` (`2 a > 0`).  For
`A = B` both `a` and `b` are `0`, the roots are `0/0` and every comparison is
false. -/
def collisionCapsuleToSphere (A B : V3) (radius : ℚ) (obs : Sphere) : Bool :=
  let radius := radius + obs.r
  if normLt (A.sub obs.c).squaredNorm radius ∨ normLt (B.sub obs.c).squaredNorm radius then true
  else
    let a := (B.sub A).squaredNorm
    let b := 2 * (A.dot B + (A.sub B).dot obs.c - A.squaredNorm)
    let c := A.squaredNorm + obs.c.squaredNorm - 2 * A.dot obs.c - radius * radius
    let D := b * b - 4 * a * c
    if D ≥ 0 then
      if a = 0 then false
      else (normGt D b && normLt D (2 * a + b)) || (normLt D (-b) && normGt D (-b - 2 * a))
    else false

/-- The `nearest_pts` of `distanceCapsuleToSphere`: the null pointer, or the
matrix with `col(0) = P` and `col(1) = P + d_c / √den * (obs.head(3) - P)`,
where `d_c` is the float returned with it and `√den` is the norm the code
divides by (`AO`, `BO` or `(obs.head(3) - P).norm()`). -/
inductive SpherePts where
  | null : SpherePts
  | pts (P : V3) (den : ℚ) : SpherePts
  deriving DecidableEq, Repr

/-- What `distanceCapsuleToSphere` returns: the float `√d_c - sub` (with the
norm carried as its square) and the pointer `nearest_pts`. -/
structure SphereDistance where
  d_c : Dist
  sub : ℚ
  nearest_pts : SpherePts
  deriving DecidableEq, Repr

/-- The test `acos(x) < M_PI / 2` of lines 561-566 on the squares `p2, c2, q2`
of the three sides, where `x` is the double `(p^2 + c^2 - q^2) / (2 p c)`
computed from the rounded norms `p, c, q`.  In exact numbers `x` is the cosine
of an angle of the triangle and the test says that it is positive.  The code
does not clamp `x` to `[-1, 1]`: when the triangle is flat the exact quotient is
`1` or `-1`, the computed one can fall outside the interval, `acos` then
returns NaN and the test fails.  Below `-1` the exact test fails as well;
`nan` tells that `x` has been rounded above `1`.  When `p c = 0` the quotient
is not finite and the test fails. -/
def acuteAngle (nan : Bool) (p2 c2 q2 : ℚ) : Bool :=
  !nan && decide (p2 ≠ 0 ∧ c2 ≠ 0 ∧ 0 < p2 + c2 - q2)

/-- `distanceCapsuleToSphere(A, B, radius, obs)`.  `AO2, BO2, AB2` are the
squares of the doubles `AO, BO, AB`; the height
`2 * sqrt(s (s - AB) (s - AO) (s - BO)) / AB` of the triangle is carried as its
square `h2` (Heron's formula), and `AO * cos(alpha) / AB` is
`(AO2 + AB2 - BO2) / (2 AB2)`.  `nanA` and `nanB` tell whether the argument of
`acos` has been rounded above `1` for `alpha` (line 561) and for `beta`
(line 565); see `acuteAngle`. -/
def distanceCapsuleToSphere (nanA nanB : Bool) (A B : V3) (radius : ℚ) (obs : Sphere) :
    SphereDistance :=
  let AO2 := (A.sub obs.c).squaredNorm
  if normLt AO2 (radius + obs.r) then ⟨Dist.fin 0, 0, SpherePts.null⟩
  else
    let BO2 := (B.sub obs.c).squaredNorm
    if normLt BO2 (radius + obs.r) then ⟨Dist.fin 0, 0, SpherePts.null⟩
    else
      let d2 := if BO2 < AO2 then BO2 else AO2
      let AB2 := (A.sub B).squaredNorm
      if acuteAngle nanA AO2 AB2 BO2 then
        if acuteAngle nanB BO2 AB2 AO2 then
          let h2 := (4 * AO2 * AB2 - (AO2 + AB2 - BO2) ^ 2) / (4 * AB2)
          if normLt h2 (radius + obs.r) then ⟨Dist.fin 0, 0, SpherePts.null⟩
          else
            let P := A.add (V3.smul ((AO2 + AB2 - BO2) / (2 * AB2)) (B.sub A))
            ⟨Dist.fin h2, obs.r, SpherePts.pts P (obs.c.sub P).squaredNorm⟩
        else ⟨Dist.fin d2, obs.r, SpherePts.pts B BO2⟩
      else ⟨Dist.fin d2, obs.r, SpherePts.pts A AO2⟩

/-- The real point `(x, y, z)` is `P + k (O - P)`: the column `col(1)` of the
pair of `distanceCapsuleToSphere` for the factor `k = d_c / √den`. -/
def IsRayPoint (P O : V3) (k x y z : ℝ) : Prop :=
  x = (P.x : ℝ) + k * ((O.x : ℝ) - (P.x : ℝ)) ∧ y = (P.y : ℝ) + k * ((O.y : ℝ) - (P.y : ℝ)) ∧
    z = (P.z : ℝ) + k * ((O.z : ℝ) - (P.z : ℝ))

/-- `base::State::Status`. -/
inductive Status where
  | Advanced : Status
  | Trapped : Status
  | Reached : Status
  deriving DecidableEq, Repr

/-- The coordinates of a state (`Eigen::VectorXf`) over an ordered field `K` of
exact numbers: a vector, or coordinates that are not finite (the result of a
division by `D = 0`). -/
inductive Coords (K : Type) where
  | vec (v : List K) : Coords K
  | nonfinite : Coords K
  deriving DecidableEq, Repr

/-- The difference `q2 - q1` of two coordinate vectors. -/
def vecSub {K : Type} [LinearOrderedField K] (q2 q1 : List K) : List K :=
  List.zipWith (fun b a => b - a) q2 q1

/-- The vector `q1 + step * (q2 - q1) / D` of line 91. -/
def stepTowards {K : Type} [LinearOrderedField K] (q1 q2 : List K) (step D : K) : Coords K :=
  if D = 0 then Coords.nonfinite
  else Coords.vec (List.zipWith (fun a b => a + step * (b - a) / D) q1 q2)

/-- `interpolate(q1, q2, step, D)` over an ordered field `K`.  The parameters
stand for what is not under `src/`: `norm` is Eigen's `.norm()`, `thr` is
`RealVectorSpaceConfig::EQUALITY_THRESHOLD`, and `isValid` is `isValid(q)`,
which depends on the robot and the environment.  The second component is
`none` for the null pointer. -/
def interpolate {K : Type} [LinearOrderedField K] (norm : List K → K) (thr : K)
    (isValid : Coords K → Bool) (q1 q2 : List K) (step D : K) : Status × Option (Coords K) :=
  let D := if D < 0 then norm (vecSub q2 q1) else D
  let r : Coords K × Status :=
    if step + thr < D then (stepTowards q1 q2 step D, Status.Advanced)
    else (Coords.vec q2, Status.Reached)
  if isValid r.1 then (r.2, some r.1) else (Status.Trapped, none)

/-- The squared Euclidean norm of a coordinate vector. -/
def vecSqNorm {K : Type} [LinearOrderedField K] (v : List K) : K := (v.map (fun x => x * x)).sum

/-! ## The state-space facade: edges, random states -/

/-- The loop of `isValid(q1, q2)` (lines 110-114) from the counter `i` on, with
`n` passes left (the test `i <= num_checks` holds exactly while passes are
left); `D` is the norm computed in line 109. -/
def isValidLoop {K : Type} [LinearOrderedField K] (norm : List K → K) (thr : K)
    (isValid : Coords K → Bool) (num_checks : Nat) (q1 q2 : List K) (D : K) : Nat → Nat → Bool
  | 0, _ => true
  | n + 1, i =>
    if (interpolate norm thr isValid q1 q2 ((i : K) / (num_checks : K) * D) D).1 =
        Status.Trapped then false
    else isValidLoop norm thr isValid num_checks q1 q2 D n (i + 1)

/-- `isValid(q1, q2)` with `num_checks = NUM_INTERPOLATION_VALIDITY_CHECKS`
(the overload of `isValid` on an edge). -/
def isValidEdge {K : Type} [LinearOrderedField K] (norm : List K → K) (thr : K)
    (isValid : Coords K → Bool) (num_checks : Nat) (q1 q2 : List K) : Bool :=
  let D := norm (vecSub q2 q1)
  isValidLoop norm thr isValid num_checks q1 q2 D num_checks 1

/-- `randomState(q_center)`; the raw draw `Eigen::VectorXf::Random(dimensions)`
is the input `rand`, `limits i k` is `limits[i][k]`, and `none` is the null
`q_center`. -/
def randomState (dimensions : Nat) (limits : Nat → Nat → ℚ) (rand : Nat → ℚ)
    (q_center : Option (List ℚ)) : List ℚ :=
  let rand := (List.range dimensions).map
    (fun i => ((limits i 1 - limits i 0) * rand i + limits i 0 + limits i 1) / 2)
  match q_center with
  | none => rand
  | some c => List.zipWith (fun a b => a + b) rand c

/-- The point `q1 + (i/N) (q2 - q1)`. -/
def subStep {K : Type} [LinearOrderedField K] (q1 q2 : List K) (N i : Nat) : List K :=
  List.zipWith (fun a b => a + (i : K) / (N : K) * (b - a)) q1 q2

/-- The state examined by the pass `i` of `isValid(q1, q2)` according to the
specification: the sub-step point, replaced by `q2` once
`(i/N) D + EQUALITY_THRESHOLD >= D`. -/
def checkedState {K : Type} [LinearOrderedField K] (thr : K) (q1 q2 : List K) (D : K)
    (N i : Nat) : Coords K :=
  if (i : K) / (N : K) * D + thr ≥ D then Coords.vec q2 else Coords.vec (subStep q1 q2 N i)

/-! ## The state-space facade: validity of a configuration -/

/-- An environment part as the facade sees it: a part of node type `GEOM_BOX`
with the vector `obs` built from its AABB (lines 134-136), or a part of node
type `GEOM_SPHERE` with the vector `obs = (x_c, y_c, z_c, r)` of the sphere
functions. -/
inductive Obstacle where
  | box (obs : Box) : Obstacle
  | sphere (obs : Sphere) : Obstacle
  deriving DecidableEq, Repr

/-- What the facade asks of `robots::AbstractRobot`: whether `getType()` is
`"xarm6"`, `getParts().size()`, `computeSkeleton(q)` (column `i` of `XYZ`) and
`getRadius(i)`. -/
structure Robot (Q : Type) where
  xarm6 : Bool
  numParts : Nat
  computeSkeleton : Q → Nat → V3
  getRadius : Nat → ℚ

/-- The loop over `j` of `isValid(q)` (lines 126-145) for the link `AB`:
`false` when it executes `return false`. -/
def isValidObstacles (thr : ℚ) (A B : V3) (radius : ℚ) : List Obstacle → Bool
  | [] => true
  | Obstacle.box obs :: rest =>
    if collisionCapsuleToBox thr A B radius obs then false
    else isValidObstacles thr A B radius rest
  | Obstacle.sphere _ :: rest => isValidObstacles thr A B radius rest

/-- The loop over `i` of `isValid(q)` (lines 124-146) from the link `i` on, with
`n` links left. -/
def isValidLinks {Q : Type} (thr : ℚ) (robot : Robot Q) (env : List Obstacle) (XYZ : Nat → V3) :
    Nat → Nat → Bool
  | 0, _ => true
  | n + 1, i =>
    if isValidObstacles thr (XYZ i) (XYZ (i + 1)) (robot.getRadius i) env then
      isValidLinks thr robot env XYZ n (i + 1)
    else false

/-- `isValid(q)`. -/
def isValid {Q : Type} (thr : ℚ) (robot : Robot Q) (env : List Obstacle) (q : Q) : Bool :=
  let XYZ := robot.computeSkeleton q
  let i0 := if robot.xarm6 then 1 else 0
  isValidLinks thr robot env XYZ (robot.numParts - i0) i0

/-! ## Notions used for the fast tests and the face rectangles -/

/-- The point of the box nearest to `P`: every coordinate clamped to the
bounds. -/
def clampToBox (P : V3) (obs : Box) : V3 :=
  ⟨max obs.x_min (min obs.x_max P.x), max obs.y_min (min obs.y_max P.y),
    max obs.z_min (min obs.z_max P.z)⟩

/-- The point `P` lies strictly within the box expanded by `rho` on all three
axes. -/
def withinExpanded (P : V3) (rho : ℝ) (obs : Box) : Prop :=
  (obs.x_min : ℝ) - rho < (P.x : ℝ) ∧ (P.x : ℝ) < (obs.x_max : ℝ) + rho ∧
  (obs.y_min : ℝ) - rho < (P.y : ℝ) ∧ (P.y : ℝ) < (obs.y_max : ℝ) + rho ∧
  (obs.z_min : ℝ) - rho < (P.z : ℝ) ∧ (P.z : ℝ) < (obs.z_max : ℝ) + rho

/-- Both endpoints lie beyond the box expanded by `radius` on the same side of
the axis `k`. -/
def beyondExpanded (A B : V3) (radius : ℚ) (obs : Box) (k : Nat) : Prop :=
  (A.get k < obs.get k - radius ∧ B.get k < obs.get k - radius) ∨
    (A.get k > obs.get (k + 3) + radius ∧ B.get k > obs.get (k + 3) + radius)

/-- The point `b` belongs to the rectangle of the face `coord` (`0..5`) of the
box. -/
def inFace (b : V3) (obs : Box) (coord : Nat) : Prop :=
  inBox b obs ∧ b.get (axisOf coord) = obs.get coord

/-! ## The state-space facade: distance and planes of a configuration -/

/-- The comparison `√p - r < √q - s` of two floats that hold a norm minus a
radius, on the squares `p`, `q` of the norms. -/
def sqrtDiffLt (p r q s : ℚ) : Bool :=
  if r - s ≥ 0 then
    decide (p - q - (r - s) * (r - s) < 0 ∨
      (p - q - (r - s) * (r - s)) * (p - q - (r - s) * (r - s)) < 4 * ((r - s) * (r - s)) * q)
  else
    decide (0 < q - p - (r - s) * (r - s) ∧
      4 * ((r - s) * (r - s)) * p < (q - p - (r - s) * (r - s)) * (q - p - (r - s) * (r - s)))

/-- An entry of the matrix `distances`: the float `√d_c - sub`. -/
structure Clearance where
  d_c : Dist
  sub : ℚ
  deriving DecidableEq, Repr

/-- The float comparison `c <= 0`. -/
def Clearance.nonpos (c : Clearance) : Bool :=
  match c.d_c with
  | Dist.fin q => decide (0 ≤ c.sub ∧ q ≤ c.sub * c.sub)
  | _ => false

/-- The float `c` is `> 0`. -/
def Clearance.positive (c : Clearance) : Bool := c.d_c.gtScalar c.sub

/-- The float `c` is `< 0`. -/
def Clearance.negative (c : Clearance) : Bool := c.d_c.ltScalar c.sub

/-- The float comparison `a < b`. -/
def Clearance.lt (a b : Clearance) : Bool :=
  match a.d_c, b.d_c with
  | Dist.fin p, Dist.fin q => sqrtDiffLt p a.sub q b.sub
  | Dist.fin _, Dist.inf => true
  | _, _ => false

/-- `distances.minCoeff()` of a `rows x cols` matrix: the visitor starts from
the coefficient `(0, 0)`, runs through the matrix column by column and keeps a
coefficient that is smaller than the current one; an empty matrix has no
minimum (`none`). -/
def minCoeff (rows cols : Nat) (m : Nat → Nat → Clearance) : Option Clearance :=
  match (List.range cols).flatMap (fun j => (List.range rows).map (fun i => m i j)) with
  | [] => none
  | c :: cs => some (cs.foldl (fun acc x => if x.lt acc then x else acc) c)

/-- The locals of `computeDistanceAndPlanes`: the matrix `distances`, the
pointer `nearest_pts`, and the table `planes`, where `planes j i` is column `i`
of `planes->at(j)` as the pair (position, normal), or `none` for a column that
holds no defined vector (never written, or written from an invalid pair). -/
structure PlanesState where
  distances : Nat → Nat → Clearance
  nearest_pts : Pts
  planes : Nat → Nat → Option (V3 × V3)

/-- How a pass of the loops of `computeDistanceAndPlanes` ends: it goes on with
the new locals, it executes `return {0, nullptr}` (line 396), or it
dereferences a null `nearest_pts` or runs an engine call that has no result. -/
inductive Flow where
  | next (st : PlanesState) : Flow
  | collision : Flow
  | fault : Flow

/-- The 6-vector `nearest_pts->col(1), nearest_pts->col(0) - nearest_pts->col(1)`
of line 398. -/
def planeOf : Pts → Option (V3 × V3)
  | Pts.pts P Q => some (Q, P.sub Q)
  | _ => none

/-- The branch on the node type in the body of the loops of
`computeDistanceAndPlanes` (lines 363-393) for the link `i` with axis `AB` and
the obstacle `j`: a box assigns `distances(i, j)` and `nearest_pts`, another
part assigns nothing; `none` when the engine call has no result. -/
def pairAssign (thr : ℚ) (A B : V3) (radius : ℚ) (i j : Nat) (part : Obstacle)
    (st : PlanesState) : Option PlanesState :=
  match part with
  | Obstacle.box obs =>
    match distanceCapsuleToBox thr A B radius obs with
    | none => none
    | some res =>
      some { st with
        distances := fun a b => if a = i ∧ b = j then ⟨res.d_c, res.sub⟩ else st.distances a b
        nearest_pts := res.nearest_pts }
  | Obstacle.sphere _ => some st

/-- The body of the loops of `computeDistanceAndPlanes` (lines 363-398) for the
link `i` and the obstacle `j`. -/
def pairStep (thr : ℚ) (A B : V3) (radius : ℚ) (i j : Nat) (part : Obstacle)
    (st : PlanesState) : Flow :=
  match pairAssign thr A B radius i j part st with
  | none => Flow.fault
  | some st1 =>
    if (st1.distances i j).nonpos then Flow.collision
    else if st1.nearest_pts = Pts.null then Flow.fault
    else
      Flow.next { st1 with
        planes := fun b a => if b = j ∧ a = i then planeOf st1.nearest_pts else st1.planes b a }

/-- The loop over `j` of `computeDistanceAndPlanes` (lines 361-399) for the link
`i`, from the obstacle `j` on. -/
def obstacleLoop (thr : ℚ) (A B : V3) (radius : ℚ) (i : Nat) :
    List Obstacle → Nat → PlanesState → Flow
  | [], _, st => Flow.next st
  | part :: rest, j, st =>
    match pairStep thr A B radius i j part st with
    | Flow.next st1 => obstacleLoop thr A B radius i rest (j + 1) st1
    | Flow.collision => Flow.collision
    | Flow.fault => Flow.fault

/-- The loop over `i` of `computeDistanceAndPlanes` (lines 359-400) from the
link `i` on, with `n` links left. -/
def linkLoop {Q : Type} (thr : ℚ) (robot : Robot Q) (env : List Obstacle) (XYZ : Nat → V3) :
    Nat → Nat → PlanesState → Flow
  | 0, _, st => Flow.next st
  | n + 1, i, st =>
    match obstacleLoop thr (XYZ i) (XYZ (i + 1)) (robot.getRadius i) i env 0 st with
    | Flow.next st1 => linkLoop thr robot env XYZ n (i + 1) st1
    | Flow.collision => Flow.collision
    | Flow.fault => Flow.fault

/-- What `computeDistanceAndPlanes` returns: the float `d` and the pointer
`planes` (`none` is the null pointer). -/
structure DistanceAndPlanes where
  d : Clearance
  planes : Option (Nat → Nat → Option (V3 × V3))

/-- `computeDistanceAndPlanes(q)`.  The matrix `distances` is not initialised
by its constructor: `junk` is what the memory holds.  The result is `none`
when the run has no defined result (see `Flow.fault`, `minCoeff`). -/
def computeDistanceAndPlanes {Q : Type} (thr : ℚ) (junk : Nat → Nat → Clearance)
    (robot : Robot Q) (env : List Obstacle) (q : Q) : Option DistanceAndPlanes :=
  let XYZ := robot.computeSkeleton q
  let i0 := if robot.xarm6 then 1 else 0
  match linkLoop thr robot env XYZ (robot.numParts - i0) i0 ⟨junk, Pts.null, fun _ _ => none⟩ with
  | Flow.collision => some ⟨⟨Dist.fin 0, 0⟩, none⟩
  | Flow.fault => none
  | Flow.next st =>
    match minCoeff robot.numParts env.length st.distances with
    | none => none
    | some d => some ⟨d, some st.planes⟩

/-- `computeDistance(q)`. -/
def computeDistance {Q : Type} (thr : ℚ) (junk : Nat → Nat → Clearance)
    (robot : Robot Q) (env : List Obstacle) (q : Q) : Option Clearance :=
  (computeDistanceAndPlanes thr junk robot env q).map (fun r => r.d)

/-- The pair `(i, j)` has been served by the loops: its clearance is not
`<= 0`; for a box the entry `distances(i, j)` is the result of the engine, whose
pair is not null, and column `i` of `planes[j]` was written from that pair;
for another part the entry `distances(i, j)` is what it was in `st0`. -/
def PairDone (thr : ℚ) (A B : V3) (radius : ℚ) (i j : Nat) (part : Obstacle)
    (st0 st : PlanesState) : Prop :=
  (st.distances i j).nonpos = false ∧
  (∀ obs, part = Obstacle.box obs → ∃ res, distanceCapsuleToBox thr A B radius obs = some res ∧
    st.distances i j = ⟨res.d_c, res.sub⟩ ∧ res.nearest_pts ≠ Pts.null ∧
    st.planes j i = planeOf res.nearest_pts) ∧
  (∀ s, part = Obstacle.sphere s → st.distances i j = st0.distances i j)

/-- Some evaluated pair (link `i >= i0`, box `j`) has a clearance `<= 0`. -/
def SomePairNonpos {Q : Type} (thr : ℚ) (robot : Robot Q) (env : List Obstacle) (q : Q) : Prop :=
  ∃ (i j : Nat) (obs : Box) (res : BoxDistance), (if robot.xarm6 then 1 else 0) ≤ i ∧
    i < robot.numParts ∧ env[j]? = some (Obstacle.box obs) ∧
    distanceCapsuleToBox thr (robot.computeSkeleton q i) (robot.computeSkeleton q (i + 1))
      (robot.getRadius i) obs = some res ∧ res.nonpos = true

/-- Every obstacle is a box, and the engine returns a number for every link
and every obstacle. -/
def AllPairsDefined {Q : Type} (thr : ℚ) (robot : Robot Q) (env : List Obstacle) (q : Q) : Prop :=
  ∀ (i j : Nat) (part : Obstacle), i < robot.numParts → env[j]? = some part →
    ∃ obs res, part = Obstacle.box obs ∧
      distanceCapsuleToBox thr (robot.computeSkeleton q i) (robot.computeSkeleton q (i + 1))
        (robot.getRadius i) obs = some res ∧ res.d_c ≠ Dist.nan

/-- The clearance is a number `√q - sub` with `q >= 0`, or `INFINITY`. -/
def Clearance.regular (c : Clearance) : Prop :=
  c.d_c ≠ Dist.nan ∧ ∀ q, c.d_c = Dist.fin q → 0 ≤ q

/-! ## The comparisons of squares are the comparisons of the norms -/

theorem normLt_iff (q r : ℚ) (hq : 0 ≤ q) :
    normLt q r = true ↔ Real.sqrt (q : ℝ) < (r : ℝ) := by
  have hq' : (0 : ℝ) ≤ (q : ℝ) := by exact_mod_cast hq
  simp only [normLt, decide_eq_true_eq]
  constructor
  · rintro ⟨hr, h⟩
    have hr' : (0 : ℝ) < (r : ℝ) := by exact_mod_cast hr
    have h' : (q : ℝ) < (r : ℝ) ^ 2 := by
      have : ((q : ℚ) : ℝ) < ((r * r : ℚ) : ℝ) := by exact_mod_cast h
      simpa [pow_two] using this
    exact (Real.sqrt_lt' hr').2 h'
  · intro h
    have hr' : (0 : ℝ) < (r : ℝ) := lt_of_le_of_lt (Real.sqrt_nonneg _) h
    have h' : (q : ℝ) < (r : ℝ) ^ 2 := (Real.sqrt_lt' hr').1 h
    refine ⟨by exact_mod_cast hr', ?_⟩
    have : ((q : ℚ) : ℝ) < ((r * r : ℚ) : ℝ) := by
      push_cast
      simpa [pow_two] using h'
    exact_mod_cast this

theorem normGt_iff (q r : ℚ) (hq : 0 ≤ q) :
    normGt q r = true ↔ (r : ℝ) < Real.sqrt (q : ℝ) := by
  have hq' : (0 : ℝ) ≤ (q : ℝ) := by exact_mod_cast hq
  simp only [normGt, decide_eq_true_eq]
  constructor
  · rintro (hr | h)
    · have hr' : (r : ℝ) < 0 := by exact_mod_cast hr
      exact lt_of_lt_of_le hr' (Real.sqrt_nonneg _)
    · by_cases hr : 0 ≤ r
      · have hr' : (0 : ℝ) ≤ (r : ℝ) := by exact_mod_cast hr
        have h' : (r : ℝ) ^ 2 < (q : ℝ) := by
          have : ((r * r : ℚ) : ℝ) < ((q : ℚ) : ℝ) := by exact_mod_cast h
          simpa [pow_two] using this
        exact (Real.lt_sqrt hr').2 h'
      · have hr' : (r : ℝ) < 0 := by exact_mod_cast (not_le.1 hr)
        exact lt_of_lt_of_le hr' (Real.sqrt_nonneg _)
  · intro h
    by_cases hr : 0 ≤ r
    · right
      have hr' : (0 : ℝ) ≤ (r : ℝ) := by exact_mod_cast hr
      have h' : (r : ℝ) ^ 2 < (q : ℝ) := (Real.lt_sqrt hr').1 h
      have : ((r * r : ℚ) : ℝ) < ((q : ℚ) : ℝ) := by
        push_cast
        simpa [pow_two] using h'
      exact_mod_cast this
    · exact Or.inl (not_le.1 hr)

theorem ltRNew_iff (x r : ℚ) :
    ltRNew x r = true ↔ (x : ℝ) < (r : ℝ) * Real.sqrt 3 / 3 := by
  have h3 : Real.sqrt 3 * Real.sqrt 3 = 3 := Real.mul_self_sqrt (by norm_num)
  have hs : 0 < Real.sqrt 3 := Real.sqrt_pos.2 (by norm_num)
  have key : ∀ a b : ℚ, (a < b ↔ (a : ℝ) < (b : ℝ)) := fun a b => by norm_cast
  unfold ltRNew
  split_ifs with hr
  · have hr' : (0 : ℝ) ≤ (r : ℝ) := by exact_mod_cast hr
    simp only [decide_eq_true_eq]
    rw [key x 0, key (3 * (x * x)) (r * r)]
    push_cast
    constructor
    · rintro (h | h)
      · have : 0 ≤ (r : ℝ) * Real.sqrt 3 / 3 := by positivity
        linarith
      · by_contra hc
        push_neg at hc
        have h0 : 0 ≤ (r : ℝ) * Real.sqrt 3 / 3 := by positivity
        have := mul_self_le_mul_self h0 hc
        nlinarith
    · intro h
      by_cases hx : (x : ℝ) < 0
      · exact Or.inl hx
      · right
        push_neg at hx
        have := mul_self_lt_mul_self hx h
        nlinarith
  · have hr' : (r : ℝ) < 0 := by exact_mod_cast (not_le.1 hr)
    simp only [decide_eq_true_eq]
    rw [key x 0, key (r * r) (3 * (x * x))]
    push_cast
    constructor
    · rintro ⟨hx, h⟩
      by_contra hc
      push_neg at hc
      have h1 : 0 ≤ -(x : ℝ) := by linarith
      have h2 : -(x : ℝ) ≤ -((r : ℝ) * Real.sqrt 3 / 3) := by linarith
      have := mul_self_le_mul_self h1 h2
      nlinarith
    · intro h
      have hneg : (r : ℝ) * Real.sqrt 3 / 3 < 0 := by
        have : (r : ℝ) * Real.sqrt 3 < 0 := mul_neg_of_neg_of_pos hr' hs
        linarith
      refine ⟨by linarith, ?_⟩
      have h1 : 0 ≤ -((r : ℝ) * Real.sqrt 3 / 3) := by linarith
      have h2 : -((r : ℝ) * Real.sqrt 3 / 3) < -(x : ℝ) := by linarith
      have := mul_self_lt_mul_self h1 h2
      nlinarith


/-! ## Helper lemmas -/

theorem onSegment_coords {p A B : V3} (h : onSegment p A B) :
    ∃ t : ℚ, 0 ≤ t ∧ t ≤ 1 ∧ p.x = A.x + t * (B.x - A.x) ∧ p.y = A.y + t * (B.y - A.y) ∧
      p.z = A.z + t * (B.z - A.z) := by
  obtain ⟨t, h0, h1, rfl⟩ := h
  exact ⟨t, h0, h1, rfl, rfl, rfl⟩

theorem checkCases_inf (thr : ℚ) (A B : V3) (rct : Rec4) (point : V2) (oc : ℚ) (c : Nat)
    (h0 : rct.r0 ≤ point.a) (h2 : point.a ≤ rct.r2) (h1 : rct.r1 ≤ point.b)
    (h3 : point.b ≤ rct.r3) : checkCases thr A B rct point oc c = Dist.inf := by
  simp only [checkCases, V2.get]
  simp [not_lt.2 h0, not_lt.2 h2, not_lt.2 h1, not_lt.2 h3, Dist.min, Dist.lt]

theorem projectionStep_d_c (obs : Box) (a b c d e f : Nat) (P : V3) (i : Nat) (st : CapsuleBox) :
    (projectionStep obs a b c d e f P i st).1.d_c = st.d_c ∨
      (projectionStep obs a b c d e f P i st).1.d_c = Dist.fin 0 := by
  unfold projectionStep
  split_ifs <;> simp [CapsuleBox.setProjection]

theorem projectionLineSegOnSide_d_c (A B : V3) (obs : Box) (a b c d e f : Nat) (st : CapsuleBox) :
    (projectionLineSegOnSide A B obs a b c d e f st).d_c = st.d_c ∨
      (projectionLineSegOnSide A B obs a b c d e f st).d_c = Dist.fin 0 := by
  unfold projectionLineSegOnSide
  have h1 := projectionStep_d_c obs a b c d e f A 0 st
  have h2 := projectionStep_d_c obs a b c d e f B 1 (projectionStep obs a b c d e f A 0 st).1
  simp only
  split_ifs
  · exact h1
  · rcases h2 with h2 | h2
    · rw [h2]; exact h1
    · exact Or.inr h2

theorem projectionLineSegOnSide_zero (A B : V3) (obs : Box) (a b c d e f : Nat) (st : CapsuleBox)
    (h : st.d_c = Dist.fin 0) :
    (projectionLineSegOnSide A B obs a b c d e f st).d_c = Dist.fin 0 := by
  rcases projectionLineSegOnSide_d_c A B obs a b c d e f st with h' | h'
  · rw [h', h]
  · exact h'

theorem projection_inside (A B : V3) (obs : Box) (st : CapsuleBox)
    (h : strictlyInside A obs ∨ strictlyInside B obs) :
    (projectionLineSegOnSide A B obs 1 2 0 4 5 3 st).d_c = Dist.fin 0 := by
  unfold projectionLineSegOnSide
  simp only
  by_cases hA : (projectionStep obs 1 2 0 4 5 3 A 0 st).2 = true
  · rw [if_pos hA]
    revert hA
    unfold projectionStep
    split_ifs <;> simp
  · rw [if_neg hA]
    have hB : strictlyInside B obs := by
      rcases h with h | h
      · exfalso
        apply hA
        obtain ⟨h1, h2, h3, h4, h5, h6⟩ := h
        simp [projectionStep, V3.get, Box.get, h1, h2, h3.le, h4.le, h5.le, h6.le]
      · exact h
    obtain ⟨h1, h2, h3, h4, h5, h6⟩ := hB
    simp [projectionStep, V3.get, Box.get, h1, h2, h3.le, h4.le, h5.le, h6.le]

theorem nearBox_of_inside (P : V3) (r : ℚ) (obs : Box) (hr : 0 ≤ r) (h : strictlyInside P obs) :
    nearBox P r obs = true := by
  obtain ⟨h1, h2, h3, h4, h5, h6⟩ := h
  simp only [nearBox, ltRNew, if_pos hr, V3.get, Box.get]
  simp [sub_neg.2 h1, sub_neg.2 h2, sub_neg.2 h3, sub_neg.2 h4, sub_neg.2 h5, sub_neg.2 h6]

theorem projectionStep_skip (obs : Box) (min1 min2 min3 max1 max2 max3 : Nat) (P : V3) (i : Nat)
    (st : CapsuleBox) (h : ¬ projectsInto obs min1 min2 max1 max2 P) :
    projectionStep obs min1 min2 min3 max1 max2 max3 P i st = (st, false) := by
  unfold projectionStep
  unfold projectsInto at h
  rw [if_neg h]

theorem projectionStep_lo (obs : Box) (min1 min2 min3 max1 max2 max3 : Nat) (P : V3) (i : Nat)
    (st : CapsuleBox) (h : projectsInto obs min1 min2 max1 max2 P)
    (h3 : P.get min3 ≤ obs.get min3) :
    projectionStep obs min1 min2 min3 max1 max2 max3 P i st =
      (st.setProjection min3 i (obs.get min3 - P.get min3), false) := by
  unfold projectionStep
  unfold projectsInto at h
  rw [if_pos h, if_neg (fun hc => absurd hc.1 (not_lt.2 h3)), if_pos h3]

theorem projectionStep_hi (obs : Box) (min1 min2 min3 max1 max2 max3 : Nat) (P : V3) (i : Nat)
    (st : CapsuleBox) (h : projectsInto obs min1 min2 max1 max2 P)
    (h3 : obs.get min3 < P.get min3) (h4 : obs.get max3 ≤ P.get min3) :
    projectionStep obs min1 min2 min3 max1 max2 max3 P i st =
      (st.setProjection max3 i (P.get min3 - obs.get max3), false) := by
  unfold projectionStep
  unfold projectsInto at h
  rw [if_pos h, if_neg (fun hc => absurd hc.2 (not_lt.2 h4)), if_neg (not_le.2 h3), if_pos h4]

theorem projectionLineSegOnSide_skip (A B : V3) (obs : Box) (min1 min2 min3 max1 max2 max3 : Nat)
    (st : CapsuleBox) (hA : ¬ projectsInto obs min1 min2 max1 max2 A)
    (hB : ¬ projectsInto obs min1 min2 max1 max2 B) :
    projectionLineSegOnSide A B obs min1 min2 min3 max1 max2 max3 st = st := by
  unfold projectionLineSegOnSide
  rw [projectionStep_skip _ _ _ _ _ _ _ _ _ _ hA]
  simp only [Bool.false_eq_true, if_false]
  rw [projectionStep_skip _ _ _ _ _ _ _ _ _ _ hB]

theorem projectionLineSegOnSide_lo (A B : V3) (obs : Box) (min1 min2 min3 max1 max2 max3 : Nat)
    (st : CapsuleBox) (hA : projectsInto obs min1 min2 max1 max2 A)
    (hB : projectsInto obs min1 min2 max1 max2 B) (hA3 : A.get min3 ≤ obs.get min3)
    (hB3 : B.get min3 ≤ obs.get min3) :
    projectionLineSegOnSide A B obs min1 min2 min3 max1 max2 max3 st =
      (st.setProjection min3 0 (obs.get min3 - A.get min3)).setProjection min3 1
        (obs.get min3 - B.get min3) := by
  unfold projectionLineSegOnSide
  rw [projectionStep_lo _ _ _ _ _ _ _ _ _ _ hA hA3]
  simp only [Bool.false_eq_true, if_false]
  rw [projectionStep_lo _ _ _ _ _ _ _ _ _ _ hB hB3]

theorem projectionLineSegOnSide_hi (A B : V3) (obs : Box) (min1 min2 min3 max1 max2 max3 : Nat)
    (st : CapsuleBox) (hA : projectsInto obs min1 min2 max1 max2 A)
    (hB : projectsInto obs min1 min2 max1 max2 B) (hA3 : obs.get min3 < A.get min3)
    (hB3 : obs.get min3 < B.get min3) (hA4 : obs.get max3 ≤ A.get min3)
    (hB4 : obs.get max3 ≤ B.get min3) :
    projectionLineSegOnSide A B obs min1 min2 min3 max1 max2 max3 st =
      (st.setProjection max3 0 (A.get min3 - obs.get max3)).setProjection max3 1
        (B.get min3 - obs.get max3) := by
  unfold projectionLineSegOnSide
  rw [projectionStep_hi _ _ _ _ _ _ _ _ _ _ hA hA3 hA4]
  simp only [Bool.false_eq_true, if_false]
  rw [projectionStep_hi _ _ _ _ _ _ _ _ _ _ hB hB3 hB4]

theorem projectionStage_sameFace (A B : V3) (obs : Box) (k : Nat) (hi : Bool) (hk : k < 3)
    (hw : obs.wf) (hA : inFrontOf A obs k hi) (hB : inFrontOf B obs k hi) :
    projectionStage A B obs =
      (CapsuleBox.init.setProjection (faceIndex k hi) 0 (faceDist A obs k hi)).setProjection
        (faceIndex k hi) 1 (faceDist B obs k hi) := by
  obtain ⟨w1, w2, w3⟩ := hw
  obtain ⟨a00, a⟩ := hA
  obtain ⟨b00, b⟩ := hB
  have a0' : 0 ≠ k → _ := a 0 (by norm_num)
  have a1' : 1 ≠ k → _ := a 1 (by norm_num)
  have a2' : 2 ≠ k → _ := a 2 (by norm_num)
  have b0' : 0 ≠ k → _ := b 0 (by norm_num)
  have b1' : 1 ≠ k → _ := b 1 (by norm_num)
  have b2' : 2 ≠ k → _ := b 2 (by norm_num)
  clear a b
  unfold projectionStage
  interval_cases k <;> cases hi <;>
    simp only [faceDist, faceIndex, V3.get, Box.get, ne_eq, Bool.false_eq_true, if_false, if_true,
      OfNat.ofNat_ne_zero, OfNat.zero_ne_ofNat, not_false_eq_true, not_true_eq_false,
      forall_const, Nat.reduceAdd, Nat.reduceEqDiff, one_ne_zero, zero_ne_one, sub_pos,
      Nat.succ_ne_self, IsEmpty.forall_iff]
      at a00 b00 a0' a1' a2' b0' b1' b2' ⊢
  · rw [projectionLineSegOnSide_lo A B obs 1 2 0 4 5 3 _ ⟨a1'.1, a1'.2, a2'.1, a2'.2⟩
        ⟨b1'.1, b1'.2, b2'.1, b2'.2⟩ a00.le b00.le,
      projectionLineSegOnSide_skip A B obs 0 2 1 3 5 4 _ (fun hc => absurd hc.1 (not_le.2 a00))
        (fun hc => absurd hc.1 (not_le.2 b00)),
      projectionLineSegOnSide_skip A B obs 0 1 2 3 4 5 _ (fun hc => absurd hc.1 (not_le.2 a00))
        (fun hc => absurd hc.1 (not_le.2 b00))]
    rfl
  · rw [projectionLineSegOnSide_hi A B obs 1 2 0 4 5 3 _ ⟨a1'.1, a1'.2, a2'.1, a2'.2⟩
        ⟨b1'.1, b1'.2, b2'.1, b2'.2⟩ (lt_of_le_of_lt w1 a00) (lt_of_le_of_lt w1 b00) a00.le b00.le,
      projectionLineSegOnSide_skip A B obs 0 2 1 3 5 4 _
        (fun hc => absurd hc.2.1 (not_le.2 a00)) (fun hc => absurd hc.2.1 (not_le.2 b00)),
      projectionLineSegOnSide_skip A B obs 0 1 2 3 4 5 _
        (fun hc => absurd hc.2.1 (not_le.2 a00)) (fun hc => absurd hc.2.1 (not_le.2 b00))]
    rfl
  · rw [projectionLineSegOnSide_skip A B obs 1 2 0 4 5 3 _
        (fun hc => absurd hc.1 (not_le.2 a00)) (fun hc => absurd hc.1 (not_le.2 b00)),
      projectionLineSegOnSide_lo A B obs 0 2 1 3 5 4 _ ⟨a0'.1, a0'.2, a2'.1, a2'.2⟩
        ⟨b0'.1, b0'.2, b2'.1, b2'.2⟩ a00.le b00.le,
      projectionLineSegOnSide_skip A B obs 0 1 2 3 4 5 _
        (fun hc => absurd hc.2.2.1 (not_le.2 a00)) (fun hc => absurd hc.2.2.1 (not_le.2 b00))]
    rfl
  · rw [projectionLineSegOnSide_skip A B obs 1 2 0 4 5 3 _
        (fun hc => absurd hc.2.1 (not_le.2 a00)) (fun hc => absurd hc.2.1 (not_le.2 b00)),
      projectionLineSegOnSide_hi A B obs 0 2 1 3 5 4 _ ⟨a0'.1, a0'.2, a2'.1, a2'.2⟩
        ⟨b0'.1, b0'.2, b2'.1, b2'.2⟩ (lt_of_le_of_lt w2 a00) (lt_of_le_of_lt w2 b00) a00.le b00.le,
      projectionLineSegOnSide_skip A B obs 0 1 2 3 4 5 _
        (fun hc => absurd hc.2.2.2 (not_le.2 a00)) (fun hc => absurd hc.2.2.2 (not_le.2 b00))]
    rfl
  · rw [projectionLineSegOnSide_skip A B obs 1 2 0 4 5 3 _
        (fun hc => absurd hc.2.2.1 (not_le.2 a00)) (fun hc => absurd hc.2.2.1 (not_le.2 b00)),
      projectionLineSegOnSide_skip A B obs 0 2 1 3 5 4 _
        (fun hc => absurd hc.2.2.1 (not_le.2 a00)) (fun hc => absurd hc.2.2.1 (not_le.2 b00)),
      projectionLineSegOnSide_lo A B obs 0 1 2 3 4 5 _ ⟨a0'.1, a0'.2, a1'.1, a1'.2⟩
        ⟨b0'.1, b0'.2, b1'.1, b1'.2⟩ a00.le b00.le]
    rfl
  · rw [projectionLineSegOnSide_skip A B obs 1 2 0 4 5 3 _
        (fun hc => absurd hc.2.2.2 (not_le.2 a00)) (fun hc => absurd hc.2.2.2 (not_le.2 b00)),
      projectionLineSegOnSide_skip A B obs 0 2 1 3 5 4 _
        (fun hc => absurd hc.2.2.2 (not_le.2 a00)) (fun hc => absurd hc.2.2.2 (not_le.2 b00)),
      projectionLineSegOnSide_hi A B obs 0 1 2 3 4 5 _ ⟨a0'.1, a0'.2, a1'.1, a1'.2⟩
        ⟨b0'.1, b0'.2, b1'.1, b1'.2⟩ (lt_of_le_of_lt w3 a00) (lt_of_le_of_lt w3 b00) a00.le b00.le]
    rfl

theorem distanceCapsuleToBox_sameFace (thr : ℚ) (A B : V3) (radius : ℚ) (obs : Box) (k : Nat)
    (hi : Bool) (hk : k < 3) (hw : obs.wf) (hA : inFrontOf A obs k hi)
    (hB : inFrontOf B obs k hi) :
    distanceCapsuleToBox thr A B radius obs =
      some ⟨Dist.fin (min (faceDist A obs k hi) (faceDist B obs k hi) *
          min (faceDist A obs k hi) (faceDist B obs k hi)), radius,
        Pts.pts (if faceDist A obs k hi < faceDist B obs k hi then A else B)
          (setCoord (if faceDist A obs k hi < faceDist B obs k hi then A else B) k
            (obs.get (faceIndex k hi)))⟩ := by
  unfold distanceCapsuleToBox
  rw [projectionStage_sameFace A B obs k hi hk hw hA hB]
  rcases lt_or_le (faceDist A obs k hi) (faceDist B obs k hi) with h | h
  · rw [min_eq_left h.le, if_pos h]
    interval_cases k <;> cases hi <;>
      simp [nearestProjection, CapsuleBox.init, CapsuleBox.setProjection, numProj, idxCoord,
        distLt, setCoord, faceIndex, V3.get, Box.get, h]
  · rw [min_eq_right h, if_neg (not_lt.2 h)]
    interval_cases k <;> cases hi <;>
      simp [nearestProjection, CapsuleBox.init, CapsuleBox.setProjection, numProj, idxCoord,
        distLt, setCoord, faceIndex, V3.get, Box.get, not_lt.2 h]

theorem onSegment_left (A B : V3) : onSegment A A B :=
  ⟨0, le_refl 0, zero_le_one, by simp [V3.add, V3.smul]⟩

theorem onSegment_right (A B : V3) : onSegment B A B :=
  ⟨1, zero_le_one, le_refl 1, by simp [V3.add, V3.smul, V3.sub]⟩

theorem onSegment_lerp (A B : V3) (t : ℚ) (h0 : 0 ≤ t) (h1 : t ≤ 1) :
    onSegment (A.add (V3.smul t (B.sub A))) A B := ⟨t, h0, h1, rfl⟩

theorem sqDist_comm (P Q : V3) : sqDist P Q = (Q.sub P).squaredNorm := by
  simp only [sqDist, V3.sub, V3.squaredNorm, V3.dot]
  ring

theorem segSegCandidate_onSegment (A B C D : V3) (i : Nat) (P Q : V3)
    (h : segSegCandidate A B C D i = some (P, Q)) : onSegment P A B ∧ onSegment Q C D := by
  unfold segSegCandidate at h
  simp only at h
  split_ifs at h <;> simp only [Option.some.injEq, Prod.mk.injEq, reduceCtorEq] at h <;>
    obtain ⟨rfl, rfl⟩ := h <;>
    first
    | exact ⟨onSegment_left _ _, onSegment_left _ _⟩
    | exact ⟨onSegment_left _ _, onSegment_right _ _⟩
    | exact ⟨onSegment_right _ _, onSegment_left _ _⟩
    | exact ⟨onSegment_right _ _, onSegment_right _ _⟩
    | exact ⟨onSegment_lerp _ _ _ (not_lt.1 ‹_›) (not_lt.1 ‹_›), onSegment_left _ _⟩
    | exact ⟨onSegment_lerp _ _ _ (not_lt.1 ‹_›) (not_lt.1 ‹_›), onSegment_right _ _⟩
    | exact ⟨onSegment_left _ _, onSegment_lerp _ _ _ (not_lt.1 ‹_›) (not_lt.1 ‹_›)⟩
    | exact ⟨onSegment_right _ _, onSegment_lerp _ _ _ (not_lt.1 ‹_›) (not_lt.1 ‹_›)⟩

theorem segSegStep_pair (A B C D : V3) (st : Dist × Pts) (i : Nat) (h : SegPair A B C D st) :
    SegPair A B C D (segSegStep A B C D st i) := by
  unfold segSegStep
  cases hc : segSegCandidate A B C D i with
  | none => exact h
  | some pq =>
    obtain ⟨P, Q⟩ := pq
    simp only
    split_ifs
    · intro P' Q' hpq
      simp only [Pts.pts.injEq] at hpq
      obtain ⟨rfl, rfl⟩ := hpq
      obtain ⟨h1, h2⟩ := segSegCandidate_onSegment A B C D i _ _ hc
      exact ⟨h1, h2, by rw [sqDist_comm]⟩
    · exact h

theorem segSegInterior_onSegment (A B C D P Q : V3) (h : segSegInterior A B C D = some (P, Q)) :
    onSegment P A B ∧ onSegment Q C D := by
  unfold segSegInterior at h
  simp only at h
  split_ifs at h with hc
  simp only [Option.some.injEq, Prod.mk.injEq] at h
  obtain ⟨rfl, rfl⟩ := h
  exact ⟨onSegment_lerp _ _ _ hc.2.1.le hc.2.2.1.le, onSegment_lerp _ _ _ hc.2.2.2.1.le hc.2.2.2.2.le⟩

theorem distanceLineSegToLineSeg_pair (thr : ℚ) (A B C D : V3) :
    SegPair A B C D (distanceLineSegToLineSeg thr A B C D) := by
  unfold distanceLineSegToLineSeg
  cases hc : segSegInterior A B C D with
  | none =>
    simp only [List.foldl]
    have h0 : SegPair A B C D (Dist.inf, Pts.invalid) := by
      intro P Q h
      simp at h
    exact segSegStep_pair _ _ _ _ _ _ (segSegStep_pair _ _ _ _ _ _
      (segSegStep_pair _ _ _ _ _ _ (segSegStep_pair _ _ _ _ _ _ h0)))
  | some pq =>
    obtain ⟨P, Q⟩ := pq
    simp only
    split_ifs
    · intro P' Q' h
      simp at h
    · intro P' Q' hpq
      simp only [Pts.pts.injEq] at hpq
      obtain ⟨rfl, rfl⟩ := hpq
      obtain ⟨h1, h2⟩ := segSegInterior_onSegment A B C D _ _ hc
      exact ⟨h1, h2, by rw [sqDist_comm]⟩

theorem distanceLineSegToPoint_pair (thr : ℚ) (A B C : V3) (P Q : V3)
    (h : (distanceLineSegToPoint thr A B C).2 = Pts.pts P Q) :
    onSegment P A B ∧ Q = C ∧ (distanceLineSegToPoint thr A B C).1 = Dist.fin (sqDist P Q) := by
  unfold distanceLineSegToPoint at h ⊢
  simp only at h ⊢
  split_ifs at h ⊢ <;> simp only [Pts.pts.injEq, reduceCtorEq] at h <;> obtain ⟨rfl, rfl⟩ := h
  · exact ⟨onSegment_left _ _, rfl, by rw [sqDist_comm]⟩
  · exact ⟨onSegment_right _ _, rfl, by rw [sqDist_comm]⟩
  · exact ⟨onSegment_lerp _ _ _ (not_lt.1 ‹_›) (not_lt.1 ‹_›), rfl, by rw [sqDist_comm]⟩

theorem surfaceEdge_of_cornerLike (obs : Box) (hw : obs.wf) (C D : V3) (hC : cornerLike C obs)
    (hD : cornerLike D obs) (hs : C.x = D.x ∨ C.y = D.y ∨ C.z = D.z) :
    SurfaceEdge obs (C, D) := by
  intro Q hQ
  obtain ⟨t, h0, h1, hx, hy, hz⟩ := onSegment_coords hQ
  obtain ⟨w1, w2, w3⟩ := hw
  obtain ⟨c1, c2, c3⟩ := hC
  obtain ⟨d1, d2, d3⟩ := hD
  simp only at hx hy hz
  have h1' : 0 ≤ 1 - t := by linarith
  have kx := mul_nonneg h0 (sub_nonneg.2 w1)
  have ky := mul_nonneg h0 (sub_nonneg.2 w2)
  have kz := mul_nonneg h0 (sub_nonneg.2 w3)
  have kx' := mul_nonneg h1' (sub_nonneg.2 w1)
  have ky' := mul_nonneg h1' (sub_nonneg.2 w2)
  have kz' := mul_nonneg h1' (sub_nonneg.2 w3)
  have bx : obs.x_min ≤ Q.x ∧ Q.x ≤ obs.x_max := by
    rcases c1 with c | c <;> rcases d1 with d | d <;> rw [hx, c, d] <;>
      constructor <;> linarith
  have bY : obs.y_min ≤ Q.y ∧ Q.y ≤ obs.y_max := by
    rcases c2 with c | c <;> rcases d2 with d | d <;> rw [hy, c, d] <;>
      constructor <;> linarith
  have bz : obs.z_min ≤ Q.z ∧ Q.z ≤ obs.z_max := by
    rcases c3 with c | c <;> rcases d3 with d | d <;> rw [hz, c, d] <;>
      constructor <;> linarith
  refine ⟨⟨bx.1, bx.2, bY.1, bY.2, bz.1, bz.2⟩, ?_⟩
  rcases hs with hs | hs | hs
  · have : Q.x = C.x := by rw [hx, ← hs]; ring
    rcases c1 with c | c
    · exact Or.inl (this.trans c)
    · exact Or.inr (Or.inl (this.trans c))
  · have : Q.y = C.y := by rw [hy, ← hs]; ring
    rcases c2 with c | c
    · exact Or.inr (Or.inr (Or.inl (this.trans c)))
    · exact Or.inr (Or.inr (Or.inr (Or.inl (this.trans c))))
  · have : Q.z = C.z := by rw [hz, ← hs]; ring
    rcases c3 with c | c
    · exact Or.inr (Or.inr (Or.inr (Or.inr (Or.inl (this.trans c)))))
    · exact Or.inr (Or.inr (Or.inr (Or.inr (Or.inr (this.trans c)))))

theorem boxPair_zero (A B : V3) (obs : Box) (st : Dist × Pts) (h : BoxPair A B obs st) :
    BoxPair A B obs (Dist.fin 0, st.2) := by
  intro P Q hpq
  obtain ⟨h1, h2, -⟩ := h P Q hpq
  exact ⟨h1, h2, Or.inr rfl⟩

theorem boxPair_of_segPair (A B C D : V3) (obs : Box) (st : Dist × Pts)
    (h : SegPair A B C D st) (he : SurfaceEdge obs (C, D)) : BoxPair A B obs st := by
  intro P Q hpq
  obtain ⟨h1, h2, h3⟩ := h P Q hpq
  exact ⟨h1, he Q h2, Or.inl h3⟩

theorem distanceToMoreLineSegments_pair (thr : ℚ) (A B : V3) (obs : Box) :
    ∀ (edges : List (V3 × V3)) (st : Dist × Pts), (∀ e ∈ edges, SurfaceEdge obs e) →
      BoxPair A B obs st → BoxPair A B obs (distanceToMoreLineSegments thr A B edges st)
  | [], st, _, h => by simpa [distanceToMoreLineSegments] using h
  | (C, D) :: rest, st, he, h => by
    unfold distanceToMoreLineSegments
    simp only
    have hrest : ∀ e ∈ rest, SurfaceEdge obs e := fun e hm => he e (List.mem_cons_of_mem _ hm)
    split_ifs
    · exact boxPair_zero A B obs st h
    · exact distanceToMoreLineSegments_pair thr A B obs rest _ hrest
        (boxPair_of_segPair A B C D obs _ (distanceLineSegToLineSeg_pair thr A B C D)
          (he (C, D) (List.mem_cons_self _ _)))
    · exact distanceToMoreLineSegments_pair thr A B obs rest st hrest h

theorem cornerLike_corner (obs : Box) (i j k : Nat) (hi : i = 0 ∨ i = 3) (hj : j = 1 ∨ j = 4)
    (hk : k = 2 ∨ k = 5) : cornerLike (corner obs i j k) obs := by
  rcases hi with rfl | rfl <;> rcases hj with rfl | rfl <;> rcases hk with rfl | rfl <;>
    simp [cornerLike, corner, Box.get]

theorem onSurface_of_cornerLike (obs : Box) (hw : obs.wf) (C : V3) (hC : cornerLike C obs) :
    onSurface C obs :=
  surfaceEdge_of_cornerLike obs hw C C hC hC (Or.inl rfl) C
    ⟨0, le_refl 0, zero_le_one, by simp [V3.add, V3.smul]⟩

theorem lineSegmentsOf_surface (obs : Box) (hw : obs.wf) :
    ∀ (rx ry rz : List Nat), rowsOK rx ry rz = true →
      ∀ e ∈ lineSegmentsOf obs rx ry rz, SurfaceEdge obs e
  | x0 :: x1 :: xs, y0 :: y1 :: ys, z0 :: z1 :: zs, h, e, he => by
    simp only [rowsOK, Bool.and_eq_true, decide_eq_true_eq] at h
    obtain ⟨⟨a0, a1, b0, b1, c0, c1, hs⟩, hrest⟩ := h
    simp only [lineSegmentsOf, List.mem_cons] at he
    rcases he with rfl | he
    · refine surfaceEdge_of_cornerLike obs hw _ _ (cornerLike_corner obs x0 y0 z0 a0 b0 c0)
        (cornerLike_corner obs x1 y1 z1 a1 b1 c1) ?_
      rcases hs with rfl | rfl | rfl
      · exact Or.inl rfl
      · exact Or.inr (Or.inl rfl)
      · exact Or.inr (Or.inr rfl)
    · exact lineSegmentsOf_surface obs hw xs ys zs hrest e he
  | [], _, _, _, e, he => by simp [lineSegmentsOf] at he
  | [_], _, _, _, e, he => by simp [lineSegmentsOf] at he
  | _ :: _ :: _, [], _, _, e, he => by simp [lineSegmentsOf] at he
  | _ :: _ :: _, [_], _, _, e, he => by simp [lineSegmentsOf] at he
  | _ :: _ :: _, _ :: _ :: _, [], _, e, he => by simp [lineSegmentsOf] at he
  | _ :: _ :: _, _ :: _ :: _, [_], _, e, he => by simp [lineSegmentsOf] at he

theorem pt_pair (thr : ℚ) (A B : V3) (obs : Box) (hw : obs.wf) (i j k : Nat)
    (hi : i = 0 ∨ i = 3) (hj : j = 1 ∨ j = 4) (hk : k = 2 ∨ k = 5) :
    BoxPair A B obs (distanceLineSegToPoint thr A B (corner obs i j k)) := by
  intro P Q hpq
  obtain ⟨h1, rfl, h3⟩ := distanceLineSegToPoint_pair thr A B _ P Q hpq
  exact ⟨h1, onSurface_of_cornerLike obs hw _ (cornerLike_corner obs i j k hi hj hk), Or.inl h3⟩

theorem sg_pair (thr : ℚ) (A B : V3) (obs : Box) (hw : obs.wf) (i j k i' j' k' : Nat)
    (hi : i = 0 ∨ i = 3) (hj : j = 1 ∨ j = 4) (hk : k = 2 ∨ k = 5)
    (hi' : i' = 0 ∨ i' = 3) (hj' : j' = 1 ∨ j' = 4) (hk' : k' = 2 ∨ k' = 5)
    (hs : i = i' ∨ j = j' ∨ k = k') :
    BoxPair A B obs (distanceLineSegToLineSeg thr A B (corner obs i j k) (corner obs i' j' k')) := by
  refine boxPair_of_segPair A B _ _ obs _ (distanceLineSegToLineSeg_pair thr A B _ _)
    (surfaceEdge_of_cornerLike obs hw _ _ (cornerLike_corner obs i j k hi hj hk)
      (cornerLike_corner obs i' j' k' hi' hj' hk') ?_)
  rcases hs with rfl | rfl | rfl
  · exact Or.inl rfl
  · exact Or.inr (Or.inl rfl)
  · exact Or.inr (Or.inr rfl)

theorem more_pair (thr : ℚ) (A B : V3) (obs : Box) (hw : obs.wf) (rx ry rz : List Nat)
    (h : rowsOK rx ry rz = true) (st : Dist × Pts) (hst : BoxPair A B obs st) :
    BoxPair A B obs (distanceToMoreLineSegments thr A B (lineSegmentsOf obs rx ry rz) st) :=
  distanceToMoreLineSegments_pair thr A B obs _ st (lineSegmentsOf_surface obs hw rx ry rz h) hst

theorem checkOtherCases_pair (thr : ℚ) (A B : V3) (obs : Box) (hw : obs.wf) (st : Dist × Pts)
    (hst : BoxPair A B obs st) : BoxPair A B obs (checkOtherCases thr A B obs st) := by
  unfold checkOtherCases
  simp only
  split_ifs <;>
    first
    | exact pt_pair thr A B obs hw _ _ _ (by decide) (by decide) (by decide)
    | exact sg_pair thr A B obs hw _ _ _ _ _ _ (by decide) (by decide) (by decide) (by decide)
        (by decide) (by decide) (by decide)
    | exact more_pair thr A B obs hw _ _ _ (by decide) st hst
    | exact boxPair_zero A B obs st hst

theorem get3DPoint_share (p q : V2) (v : ℚ) (coord : Nat) :
    (get3DPoint p v coord).x = (get3DPoint q v coord).x ∨
      (get3DPoint p v coord).y = (get3DPoint q v coord).y ∨
      (get3DPoint p v coord).z = (get3DPoint q v coord).z := by
  unfold get3DPoint
  split_ifs <;> simp

theorem getLineSegments_surface (obs : Box) (hw : obs.wf) (point : V2)
    (min1 min2 max1 max2 v : ℚ) (coord : Nat)
    (hc : ∀ a b, (a = min1 ∨ a = max1) → (b = min2 ∨ b = max2) →
      cornerLike (get3DPoint ⟨a, b⟩ v coord) obs)
    (edges : List (V3 × V3))
    (h : getLineSegments point min1 min2 max1 max2 v coord = some edges) :
    ∀ e ∈ edges, SurfaceEdge obs e := by
  have key : ∀ a b a' b', (a = min1 ∨ a = max1) → (b = min2 ∨ b = max2) →
      (a' = min1 ∨ a' = max1) → (b' = min2 ∨ b' = max2) →
      SurfaceEdge obs (get3DPoint ⟨a, b⟩ v coord, get3DPoint ⟨a', b'⟩ v coord) :=
    fun a b a' b' ha hb ha' hb' =>
      surfaceEdge_of_cornerLike obs hw _ _ (hc a b ha hb) (hc a' b' ha' hb')
        (get3DPoint_share _ _ v coord)
  have l := Or.inl (b := min1 = max1) (rfl : min1 = min1)
  have r := Or.inr (a := max1 = min1) (rfl : max1 = max1)
  have l2 := Or.inl (b := min2 = max2) (rfl : min2 = min2)
  have r2 := Or.inr (a := max2 = min2) (rfl : max2 = max2)
  unfold getLineSegments at h
  simp only at h
  intro e he
  split_ifs at h <;> simp only [Option.some.injEq, reduceCtorEq] at h <;> subst h <;>
    simp only [List.mem_append, List.mem_singleton, List.mem_cons, List.not_mem_nil, or_false,
      false_or, List.nil_append] at he <;>
    (try rcases he with rfl | rfl) <;>
    first
    | exact key _ _ _ _ l l2 l r2
    | exact key _ _ _ _ r l2 r r2
    | exact key _ _ _ _ l l2 r l2
    | exact key _ _ _ _ l r2 r r2

theorem checkEdgesFace_pair (thr : ℚ) (A B : V3) (obs : Box) (hw : obs.wf) (f : Nat) (point : V2)
    (min1 min2 max1 max2 : ℚ) (coord : Nat)
    (hc : ∀ a b, (a = min1 ∨ a = max1) → (b = min2 ∨ b = max2) →
      cornerLike (get3DPoint ⟨a, b⟩ (obs.get f) coord) obs)
    (st r : Dist × Pts) (hst : BoxPair A B obs st)
    (h : checkEdgesFace thr A B obs f point min1 min2 max1 max2 coord st = some r) :
    BoxPair A B obs r := by
  unfold checkEdgesFace at h
  split_ifs at h
  · cases hg : getLineSegments point min1 min2 max1 max2 (obs.get f) coord with
    | none => simp [hg] at h
    | some edges =>
      simp only [hg, Option.some.injEq] at h
      subst h
      exact distanceToMoreLineSegments_pair thr A B obs edges st
        (getLineSegments_surface obs hw point min1 min2 max1 max2 _ coord hc edges hg) hst
  · simp only [Option.some.injEq] at h
    subst h
    exact boxPair_zero A B obs st hst

theorem checkEdges_pair (thr : ℚ) (A B : V3) (obs : Box) (hw : obs.wf)
    (projections : Nat → Nat → Bool) (point : V3) (idx : Nat) (st r : Dist × Pts)
    (hst : BoxPair A B obs st)
    (h : checkEdges thr A B obs projections point idx st = some r) : BoxPair A B obs r := by
  unfold checkEdges at h
  split_ifs at h
  all_goals first
    | exact checkEdgesFace_pair thr A B obs hw _ _ _ _ _ _ _
        (by
          rintro a b (rfl | rfl) (rfl | rfl) <;> simp [cornerLike, get3DPoint, Box.get])
        st r hst h

theorem projInv_mono (P : V3) (obs : Box) (i n : Nat) (st : CapsuleBox)
    (h : ProjInv P obs i n st) : ProjInv P obs i (n + 1) st := by
  refine ⟨fun r hr => ?_, h.2⟩
  obtain ⟨d, hd, k, hi, hk, rest⟩ := h.1 r hr
  exact ⟨d, hd, k, hi, Nat.lt_succ_of_lt hk, rest⟩

theorem projInv_d_c (P : V3) (obs : Box) (i n : Nat) (st : CapsuleBox) (d : Dist)
    (h : ProjInv P obs i n st) : ProjInv P obs i n { st with d_c := d } := h

theorem projInv_other (P : V3) (obs : Box) (i n : Nat) (st : CapsuleBox) (row i' : Nat) (d : ℚ)
    (hi : i ≤ 1) (hi' : i' ≤ 1) (hne : i ≠ i') (h : ProjInv P obs i n st) :
    ProjInv P obs i n (st.setProjection row i' d) := by
  have hc : colDist (st.setProjection row i' d) i = colDist st i := by
    interval_cases i <;> interval_cases i' <;> simp_all [colDist, CapsuleBox.setProjection]
  have hp : ∀ r, (st.setProjection row i' d).projections r i = st.projections r i := by
    intro r
    simp [CapsuleBox.setProjection, Ne.symm hne, hne]
  refine ⟨fun r hr => ?_, fun d' hd' => ?_⟩
  · rw [hp] at hr
    rw [hc]
    exact h.1 r hr
  · rw [hc] at hd'
    obtain ⟨r, hr⟩ := h.2 d' hd'
    exact ⟨r, by rw [hp]; exact hr⟩

theorem faceDist_zero_of_within (P : V3) (obs : Box) (k : Nat) (hi : Bool)
    (h0 : 0 ≤ faceDist P obs k hi) (hw : obs.get k ≤ P.get k ∧ P.get k ≤ obs.get (k + 3)) :
    faceDist P obs k hi = 0 := by
  unfold faceDist at *
  cases hi <;> simp only [Bool.false_eq_true, if_false, if_true] at * <;> linarith [hw.1, hw.2]

theorem projInv_set (P : V3) (obs : Box) (i n : Nat) (st : CapsuleBox) (side : Bool)
    (hn : n < 3) (h0 : 0 ≤ faceDist P obs n side)
    (hw : ∀ j, j < 3 → j ≠ n → obs.get j ≤ P.get j ∧ P.get j ≤ obs.get (j + 3))
    (h : ProjInv P obs i n st) :
    ProjInv P obs i (n + 1)
      (st.setProjection (faceIndex n side) i (faceDist P obs n side)) := by
  have hc : colDist (st.setProjection (faceIndex n side) i (faceDist P obs n side)) i =
      some (faceDist P obs n side) := by
    by_cases hi : i = 0 <;> simp [colDist, CapsuleBox.setProjection, hi]
  refine ⟨fun r hr => ⟨_, hc, ?_⟩, fun d' _ => ⟨faceIndex n side, by
    simp [CapsuleBox.setProjection]⟩⟩
  by_cases hrow : r = faceIndex n side
  · exact ⟨n, side, Nat.lt_succ_self n, hrow, rfl, h0, hw⟩
  · have hr' : st.projections r i = true := by
      simpa [CapsuleBox.setProjection, hrow] using hr
    obtain ⟨d, -, k, hi, hk, hrk, hd, hd0, hwk⟩ := h.1 r hr'
    have hkn : k ≠ n := Nat.ne_of_lt hk
    have hk3 : k < 3 := lt_trans hk hn
    have z1 : faceDist P obs k hi = 0 :=
      faceDist_zero_of_within P obs k hi (hd ▸ hd0) (hw k hk3 hkn)
    have z2 : faceDist P obs n side = 0 :=
      faceDist_zero_of_within P obs n side h0 (hwk n hn (Ne.symm hkn))
    exact ⟨k, hi, Nat.lt_succ_of_lt hk, hrk, by rw [z1, z2], h0, hwk⟩

theorem projectionStep_inv (obs : Box) (P : V3) (i n min1 min2 : Nat) (st : CapsuleBox)
    (hn : n < 3) (h1 : min1 < 3) (h2 : min2 < 3) (h1n : min1 ≠ n) (h2n : min2 ≠ n)
    (h12 : min1 ≠ min2) (h : ProjInv P obs i n st) :
    ProjInv P obs i (n + 1)
      (projectionStep obs min1 min2 n (min1 + 3) (min2 + 3) (n + 3) P i st).1 := by
  unfold projectionStep
  split_ifs with hp hin hlo hhi
  · exact projInv_mono P obs i n _ (projInv_d_c P obs i n st _ h)
  · have hw : ∀ j, j < 3 → j ≠ n → obs.get j ≤ P.get j ∧ P.get j ≤ obs.get (j + 3) := by
      intro j hj hjn
      have : j = min1 ∨ j = min2 := by omega
      rcases this with rfl | rfl
      · exact ⟨hp.1, hp.2.1⟩
      · exact ⟨hp.2.2.1, hp.2.2.2⟩
    have := projInv_set P obs i n st false hn (by simp [faceDist]; exact hlo) hw h
    simpa [faceDist, faceIndex] using this
  · have hw : ∀ j, j < 3 → j ≠ n → obs.get j ≤ P.get j ∧ P.get j ≤ obs.get (j + 3) := by
      intro j hj hjn
      have : j = min1 ∨ j = min2 := by omega
      rcases this with rfl | rfl
      · exact ⟨hp.1, hp.2.1⟩
      · exact ⟨hp.2.2.1, hp.2.2.2⟩
    have := projInv_set P obs i n st true hn (by simp [faceDist]; exact hhi) hw h
    simpa [faceDist, faceIndex] using this
  · exact projInv_mono P obs i n _ h
  · exact projInv_mono P obs i n _ h

theorem projectionStep_inv_other (obs : Box) (P P' : V3) (i i' n a b c d e f : Nat)
    (st : CapsuleBox) (hi : i ≤ 1) (hi' : i' ≤ 1) (hne : i ≠ i') (h : ProjInv P obs i n st) :
    ProjInv P obs i n (projectionStep obs a b c d e f P' i' st).1 := by
  unfold projectionStep
  split_ifs
  · exact projInv_d_c P obs i n st _ h
  · exact projInv_other P obs i n st _ i' _ hi hi' hne h
  · exact projInv_other P obs i n st _ i' _ hi hi' hne h
  · exact h
  · exact h

theorem projectionLineSegOnSide_inv (A B : V3) (obs : Box) (n min1 min2 : Nat) (st : CapsuleBox)
    (hn : n < 3) (h1 : min1 < 3) (h2 : min2 < 3) (h1n : min1 ≠ n) (h2n : min2 ≠ n)
    (h12 : min1 ≠ min2) (hA : ProjInv A obs 0 n st) (hB : ProjInv B obs 1 n st) :
    ProjInv A obs 0 (n + 1)
        (projectionLineSegOnSide A B obs min1 min2 n (min1 + 3) (min2 + 3) (n + 3) st) ∧
      ProjInv B obs 1 (n + 1)
        (projectionLineSegOnSide A B obs min1 min2 n (min1 + 3) (min2 + 3) (n + 3) st) := by
  have a1 := projectionStep_inv obs A 0 n min1 min2 st hn h1 h2 h1n h2n h12 hA
  have b1 := projectionStep_inv_other obs B A 1 0 n min1 min2 n (min1 + 3) (min2 + 3) (n + 3) st
    (le_refl 1) (by norm_num) (by norm_num) hB
  unfold projectionLineSegOnSide
  simp only
  split_ifs
  · exact ⟨a1, projInv_mono B obs 1 n _ b1⟩
  · exact ⟨projectionStep_inv_other obs A B 0 1 (n + 1) min1 min2 n (min1 + 3) (min2 + 3) (n + 3) _
        (by norm_num) (le_refl 1) (by norm_num) a1,
      projectionStep_inv obs B 1 n min1 min2 _ hn h1 h2 h1n h2n h12 b1⟩

theorem projInv_init (P : V3) (obs : Box) (i : Nat) : ProjInv P obs i 0 CapsuleBox.init := by
  refine ⟨fun r hr => ?_, fun d hd => ?_⟩
  · simp [CapsuleBox.init] at hr
  · simp [colDist, CapsuleBox.init] at hd

theorem projectionStage_inv (A B : V3) (obs : Box) :
    ProjInv A obs 0 3 (projectionStage A B obs) ∧ ProjInv B obs 1 3 (projectionStage A B obs) := by
  have s1 := projectionLineSegOnSide_inv A B obs 0 1 2 CapsuleBox.init (by norm_num) (by norm_num)
    (by norm_num) (by norm_num) (by norm_num) (by norm_num) (projInv_init A obs 0)
    (projInv_init B obs 1)
  have s2 := projectionLineSegOnSide_inv A B obs 1 0 2 _ (by norm_num) (by norm_num)
    (by norm_num) (by norm_num) (by norm_num) (by norm_num) s1.1 s1.2
  exact projectionLineSegOnSide_inv A B obs 2 0 1 _ (by norm_num) (by norm_num)
    (by norm_num) (by norm_num) (by norm_num) (by norm_num) s2.1 s2.2

theorem projectionStep_nearest_pts (obs : Box) (a b c d e f : Nat) (P : V3) (i : Nat)
    (st : CapsuleBox) : (projectionStep obs a b c d e f P i st).1.nearest_pts = st.nearest_pts := by
  unfold projectionStep
  split_ifs <;> simp [CapsuleBox.setProjection]

theorem projectionStage_nearest_pts (A B : V3) (obs : Box) :
    (projectionStage A B obs).nearest_pts = Pts.invalid := by
  have key : ∀ a b c d e f st,
      (projectionLineSegOnSide A B obs a b c d e f st).nearest_pts = st.nearest_pts := by
    intro a b c d e f st
    unfold projectionLineSegOnSide
    simp only
    split_ifs <;> simp [projectionStep_nearest_pts]
  unfold projectionStage
  rw [key, key, key]
  rfl

theorem idxCoord_spec (projections : Nat → Nat → Bool) (idx r : Nat) (hr : r < 6)
    (h : projections r idx = true) : projections (idxCoord projections idx) idx = true := by
  unfold idxCoord
  split_ifs <;> try assumption
  interval_cases r <;> simp_all

theorem numProj_pos (projections : Nat → Nat → Bool) (h : numProj projections > 0) :
    ∃ r, projections r 0 = true ∨ projections r 1 = true := by
  by_contra hc
  push_neg at hc
  have h0 : ∀ r, projections r 0 = false := fun r => by simpa using (hc r).1
  have h1 : ∀ r, projections r 1 = false := fun r => by simpa using (hc r).2
  simp [numProj, h0, h1] at h

theorem faceIndex_lt (k : Nat) (hi : Bool) (hk : k < 3) : faceIndex k hi < 6 := by
  unfold faceIndex
  split_ifs <;> omega

theorem projection_pair (P : V3) (obs : Box) (hw : obs.wf) (i : Nat) (st : CapsuleBox)
    (hinv : ProjInv P obs i 3 st) (v : ℚ) (hv : colDist st i = some v) :
    onSurface
        (if idxCoord st.projections i = 0 ∨ idxCoord st.projections i = 3 then
          (⟨obs.get (idxCoord st.projections i), P.get 1, P.get 2⟩ : V3)
        else if idxCoord st.projections i = 1 ∨ idxCoord st.projections i = 4 then
          ⟨P.get 0, obs.get (idxCoord st.projections i), P.get 2⟩
        else ⟨P.get 0, P.get 1, obs.get (idxCoord st.projections i)⟩) obs ∧
      v * v = sqDist P
        (if idxCoord st.projections i = 0 ∨ idxCoord st.projections i = 3 then
          (⟨obs.get (idxCoord st.projections i), P.get 1, P.get 2⟩ : V3)
        else if idxCoord st.projections i = 1 ∨ idxCoord st.projections i = 4 then
          ⟨P.get 0, obs.get (idxCoord st.projections i), P.get 2⟩
        else ⟨P.get 0, P.get 1, obs.get (idxCoord st.projections i)⟩) := by
  obtain ⟨r, hr⟩ := hinv.2 v hv
  obtain ⟨-, -, k0, hi0, hk0, hr0, -⟩ := hinv.1 r hr
  have hr6 : r < 6 := hr0 ▸ faceIndex_lt k0 hi0 hk0
  obtain ⟨d, hd, k, hi, hk, hrk, hdk, hd0, hwk⟩ :=
    hinv.1 _ (idxCoord_spec st.projections i r hr6 hr)
  rw [hv] at hd
  cases hd
  rw [hrk]
  obtain ⟨w1, w2, w3⟩ := hw
  have q0 := hwk 0 (by norm_num)
  have q1 := hwk 1 (by norm_num)
  have q2 := hwk 2 (by norm_num)
  simp only [V3.get, Box.get] at q0 q1 q2
  norm_num at q0 q1 q2
  clear hwk hinv hr0
  interval_cases k <;> cases hi <;> norm_num at q0 q1 q2 <;>
    simp only [faceIndex, faceDist, V3.get, Box.get, Bool.false_eq_true, if_false, if_true,
      Nat.reduceAdd, Nat.reduceEqDiff, OfNat.ofNat_ne_zero, OfNat.zero_ne_ofNat, one_ne_zero,
      zero_ne_one, or_false, false_or, or_true, true_or, OfNat.ofNat_ne_one, OfNat.one_ne_ofNat]
      at hdk ⊢ <;>
    (constructor
     · simp only [onSurface, inBox]
       norm_num
       try (repeat' apply And.intro) <;> linarith
     · simp only [sqDist, V3.sub, V3.squaredNorm, V3.dot]
       rw [hdk]
       ring)

theorem colDist_of_numProj (A B : V3) (obs : Box) (st : CapsuleBox)
    (hA : ProjInv A obs 0 3 st) (hB : ProjInv B obs 1 3 st) (h : numProj st.projections > 0) :
    (distLt st.dist_A st.dist_B = true ∧ ∃ v, st.dist_A = some v) ∨
      (distLt st.dist_A st.dist_B = false ∧ ∃ v, st.dist_B = some v) := by
  obtain ⟨r, hr⟩ := numProj_pos st.projections h
  have hcases : (∃ a, st.dist_A = some a) ∨ (∃ b, st.dist_B = some b) := by
    rcases hr with hr | hr
    · obtain ⟨d, hd, -⟩ := hA.1 r hr
      exact Or.inl ⟨d, by simpa [colDist] using hd⟩
    · obtain ⟨d, hd, -⟩ := hB.1 r hr
      exact Or.inr ⟨d, by simpa [colDist] using hd⟩
  cases hda : st.dist_A with
  | none =>
    cases hdb : st.dist_B with
    | none => simp [hda, hdb] at hcases
    | some b => exact Or.inr ⟨by simp [distLt], b, rfl⟩
  | some a =>
    cases hdb : st.dist_B with
    | none => exact Or.inl ⟨by simp [distLt], a, rfl⟩
    | some b =>
      by_cases hab : a < b
      · exact Or.inl ⟨by simp [distLt, hab], a, rfl⟩
      · exact Or.inr ⟨by simp [distLt, hab], b, rfl⟩

theorem nearestProjection_pair (A B : V3) (obs : Box) (hw : obs.wf) (st : CapsuleBox)
    (hA : ProjInv A obs 0 3 st) (hB : ProjInv B obs 1 3 st) (h : numProj st.projections > 0) :
    BoxPair A B obs (nearestProjection A B obs st).2 := by
  intro P Q hpq
  rcases colDist_of_numProj A B obs st hA hB h with ⟨hd, v, hv⟩ | ⟨hd, v, hv⟩
  · obtain ⟨q1, q2⟩ := projection_pair A obs hw 0 st hA v (by simpa [colDist] using hv)
    unfold nearestProjection at hpq ⊢
    simp only [hd, if_true] at hpq ⊢
    simp only [hv, Pts.pts.injEq] at hpq ⊢
    obtain ⟨rfl, rfl⟩ := hpq
    exact ⟨onSegment_left _ B, q1, Or.inl (by rw [q2])⟩
  · obtain ⟨q1, q2⟩ := projection_pair B obs hw 1 st hB v (by simpa [colDist] using hv)
    unfold nearestProjection at hpq ⊢
    simp only [hd, Bool.false_eq_true, if_false, one_ne_zero] at hpq ⊢
    simp only [hv, Pts.pts.injEq] at hpq ⊢
    obtain ⟨rfl, rfl⟩ := hpq
    exact ⟨onSegment_right A _, q1, Or.inl (by rw [q2])⟩

theorem distanceCapsuleToBox_pair (thr : ℚ) (A B : V3) (radius : ℚ) (obs : Box) (hw : obs.wf)
    (res : BoxDistance) (h : distanceCapsuleToBox thr A B radius obs = some res) :
    res = ⟨Dist.fin 0, 0, Pts.null⟩ ∨
      (res.sub = radius ∧ BoxPair A B obs (res.d_c, res.nearest_pts)) := by
  obtain ⟨hA, hB⟩ := projectionStage_inv A B obs
  have hn := projectionStage_nearest_pts A B obs
  unfold distanceCapsuleToBox at h
  simp only at h
  by_cases h0 : (projectionStage A B obs).d_c = Dist.fin 0
  · rw [if_pos h0] at h
    exact Or.inl (by simpa using h.symm)
  · rw [if_neg h0] at h
    right
    by_cases hnum : numProj (projectionStage A B obs).projections > 0
    · rw [if_pos hnum] at h
      have hpair := nearestProjection_pair A B obs hw _ hA hB hnum
      by_cases hone : numProj (projectionStage A B obs).projections = 1
      · rw [if_pos hone] at h
        cases hce : checkEdges thr A B obs (projectionStage A B obs).projections
            (if (nearestProjection A B obs (projectionStage A B obs)).1 = 0 then B else A)
            (nearestProjection A B obs (projectionStage A B obs)).1
            (nearestProjection A B obs (projectionStage A B obs)).2 with
        | none => simp [hce] at h
        | some r =>
          simp only [hce, Option.some.injEq] at h
          subst h
          exact ⟨rfl, checkEdges_pair thr A B obs hw _ _ _ _ r hpair hce⟩
      · rw [if_neg hone] at h
        simp only [Option.some.injEq] at h
        subst h
        exact ⟨rfl, hpair⟩
    · rw [if_neg hnum] at h
      simp only [Option.some.injEq] at h
      subst h
      refine ⟨rfl, checkOtherCases_pair thr A B obs hw _ ?_⟩
      intro P Q hpq
      simp [hn] at hpq

/-! ## The boolean test and the exact distance in front of one face -/

theorem no_crossing_lo (a b m : ℚ) (ha : a < m) (hb : b < m) :
    ¬ (b - a ≠ 0 ∧ (m - a) / (b - a) > 0 ∧ (m - a) / (b - a) < 1) := by
  rintro ⟨h0, h1, h2⟩
  have hma : 0 < m - a := by linarith
  have hpos : 0 < b - a := by
    by_contra hc
    have : b - a < 0 := lt_of_le_of_ne (not_lt.1 hc) h0
    have := div_neg_of_pos_of_neg hma this
    linarith
  rw [div_lt_one hpos] at h2
  linarith

theorem no_crossing_hi (a b m : ℚ) (ha : m < a) (hb : m < b) :
    ¬ (b - a ≠ 0 ∧ (m - a) / (b - a) > 0 ∧ (m - a) / (b - a) < 1) := by
  rintro ⟨h0, h1, h2⟩
  have hma : m - a < 0 := by linarith
  have hneg : b - a < 0 := by
    by_contra hc
    have : 0 < b - a := lt_of_le_of_ne (not_lt.1 hc) (Ne.symm h0)
    have := div_neg_of_neg_of_pos hma this
    linarith
  rw [div_lt_one_of_neg hneg] at h2
  linarith

theorem rect_logic (a b r : ℚ) (ha : 0 < a) (hb : 0 < b) (hr : 0 ≤ r) :
    (if (Dist.min (Dist.fin (a * a)) (Dist.fin (b * b))).gtScalar r = true then false
      else if r > 0 then (Dist.min (Dist.fin (a * a)) (Dist.fin (b * b))).ltScalar r
      else false) = decide (min a b < r) := by
  have hmin : Dist.min (Dist.fin (a * a)) (Dist.fin (b * b)) =
      Dist.fin (min a b * min a b) := by
    unfold Dist.min Dist.lt
    rcases le_total a b with h | h
    · rw [min_eq_left h, if_neg]
      simp only [decide_eq_true_eq, not_lt]
      nlinarith
    · rw [min_eq_right h]
      by_cases hlt : b * b < a * a
      · rw [if_pos (by simpa using hlt)]
      · rw [if_neg (by simpa using hlt)]
        have : a = b := by
          apply le_antisymm _ h
          by_contra hc
          push_neg at hc
          exact hlt (by nlinarith)
        rw [this]
  have hm : 0 < min a b := lt_min ha hb
  rw [hmin]
  simp only [Dist.gtScalar, Dist.ltScalar, normGt, normLt, decide_eq_true_eq, gt_iff_lt]
  by_cases h1 : min a b < r
  · have hr0 : 0 < r := lt_trans hm h1
    have h2 : ¬ (r < 0 ∨ r * r < min a b * min a b) := by
      rintro (h | h)
      · linarith
      · nlinarith
    have h3 : min a b * min a b < r * r := by nlinarith
    simp [h1, h2, hr0, h3]
  · have h1' : r ≤ min a b := not_lt.1 h1
    by_cases h2 : r < 0 ∨ r * r < min a b * min a b
    · simp [h1, h2]
    · have h3 : ¬ (min a b * min a b < r * r) := by
        intro h
        nlinarith
      simp [h1, h2, h3]

theorem v3_get_zero (v : V3) : v.get 0 = v.x := rfl
theorem v3_get_one (v : V3) : v.get 1 = v.y := rfl
theorem v3_get_two (v : V3) : v.get 2 = v.z := rfl
theorem v2_get_zero (v : V2) : v.get 0 = v.a := rfl
theorem v2_get_one (v : V2) : v.get 1 = v.b := rfl
theorem box_get_zero (o : Box) : o.get 0 = o.x_min := rfl
theorem box_get_one (o : Box) : o.get 1 = o.y_min := rfl
theorem box_get_two (o : Box) : o.get 2 = o.z_min := rfl
theorem box_get_three (o : Box) : o.get 3 = o.x_max := rfl
theorem box_get_four (o : Box) : o.get 4 = o.y_max := rfl
theorem box_get_five (o : Box) : o.get 5 = o.z_max := rfl

theorem rect_sameFace (thr : ℚ) (A B : V3) (radius : ℚ) (obs : Box) (k : Nat) (hi : Bool)
    (hk : k < 3) (hr : 0 ≤ radius) (hA : inFrontOfStrict A obs k hi)
    (hB : inFrontOfStrict B obs k hi) :
    collisionCapsuleToRectangle thr A B radius obs (faceIndex k hi) =
      decide (min (faceDist A obs k hi) (faceDist B obs k hi) < radius) := by
  obtain ⟨a00, a⟩ := hA
  obtain ⟨b00, b⟩ := hB
  have a0' : 0 ≠ k → _ := a 0 (by norm_num)
  have a1' : 1 ≠ k → _ := a 1 (by norm_num)
  have a2' : 2 ≠ k → _ := a 2 (by norm_num)
  have b0' : 0 ≠ k → _ := b 0 (by norm_num)
  have b1' : 1 ≠ k → _ := b 1 (by norm_num)
  have b2' : 2 ≠ k → _ := b 2 (by norm_num)
  clear a b
  rw [← rect_logic _ _ radius a00 b00 hr]
  interval_cases k <;> cases hi <;>
    simp only [faceDist, faceIndex, v3_get_zero, v3_get_one, v3_get_two, box_get_zero,
      box_get_one, box_get_two, box_get_three, box_get_four, box_get_five, ne_eq,
      Bool.false_eq_true, if_false, if_true,
      OfNat.ofNat_ne_zero, OfNat.zero_ne_ofNat, not_false_eq_true, not_true_eq_false,
      forall_const, Nat.reduceAdd, Nat.reduceEqDiff, one_ne_zero, zero_ne_one, sub_pos,
      Nat.succ_ne_self, IsEmpty.forall_iff]
      at a00 b00 a0' a1' a2' b0' b1' b2' ⊢
  all_goals
    unfold collisionCapsuleToRectangle
    simp only [v3_get_zero, v3_get_one, v3_get_two, box_get_zero,
      box_get_one, box_get_two, box_get_three, box_get_four, box_get_five, faceRec, dropCoord,
      get3DPoint, if_true, gt_iff_lt, if_false, Nat.reduceLT, Nat.reduceSub, Nat.reduceEqDiff,
      OfNat.ofNat_ne_zero, OfNat.zero_ne_ofNat, one_ne_zero, zero_ne_one, Nat.lt_irrefl,
      Nat.not_lt_zero, Nat.reduceGT]
    first
    | rw [if_neg (no_crossing_lo _ _ _ a00 b00)]
    | rw [if_neg (no_crossing_hi _ _ _ a00 b00)]
  all_goals
    simp only [capsuleRectangleTail, insideRec, v2_get_zero, v2_get_one, if_true, a0', a1', a2',
      b0', b1', b2', and_self, decide_True, gt_iff_lt, V3.sub, V3.squaredNorm, V3.dot, sub_self,
      mul_zero, add_zero, zero_add]
  all_goals first
    | rfl
    | (rw [show (A.x - obs.x_min) * (A.x - obs.x_min) = (obs.x_min - A.x) * (obs.x_min - A.x) by
          ring,
        show (B.x - obs.x_min) * (B.x - obs.x_min) = (obs.x_min - B.x) * (obs.x_min - B.x) by
          ring])
    | (rw [show (A.y - obs.y_min) * (A.y - obs.y_min) = (obs.y_min - A.y) * (obs.y_min - A.y) by
          ring,
        show (B.y - obs.y_min) * (B.y - obs.y_min) = (obs.y_min - B.y) * (obs.y_min - B.y) by
          ring])
    | (rw [show (A.z - obs.z_min) * (A.z - obs.z_min) = (obs.z_min - A.z) * (obs.z_min - A.z) by
          ring,
        show (B.z - obs.z_min) * (B.z - obs.z_min) = (obs.z_min - B.z) * (obs.z_min - B.z) by
          ring])

theorem ltRNew_lt (x r : ℚ) (hx : 0 < x) (hr : 0 ≤ r) (h : ltRNew x r = true) : x < r := by
  unfold ltRNew at h
  rw [if_pos hr] at h
  simp only [decide_eq_true_eq] at h
  rcases h with h | h
  · linarith
  · by_contra hc
    push_neg at hc
    nlinarith

theorem nearBox_lt (P : V3) (radius : ℚ) (obs : Box) (k : Nat) (hi : Bool) (hk : k < 3)
    (hr : 0 ≤ radius) (h0 : 0 < faceDist P obs k hi) (h : nearBox P radius obs = true) :
    faceDist P obs k hi < radius := by
  simp only [nearBox, Bool.and_eq_true] at h
  obtain ⟨⟨⟨⟨⟨n0, n1⟩, n2⟩, n3⟩, n4⟩, n5⟩ := h
  interval_cases k <;> cases hi <;>
    simp only [faceDist, v3_get_zero, v3_get_one, v3_get_two, box_get_zero, box_get_one,
      box_get_two, box_get_three, box_get_four, box_get_five, Bool.false_eq_true, if_false,
      if_true, Nat.reduceAdd] at h0 n0 n1 n2 n3 n4 n5 ⊢ <;>
    first
    | exact ltRNew_lt _ _ h0 hr n0
    | exact ltRNew_lt _ _ h0 hr n1
    | exact ltRNew_lt _ _ h0 hr n2
    | exact ltRNew_lt _ _ h0 hr n3
    | exact ltRNew_lt _ _ h0 hr n4
    | exact ltRNew_lt _ _ h0 hr n5

theorem strictlyWithin_of_inFrontOfStrict (P : V3) (obs : Box) (k : Nat) (hi : Bool)
    (h : inFrontOfStrict P obs k hi) : strictlyWithin P obs k :=
  ⟨fun hk => h.2 0 (by norm_num) (Ne.symm hk), fun hk => h.2 1 (by norm_num) (Ne.symm hk),
    fun hk => h.2 2 (by norm_num) (Ne.symm hk)⟩

set_option maxHeartbeats 1000000 in
theorem separated_not_lt (A B : V3) (radius : ℚ) (obs : Box) (k : Nat) (hi : Bool) (hk : k < 3)
    (hw : obs.wf) (hr : 0 ≤ radius) (hA0 : 0 < faceDist A obs k hi)
    (hB0 : 0 < faceDist B obs k hi) (hA : strictlyWithin A obs k)
    (h : separated A B radius obs = true) :
    radius ≤ min (faceDist A obs k hi) (faceDist B obs k hi) := by
  obtain ⟨w1, w2, w3⟩ := hw
  obtain ⟨a0, a1, a2⟩ := hA
  simp only [separated, Bool.or_eq_true, decide_eq_true_eq, v3_get_zero, v3_get_one, v3_get_two,
    box_get_zero, box_get_one, box_get_two, box_get_three, box_get_four, box_get_five] at h
  apply le_min <;> interval_cases k <;> cases hi <;>
    simp only [faceDist, v3_get_zero, v3_get_one, v3_get_two, box_get_zero, box_get_one,
      box_get_two, box_get_three, box_get_four, box_get_five, Bool.false_eq_true, if_false,
      if_true, Nat.reduceAdd, ne_eq, OfNat.ofNat_ne_zero, OfNat.zero_ne_ofNat,
      not_false_eq_true, not_true_eq_false, forall_const, one_ne_zero,
      zero_ne_one, sub_pos, IsEmpty.forall_iff, OfNat.ofNat_ne_one, OfNat.one_ne_ofNat]
      at hA0 hB0 a0 a1 a2 ⊢ <;>
    rcases h with ((((h | h) | h) | h) | h) | h <;>
    (try obtain ⟨p1, p2⟩ := a0) <;> (try obtain ⟨p3, p4⟩ := a1) <;>
    (try obtain ⟨p5, p6⟩ := a2) <;> linarith [h.1, h.2]

set_option maxHeartbeats 1000000 in
theorem axisChain_sameFace (thr : ℚ) (A B : V3) (radius : ℚ) (obs : Box) (k : Nat) (hi : Bool)
    (hk : k < 3) (hw : obs.wf) (hA0 : 0 < faceDist A obs k hi) (hA : strictlyWithin A obs k) :
    (let collision := axisTest thr A B radius obs 0
      if !collision then
        let collision := axisTest thr A B radius obs 1
        if !collision then axisTest thr A B radius obs 2
        else collision
      else collision) = collisionCapsuleToRectangle thr A B radius obs (faceIndex k hi) := by
  obtain ⟨w1, w2, w3⟩ := hw
  obtain ⟨a0, a1, a2⟩ := hA
  interval_cases k <;> cases hi <;>
    simp only [faceDist, faceIndex, v3_get_zero, v3_get_one, v3_get_two, box_get_zero,
      box_get_one, box_get_two, box_get_three, box_get_four, box_get_five, Bool.false_eq_true,
      if_false, if_true, Nat.reduceAdd, ne_eq, OfNat.ofNat_ne_zero, OfNat.zero_ne_ofNat,
      not_false_eq_true, not_true_eq_false, forall_const, one_ne_zero,
      zero_ne_one, sub_pos, IsEmpty.forall_iff, OfNat.ofNat_ne_one, OfNat.one_ne_ofNat]
      at hA0 a0 a1 a2 ⊢ <;>
    simp only [axisTest, v3_get_zero, v3_get_one, v3_get_two, box_get_zero,
      box_get_one, box_get_two, box_get_three, box_get_four, box_get_five, Nat.reduceAdd,
      gt_iff_lt] <;>
    (try obtain ⟨p1, p2⟩ := a0) <;> (try obtain ⟨p3, p4⟩ := a1) <;>
    (try obtain ⟨p5, p6⟩ := a2) <;>
    split_ifs <;> first | rfl | (exfalso; linarith) | simp_all

theorem collision_sameFace (thr : ℚ) (A B : V3) (radius : ℚ) (obs : Box) (k : Nat) (hi : Bool)
    (hk : k < 3) (hw : obs.wf) (hr : 0 ≤ radius) (hA : inFrontOfStrict A obs k hi)
    (hB : inFrontOfStrict B obs k hi) :
    collisionCapsuleToBox thr A B radius obs =
      decide (min (faceDist A obs k hi) (faceDist B obs k hi) < radius) := by
  have hrect := rect_sameFace thr A B radius obs k hi hk hr hA hB
  have hchain := axisChain_sameFace thr A B radius obs k hi hk hw hA.1
    (strictlyWithin_of_inFrontOfStrict A obs k hi hA)
  unfold collisionCapsuleToBox
  rw [hchain, hrect]
  by_cases hn : (nearBox A radius obs || nearBox B radius obs) = true
  · rw [if_pos hn]
    have : min (faceDist A obs k hi) (faceDist B obs k hi) < radius := by
      rcases Bool.or_eq_true_iff.1 hn with h | h
      · exact lt_of_le_of_lt (min_le_left _ _) (nearBox_lt A radius obs k hi hk hr hA.1 h)
      · exact lt_of_le_of_lt (min_le_right _ _) (nearBox_lt B radius obs k hi hk hr hB.1 h)
    simp [this]
  · rw [if_neg hn]
    by_cases hs : separated A B radius obs = true
    · rw [if_pos hs]
      have := separated_not_lt A B radius obs k hi hk hw hr hA.1 hB.1
        (strictlyWithin_of_inFrontOfStrict A obs k hi hA) hs
      simp [not_lt.2 this]
    · rw [if_neg hs]

theorem segSegStep_not_null (A B C D : V3) (st : Dist × Pts) (i : Nat) (h : st.2 ≠ Pts.null) :
    (segSegStep A B C D st i).2 ≠ Pts.null := by
  unfold segSegStep
  cases segSegCandidate A B C D i with
  | none => exact h
  | some pq =>
    obtain ⟨P, Q⟩ := pq
    simp only
    split_ifs
    · simp
    · exact h

theorem distanceLineSegToLineSeg_nullZero (thr : ℚ) (A B C D : V3) :
    NullZero (distanceLineSegToLineSeg thr A B C D) := by
  unfold distanceLineSegToLineSeg
  cases segSegInterior A B C D with
  | none =>
    simp only [List.foldl]
    intro h
    exact absurd h (segSegStep_not_null _ _ _ _ _ _ (segSegStep_not_null _ _ _ _ _ _
      (segSegStep_not_null _ _ _ _ _ _ (segSegStep_not_null _ _ _ _ _ _ (by simp)))))
  | some pq =>
    obtain ⟨P, Q⟩ := pq
    simp only
    split_ifs
    · intro _; rfl
    · intro h; simp at h

theorem distanceLineSegToPoint_nullZero (thr : ℚ) (A B C : V3) :
    NullZero (distanceLineSegToPoint thr A B C) := by
  unfold distanceLineSegToPoint
  simp only
  split_ifs <;> intro h <;> first | rfl | simp at h

theorem distanceToMoreLineSegments_nullZero (thr : ℚ) (A B : V3) :
    ∀ (edges : List (V3 × V3)) (st : Dist × Pts), NullZero st →
      NullZero (distanceToMoreLineSegments thr A B edges st)
  | [], st, h => by simpa [distanceToMoreLineSegments] using h
  | (C, D) :: rest, st, h => by
    unfold distanceToMoreLineSegments
    simp only
    split_ifs
    · intro _; rfl
    · exact distanceToMoreLineSegments_nullZero thr A B rest _
        (distanceLineSegToLineSeg_nullZero thr A B C D)
    · exact distanceToMoreLineSegments_nullZero thr A B rest st h

theorem checkEdges_nullZero (thr : ℚ) (A B : V3) (obs : Box) (projections : Nat → Nat → Bool)
    (point : V3) (idx : Nat) (st r : Dist × Pts) (hst : NullZero st)
    (h : checkEdges thr A B obs projections point idx st = some r) : NullZero r := by
  have key : ∀ f point min1 min2 max1 max2 coord,
      checkEdgesFace thr A B obs f point min1 min2 max1 max2 coord st = some r → NullZero r := by
    intro f point min1 min2 max1 max2 coord h
    unfold checkEdgesFace at h
    split_ifs at h
    · cases hg : getLineSegments point min1 min2 max1 max2 (obs.get f) coord with
      | none => simp [hg] at h
      | some edges =>
        simp only [hg, Option.some.injEq] at h
        subst h
        exact distanceToMoreLineSegments_nullZero thr A B edges st hst
    · simp only [Option.some.injEq] at h
      subst h
      intro _; rfl
  unfold checkEdges at h
  split_ifs at h <;> exact key _ _ _ _ _ _ _ h

theorem checkOtherCases_nullZero (thr : ℚ) (A B : V3) (obs : Box) (st : Dist × Pts)
    (hst : NullZero st) : NullZero (checkOtherCases thr A B obs st) := by
  unfold checkOtherCases
  simp only
  split_ifs <;>
    first
    | exact distanceLineSegToPoint_nullZero thr A B _
    | exact distanceLineSegToLineSeg_nullZero thr A B _ _
    | exact distanceToMoreLineSegments_nullZero thr A B _ st hst
    | (intro _; rfl)

theorem distanceCapsuleToBox_nullZero (thr : ℚ) (A B : V3) (radius : ℚ) (obs : Box)
    (res : BoxDistance) (h : distanceCapsuleToBox thr A B radius obs = some res)
    (hnull : res.nearest_pts = Pts.null) :
    res.d_c = Dist.fin 0 ∧ (res.sub = radius ∨ res.sub = 0) := by
  unfold distanceCapsuleToBox at h
  simp only at h
  by_cases h0 : (projectionStage A B obs).d_c = Dist.fin 0
  · rw [if_pos h0] at h
    simp only [Option.some.injEq] at h
    subst h
    exact ⟨rfl, Or.inr rfl⟩
  · rw [if_neg h0] at h
    by_cases hnum : numProj (projectionStage A B obs).projections > 0
    · rw [if_pos hnum] at h
      have hnp : NullZero (nearestProjection A B obs (projectionStage A B obs)).2 := by
        intro hc
        simp [nearestProjection] at hc
      by_cases hone : numProj (projectionStage A B obs).projections = 1
      · rw [if_pos hone] at h
        cases hce : checkEdges thr A B obs (projectionStage A B obs).projections
            (if (nearestProjection A B obs (projectionStage A B obs)).1 = 0 then B else A)
            (nearestProjection A B obs (projectionStage A B obs)).1
            (nearestProjection A B obs (projectionStage A B obs)).2 with
        | none => simp [hce] at h
        | some r =>
          simp only [hce, Option.some.injEq] at h
          subst h
          exact ⟨checkEdges_nullZero thr A B obs _ _ _ _ r hnp hce hnull, Or.inl rfl⟩
      · rw [if_neg hone] at h
        simp only [Option.some.injEq] at h
        subst h
        exact ⟨hnp hnull, Or.inl rfl⟩
    · rw [if_neg hnum] at h
      simp only [Option.some.injEq] at h
      subst h
      refine ⟨checkOtherCases_nullZero thr A B obs _ ?_ hnull, Or.inl rfl⟩
      intro hc
      rw [projectionStage_nearest_pts] at hc
      simp at hc

theorem distanceCapsuleToBox_inside (thr : ℚ) (A B : V3) (radius : ℚ) (obs : Box)
    (h : strictlyInside A obs ∨ strictlyInside B obs) :
    distanceCapsuleToBox thr A B radius obs = some ⟨Dist.fin 0, 0, Pts.null⟩ := by
  unfold distanceCapsuleToBox
  have h0 := projection_inside A B obs CapsuleBox.init h
  have h1 := projectionLineSegOnSide_zero A B obs 0 2 1 3 5 4 _ h0
  have h2 : (projectionStage A B obs).d_c = Dist.fin 0 :=
    projectionLineSegOnSide_zero A B obs 0 1 2 3 4 5 _ h1
  simp only [h2, if_true]

theorem inFrontOfStrict_cube_lo (x : ℚ) (hx : x < 0) :
    inFrontOfStrict ⟨x, 1/2, 1/2⟩ ⟨0, 0, 0, 1, 1, 1⟩ 0 false := by
  refine ⟨by simpa [faceDist, V3.get, Box.get] using hx, ?_⟩
  intro j hj hj0
  interval_cases j <;> norm_num [V3.get, Box.get] at hj0 ⊢

theorem inFrontOf_of_strict (P : V3) (obs : Box) (k : Nat) (hi : Bool)
    (h : inFrontOfStrict P obs k hi) : inFrontOf P obs k hi :=
  ⟨h.1, fun j hj hjk => ⟨(h.2 j hj hjk).1.le, (h.2 j hj hjk).2.le⟩⟩

/-! ## Exchanging the endpoints -/

theorem v3_ext {u v : V3} (hx : u.x = v.x) (hy : u.y = v.y) (hz : u.z = v.z) : u = v := by
  cases u; cases v; simp_all

theorem lerp_swap (A B : V3) (t t' : ℚ) (h : t' = 1 - t) :
    B.add (V3.smul t' (A.sub B)) = A.add (V3.smul t (B.sub A)) := by
  subst h
  apply v3_ext <;> simp only [V3.add, V3.smul, V3.sub] <;> ring

theorem segSegInterior_swap (A B C D : V3) :
    segSegInterior B A C D = segSegInterior A B C D := by
  unfold segSegInterior
  simp only
  set alpha1 := (B.sub A).squaredNorm with ha1
  have ha1' : (A.sub B).squaredNorm = alpha1 := by
    simp only [ha1, V3.sub, V3.squaredNorm, V3.dot]; ring
  set det := alpha1 * (C.sub D).dot (D.sub C) - (B.sub A).dot (D.sub C) * (C.sub D).dot (B.sub A)
    with hdet
  have hdet' : (A.sub B).squaredNorm * (C.sub D).dot (D.sub C) -
      (A.sub B).dot (D.sub C) * (C.sub D).dot (A.sub B) = det := by
    simp only [hdet, ha1, V3.sub, V3.squaredNorm, V3.dot]; ring
  set s := (alpha1 * (A.sub C).dot (C.sub D) - (B.sub A).dot (D.sub C) * (A.sub C).dot (A.sub B)) /
    det with hs
  have hs' : ((A.sub B).squaredNorm * (B.sub C).dot (C.sub D) -
      (A.sub B).dot (D.sub C) * (B.sub C).dot (B.sub A)) /
      ((A.sub B).squaredNorm * (C.sub D).dot (D.sub C) -
        (A.sub B).dot (D.sub C) * (C.sub D).dot (A.sub B)) = s := by
    rw [hdet', hs]
    congr 1
    simp only [ha1, V3.sub, V3.squaredNorm, V3.dot]; ring
  rw [hs', hdet', ha1']
  set t := ((A.sub C).dot (A.sub B) - (C.sub D).dot (B.sub A) * s) / alpha1 with ht
  by_cases hd : det = 0
  · simp [hd]
  · have hal : alpha1 ≠ 0 := by
      intro h0
      apply hd
      have hx : B.x - A.x = 0 ∧ B.y - A.y = 0 ∧ B.z - A.z = 0 := by
        simp only [ha1, V3.sub, V3.squaredNorm, V3.dot] at h0
        refine ⟨?_, ?_, ?_⟩ <;> nlinarith [mul_self_nonneg (B.x - A.x), mul_self_nonneg (B.y - A.y),
          mul_self_nonneg (B.z - A.z)]
      simp only [hdet, ha1, V3.sub, V3.squaredNorm, V3.dot, hx.1, hx.2.1, hx.2.2]
      ring
    have ht' : ((B.sub C).dot (B.sub A) - (C.sub D).dot (A.sub B) * s) / alpha1 = 1 - t := by
      rw [ht]
      field_simp
      simp only [ha1, V3.sub, V3.squaredNorm, V3.dot]
      ring
    rw [ht']
    have hcond : (det ≠ 0 ∧ 1 - t > 0 ∧ 1 - t < 1 ∧ s > 0 ∧ s < 1) ↔
        (det ≠ 0 ∧ t > 0 ∧ t < 1 ∧ s > 0 ∧ s < 1) := by
      constructor <;> rintro ⟨h1, h2, h3, h4, h5⟩ <;> refine ⟨h1, ?_, ?_, h4, h5⟩ <;> linarith
    by_cases hc : (det ≠ 0 ∧ t > 0 ∧ t < 1 ∧ s > 0 ∧ s < 1)
    · rw [if_pos hc, if_pos (hcond.2 hc), lerp_swap A B t (1 - t) rfl]
    · rw [if_neg hc, if_neg (fun h => hc (hcond.1 h))]

theorem opt_swap (A B C : V3) (h : (B.sub A).squaredNorm ≠ 0) :
    (B.sub C).dot (B.sub A) / (A.sub B).squaredNorm =
      1 - (A.sub C).dot (A.sub B) / (B.sub A).squaredNorm := by
  have e : (A.sub B).squaredNorm = (B.sub A).squaredNorm := by
    simp only [V3.sub, V3.squaredNorm, V3.dot]; ring
  rw [e]
  field_simp
  simp only [V3.sub, V3.squaredNorm, V3.dot]
  ring

theorem sqn_swap (A B : V3) : (A.sub B).squaredNorm = (B.sub A).squaredNorm := by
  simp only [V3.sub, V3.squaredNorm, V3.dot]; ring

theorem segSegCandidate_swap01 (A B C D : V3) (i : Nat) (hi : i = 0 ∨ i = 1) :
    segSegCandidate B A C D i = segSegCandidate A B C D i := by
  unfold segSegCandidate
  simp only [sqn_swap A B]
  by_cases h : (B.sub A).squaredNorm = 0
  · rcases hi with rfl | rfl <;> simp [h]
  · have h0 := opt_swap A B C h
    have h1 := opt_swap A B D h
    rw [sqn_swap A B] at h0 h1
    rcases hi with rfl | rfl
    · simp only [if_true, true_or, if_neg h, h0, OfNat.ofNat_ne_zero, OfNat.zero_ne_ofNat,
        zero_ne_one, one_ne_zero, or_false, false_or, if_false]
      set o := (A.sub C).dot (A.sub B) / (B.sub A).squaredNorm
      rcases lt_trichotomy o 0 with ho | ho | ho
      · have h1' : 1 - o > 1 := by linarith
        have h2' : ¬ (1 - o < 0) := by linarith
        simp [ho, h1', h2']
      · have e := lerp_swap A B 0 1 (by norm_num)
        simp [ho, e]
      · rcases lt_trichotomy o 1 with ho1 | ho1 | ho1
        · have a1 : ¬ (1 - o < 0) := by linarith
          have a2 : ¬ (1 - o > 1) := by linarith
          have a3 : ¬ (o < 0) := by linarith
          have a4 : ¬ (o > 1) := by linarith
          simp only [a1, a2, a3, a4, if_false]
          rw [lerp_swap A B o (1 - o) rfl]
        · have e := lerp_swap A B 1 0 (by norm_num)
          simp [ho1, e]
        · have a1 : 1 - o < 0 := by linarith
          have a3 : ¬ (o < 0) := by linarith
          simp [a1, a3, ho1]
    · simp only [if_true, true_or, or_true, if_neg h, h1, OfNat.ofNat_ne_zero,
        OfNat.zero_ne_ofNat, zero_ne_one, one_ne_zero, or_false, false_or, if_false]
      set o := (A.sub D).dot (A.sub B) / (B.sub A).squaredNorm
      rcases lt_trichotomy o 0 with ho | ho | ho
      · have h1' : 1 - o > 1 := by linarith
        have h2' : ¬ (1 - o < 0) := by linarith
        simp [ho, h1', h2']
      · have e := lerp_swap A B 0 1 (by norm_num)
        simp [ho, e]
      · rcases lt_trichotomy o 1 with ho1 | ho1 | ho1
        · have a1 : ¬ (1 - o < 0) := by linarith
          have a2 : ¬ (1 - o > 1) := by linarith
          have a3 : ¬ (o < 0) := by linarith
          have a4 : ¬ (o > 1) := by linarith
          simp only [a1, a2, a3, a4, if_false]
          rw [lerp_swap A B o (1 - o) rfl]
        · have e := lerp_swap A B 1 0 (by norm_num)
          simp [ho1, e]
        · have a1 : 1 - o < 0 := by linarith
          have a3 : ¬ (o < 0) := by linarith
          simp [a1, a3, ho1]

theorem segSegCandidate_swap2 (A B C D : V3) :
    segSegCandidate B A C D 2 = segSegCandidate A B C D 3 := by
  unfold segSegCandidate
  simp only [OfNat.ofNat_ne_zero, OfNat.ofNat_ne_one, if_false, or_self, or_false, false_or,
    if_true, Nat.reduceEqDiff, or_true]

theorem segSegCandidate_swap3 (A B C D : V3) :
    segSegCandidate B A C D 3 = segSegCandidate A B C D 2 := by
  unfold segSegCandidate
  simp only [OfNat.ofNat_ne_zero, OfNat.ofNat_ne_one, if_false, or_self, or_false, false_or,
    if_true, Nat.reduceEqDiff, or_true]

theorem segSegStep_fst (A B C D : V3) (st : Dist × Pts) (i : Nat) :
    (segSegStep A B C D st i).1 = Dist.min st.1 (candDist (segSegCandidate A B C D i)) := by
  unfold segSegStep
  cases segSegCandidate A B C D i with
  | none => simp [candDist, Dist.min, Dist.lt]
  | some pq =>
    obtain ⟨P, Q⟩ := pq
    simp only [candDist, Dist.min]
    split_ifs <;> rfl

theorem dist_min_right_comm (a x y : Dist) :
    Dist.min (Dist.min a x) y = Dist.min (Dist.min a y) x := by
  cases a <;> cases x <;> cases y <;> simp only [Dist.min, Dist.lt] <;>
    (try split_ifs) <;> (try simp_all) <;>
    (try (apply le_antisymm <;> linarith))

theorem segSegFold_fst (A B C D : V3) :
    ([0, 1, 2, 3].foldl (segSegStep A B C D) (Dist.inf, Pts.invalid)).1 =
      Dist.min (Dist.min (Dist.min (Dist.min Dist.inf (candDist (segSegCandidate A B C D 0)))
        (candDist (segSegCandidate A B C D 1))) (candDist (segSegCandidate A B C D 2)))
        (candDist (segSegCandidate A B C D 3)) := by
  simp only [List.foldl, segSegStep_fst]

theorem distanceLineSegToLineSeg_swap (thr : ℚ) (A B C D : V3) :
    (distanceLineSegToLineSeg thr B A C D).1 = (distanceLineSegToLineSeg thr A B C D).1 := by
  unfold distanceLineSegToLineSeg
  rw [segSegInterior_swap]
  cases segSegInterior A B C D with
  | some pq => rfl
  | none =>
    simp only
    rw [segSegFold_fst, segSegFold_fst, segSegCandidate_swap01 A B C D 0 (Or.inl rfl),
      segSegCandidate_swap01 A B C D 1 (Or.inr rfl), segSegCandidate_swap2 A B C D,
      segSegCandidate_swap3 A B C D, dist_min_right_comm]

theorem distanceLineSegToPoint_swap (thr : ℚ) (A B C : V3) :
    distanceLineSegToPoint thr B A C = distanceLineSegToPoint thr A B C := by
  unfold distanceLineSegToPoint
  simp only [sqn_swap A B]
  by_cases h : (B.sub A).squaredNorm = 0
  · simp [h]
  · have e : (C.sub B).dot (A.sub B) / (B.sub A).squaredNorm =
        1 - (C.sub A).dot (B.sub A) / (B.sub A).squaredNorm := by
      field_simp
      simp only [V3.sub, V3.squaredNorm, V3.dot]
      ring
    simp only [if_neg h, e]
    set o := (C.sub A).dot (B.sub A) / (B.sub A).squaredNorm
    have hP : (if 1 - o < 0 then B else if 1 - o > 1 then A
        else B.add (V3.smul (1 - o) (A.sub B))) =
        (if o < 0 then A else if o > 1 then B else A.add (V3.smul o (B.sub A))) := by
      rcases lt_trichotomy o 0 with ho | ho | ho
      · have h1' : 1 - o > 1 := by linarith
        have h2' : ¬ (1 - o < 0) := by linarith
        simp [ho, h1', h2']
      · have e := lerp_swap A B 0 1 (by norm_num)
        simp [ho, e]
      · rcases lt_trichotomy o 1 with ho1 | ho1 | ho1
        · have a1 : ¬ (1 - o < 0) := by linarith
          have a2 : ¬ (1 - o > 1) := by linarith
          have a3 : ¬ (o < 0) := by linarith
          have a4 : ¬ (o > 1) := by linarith
          simp only [a1, a2, a3, a4, if_false]
          rw [lerp_swap A B o (1 - o) rfl]
        · have e := lerp_swap A B 1 0 (by norm_num)
          simp [ho1, e]
        · have a1 : 1 - o < 0 := by linarith
          have a3 : ¬ (o < 0) := by linarith
          simp [a1, a3, ho1]
    rw [hP]

theorem crossingHits_zero (M : V2) (rct : Rec4) :
    ((M.get 0 > rct.r0 - 0 ∧ M.get 0 < rct.r2 + 0 ∧ M.get 1 > rct.r1 - 0 ∧
      M.get 1 < rct.r3 + 0) ∧ crossingHits M rct 0 = true) ↔ insideRec M rct = true := by
  simp only [crossingHits, insideRec, normLt, sub_zero, add_zero, lt_self_iff_false, false_and,
    decide_False, Bool.and_false, Bool.or_false, Bool.or_eq_true, decide_eq_true_eq, gt_iff_lt]
  tauto

theorem rect_zero (thr : ℚ) (A B : V3) (obs : Box) (f : Nat) :
    collisionCapsuleToRectangle thr A B 0 obs f = true ↔ crossesFace A B obs f := by
  unfold collisionCapsuleToRectangle crossesFace
  simp only
  have htail : ∀ rct A_rec B_rec A_proj B_proj oc c,
      capsuleRectangleTail thr A B 0 rct A_rec B_rec A_proj B_proj oc c = false := by
    intro rct A_rec B_rec A_proj B_proj oc c
    simp [capsuleRectangleTail]
  simp only [htail]
  generalize (if f > 2 then f - 3 else f) = c
  split_ifs with h1 h2 h3
  · simp only [true_iff]
    exact ⟨h1, (crossingHits_zero _ _).1 h2⟩
  · simp only [Bool.false_eq_true, false_iff]
    rintro ⟨-, h⟩
    exact h2 ((crossingHits_zero _ _).2 h)
  · simp only [Bool.false_eq_true, false_iff]
    rintro ⟨h, -⟩
    exact h1 h
  · simp only [Bool.false_eq_true, false_iff]
    rintro ⟨h, -⟩
    exact h1 h

theorem crossesFace_swap (A B : V3) (obs : Box) (f : Nat) :
    crossesFace B A obs f ↔ crossesFace A B obs f := by
  unfold crossesFace
  set c := (if f > 2 then f - 3 else f)
  by_cases hd : B.get c - A.get c = 0
  · have hd' : A.get c - B.get c = 0 := by linarith
    simp [hd, hd']
  · have hd' : A.get c - B.get c ≠ 0 := fun h => hd (by linarith)
    have ht : (obs.get f - B.get c) / (A.get c - B.get c) =
        1 - (obs.get f - A.get c) / (B.get c - A.get c) := by
      field_simp
      ring
    have hM : (dropCoord B c).add (V2.smul (1 - (obs.get f - A.get c) / (B.get c - A.get c))
        ((dropCoord A c).sub (dropCoord B c))) =
        (dropCoord A c).add (V2.smul ((obs.get f - A.get c) / (B.get c - A.get c))
          ((dropCoord B c).sub (dropCoord A c))) := by
      cases hA : dropCoord A c
      cases hB : dropCoord B c
      simp only [V2.add, V2.smul, V2.sub, V2.mk.injEq]
      constructor <;> ring
    rw [ht, hM]
    constructor <;> rintro ⟨⟨h1, h2, h3⟩, h4⟩ <;> refine ⟨⟨?_, ?_, ?_⟩, h4⟩ <;>
      first | assumption | linarith

theorem rect_zero_swap (thr : ℚ) (A B : V3) (obs : Box) (f : Nat) :
    collisionCapsuleToRectangle thr B A 0 obs f = collisionCapsuleToRectangle thr A B 0 obs f := by
  have h1 := rect_zero thr A B obs f
  have h2 := rect_zero thr B A obs f
  have h3 := crossesFace_swap A B obs f
  cases ha : collisionCapsuleToRectangle thr A B 0 obs f <;>
    cases hb : collisionCapsuleToRectangle thr B A 0 obs f <;> simp_all

theorem distanceToMoreLineSegments_swap (thr : ℚ) (A B : V3) :
    ∀ (edges : List (V3 × V3)) (st st' : Dist × Pts), st'.1 = st.1 →
      (distanceToMoreLineSegments thr B A edges st').1 =
        (distanceToMoreLineSegments thr A B edges st).1
  | [], st, st', h => by simpa [distanceToMoreLineSegments] using h
  | (C, D) :: rest, st, st', h => by
    unfold distanceToMoreLineSegments
    simp only
    rw [distanceLineSegToLineSeg_swap thr A B C D, h]
    split_ifs
    · rfl
    · exact distanceToMoreLineSegments_swap thr A B rest _ _ rfl
    · exact distanceToMoreLineSegments_swap thr A B rest st st' h

theorem checkEdgesFace_swap (thr : ℚ) (A B : V3) (obs : Box) (f : Nat) (point : V2)
    (min1 min2 max1 max2 : ℚ) (coord : Nat) (st st' : Dist × Pts) (h : st'.1 = st.1) :
    (checkEdgesFace thr B A obs f point min1 min2 max1 max2 coord st').map Prod.fst =
      (checkEdgesFace thr A B obs f point min1 min2 max1 max2 coord st).map Prod.fst := by
  unfold checkEdgesFace
  rw [rect_zero_swap thr A B obs f]
  split_ifs
  · cases getLineSegments point min1 min2 max1 max2 (obs.get f) coord with
    | none => rfl
    | some edges =>
      simp only [Option.map_some']
      rw [distanceToMoreLineSegments_swap thr A B edges st st' h]
  · rfl

theorem checkEdges_swap (thr : ℚ) (A B : V3) (obs : Box) (projections projections' : Nat → Nat → Bool)
    (point : V3) (idx idx' : Nat) (st st' : Dist × Pts) (h : st'.1 = st.1)
    (hp : ∀ r, projections' r idx' = projections r idx) :
    (checkEdges thr B A obs projections' point idx' st').map Prod.fst =
      (checkEdges thr A B obs projections point idx st).map Prod.fst := by
  unfold checkEdges
  simp only [hp]
  split_ifs <;> first | exact checkEdgesFace_swap thr A B obs _ _ _ _ _ _ _ st st' h | rfl

theorem bothBelow_swap (A B : V3) (obs : Box) (k : Nat) :
    bothBelow B A obs k = bothBelow A B obs k := by
  simp only [bothBelow, and_comm]

theorem bothAbove_swap (A B : V3) (obs : Box) (k : Nat) :
    bothAbove B A obs k = bothAbove A B obs k := by
  simp only [bothAbove, and_comm]

theorem anyFaceCrossed_swap (thr : ℚ) (A B : V3) (obs : Box) :
    anyFaceCrossed thr B A obs = anyFaceCrossed thr A B obs := by
  simp only [anyFaceCrossed, rect_zero_swap thr A B obs]

set_option maxHeartbeats 1000000 in
theorem checkOtherCases_swap (thr : ℚ) (A B : V3) (obs : Box) (st st' : Dist × Pts)
    (h : st'.1 = st.1) :
    (checkOtherCases thr B A obs st').1 = (checkOtherCases thr A B obs st).1 := by
  unfold checkOtherCases
  simp only [bothBelow_swap A B obs, bothAbove_swap A B obs, anyFaceCrossed_swap thr A B obs,
    distanceLineSegToPoint_swap thr A B]
  split_ifs <;>
    first
    | exact distanceLineSegToLineSeg_swap thr A B _ _
    | exact distanceToMoreLineSegments_swap thr A B _ st st' h
    | rfl

theorem projectionStep_inside (obs : Box) (a b c d e f : Nat) (P : V3) (i : Nat) (st : CapsuleBox)
    (h : stepInside obs a b c d e f P) :
    projectionStep obs a b c d e f P i st = ({ st with d_c := Dist.fin 0 }, true) := by
  unfold projectionStep
  rw [if_pos h.1, if_pos h.2]

theorem projectionStep_outcome (obs : Box) (a b c d e f : Nat) (P : V3) (i : Nat) (st : CapsuleBox)
    (h : ¬ stepInside obs a b c d e f P) :
    projectionStep obs a b c d e f P i st =
      (applyOutcome st i (stepOutcome obs a b c d e f P), false) := by
  unfold projectionStep stepOutcome
  unfold stepInside at h
  by_cases h1 : (P.get a ≥ obs.get a ∧ P.get a ≤ obs.get d ∧ P.get b ≥ obs.get b ∧
      P.get b ≤ obs.get e)
  · have h2 : ¬ (P.get c > obs.get c ∧ P.get c < obs.get f) := fun hc => h ⟨h1, hc⟩
    rw [if_pos h1, if_neg h2, if_pos h1]
    split_ifs <;> rfl
  · rw [if_neg h1, if_neg h1]
    rfl

theorem swapRel_apply (st st' : CapsuleBox) (oA oB : Option (Nat × ℚ)) (h : SwapRel st st') :
    SwapRel (applyOutcome (applyOutcome st 0 oA) 1 oB)
      (applyOutcome (applyOutcome st' 0 oB) 1 oA) := by
  obtain ⟨h1, h2, h3, h4, h5⟩ := h
  cases oA with
  | none =>
    cases oB with
    | none => exact ⟨h1, h2, h3, h4, h5⟩
    | some b =>
      obtain ⟨rb, db⟩ := b
      refine ⟨h1, fun r => ?_, fun r => ?_, ?_, ?_⟩ <;>
        simp [applyOutcome, CapsuleBox.setProjection, h2, h3, h4, h5]
  | some a =>
    obtain ⟨ra, da⟩ := a
    cases oB with
    | none =>
      refine ⟨h1, fun r => ?_, fun r => ?_, ?_, ?_⟩ <;>
        simp [applyOutcome, CapsuleBox.setProjection, h2, h3, h4, h5]
    | some b =>
      obtain ⟨rb, db⟩ := b
      refine ⟨h1, fun r => ?_, fun r => ?_, ?_, ?_⟩ <;>
        simp [applyOutcome, CapsuleBox.setProjection, h2, h3, h4, h5]

theorem projectionStep_fst_d_c_of_flag (obs : Box) (a b c d e f : Nat) (P : V3) (i : Nat)
    (st : CapsuleBox) (h : (projectionStep obs a b c d e f P i st).2 = true) :
    (projectionStep obs a b c d e f P i st).1.d_c = Dist.fin 0 := by
  revert h
  unfold projectionStep
  split_ifs <;> simp

theorem projectionLineSegOnSide_swap (A B : V3) (obs : Box) (a b c d e f : Nat)
    (st st' : CapsuleBox) (h : SwapRel st st') :
    ((projectionLineSegOnSide A B obs a b c d e f st).d_c = Dist.fin 0 ∧
        (projectionLineSegOnSide B A obs a b c d e f st').d_c = Dist.fin 0) ∨
      SwapRel (projectionLineSegOnSide A B obs a b c d e f st)
        (projectionLineSegOnSide B A obs a b c d e f st') := by
  unfold projectionLineSegOnSide
  simp only
  by_cases hA : stepInside obs a b c d e f A
  · left
    constructor
    · rw [projectionStep_inside obs a b c d e f A 0 st hA]
      simp
    · split_ifs with hflag
      · exact projectionStep_fst_d_c_of_flag _ _ _ _ _ _ _ _ _ _ hflag
      · rw [projectionStep_inside obs a b c d e f A 1 _ hA]
  · by_cases hB : stepInside obs a b c d e f B
    · left
      constructor
      · rw [projectionStep_outcome obs a b c d e f A 0 st hA]
        simp only [Bool.false_eq_true, if_false]
        rw [projectionStep_inside obs a b c d e f B 1 _ hB]
      · rw [projectionStep_inside obs a b c d e f B 0 st' hB]
        simp
    · right
      rw [projectionStep_outcome obs a b c d e f A 0 st hA,
        projectionStep_outcome obs a b c d e f B 0 st' hB]
      simp only [Bool.false_eq_true, if_false]
      rw [projectionStep_outcome obs a b c d e f B 1 _ hB,
        projectionStep_outcome obs a b c d e f A 1 _ hA]
      exact swapRel_apply st st' _ _ h

theorem projectionStage_swap (A B : V3) (obs : Box) :
    ((projectionStage A B obs).d_c = Dist.fin 0 ∧ (projectionStage B A obs).d_c = Dist.fin 0) ∨
      SwapRel (projectionStage A B obs) (projectionStage B A obs) := by
  unfold projectionStage
  have h0 : SwapRel CapsuleBox.init CapsuleBox.init := ⟨rfl, fun _ => rfl, fun _ => rfl, rfl, rfl⟩
  rcases projectionLineSegOnSide_swap A B obs 1 2 0 4 5 3 _ _ h0 with ⟨z1, z1'⟩ | h1
  · left
    exact ⟨projectionLineSegOnSide_zero _ _ _ _ _ _ _ _ _ _
        (projectionLineSegOnSide_zero _ _ _ _ _ _ _ _ _ _ z1),
      projectionLineSegOnSide_zero _ _ _ _ _ _ _ _ _ _
        (projectionLineSegOnSide_zero _ _ _ _ _ _ _ _ _ _ z1')⟩
  · rcases projectionLineSegOnSide_swap A B obs 0 2 1 3 5 4 _ _ h1 with ⟨z2, z2'⟩ | h2
    · left
      exact ⟨projectionLineSegOnSide_zero _ _ _ _ _ _ _ _ _ _ z2,
        projectionLineSegOnSide_zero _ _ _ _ _ _ _ _ _ _ z2'⟩
    · exact projectionLineSegOnSide_swap A B obs 0 1 2 3 4 5 _ _ h2

theorem lerp_gt_iff (lo x y t : ℚ) (hx : lo ≤ x) (hy : lo ≤ y) (h0 : 0 < t) (h1 : t < 1) :
    lo < x + t * (y - x) ↔ (lo < x ∨ lo < y) := by
  have e : x + t * (y - x) - lo = (1 - t) * (x - lo) + t * (y - lo) := by ring
  constructor
  · intro h
    by_contra hc
    push_neg at hc
    have hx' : x = lo := le_antisymm hc.1 hx
    have hy' : y = lo := le_antisymm hc.2 hy
    rw [hx', hy'] at h
    simp at h
  · rintro (h | h)
    · have p1 : 0 < (1 - t) * (x - lo) := mul_pos (by linarith) (by linarith)
      have p2 : 0 ≤ t * (y - lo) := mul_nonneg h0.le (by linarith)
      linarith
    · have p1 : 0 ≤ (1 - t) * (x - lo) := mul_nonneg (by linarith) (by linarith)
      have p2 : 0 < t * (y - lo) := mul_pos h0 (by linarith)
      linarith

theorem lerp_lt_iff (hi x y t : ℚ) (hx : x ≤ hi) (hy : y ≤ hi) (h0 : 0 < t) (h1 : t < 1) :
    x + t * (y - x) < hi ↔ (x < hi ∨ y < hi) := by
  have h := lerp_gt_iff (-hi) (-x) (-y) t (by linarith) (by linarith) h0 h1
  have e : -x + t * (-y - -x) = -(x + t * (y - x)) := by ring
  rw [e] at h
  constructor
  · intro g
    rcases h.1 (by linarith) with h' | h'
    · exact Or.inl (by linarith)
    · exact Or.inr (by linarith)
  · intro g
    have := h.2 (by rcases g with g | g; exact Or.inl (by linarith); exact Or.inr (by linarith))
    linarith

theorem crossesFace_iff (A B : V3) (obs : Box) (k : Nat) (hi : Bool) (hk : k < 3) :
    crossesFace A B obs (faceIndex k hi) ↔
      (B.get k - A.get k ≠ 0 ∧
        0 < (obs.get (faceIndex k hi) - A.get k) / (B.get k - A.get k) ∧
        (obs.get (faceIndex k hi) - A.get k) / (B.get k - A.get k) < 1) ∧
      ∀ j, j < 3 → j ≠ k →
        obs.get j < lerpCoord A B ((obs.get (faceIndex k hi) - A.get k) / (B.get k - A.get k)) j ∧
        lerpCoord A B ((obs.get (faceIndex k hi) - A.get k) / (B.get k - A.get k)) j <
          obs.get (j + 3) := by
  have hc : (if faceIndex k hi > 2 then faceIndex k hi - 3 else faceIndex k hi) = k := by
    unfold faceIndex
    cases hi <;> simp
    omega
  unfold crossesFace
  rw [hc]
  generalize obs.get (faceIndex k hi) = p
  generalize hT : (p - A.get k) / (B.get k - A.get k) = t
  apply and_congr Iff.rfl
  interval_cases k
  · simp only [dropCoord, faceRec, insideRec, V2.add, V2.smul, V2.sub, v2_get_zero, v2_get_one,
      if_true, decide_eq_true_eq, gt_iff_lt, lerpCoord]
    constructor
    · rintro ⟨h1, h2, h3, h4⟩ j hj hjk
      interval_cases j
      · exact absurd rfl hjk
      · exact ⟨h1, h2⟩
      · exact ⟨h3, h4⟩
    · intro h
      exact ⟨(h 1 (by norm_num) (by norm_num)).1, (h 1 (by norm_num) (by norm_num)).2,
        (h 2 (by norm_num) (by norm_num)).1, (h 2 (by norm_num) (by norm_num)).2⟩
  · simp only [dropCoord, faceRec, insideRec, V2.add, V2.smul, V2.sub, v2_get_zero, v2_get_one,
      if_true, decide_eq_true_eq, gt_iff_lt, lerpCoord, one_ne_zero, if_false]
    constructor
    · rintro ⟨h1, h2, h3, h4⟩ j hj hjk
      interval_cases j
      · exact ⟨h1, h2⟩
      · exact absurd rfl hjk
      · exact ⟨h3, h4⟩
    · intro h
      exact ⟨(h 0 (by norm_num) (by norm_num)).1, (h 0 (by norm_num) (by norm_num)).2,
        (h 2 (by norm_num) (by norm_num)).1, (h 2 (by norm_num) (by norm_num)).2⟩
  · simp only [dropCoord, faceRec, insideRec, V2.add, V2.smul, V2.sub, v2_get_zero, v2_get_one,
      if_true, decide_eq_true_eq, gt_iff_lt, lerpCoord, one_ne_zero, if_false]
    constructor
    · rintro ⟨h1, h2, h3, h4⟩ j hj hjk
      interval_cases j
      · exact ⟨h1, h2⟩
      · exact ⟨h3, h4⟩
      · exact absurd rfl hjk
    · intro h
      exact ⟨(h 0 (by norm_num) (by norm_num)).1, (h 0 (by norm_num) (by norm_num)).2,
        (h 1 (by norm_num) (by norm_num)).1, (h 1 (by norm_num) (by norm_num)).2⟩

theorem adj_core (a eA eB t : ℚ) (ha : 0 ≤ a) (heA : 0 ≤ eA) (heB : 0 ≤ eB)
    (hden : a + eA ≠ 0) (ht : t = a / (a + eA)) (ht0 : 0 < t) (ht1 : t < 1)
    (hpsi : t * a < (1 - t) * eB) : 0 < a ∧ 0 < eA ∧ 0 < eB ∧ a * a < eA * eB := by
  have hs : 0 < a + eA := lt_of_le_of_ne (by linarith) (Ne.symm hden)
  have hta : t * (a + eA) = a := by rw [ht]; field_simp
  have ha' : 0 < a := by
    have := mul_pos ht0 hs
    linarith
  have heA' : 0 < eA := by
    by_contra hc
    have : eA = 0 := le_antisymm (not_lt.1 hc) heA
    rw [this, add_zero] at hta
    have : (t - 1) * a = 0 := by linarith
    rcases mul_eq_zero.1 this with h | h <;> linarith
  have heB' : 0 < eB := by
    by_contra hc
    have : eB = 0 := le_antisymm (not_lt.1 hc) heB
    rw [this, mul_zero] at hpsi
    have := mul_pos ht0 ha'
    linarith
  refine ⟨ha', heA', heB', ?_⟩
  -- (1 - t) a = t eA and t a < (1 - t) eB
  have k1 : (1 - t) * a = t * eA := by linarith
  have k2 : 0 < (1 - t) * a := mul_pos (by linarith) ha'
  have k3 : (t * a) * ((1 - t) * a) < ((1 - t) * eB) * ((1 - t) * a) :=
    mul_lt_mul_of_pos_right hpsi k2
  have k4 : ((1 - t) * eB) * ((1 - t) * a) = ((1 - t) * eB) * (t * eA) := by rw [k1]
  have k5 : (t * (1 - t)) * (a * a) < (t * (1 - t)) * (eA * eB) := by
    have e1 : (t * a) * ((1 - t) * a) = (t * (1 - t)) * (a * a) := by ring
    have e2 : ((1 - t) * eB) * (t * eA) = (t * (1 - t)) * (eA * eB) := by ring
    rw [← e1, ← e2, ← k4]
    exact k3
  exact lt_of_mul_lt_mul_left k5 (mul_nonneg ht0.le (by linarith))

theorem adj_core2 (a eA eB : ℚ) (ha : 0 < a) (heA : 0 < eA) (heB : 0 < eB)
    (h : a * a < eA * eB) :
    0 < eB / (a + eB) ∧ eB / (a + eB) < 1 ∧
      (1 - eB / (a + eB)) * a - eB / (a + eB) * eA < 0 ∧
      -eA < (1 - eB / (a + eB)) * a - eB / (a + eB) * eA := by
  have hs : 0 < a + eB := by linarith
  have t0 : 0 < eB / (a + eB) := div_pos heB hs
  have t1 : eB / (a + eB) < 1 := (div_lt_one hs).2 (by linarith)
  have e : (1 - eB / (a + eB)) * a - eB / (a + eB) * eA = (a * a - eA * eB) / (a + eB) := by
    field_simp
    ring
  refine ⟨t0, t1, ?_, ?_⟩
  · rw [e]
    exact div_neg_of_neg_of_pos (by linarith) hs
  · have p1 : 0 < (1 - eB / (a + eB)) * a := mul_pos (by linarith) ha
    have p2 : eB / (a + eB) * eA < 1 * eA := mul_lt_mul_of_pos_right t1 heA
    linarith

theorem adj_ll (u u' loA hiA v v' loB a : ℚ) (h1 : loA - u = a)
    (hu' : loA ≤ u' ∧ u' ≤ hiA) (h2 : loB - v' = a) (hv : loB ≤ v) (ha : 0 ≤ a)
    (hD : u' - u ≠ 0) (ht0 : 0 < (loA - u) / (u' - u)) (ht1 : (loA - u) / (u' - u) < 1)
    (hin : loB < v + (loA - u) / (u' - u) * (v' - v)) :
    v' - v ≠ 0 ∧ 0 < (loB - v) / (v' - v) ∧ (loB - v) / (v' - v) < 1 ∧
      loA < u + (loB - v) / (v' - v) * (u' - u) ∧
      u + (loB - v) / (v' - v) * (u' - u) < hiA := by
  have hden : u' - u = a + (u' - loA) := by linarith
  have hden0 : a + (u' - loA) ≠ 0 := by rwa [← hden]
  have hnum : loA - u = a := h1
  rw [hnum, hden] at ht0 ht1 hin
  have hpsi : a / (a + (u' - loA)) * a < (1 - a / (a + (u' - loA))) * (v - loB) := by
    have : v + a / (a + (u' - loA)) * (v' - v) =
        loB + ((1 - a / (a + (u' - loA))) * (v - loB) - a / (a + (u' - loA)) * a) := by
      have hv' : v' = loB - a := by linarith
      rw [hv']
      ring
    rw [this] at hin
    linarith
  obtain ⟨pa, peA, peB, hprod⟩ := adj_core a (u' - loA) (v - loB) (a / (a + (u' - loA))) ha
    (by linarith) (by linarith) hden0 rfl ht0 ht1 hpsi
  obtain ⟨c1, c2, c3, c4⟩ := adj_core2 a (u' - loA) (v - loB) pa peA peB hprod
  have hden' : v' - v = -(a + (v - loB)) := by linarith
  have hnum' : loB - v = -(v - loB) := by ring
  have ht' : (loB - v) / (v' - v) = (v - loB) / (a + (v - loB)) := by
    rw [hden', hnum', neg_div_neg_eq]
  rw [ht']
  refine ⟨?_, c1, c2, ?_, ?_⟩
  · rw [hden']
    intro h
    linarith
  · have : u + (v - loB) / (a + (v - loB)) * (u' - u) =
        loA - ((1 - (v - loB) / (a + (v - loB))) * a - (v - loB) / (a + (v - loB)) * (u' - loA)) := by
      have hu : u = loA - a := by linarith
      rw [hu]
      ring
    rw [this]
    linarith
  · have : u + (v - loB) / (a + (v - loB)) * (u' - u) =
        loA - ((1 - (v - loB) / (a + (v - loB))) * a - (v - loB) / (a + (v - loB)) * (u' - loA)) := by
      have hu : u = loA - a := by linarith
      rw [hu]
      ring
    rw [this]
    linarith

theorem negdiv (p u u' : ℚ) : (-p - -u) / (-u' - -u) = (p - u) / (u' - u) := by
  rw [show -p - -u = -(p - u) by ring, show -u' - -u = -(u' - u) by ring, neg_div_neg_eq]

theorem adj_scalar (u u' pA loA hiA v v' pB loB hiB a : ℚ)
    (hA : (pA = loA ∧ loA - u = a) ∨ (pA = hiA ∧ u - hiA = a))
    (hu' : loA ≤ u' ∧ u' ≤ hiA)
    (hB : (pB = loB ∧ loB - v' = a) ∨ (pB = hiB ∧ v' - hiB = a))
    (hv : loB ≤ v ∧ v ≤ hiB) (ha : 0 ≤ a)
    (hD : u' - u ≠ 0) (ht0 : 0 < (pA - u) / (u' - u)) (ht1 : (pA - u) / (u' - u) < 1)
    (hin : loB < v + (pA - u) / (u' - u) * (v' - v) ∧
      v + (pA - u) / (u' - u) * (v' - v) < hiB) :
    v' - v ≠ 0 ∧ 0 < (pB - v) / (v' - v) ∧ (pB - v) / (v' - v) < 1 ∧
      loA < u + (pB - v) / (v' - v) * (u' - u) ∧
      u + (pB - v) / (v' - v) * (u' - u) < hiA := by
  have hD' : -u' - -u ≠ 0 := fun h => hD (by linarith)
  rcases hA with ⟨rfl, h1⟩ | ⟨rfl, h1⟩ <;> rcases hB with ⟨rfl, h2⟩ | ⟨rfl, h2⟩
  · exact adj_ll u u' pA hiA v v' pB a h1 hu' h2 hv.1 ha hD ht0 ht1 hin.1
  · have key := adj_ll u u' pA hiA (-v) (-v') (-pB) a h1 hu' (by linarith) (by linarith) ha hD
      ht0 ht1 (by linarith [hin.2])
    rw [negdiv] at key
    obtain ⟨k1, k2, k3, k4, k5⟩ := key
    exact ⟨fun h => k1 (by linarith), k2, k3, k4, k5⟩
  · have key := adj_ll (-u) (-u') (-pA) (-loA) v v' pB a (by linarith)
      ⟨by linarith, by linarith⟩ h2 hv.1 ha hD' (by rw [negdiv]; exact ht0)
      (by rw [negdiv]; exact ht1) (by rw [negdiv]; exact hin.1)
    obtain ⟨k1, k2, k3, k4, k5⟩ := key
    exact ⟨k1, k2, k3, by linarith, by linarith⟩
  · have key := adj_ll (-u) (-u') (-pA) (-loA) (-v) (-v') (-pB) a (by linarith)
      ⟨by linarith, by linarith⟩ (by linarith) (by linarith) ha hD' (by rw [negdiv]; exact ht0)
      (by rw [negdiv]; exact ht1) (by rw [negdiv]; linarith [hin.2])
    rw [negdiv] at key
    obtain ⟨k1, k2, k3, k4, k5⟩ := key
    exact ⟨fun h => k1 (by linarith), k2, k3, by linarith, by linarith⟩

theorem faceSide (P : V3) (obs : Box) (k : Nat) (hi : Bool) (a : ℚ)
    (h : faceDist P obs k hi = a) :
    (obs.get (faceIndex k hi) = obs.get k ∧ obs.get k - P.get k = a) ∨
      (obs.get (faceIndex k hi) = obs.get (k + 3) ∧ P.get k - obs.get (k + 3) = a) := by
  cases hi
  · left
    exact ⟨rfl, by simpa [faceDist] using h⟩
  · right
    exact ⟨rfl, by simpa [faceDist] using h⟩

theorem crossesFace_adjacent (A B : V3) (obs : Box) (kA kB : Nat) (hA hB : Bool) (a : ℚ)
    (hkA : kA < 3) (hkB : kB < 3) (hne : kA ≠ kB)
    (h1 : faceDist A obs kA hA = a) (h2 : faceDist B obs kB hB = a) (ha : 0 ≤ a)
    (hAw : ∀ j, j < 3 → j ≠ kA → obs.get j ≤ A.get j ∧ A.get j ≤ obs.get (j + 3))
    (hBw : ∀ j, j < 3 → j ≠ kB → obs.get j ≤ B.get j ∧ B.get j ≤ obs.get (j + 3))
    (h : crossesFace A B obs (faceIndex kA hA)) : crossesFace A B obs (faceIndex kB hB) := by
  rw [crossesFace_iff A B obs kA hA hkA] at h
  rw [crossesFace_iff A B obs kB hB hkB]
  obtain ⟨⟨hD, ht0, ht1⟩, hin⟩ := h
  have key := adj_scalar (A.get kA) (B.get kA) (obs.get (faceIndex kA hA)) (obs.get kA)
    (obs.get (kA + 3)) (A.get kB) (B.get kB) (obs.get (faceIndex kB hB)) (obs.get kB)
    (obs.get (kB + 3)) a (faceSide A obs kA hA a h1) (hBw kA hkA hne)
    (faceSide B obs kB hB a h2) (hAw kB hkB (Ne.symm hne)) ha hD ht0 ht1
    (hin kB hkB (Ne.symm hne))
  obtain ⟨k1, k2, k3, k4, k5⟩ := key
  refine ⟨⟨k1, k2, k3⟩, fun j hj hjk => ?_⟩
  by_cases hjA : j = kA
  · subst hjA
    exact ⟨k4, k5⟩
  · have hAj := hAw j hj hjA
    have hBj := hBw j hj hjk
    have hj' := hin j hj hjA
    unfold lerpCoord at hj' ⊢
    exact ⟨(lerp_gt_iff _ _ _ _ hAj.1 hBj.1 k2 k3).2 ((lerp_gt_iff _ _ _ _ hAj.1 hBj.1 ht0 ht1).1 hj'.1),
      (lerp_lt_iff _ _ _ _ hAj.2 hBj.2 k2 k3).2 ((lerp_lt_iff _ _ _ _ hAj.2 hBj.2 ht0 ht1).1 hj'.2)⟩

theorem crossesFace_adjacent_iff (A B : V3) (obs : Box) (kA kB : Nat) (hA hB : Bool) (a : ℚ)
    (hkA : kA < 3) (hkB : kB < 3) (hne : kA ≠ kB)
    (h1 : faceDist A obs kA hA = a) (h2 : faceDist B obs kB hB = a) (ha : 0 ≤ a)
    (hAw : ∀ j, j < 3 → j ≠ kA → obs.get j ≤ A.get j ∧ A.get j ≤ obs.get (j + 3))
    (hBw : ∀ j, j < 3 → j ≠ kB → obs.get j ≤ B.get j ∧ B.get j ≤ obs.get (j + 3)) :
    crossesFace A B obs (faceIndex kA hA) ↔ crossesFace A B obs (faceIndex kB hB) := by
  constructor
  · exact crossesFace_adjacent A B obs kA kB hA hB a hkA hkB hne h1 h2 ha hAw hBw
  · intro h
    rw [← crossesFace_swap] at h ⊢
    exact crossesFace_adjacent B A obs kB kA hB hA a hkB hkA (Ne.symm hne) h2 h1 ha hBw hAw h

theorem crossesFace_opposite (A B : V3) (obs : Box) (k : Nat) (hk : k < 3)
    (hd : faceDist A obs k false = faceDist B obs k true)
    (hAw : ∀ j, j < 3 → j ≠ k → obs.get j ≤ A.get j ∧ A.get j ≤ obs.get (j + 3))
    (hBw : ∀ j, j < 3 → j ≠ k → obs.get j ≤ B.get j ∧ B.get j ≤ obs.get (j + 3)) :
    crossesFace A B obs (faceIndex k false) ↔ crossesFace A B obs (faceIndex k true) := by
  rw [crossesFace_iff A B obs k false hk, crossesFace_iff A B obs k true hk]
  simp only [faceDist, faceIndex, Bool.false_eq_true, if_false, if_true] at hd ⊢
  by_cases hD : B.get k - A.get k = 0
  · simp [hD]
  · have e : (obs.get (k + 3) - A.get k) / (B.get k - A.get k) =
        1 - (obs.get k - A.get k) / (B.get k - A.get k) := by
      field_simp
      linarith
    rw [e]
    generalize (obs.get k - A.get k) / (B.get k - A.get k) = t
    constructor
    · rintro ⟨⟨-, t0, t1⟩, hin⟩
      refine ⟨⟨hD, by linarith, by linarith⟩, fun j hj hjk => ?_⟩
      have hAj := hAw j hj hjk
      have hBj := hBw j hj hjk
      have hj' := hin j hj hjk
      unfold lerpCoord at hj' ⊢
      exact ⟨(lerp_gt_iff _ _ _ _ hAj.1 hBj.1 (by linarith) (by linarith)).2
          ((lerp_gt_iff _ _ _ _ hAj.1 hBj.1 t0 t1).1 hj'.1),
        (lerp_lt_iff _ _ _ _ hAj.2 hBj.2 (by linarith) (by linarith)).2
          ((lerp_lt_iff _ _ _ _ hAj.2 hBj.2 t0 t1).1 hj'.2)⟩
    · rintro ⟨⟨-, t0, t1⟩, hin⟩
      refine ⟨⟨hD, by linarith, by linarith⟩, fun j hj hjk => ?_⟩
      have hAj := hAw j hj hjk
      have hBj := hBw j hj hjk
      have hj' := hin j hj hjk
      unfold lerpCoord at hj' ⊢
      exact ⟨(lerp_gt_iff _ _ _ _ hAj.1 hBj.1 (by linarith) (by linarith)).2
          ((lerp_gt_iff _ _ _ _ hAj.1 hBj.1 (by linarith) (by linarith)).1 hj'.1),
        (lerp_lt_iff _ _ _ _ hAj.2 hBj.2 (by linarith) (by linarith)).2
          ((lerp_lt_iff _ _ _ _ hAj.2 hBj.2 (by linarith) (by linarith)).1 hj'.2)⟩

/-- Two distinct faces on which the endpoints project at the same distance are
crossed by the segment together. -/
theorem crossesFace_tie (A B : V3) (obs : Box) (kA kB : Nat) (hA hB : Bool) (a : ℚ)
    (hkA : kA < 3) (hkB : kB < 3) (hne : faceIndex kA hA ≠ faceIndex kB hB)
    (h1 : faceDist A obs kA hA = a) (h2 : faceDist B obs kB hB = a) (ha : 0 ≤ a)
    (hAw : ∀ j, j < 3 → j ≠ kA → obs.get j ≤ A.get j ∧ A.get j ≤ obs.get (j + 3))
    (hBw : ∀ j, j < 3 → j ≠ kB → obs.get j ≤ B.get j ∧ B.get j ≤ obs.get (j + 3)) :
    crossesFace A B obs (faceIndex kA hA) ↔ crossesFace A B obs (faceIndex kB hB) := by
  by_cases hk : kA = kB
  · subst hk
    cases hA <;> cases hB
    · exact absurd rfl hne
    · exact crossesFace_opposite A B obs kA hkA (by rw [h1, h2]) hAw hBw
    · have := crossesFace_opposite B A obs kA hkA (by rw [h1, h2]) hBw hAw
      rw [← crossesFace_swap A B, ← crossesFace_swap A B]
      exact this.symm
    · exact absurd rfl hne
  · exact crossesFace_adjacent_iff A B obs kA kB hA hB a hkA hkB hk h1 h2 ha hAw hBw

theorem edgePoint_comm (obs : Box) (k : Nat) (hi : Bool) (k2 : Nat) (hi2 top : Bool)
    (hk : k < 3) (hk2 : k2 < 3) (hne : k ≠ k2) :
    edgePoint obs k2 hi2 k hi top = edgePoint obs k hi k2 hi2 top := by
  interval_cases k <;> interval_cases k2 <;> first | exact absurd rfl hne | rfl

theorem faceSegments_none (P : V3) (obs : Box) (k : Nat) (hi : Bool) (hk : k < 3)
    (hw : ∀ j, j < 3 → j ≠ k → obs.get j ≤ P.get j ∧ P.get j ≤ obs.get (j + 3)) :
    faceSegments obs k hi P = none := by
  have a0' : 0 ≠ k → _ := hw 0 (by norm_num)
  have a1' : 1 ≠ k → _ := hw 1 (by norm_num)
  have a2' : 2 ≠ k → _ := hw 2 (by norm_num)
  clear hw
  interval_cases k <;>
    simp only [v3_get_zero, v3_get_one, v3_get_two, box_get_zero,
      box_get_one, box_get_two, box_get_three, box_get_four, box_get_five, ne_eq,
      OfNat.ofNat_ne_zero, OfNat.zero_ne_ofNat, not_false_eq_true, not_true_eq_false,
      forall_const, Nat.reduceAdd, Nat.reduceEqDiff, one_ne_zero, zero_ne_one,
      Nat.succ_ne_self, IsEmpty.forall_iff] at a0' a1' a2' <;>
    simp only [faceSegments, getLineSegments, dropCoord, faceRec,
      v3_get_zero, v3_get_one, v3_get_two, v2_get_zero, v2_get_one, box_get_zero,
      box_get_one, box_get_two, box_get_three, box_get_four, box_get_five,
      if_false, if_true, gt_iff_lt,
      OfNat.ofNat_ne_zero, OfNat.zero_ne_ofNat, one_ne_zero, zero_ne_one, Nat.reduceEqDiff] <;>
    split_ifs <;>
    first
      | rfl
      | (exfalso; linarith [a0'.1, a0'.2])
      | (exfalso; linarith [a1'.1, a1'.2])
      | simp_all

set_option maxHeartbeats 2000000 in
theorem faceSegments_front (P : V3) (obs : Box) (k : Nat) (hi : Bool) (k2 : Nat) (hi2 : Bool)
    (hk : k < 3) (hk2 : k2 < 3) (hne : k ≠ k2) (hwf : obs.get k2 ≤ obs.get (k2 + 3))
    (hd : 0 < faceDist P obs k2 hi2)
    (hw : ∀ j, j < 3 → j ≠ k2 → obs.get j ≤ P.get j ∧ P.get j ≤ obs.get (j + 3)) :
    faceSegments obs k hi P =
      some [(edgePoint obs k hi k2 hi2 false, edgePoint obs k hi k2 hi2 true)] := by
  have a0' : 0 ≠ k2 → _ := hw 0 (by norm_num)
  have a1' : 1 ≠ k2 → _ := hw 1 (by norm_num)
  have a2' : 2 ≠ k2 → _ := hw 2 (by norm_num)
  clear hw
  interval_cases k <;> interval_cases k2 <;> (try exact absurd rfl hne) <;>
    cases hi <;> cases hi2 <;>
    simp only [faceDist, faceIndex, v3_get_zero, v3_get_one, v3_get_two, box_get_zero,
      box_get_one, box_get_two, box_get_three, box_get_four, box_get_five, ne_eq,
      Bool.false_eq_true, if_false, if_true,
      OfNat.ofNat_ne_zero, OfNat.zero_ne_ofNat, not_false_eq_true, not_true_eq_false,
      forall_const, Nat.reduceAdd, Nat.reduceEqDiff, one_ne_zero, zero_ne_one,
      Nat.succ_ne_self, IsEmpty.forall_iff] at hwf hd a0' a1' a2' <;>
    simp only [faceSegments, getLineSegments, dropCoord, faceRec, edgePoint, get3DPoint, faceIndex,
      v3_get_zero, v3_get_one, v3_get_two, v2_get_zero, v2_get_one, box_get_zero,
      box_get_one, box_get_two, box_get_three, box_get_four, box_get_five,
      Bool.false_eq_true, if_false, if_true, gt_iff_lt, Nat.reduceAdd,
      OfNat.ofNat_ne_zero, OfNat.zero_ne_ofNat, one_ne_zero, zero_ne_one, Nat.reduceEqDiff,
      List.nil_append, List.singleton_append] <;>
    split_ifs <;>
    first
      | rfl
      | (exfalso; linarith [a0'.1, a0'.2])
      | (exfalso; linarith [a1'.1, a1'.2])
      | simp_all

theorem faceSegments_touch (P : V3) (obs : Box) (k : Nat) (hi : Bool) (k2 : Nat) (hi2 : Bool)
    (hk : k < 3) (hk2 : k2 < 3) (hwf : obs.get k2 ≤ obs.get (k2 + 3))
    (hd : faceDist P obs k2 hi2 = 0)
    (hw : ∀ j, j < 3 → j ≠ k2 → obs.get j ≤ P.get j ∧ P.get j ≤ obs.get (j + 3)) :
    faceSegments obs k hi P = none := by
  apply faceSegments_none P obs k hi hk
  intro j hj _
  by_cases hj2 : j = k2
  · subst hj2
    cases hi2 <;> simp only [faceDist, Bool.false_eq_true, if_false, if_true] at hd <;>
      constructor <;> linarith
  · exact hw j hj hj2

theorem faceSegments_tie (A B : V3) (obs : Box) (kA kB : Nat) (hA hB : Bool) (a : ℚ)
    (hkA : kA < 3) (hkB : kB < 3) (hne : faceIndex kA hA ≠ faceIndex kB hB)
    (h1 : faceDist A obs kA hA = a) (h2 : faceDist B obs kB hB = a) (ha : 0 ≤ a)
    (hAw : ∀ j, j < 3 → j ≠ kA → obs.get j ≤ A.get j ∧ A.get j ≤ obs.get (j + 3))
    (hBw : ∀ j, j < 3 → j ≠ kB → obs.get j ≤ B.get j ∧ B.get j ≤ obs.get (j + 3)) :
    faceSegments obs kB hB A = faceSegments obs kA hA B := by
  by_cases hk : kA = kB
  · subst hk
    rw [faceSegments_none A obs kA hB hkA hAw, faceSegments_none B obs kA hA hkA hBw]
  · have wfA : obs.get kA ≤ obs.get (kA + 3) := le_trans (hBw kA hkA hk).1 (hBw kA hkA hk).2
    have wfB : obs.get kB ≤ obs.get (kB + 3) :=
      le_trans (hAw kB hkB (Ne.symm hk)).1 (hAw kB hkB (Ne.symm hk)).2
    rcases eq_or_lt_of_le ha with h0 | h0
    · rw [faceSegments_touch A obs kB hB kA hA hkB hkA wfA (by rw [h1, ← h0]) hAw,
        faceSegments_touch B obs kA hA kB hB hkA hkB wfB (by rw [h2, ← h0]) hBw]
    · rw [faceSegments_front A obs kB hB kA hA hkB hkA (Ne.symm hk) wfA (by rw [h1]; exact h0) hAw,
        faceSegments_front B obs kA hA kB hB hkA hkB hk wfB (by rw [h2]; exact h0) hBw,
        edgePoint_comm obs kA hA kB hB false hkA hkB hk,
        edgePoint_comm obs kA hA kB hB true hkA hkB hk]

theorem checkEdges_firstRow (thr : ℚ) (A B : V3) (obs : Box) (projections : Nat → Nat → Bool)
    (point : V3) (idx : Nat) (st : Dist × Pts) :
    checkEdges thr A B obs projections point idx st =
      match firstRow projections idx with
      | none => none
      | some r => checkEdgesFace thr A B obs r (dropCoord point (axisOf r))
          (faceRec obs (axisOf r)).r0 (faceRec obs (axisOf r)).r1 (faceRec obs (axisOf r)).r2
          (faceRec obs (axisOf r)).r3 (axisOf r) st := by
  unfold checkEdges firstRow
  split_ifs <;> rfl

theorem firstRow_set (projections : Nat → Nat → Bool) (idx r : Nat)
    (h : firstRow projections idx = some r) : projections r idx = true := by
  unfold firstRow at h
  split_ifs at h <;> simp only [Option.some.injEq] at h <;> (subst h; assumption)

theorem firstRow_some (projections : Nat → Nat → Bool) (idx r : Nat) (hr : r < 6)
    (h : projections r idx = true) : ∃ r', firstRow projections idx = some r' := by
  unfold firstRow
  split_ifs <;> first | exact ⟨_, rfl⟩ | (exfalso; interval_cases r <;> simp_all)

theorem numProj_one_disjoint (projections : Nat → Nat → Bool) (h : numProj projections = 1)
    (r : Nat) (hr : r < 6) (h0 : projections r 0 = true) (h1 : projections r 1 = true) :
    False := by
  unfold numProj at h
  simp only [List.map, List.foldl] at h
  interval_cases r <;> simp only [h0, h1, if_true] at h <;> omega

theorem axisOf_faceIndex (k : Nat) (hi : Bool) (hk : k < 3) : axisOf (faceIndex k hi) = k := by
  unfold axisOf faceIndex
  cases hi <;> simp
  omega

theorem distanceToMoreLineSegments_fst (thr : ℚ) (A B : V3) (edges : List (V3 × V3))
    (st st' : Dist × Pts) (h : st'.1 = st.1) :
    (distanceToMoreLineSegments thr A B edges st').1 =
      (distanceToMoreLineSegments thr A B edges st).1 := by
  rw [← distanceToMoreLineSegments_swap thr A B edges st st rfl]
  exact (distanceToMoreLineSegments_swap thr A B edges st' st (by rw [h])).symm ▸ rfl

theorem checkEdgesFace_fst (thr : ℚ) (A B : V3) (obs : Box) (k : Nat) (hi : Bool) (P : V3)
    (st : Dist × Pts) :
    (checkEdgesFace thr A B obs (faceIndex k hi) (dropCoord P k) (faceRec obs k).r0
        (faceRec obs k).r1 (faceRec obs k).r2 (faceRec obs k).r3 k st).map Prod.fst =
      if collisionCapsuleToRectangle thr A B 0 obs (faceIndex k hi) = true then
        some (Dist.fin 0)
      else (faceSegments obs k hi P).map
        (fun es => (distanceToMoreLineSegments thr A B es st).1) := by
  unfold checkEdgesFace faceSegments
  cases collisionCapsuleToRectangle thr A B 0 obs (faceIndex k hi)
  · simp only [Bool.not_false, if_true, Bool.false_eq_true, if_false]
    cases getLineSegments (dropCoord P k) (faceRec obs k).r0 (faceRec obs k).r1
      (faceRec obs k).r2 (faceRec obs k).r3 (obs.get (faceIndex k hi)) k <;> rfl
  · rfl

theorem checkEdges_tie (thr : ℚ) (A B : V3) (obs : Box) (st : CapsuleBox) (a : ℚ)
    (hA : ProjInv A obs 0 3 st) (hB : ProjInv B obs 1 3 st)
    (hn : numProj st.projections = 1) (hda : st.dist_A = some a) (hdb : st.dist_B = some a)
    (s0 s1 : Dist × Pts) (hs : s1.1 = s0.1) :
    (checkEdges thr A B obs st.projections A 1 s1).map Prod.fst =
      (checkEdges thr A B obs st.projections B 0 s0).map Prod.fst := by
  obtain ⟨r0, hr0⟩ := hA.2 a (by simpa [colDist] using hda)
  obtain ⟨r1, hr1⟩ := hB.2 a (by simpa [colDist] using hdb)
  have lt6 : ∀ (P : V3) (i r : Nat), ProjInv P obs i 3 st → st.projections r i = true → r < 6 := by
    intro P i r hP hr
    obtain ⟨d, -, k, hi, hk, rfl, -⟩ := hP.1 r hr
    exact faceIndex_lt k hi hk
  obtain ⟨fA, hfA⟩ := firstRow_some st.projections 0 r0 (lt6 A 0 r0 hA hr0) hr0
  obtain ⟨fB, hfB⟩ := firstRow_some st.projections 1 r1 (lt6 B 1 r1 hB hr1) hr1
  have sA := firstRow_set _ _ _ hfA
  have sB := firstRow_set _ _ _ hfB
  obtain ⟨dA, hdA, kA, hiA, hkA, hrA, hdA', hA0, hAw⟩ := hA.1 fA sA
  obtain ⟨dB, hdB, kB, hiB, hkB, hrB, hdB', hB0, hBw⟩ := hB.1 fB sB
  have eA : dA = a := by
    simp only [colDist, if_true, hda, Option.some.injEq] at hdA
    exact hdA.symm
  have eB : dB = a := by
    simp only [colDist, one_ne_zero, if_false, hdb, Option.some.injEq] at hdB
    exact hdB.symm
  have hne : faceIndex kA hiA ≠ faceIndex kB hiB := by
    intro h
    rw [← hrA, ← hrB] at h
    rw [← h] at sB
    exact numProj_one_disjoint st.projections hn fA (lt6 A 0 fA hA sA) sA sB
  rw [checkEdges_firstRow, checkEdges_firstRow, hfA, hfB]
  simp only
  rw [hrA, hrB, axisOf_faceIndex kA hiA hkA, axisOf_faceIndex kB hiB hkB,
    checkEdgesFace_fst, checkEdgesFace_fst,
    faceSegments_tie A B obs kA kB hiA hiB a hkA hkB hne (by rw [← hdA', eA])
      (by rw [← hdB', eB]) (by rw [← eA]; exact hA0) hAw hBw]
  have hc := crossesFace_tie A B obs kA kB hiA hiB a hkA hkB hne (by rw [← hdA', eA])
      (by rw [← hdB', eB]) (by rw [← eA]; exact hA0) hAw hBw
  have hc' : collisionCapsuleToRectangle thr A B 0 obs (faceIndex kB hiB) =
      collisionCapsuleToRectangle thr A B 0 obs (faceIndex kA hiA) := by
    have h1 := rect_zero thr A B obs (faceIndex kA hiA)
    have h2 := rect_zero thr A B obs (faceIndex kB hiB)
    cases ha : collisionCapsuleToRectangle thr A B 0 obs (faceIndex kA hiA) <;>
      cases hb : collisionCapsuleToRectangle thr A B 0 obs (faceIndex kB hiB) <;> simp_all
  rw [hc']
  cases collisionCapsuleToRectangle thr A B 0 obs (faceIndex kA hiA)
  · simp only [Bool.false_eq_true, if_false]
    cases faceSegments obs kA hiA B with
    | none => rfl
    | some es =>
      simp only [Option.map_some']
      rw [distanceToMoreLineSegments_fst thr A B es s0 s1 hs]
  · rfl

theorem numProj_swap (p p' : Nat → Nat → Bool) (h0 : ∀ r, p' r 0 = p r 1)
    (h1 : ∀ r, p' r 1 = p r 0) : numProj p' = numProj p := by
  unfold numProj
  simp only [List.map, h0, h1]
  simp only [add_comm]

theorem nearestProjection_fst (A B : V3) (obs : Box) (st : CapsuleBox) :
    (nearestProjection A B obs st).1 = if distLt st.dist_A st.dist_B then 0 else 1 := rfl

theorem nearestProjection_d_c (A B : V3) (obs : Box) (st : CapsuleBox) :
    (nearestProjection A B obs st).2.1 =
      match (if distLt st.dist_A st.dist_B then st.dist_A else st.dist_B) with
      | some v => Dist.fin (v * v)
      | none => Dist.inf := by
  unfold nearestProjection
  simp only
  by_cases h : distLt st.dist_A st.dist_B = true
  · simp only [h, if_true]
  · simp only [h, if_false, one_ne_zero, Bool.false_eq_true]

theorem nearestProjection_swap (A B : V3) (obs : Box) (st st' : CapsuleBox)
    (h : SwapRel st st') :
    (nearestProjection B A obs st').2.1 = (nearestProjection A B obs st).2.1 := by
  obtain ⟨-, -, -, h4, h5⟩ := h
  rw [nearestProjection_d_c, nearestProjection_d_c, h4, h5]
  cases hda : st.dist_A with
  | none =>
    cases hdb : st.dist_B with
    | none => rfl
    | some b => simp [distLt]
  | some a =>
    cases hdb : st.dist_B with
    | none => simp [distLt]
    | some b =>
      simp only [distLt]
      rcases lt_trichotomy a b with hab | hab | hab
      · have : ¬ b < a := not_lt.2 hab.le
        simp [hab, this]
      · subst hab
        simp
      · have : ¬ a < b := not_lt.2 hab.le
        simp [hab, this]

theorem distanceCapsuleToBox_key (thr : ℚ) (A B : V3) (radius : ℚ) (obs : Box) :
    (distanceCapsuleToBox thr A B radius obs).map (fun r => (r.d_c, r.sub)) =
      if (projectionStage A B obs).d_c = Dist.fin 0 then some (Dist.fin 0, 0)
      else if numProj (projectionStage A B obs).projections > 0 then
        if numProj (projectionStage A B obs).projections = 1 then
          ((checkEdges thr A B obs (projectionStage A B obs).projections
            (if (nearestProjection A B obs (projectionStage A B obs)).1 = 0 then B else A)
            (nearestProjection A B obs (projectionStage A B obs)).1
            (nearestProjection A B obs (projectionStage A B obs)).2).map Prod.fst).map
              (fun d => (d, radius))
        else some ((nearestProjection A B obs (projectionStage A B obs)).2.1, radius)
      else some ((checkOtherCases thr A B obs ((projectionStage A B obs).d_c,
        (projectionStage A B obs).nearest_pts)).1, radius) := by
  unfold distanceCapsuleToBox
  simp only
  by_cases h0 : (projectionStage A B obs).d_c = Dist.fin 0
  · rw [if_pos h0, if_pos h0]
    rfl
  · rw [if_neg h0, if_neg h0]
    by_cases h1 : numProj (projectionStage A B obs).projections > 0
    · rw [if_pos h1, if_pos h1]
      by_cases h2 : numProj (projectionStage A B obs).projections = 1
      · rw [if_pos h2, if_pos h2]
        cases checkEdges thr A B obs (projectionStage A B obs).projections
            (if (nearestProjection A B obs (projectionStage A B obs)).1 = 0 then B else A)
            (nearestProjection A B obs (projectionStage A B obs)).1
            (nearestProjection A B obs (projectionStage A B obs)).2 <;> rfl
      · rw [if_neg h2, if_neg h2]
        rfl
    · rw [if_neg h1, if_neg h1]
      rfl

theorem swap_distance_aux (thr : ℚ) (A B : V3) (obs : Box) (st st' : CapsuleBox)
    (hrel : SwapRel st st') (hA : ProjInv A obs 0 3 st) (hB : ProjInv B obs 1 3 st)
    (h1 : numProj st.projections > 0) (h2 : numProj st.projections = 1) :
    (checkEdges thr B A obs st'.projections
        (if (nearestProjection B A obs st').1 = 0 then A else B)
        (nearestProjection B A obs st').1 (nearestProjection B A obs st').2).map Prod.fst =
      (checkEdges thr A B obs st.projections
        (if (nearestProjection A B obs st).1 = 0 then B else A)
        (nearestProjection A B obs st).1 (nearestProjection A B obs st).2).map Prod.fst := by
  have hnp := nearestProjection_swap A B obs st st' hrel
  obtain ⟨-, hp0, hp1, hdA, hdB⟩ := hrel
  rw [nearestProjection_fst, nearestProjection_fst, hdA, hdB]
  generalize (nearestProjection B A obs st').2 = s' at hnp ⊢
  generalize (nearestProjection A B obs st).2 = s at hnp ⊢
  by_cases c1 : distLt st.dist_A st.dist_B = true
  · have c2 : distLt st.dist_B st.dist_A = false := by
      cases hda : st.dist_A <;> cases hdb : st.dist_B <;>
        simp only [hda, hdb, distLt, decide_eq_true_eq, decide_eq_false_iff_not, not_lt,
          Bool.false_eq_true] at c1 ⊢
      exact c1.le
    rw [c1, c2]
    simp only [if_true, Bool.false_eq_true, if_false, one_ne_zero]
    exact checkEdges_swap thr A B obs st.projections st'.projections B 0 1 s s' hnp hp1
  · have c1' : distLt st.dist_A st.dist_B = false := by simpa using c1
    by_cases c2 : distLt st.dist_B st.dist_A = true
    · rw [c1', c2]
      simp only [if_true, Bool.false_eq_true, if_false, one_ne_zero]
      exact checkEdges_swap thr A B obs st.projections st'.projections A 1 0 s s' hnp hp0
    · have c2' : distLt st.dist_B st.dist_A = false := by simpa using c2
      rw [c1', c2']
      simp only [Bool.false_eq_true, if_false, one_ne_zero]
      rw [checkEdges_swap thr A B obs st.projections st'.projections B 0 1 s s' hnp hp1]
      have hab : ∃ a, st.dist_A = some a ∧ st.dist_B = some a := by
        rcases colDist_of_numProj A B obs st hA hB h1 with ⟨ht, -⟩ | ⟨-, b, hb⟩
        · rw [c1'] at ht
          cases ht
        · cases hda : st.dist_A with
          | none =>
            rw [hda, hb] at c2'
            simp [distLt] at c2'
          | some a =>
            rw [hda, hb] at c1' c2'
            simp only [distLt, decide_eq_false_iff_not, not_lt] at c1' c2'
            exact ⟨a, rfl, by rw [hb, le_antisymm c2' c1']⟩
      obtain ⟨a, hda, hdb⟩ := hab
      exact (checkEdges_tie thr A B obs st a hA hB h2 hda hdb s s rfl).symm

/-! ## The boolean box test -/

/-- C3 (fails on the code): with box `[0,1] x [0,1] x [5,6]`, radius `4.2` and the
short segment from `(-0.01, 5.1, 0.9)` to `(0.01, 5.1, 0.9)`, the boolean test
`collisionCapsuleToBox` answers `true` although every point of the segment is
farther than the radius from every point of the box (squared distance above
`4.2^2`): the corner tests of `collisionCapsuleToRectangle` index `rec` wrongly. -/
theorem collisionCapsuleToBox_false_positive (thr : ℚ) :
    collisionCapsuleToBox thr ⟨-1/100, 51/10, 9/10⟩ ⟨1/100, 51/10, 9/10⟩ (21/5)
        ⟨0, 0, 5, 1, 1, 6⟩ = true ∧
      ∀ p b, onSegment p ⟨-1/100, 51/10, 9/10⟩ ⟨1/100, 51/10, 9/10⟩ →
        inBox b ⟨0, 0, 5, 1, 1, 6⟩ → (21/5 : ℚ) * (21/5) < sqDist p b := by
  constructor
  · simp only [collisionCapsuleToBox, nearBox, separated, axisTest, collisionCapsuleToRectangle,
      crossingHits, faceRec, dropCoord, ltRNew, normLt, V3.get, V2.get, Box.get, V2.add, V2.sub,
      V2.smul, V2.squaredNorm]
    norm_num
  · intro p b hp hb
    obtain ⟨t, h0, h1, hx, hy, hz⟩ := onSegment_coords hp
    obtain ⟨-, -, -, hb4, hb5, -⟩ := hb
    simp only [sqDist, V3.sub, V3.squaredNorm, V3.dot]
    simp only at hy hz hb4 hb5
    rw [hy, hz]
    ring_nf
    nlinarith [sq_nonneg (p.x - b.x), mul_self_nonneg (b.y - 1), mul_self_nonneg (b.z - 5)]

/-- C4 (fails on the code): with the unit box, radius `0.75`, `A = (0.5, 2.5, 0.5)`
and `B = (0, 1.5, 0.5)`, the boolean test answers `false` although the endpoint
`B` is at distance `0.5 < 0.75` from the box point `(0, 1, 0.5)`: the projection
of `B` lies on the border of the face rectangle, which is neither "inside" nor
beyond a bound for `checkCases`. -/
theorem collisionCapsuleToBox_false_negative (thr : ℚ) :
    collisionCapsuleToBox thr ⟨1/2, 5/2, 1/2⟩ ⟨0, 3/2, 1/2⟩ (3/4) ⟨0, 0, 0, 1, 1, 1⟩ = false ∧
      onSegment ⟨0, 3/2, 1/2⟩ ⟨1/2, 5/2, 1/2⟩ ⟨0, 3/2, 1/2⟩ ∧
      inBox ⟨0, 1, 1/2⟩ ⟨0, 0, 0, 1, 1, 1⟩ ∧
      sqDist ⟨0, 3/2, 1/2⟩ ⟨0, 1, 1/2⟩ < (3/4 : ℚ) * (3/4) := by
  refine ⟨?_, ⟨1, by norm_num, by norm_num, by norm_num [V3.add, V3.smul, V3.sub]⟩, ?_, ?_⟩
  · have hcc : checkCases thr ⟨1/2, 5/2, 1/2⟩ ⟨0, 3/2, 1/2⟩ ⟨0, 0, 1, 1⟩ ⟨0, 1/2⟩ 1 1 = Dist.inf :=
      checkCases_inf _ _ _ _ _ _ _ (by norm_num) (by norm_num) (by norm_num) (by norm_num)
    have hrect : collisionCapsuleToRectangle thr ⟨1/2, 5/2, 1/2⟩ ⟨0, 3/2, 1/2⟩ (3/4)
        ⟨0, 0, 0, 1, 1, 1⟩ 4 = false := by
      simp only [collisionCapsuleToRectangle, capsuleRectangleTail, insideRec, get3DPoint,
        faceRec, dropCoord, V3.get, V2.get, Box.get]
      norm_num [hcc, Dist.min, Dist.lt, Dist.ltScalar, Dist.gtScalar, normLt, normGt, V3.sub,
        V3.dot, V3.squaredNorm]
    simp only [collisionCapsuleToBox, nearBox, separated, axisTest, ltRNew, V3.get, Box.get]
    norm_num [hrect]
  · norm_num [inBox]
  · norm_num [sqDist, V3.sub, V3.squaredNorm, V3.dot]

/-- C5 (fails on the code): with the unit box and radius `0`, the segment from
`(2.5, -0.5, -1)` to `(0.5, 0.5, 1)` crosses the face `x_max` at `(1, 0.25, 0.5)`;
`collisionCapsuleToBox` answers `true` for the order `(A, B)` and `false` for
the order `(B, A)`, where the first endpoint lies on the plane `z_max` and no
face is tested. -/
theorem collisionCapsuleToBox_swap_differs (thr : ℚ) :
    collisionCapsuleToBox thr ⟨5/2, -1/2, -1⟩ ⟨1/2, 1/2, 1⟩ 0 ⟨0, 0, 0, 1, 1, 1⟩ = true ∧
    collisionCapsuleToBox thr ⟨1/2, 1/2, 1⟩ ⟨5/2, -1/2, -1⟩ 0 ⟨0, 0, 0, 1, 1, 1⟩ = false := by
  constructor
  · simp only [collisionCapsuleToBox, nearBox, separated, axisTest, collisionCapsuleToRectangle,
      capsuleRectangleTail, insideRec, get3DPoint,
      crossingHits, faceRec, dropCoord, ltRNew, normLt, normGt, V3.get, V2.get, Box.get, V2.add,
      V2.sub, V2.smul]
    norm_num
  · simp only [collisionCapsuleToBox, nearBox, separated, axisTest, collisionCapsuleToRectangle,
      capsuleRectangleTail, insideRec, get3DPoint,
      crossingHits, faceRec, dropCoord, ltRNew, normLt, normGt, V3.get, V2.get, Box.get, V2.add,
      V2.sub, V2.smul]
    norm_num

/-! ## Endpoint inside the box -/

/-- C7: if an endpoint lies strictly inside the box then, for every radius `>= 0`
and every other endpoint, `collisionCapsuleToBox` returns `true` and
`distanceCapsuleToBox` returns the distance `0` with a null nearest-points
pair. -/
theorem endpoint_inside_collides (thr : ℚ) (A B : V3) (radius : ℚ) (obs : Box) (hr : 0 ≤ radius)
    (h : strictlyInside A obs ∨ strictlyInside B obs) :
    collisionCapsuleToBox thr A B radius obs = true ∧
      distanceCapsuleToBox thr A B radius obs = some ⟨Dist.fin 0, 0, Pts.null⟩ := by
  constructor
  · unfold collisionCapsuleToBox
    rcases h with h | h
    · simp [nearBox_of_inside A radius obs hr h]
    · simp [nearBox_of_inside B radius obs hr h]
  · exact distanceCapsuleToBox_inside thr A B radius obs h

/-- The statement of `endpoint_inside_collides` at the box `[0,1]^3` with
`A = (0.5, 0.5, 0.5)`. -/
theorem endpoint_inside_collides_witness :
    (0 : ℚ) ≤ 1 / 20 ∧ (strictlyInside ⟨1/2, 1/2, 1/2⟩ ⟨0, 0, 0, 1, 1, 1⟩ ∨
        strictlyInside ⟨3, 4, 5⟩ ⟨0, 0, 0, 1, 1, 1⟩) ∧
      collisionCapsuleToBox (1/1000000) ⟨1/2, 1/2, 1/2⟩ ⟨3, 4, 5⟩ (1/20) ⟨0, 0, 0, 1, 1, 1⟩ = true ∧
      distanceCapsuleToBox (1/1000000) ⟨1/2, 1/2, 1/2⟩ ⟨3, 4, 5⟩ (1/20) ⟨0, 0, 0, 1, 1, 1⟩ =
        some ⟨Dist.fin 0, 0, Pts.null⟩ :=
  ⟨by norm_num, Or.inl (by norm_num [strictlyInside]),
    endpoint_inside_collides _ _ _ _ _ (by norm_num) (Or.inl (by norm_num [strictlyInside]))⟩


/-! ## Both endpoints in front of one face -/

/-- C8: if both endpoints lie outside the box beyond the same face `(k, hi)` and
both project orthogonally into the rectangle of that face, then
`distanceCapsuleToBox` returns `m - radius`, where `m` is the smaller of the two
endpoint-to-face-plane distances (`d_c` holds `m^2`, `sub` holds the radius),
and the nearest-points pair is the nearer endpoint (`B` on a tie) together
with its orthogonal projection onto the face. -/
theorem sameFace_distance_and_witness (thr : ℚ) (A B : V3) (radius : ℚ) (obs : Box) (k : Nat)
    (hi : Bool) (hk : k < 3) (hw : obs.wf) (hA : inFrontOf A obs k hi)
    (hB : inFrontOf B obs k hi) :
    distanceCapsuleToBox thr A B radius obs =
        some ⟨Dist.fin (min (faceDist A obs k hi) (faceDist B obs k hi) *
            min (faceDist A obs k hi) (faceDist B obs k hi)), radius,
          Pts.pts (if faceDist A obs k hi < faceDist B obs k hi then A else B)
            (setCoord (if faceDist A obs k hi < faceDist B obs k hi then A else B) k
              (obs.get (faceIndex k hi)))⟩ ∧
      Real.sqrt ((min (faceDist A obs k hi) (faceDist B obs k hi) *
          min (faceDist A obs k hi) (faceDist B obs k hi) : ℚ) : ℝ) - (radius : ℝ) =
        ((min (faceDist A obs k hi) (faceDist B obs k hi) : ℚ) : ℝ) - (radius : ℝ) := by
  refine ⟨distanceCapsuleToBox_sameFace thr A B radius obs k hi hk hw hA hB, ?_⟩
  have hm : (0 : ℚ) ≤ min (faceDist A obs k hi) (faceDist B obs k hi) :=
    le_min hA.1.le hB.1.le
  have hm' : (0 : ℝ) ≤ ((min (faceDist A obs k hi) (faceDist B obs k hi) : ℚ) : ℝ) := by
    exact_mod_cast hm
  rw [Rat.cast_mul, Real.sqrt_mul_self hm']

/-- Scenario A: box `[0,1]^3`, `A = (-1, 0.5, 0.5)`, `B = (-0.1, 0.5, 0.5)`,
radius `0.05`: the distance is `√(1/100) - 1/20 = 0.05`, attained at `B` and
its projection `(0, 0.5, 0.5)`. -/
theorem sameFace_distance_and_witness_scenarioA :
    (0 < 3 ∧ Box.wf ⟨0, 0, 0, 1, 1, 1⟩ ∧ inFrontOf ⟨-1, 1/2, 1/2⟩ ⟨0, 0, 0, 1, 1, 1⟩ 0 false ∧
      inFrontOf ⟨-1/10, 1/2, 1/2⟩ ⟨0, 0, 0, 1, 1, 1⟩ 0 false) ∧
    distanceCapsuleToBox (1/1000000) ⟨-1, 1/2, 1/2⟩ ⟨-1/10, 1/2, 1/2⟩ (1/20) ⟨0, 0, 0, 1, 1, 1⟩ =
      some ⟨Dist.fin (1/100), 1/20, Pts.pts ⟨-1/10, 1/2, 1/2⟩ ⟨0, 1/2, 1/2⟩⟩ := by
  have hw : Box.wf ⟨0, 0, 0, 1, 1, 1⟩ := by norm_num [Box.wf]
  have hA : inFrontOf ⟨-1, 1/2, 1/2⟩ ⟨0, 0, 0, 1, 1, 1⟩ 0 false := by
    refine ⟨by norm_num [faceDist, V3.get, Box.get], ?_⟩
    intro j hj hj0
    interval_cases j <;> norm_num [V3.get, Box.get] at hj0 ⊢
  have hB : inFrontOf ⟨-1/10, 1/2, 1/2⟩ ⟨0, 0, 0, 1, 1, 1⟩ 0 false := by
    refine ⟨by norm_num [faceDist, V3.get, Box.get], ?_⟩
    intro j hj hj0
    interval_cases j <;> norm_num [V3.get, Box.get] at hj0 ⊢
  refine ⟨⟨by norm_num, hw, hA, hB⟩, ?_⟩
  rw [(sameFace_distance_and_witness (1/1000000) _ _ (1/20) _ 0 false (by norm_num) hw hA hB).1]
  norm_num [faceDist, faceIndex, setCoord, V3.get, Box.get]

/-! ## The nearest-points pair -/

/-- C10: for a well-formed box and a radius `>= 0`, whenever
`distanceCapsuleToBox` returns a positive distance `d = √d_c - sub` together
with a nearest-points pair `(P, Q)`, the point `P` lies on the segment `AB`, the
point `Q` lies on the surface of the box, `sub` is the radius and `d_c` is
`|P - Q|^2`, so that `|P - Q| = d + radius`. -/
theorem witness_pair_realises_distance (thr : ℚ) (A B : V3) (radius : ℚ) (obs : Box) (res : BoxDistance) (P Q : V3)
    (hw : obs.wf) (hr : 0 ≤ radius) (h : distanceCapsuleToBox thr A B radius obs = some res)
    (hp : res.nearest_pts = Pts.pts P Q) (hpos : res.positive = true) :
    onSegment P A B ∧ onSurface Q obs ∧ res.sub = radius ∧ res.d_c = Dist.fin (sqDist P Q) ∧
      Real.sqrt ((sqDist P Q : ℚ) : ℝ) = (Real.sqrt ((sqDist P Q : ℚ) : ℝ) - (res.sub : ℝ)) +
        (radius : ℝ) := by
  rcases distanceCapsuleToBox_pair thr A B radius obs hw res h with rfl | ⟨hs, hb⟩
  · simp at hp
  · obtain ⟨h1, h2, h3⟩ := hb P Q hp
    simp only at h3
    rcases h3 with h3 | h3
    · exact ⟨h1, h2, hs, h3, by rw [hs]; ring⟩
    · exfalso
      simp only [BoxDistance.positive, h3, Dist.gtScalar, normGt, hs, decide_eq_true_eq] at hpos
      rcases hpos with hpos | hpos
      · linarith
      · nlinarith


/-- The statement of `witness_pair_realises_distance` at Scenario A (box
`[0,1]^3`, `A = (-1, 0.5, 0.5)`, `B = (-0.1, 0.5, 0.5)`, radius `0.05`). -/
theorem witness_pair_realises_distance_scenarioA :
    onSegment ⟨-1/10, 1/2, 1/2⟩ ⟨-1, 1/2, 1/2⟩ ⟨-1/10, 1/2, 1/2⟩ ∧
      onSurface ⟨0, 1/2, 1/2⟩ ⟨0, 0, 0, 1, 1, 1⟩ ∧
      (⟨Dist.fin (1/100), 1/20, Pts.pts ⟨-1/10, 1/2, 1/2⟩ ⟨0, 1/2, 1/2⟩⟩ : BoxDistance).d_c =
        Dist.fin (sqDist ⟨-1/10, 1/2, 1/2⟩ ⟨0, 1/2, 1/2⟩) := by
  have h := witness_pair_realises_distance (1/1000000) ⟨-1, 1/2, 1/2⟩ ⟨-1/10, 1/2, 1/2⟩ (1/20)
    ⟨0, 0, 0, 1, 1, 1⟩ ⟨Dist.fin (1/100), 1/20, Pts.pts ⟨-1/10, 1/2, 1/2⟩ ⟨0, 1/2, 1/2⟩⟩
    ⟨-1/10, 1/2, 1/2⟩ ⟨0, 1/2, 1/2⟩ (by norm_num [Box.wf]) (by norm_num) (by decide!) rfl
    (by decide!)
  exact ⟨h.1, h.2.1, h.2.2.2.1⟩

/-! ## Symmetry of the distance -/

/-- C6: swapping the capsule endpoints never changes the distance returned by
`distanceCapsuleToBox`: for every threshold, `A`, `B`, radius and box, the call
on `(B, A)` reads an unassigned edge matrix exactly when the call on `(A, B)`
does, and otherwise both return the same `d_c` and subtract the same radius. -/
theorem distanceCapsuleToBox_swap (thr : ℚ) (A B : V3) (radius : ℚ) (obs : Box) :
    (distanceCapsuleToBox thr B A radius obs).map (fun r => (r.d_c, r.sub)) =
      (distanceCapsuleToBox thr A B radius obs).map (fun r => (r.d_c, r.sub)) := by
  rw [distanceCapsuleToBox_key, distanceCapsuleToBox_key]
  rcases projectionStage_swap A B obs with ⟨z, z'⟩ | hrel
  · rw [if_pos z, if_pos z']
  · have inv := projectionStage_inv A B obs
    have hrel' := hrel
    obtain ⟨hd, hp0, hp1, -, -⟩ := hrel'
    rw [hd, numProj_swap _ _ hp0 hp1]
    by_cases h0 : (projectionStage A B obs).d_c = Dist.fin 0
    · rw [if_pos h0, if_pos h0]
    · rw [if_neg h0, if_neg h0]
      by_cases h1 : numProj (projectionStage A B obs).projections > 0
      · rw [if_pos h1, if_pos h1]
        by_cases h2 : numProj (projectionStage A B obs).projections = 1
        · rw [if_pos h2, if_pos h2,
            swap_distance_aux thr A B obs _ _ hrel inv.1 inv.2 h1 h2]
        · rw [if_neg h2, if_neg h2, nearestProjection_swap A B obs _ _ hrel]
      · rw [if_neg h1, if_neg h1, checkOtherCases_swap thr A B obs
          ((projectionStage A B obs).d_c, (projectionStage A B obs).nearest_pts)
          ((projectionStage A B obs).d_c, (projectionStage B A obs).nearest_pts) rfl]

/-! ## Exactness, agreement with the boolean test, and the null pair -/

/-- C2 (fails as stated): box `[0,1]^3`, `A = (-1, 0.5, 0.5)`, `B = (-0.1, 0.5, 0.5)`,
radius `0.1` (the capsule touches the face `x_min`), `EQUALITY_THRESHOLD = 10^-6`:
the distance engine
returns `√(1/100) - 1/10 = 0 <= 0`, the boolean test returns `false`. -/
theorem touching_capsule_disagrees :
    collisionCapsuleToBox (1/1000000) ⟨-1, 1/2, 1/2⟩ ⟨-1/10, 1/2, 1/2⟩ (1/10)
        ⟨0, 0, 0, 1, 1, 1⟩ = false ∧
      ∃ res, distanceCapsuleToBox (1/1000000) ⟨-1, 1/2, 1/2⟩ ⟨-1/10, 1/2, 1/2⟩ (1/10)
        ⟨0, 0, 0, 1, 1, 1⟩ = some res ∧ res.nonpos = true := by
  have hA := inFrontOfStrict_cube_lo (-1) (by norm_num)
  have hB := inFrontOfStrict_cube_lo (-1/10) (by norm_num)
  have hw : Box.wf ⟨0, 0, 0, 1, 1, 1⟩ := by norm_num [Box.wf]
  constructor
  · rw [collision_sameFace (1/1000000) _ _ (1/10) _ 0 false (by norm_num) hw (by norm_num) hA hB]
    norm_num [faceDist, V3.get, Box.get]
  · refine ⟨_, distanceCapsuleToBox_sameFace (1/1000000) _ _ (1/10) _ 0 false (by norm_num) hw
      (inFrontOf_of_strict _ _ _ _ hA) (inFrontOf_of_strict _ _ _ _ hB), ?_⟩
    norm_num [BoxDistance.nonpos, faceDist, V3.get, Box.get]

/-- C2 (amended): for a well-formed box and a radius `>= 0`, when both endpoints
lie beyond the same face and project strictly inside its rectangle,
`collisionCapsuleToBox` returns `true` exactly when the distance
`√d_c - sub` returned by `distanceCapsuleToBox` is strictly negative. -/
theorem collision_iff_negative_distance (thr : ℚ) (A B : V3) (radius : ℚ) (obs : Box) (k : Nat)
    (hi : Bool) (hk : k < 3) (hw : obs.wf) (hr : 0 ≤ radius)
    (hA : inFrontOfStrict A obs k hi) (hB : inFrontOfStrict B obs k hi) :
    ∃ res q, distanceCapsuleToBox thr A B radius obs = some res ∧ res.d_c = Dist.fin q ∧
      (collisionCapsuleToBox thr A B radius obs = true ↔ res.negative = true) ∧
      (res.negative = true ↔ Real.sqrt (q : ℝ) - (res.sub : ℝ) < 0) := by
  have hm : 0 < min (faceDist A obs k hi) (faceDist B obs k hi) := lt_min hA.1 hB.1
  refine ⟨_, _, distanceCapsuleToBox_sameFace thr A B radius obs k hi hk hw
    (inFrontOf_of_strict _ _ _ _ hA) (inFrontOf_of_strict _ _ _ _ hB), rfl, ?_, ?_⟩
  · rw [collision_sameFace thr A B radius obs k hi hk hw hr hA hB]
    simp only [BoxDistance.negative, Dist.ltScalar, normLt, decide_eq_true_eq]
    constructor
    · intro h
      exact ⟨lt_trans hm h, by nlinarith⟩
    · rintro ⟨h1, h2⟩
      by_contra hc
      push_neg at hc
      nlinarith
  · simp only [BoxDistance.negative, Dist.ltScalar]
    rw [normLt_iff _ _ (mul_self_nonneg _), sub_neg]

/-- The statement of `collision_iff_negative_distance` at Scenario A. -/
theorem collision_iff_negative_distance_witness :
    (0 < 3 ∧ Box.wf ⟨0, 0, 0, 1, 1, 1⟩ ∧ (0 : ℚ) ≤ 1 / 20 ∧
      inFrontOfStrict ⟨-1, 1/2, 1/2⟩ ⟨0, 0, 0, 1, 1, 1⟩ 0 false ∧
      inFrontOfStrict ⟨-1/10, 1/2, 1/2⟩ ⟨0, 0, 0, 1, 1, 1⟩ 0 false) ∧
    ∃ res q, distanceCapsuleToBox (1/1000000) ⟨-1, 1/2, 1/2⟩ ⟨-1/10, 1/2, 1/2⟩ (1/20)
        ⟨0, 0, 0, 1, 1, 1⟩ = some res ∧ res.d_c = Dist.fin q ∧
      (collisionCapsuleToBox (1/1000000) ⟨-1, 1/2, 1/2⟩ ⟨-1/10, 1/2, 1/2⟩ (1/20)
        ⟨0, 0, 0, 1, 1, 1⟩ = true ↔ res.negative = true) ∧
      (res.negative = true ↔ Real.sqrt (q : ℝ) - (res.sub : ℝ) < 0) :=
  ⟨⟨by norm_num, by norm_num [Box.wf], by norm_num,
      inFrontOfStrict_cube_lo (-1) (by norm_num), inFrontOfStrict_cube_lo (-1/10) (by norm_num)⟩,
    collision_iff_negative_distance (1/1000000) _ _ (1/20) _ 0 false (by norm_num)
      (by norm_num [Box.wf]) (by norm_num) (inFrontOfStrict_cube_lo (-1) (by norm_num))
      (inFrontOfStrict_cube_lo (-1/10) (by norm_num))⟩

/-- C9 (fails as stated): box `[0,1]^3`, `A = (-1, 0.5, 0.5)`, `B = (-0.1, 0.5, 0.5)`,
radius `0.5`, `EQUALITY_THRESHOLD = 10^-6`: the returned distance is `√(1/100) - 1/2 = -0.4 <= 0`, and the
nearest-points pair is present (the endpoint `B` and its projection). -/
theorem nonpositive_distance_with_pair :
    ∃ res, distanceCapsuleToBox (1/1000000) ⟨-1, 1/2, 1/2⟩ ⟨-1/10, 1/2, 1/2⟩ (1/2)
        ⟨0, 0, 0, 1, 1, 1⟩ = some res ∧ res.nonpos = true ∧
      res.nearest_pts = Pts.pts ⟨-1/10, 1/2, 1/2⟩ ⟨0, 1/2, 1/2⟩ := by
  refine ⟨_, distanceCapsuleToBox_sameFace (1/1000000) _ _ (1/2) _ 0 false (by norm_num)
    (by norm_num [Box.wf]) (inFrontOf_of_strict _ _ _ _ (inFrontOfStrict_cube_lo (-1) (by norm_num)))
    (inFrontOf_of_strict _ _ _ _ (inFrontOfStrict_cube_lo (-1/10) (by norm_num))), ?_, ?_⟩
  · norm_num [BoxDistance.nonpos, faceDist, V3.get, Box.get]
  · norm_num [faceDist, faceIndex, setCoord, V3.get, Box.get]

/-- C9 (amended): for a radius `>= 0`, a null nearest-points pair is returned only
together with `d_c = 0`, hence with a distance `<= 0`, and it is returned
whenever an endpoint lies strictly inside the box. -/
theorem null_pair_nonpositive (thr : ℚ) (A B : V3) (radius : ℚ) (obs : Box) (res : BoxDistance)
    (hr : 0 ≤ radius) (h : distanceCapsuleToBox thr A B radius obs = some res) :
    (res.nearest_pts = Pts.null → res.d_c = Dist.fin 0 ∧ res.nonpos = true) ∧
      (strictlyInside A obs ∨ strictlyInside B obs → res.nearest_pts = Pts.null) := by
  constructor
  · intro hnull
    obtain ⟨h0, hs⟩ := distanceCapsuleToBox_nullZero thr A B radius obs res h hnull
    refine ⟨h0, ?_⟩
    simp only [BoxDistance.nonpos, h0, decide_eq_true_eq]
    rcases hs with hs | hs <;> rw [hs]
    · exact ⟨hr, mul_nonneg hr hr⟩
    · norm_num
  · intro hin
    rw [distanceCapsuleToBox_inside thr A B radius obs hin] at h
    simp only [Option.some.injEq] at h
    rw [← h]

/-- The statement of `null_pair_nonpositive` at the box `[0,1]^3` with
`A = (0.5, 0.5, 0.5)`, `B = (3, 4, 5)`, radius `0.05`. -/
theorem null_pair_nonpositive_witness :
    (0 : ℚ) ≤ 1 / 20 ∧
      ((⟨Dist.fin 0, 0, Pts.null⟩ : BoxDistance).nearest_pts = Pts.null →
        (⟨Dist.fin 0, 0, Pts.null⟩ : BoxDistance).d_c = Dist.fin 0 ∧
          (⟨Dist.fin 0, 0, Pts.null⟩ : BoxDistance).nonpos = true) :=
  ⟨by norm_num, (null_pair_nonpositive (1/1000000) ⟨1/2, 1/2, 1/2⟩ ⟨3, 4, 5⟩ (1/20)
    ⟨0, 0, 0, 1, 1, 1⟩ ⟨Dist.fin 0, 0, Pts.null⟩ (by norm_num) (by decide!)).1⟩

/-! ## The radius is subtracted last -/

theorem applyOutcome_d_c (st : CapsuleBox) (i : Nat) (o : Option (Nat × ℚ)) :
    (applyOutcome st i o).d_c = st.d_c := by
  cases o with
  | none => rfl
  | some p => rfl

theorem projectionLineSegOnSide_zero_iff (A B : V3) (obs : Box) (a b c d e f : Nat)
    (st : CapsuleBox) :
    (projectionLineSegOnSide A B obs a b c d e f st).d_c = Dist.fin 0 ↔
      st.d_c = Dist.fin 0 ∨ stepInside obs a b c d e f A ∨ stepInside obs a b c d e f B := by
  unfold projectionLineSegOnSide
  simp only
  by_cases hA : stepInside obs a b c d e f A
  · rw [projectionStep_inside obs a b c d e f A 0 st hA]
    simp [hA]
  · rw [projectionStep_outcome obs a b c d e f A 0 st hA]
    simp only [Bool.false_eq_true, if_false]
    by_cases hB : stepInside obs a b c d e f B
    · rw [projectionStep_inside obs a b c d e f B 1 _ hB]
      simp [hB]
    · rw [projectionStep_outcome obs a b c d e f B 1 _ hB]
      simp only [applyOutcome_d_c, hA, hB, or_false]

theorem projectionStage_zero_iff (A B : V3) (obs : Box) :
    (projectionStage A B obs).d_c = Dist.fin 0 ↔ detectedInside A obs ∨ detectedInside B obs := by
  unfold projectionStage detectedInside
  rw [projectionLineSegOnSide_zero_iff, projectionLineSegOnSide_zero_iff,
    projectionLineSegOnSide_zero_iff]
  have h0 : CapsuleBox.init.d_c ≠ Dist.fin 0 := by simp [CapsuleBox.init]
  simp only [h0, false_or]
  tauto

/-- C11: the radius enters the box distance only as the final subtraction.
When the projection stage detects neither endpoint inside the box, the call
with `radius` is defined exactly when the call with radius `0` is, returns the
same `d_c` and the same nearest-points pair, and subtracts `radius` more (the
returned float is that of radius `0` minus `radius`). -/
theorem radius_only_subtracted (thr : ℚ) (A B : V3) (radius : ℚ) (obs : Box)
    (hA : ¬ detectedInside A obs) (hB : ¬ detectedInside B obs) :
    distanceCapsuleToBox thr A B radius obs =
      (distanceCapsuleToBox thr A B 0 obs).map
        (fun res => ⟨res.d_c, res.sub + radius, res.nearest_pts⟩) := by
  have h0 : (projectionStage A B obs).d_c ≠ Dist.fin 0 := by
    rw [Ne, projectionStage_zero_iff]
    tauto
  unfold distanceCapsuleToBox
  simp only [if_neg h0]
  by_cases h1 : numProj (projectionStage A B obs).projections > 0
  · simp only [if_pos h1]
    by_cases h2 : numProj (projectionStage A B obs).projections = 1
    · simp only [if_pos h2]
      generalize checkEdges thr A B obs _ _ _ _ = ce
      cases ce <;> simp
    · simp only [if_neg h2, Option.map_some', zero_add]
  · simp only [if_neg h1, Option.map_some', zero_add]

/-- The statement of `radius_only_subtracted` at Scenario A (box `[0,1]^3`,
`A = (-1, 0.5, 0.5)`, `B = (-0.1, 0.5, 0.5)`, radius `0.05`). -/
theorem radius_only_subtracted_witness :
    ¬ detectedInside ⟨-1, 1/2, 1/2⟩ ⟨0, 0, 0, 1, 1, 1⟩ ∧
    ¬ detectedInside ⟨-1/10, 1/2, 1/2⟩ ⟨0, 0, 0, 1, 1, 1⟩ ∧
    distanceCapsuleToBox (1/1000000) ⟨-1, 1/2, 1/2⟩ ⟨-1/10, 1/2, 1/2⟩ (1/20) ⟨0, 0, 0, 1, 1, 1⟩ =
      (distanceCapsuleToBox (1/1000000) ⟨-1, 1/2, 1/2⟩ ⟨-1/10, 1/2, 1/2⟩ 0 ⟨0, 0, 0, 1, 1, 1⟩).map
        (fun res => ⟨res.d_c, res.sub + 1/20, res.nearest_pts⟩) :=
  ⟨by norm_num [detectedInside, stepInside, V3.get, Box.get],
    by norm_num [detectedInside, stepInside, V3.get, Box.get],
    radius_only_subtracted _ _ _ _ _ (by norm_num [detectedInside, stepInside, V3.get, Box.get])
      (by norm_num [detectedInside, stepInside, V3.get, Box.get])⟩

/-! ## Intersection of two segments -/

theorem segSegInterior_params (A B C D : V3) :
    segSegInterior A B C D =
      match segSegParams A B C D with
      | some (t, s) =>
        if t > 0 ∧ t < 1 ∧ s > 0 ∧ s < 1 then
          some (A.add (V3.smul t (B.sub A)), C.add (V3.smul s (D.sub C)))
        else none
      | none => none := by
  unfold segSegInterior segSegParams
  simp only
  by_cases hd : (B.sub A).squaredNorm * (C.sub D).dot (D.sub C) -
      (B.sub A).dot (D.sub C) * (C.sub D).dot (B.sub A) ≠ 0
  · rw [if_pos hd]
    simp only [hd, not_false_eq_true, true_and, ne_eq]
  · rw [if_neg hd]
    simp only [hd, false_and, if_false]

theorem segSegFold_not_null (A B C D : V3) :
    ([0, 1, 2, 3].foldl (segSegStep A B C D) (Dist.inf, Pts.invalid)).2 ≠ Pts.null := by
  simp only [List.foldl]
  exact segSegStep_not_null _ _ _ _ _ _ (segSegStep_not_null _ _ _ _ _ _
    (segSegStep_not_null _ _ _ _ _ _ (segSegStep_not_null _ _ _ _ _ _ (by simp))))

theorem collision_iff_interior (thr : ℚ) (A B C D : V3) :
    collisionLineSegToLineSeg thr A B C D = true ↔
      ∃ P Q, segSegInterior A B C D = some (P, Q) ∧ normLt (Q.sub P).squaredNorm thr = true := by
  unfold collisionLineSegToLineSeg
  cases h : segSegInterior A B C D with
  | none => simp
  | some pq =>
    obtain ⟨P, Q⟩ := pq
    simp only [Option.some.injEq, Prod.mk.injEq]
    constructor
    · intro hn
      exact ⟨P, Q, ⟨rfl, rfl⟩, hn⟩
    · rintro ⟨P', Q', ⟨rfl, rfl⟩, hn⟩
      exact hn

theorem distance_null_iff_interior (thr : ℚ) (A B C D : V3) :
    distanceLineSegToLineSeg thr A B C D = (Dist.fin 0, Pts.null) ↔
      ∃ P Q, segSegInterior A B C D = some (P, Q) ∧ normLt (Q.sub P).squaredNorm thr = true := by
  unfold distanceLineSegToLineSeg
  cases h : segSegInterior A B C D with
  | none =>
    simp only [false_and, exists_false, iff_false, reduceCtorEq]
    intro hc
    exact segSegFold_not_null A B C D (by rw [hc])
  | some pq =>
    obtain ⟨P, Q⟩ := pq
    simp only [Option.some.injEq, Prod.mk.injEq]
    constructor
    · intro hc
      refine ⟨P, Q, ⟨rfl, rfl⟩, ?_⟩
      by_contra hn
      rw [if_neg hn] at hc
      simp at hc
    · rintro ⟨P', Q', ⟨rfl, rfl⟩, hn⟩
      rw [if_pos hn]

theorem det_eq_neg_cross (A B C D : V3) :
    (B.sub A).squaredNorm * (C.sub D).dot (D.sub C) -
        (B.sub A).dot (D.sub C) * (C.sub D).dot (B.sub A) =
      -((B.sub A).cross (D.sub C)).squaredNorm := by
  simp only [V3.sub, V3.squaredNorm, V3.dot, V3.cross]
  ring

theorem squaredNorm_eq_zero {u : V3} (h : u.squaredNorm = 0) : u = ⟨0, 0, 0⟩ := by
  obtain ⟨x, y, z⟩ := u
  simp only [V3.squaredNorm, V3.dot] at h
  have hx : x = 0 := by nlinarith [mul_self_nonneg x, mul_self_nonneg y, mul_self_nonneg z]
  have hy : y = 0 := by nlinarith [mul_self_nonneg x, mul_self_nonneg y, mul_self_nonneg z]
  have hz : z = 0 := by nlinarith [mul_self_nonneg x, mul_self_nonneg y, mul_self_nonneg z]
  rw [hx, hy, hz]

theorem squaredNorm_nonneg (u : V3) : 0 ≤ u.squaredNorm := by
  simp only [V3.squaredNorm, V3.dot]
  nlinarith [mul_self_nonneg u.x, mul_self_nonneg u.y, mul_self_nonneg u.z]

theorem segSegParams_crossing (A B C D : V3) (t s : ℚ)
    (hnp : (B.sub A).cross (D.sub C) ≠ ⟨0, 0, 0⟩)
    (hx : A.add (V3.smul t (B.sub A)) = C.add (V3.smul s (D.sub C))) :
    segSegParams A B C D = some (t, s) := by
  have hdet := det_eq_neg_cross A B C D
  have hpos : 0 < ((B.sub A).cross (D.sub C)).squaredNorm :=
    lt_of_le_of_ne (squaredNorm_nonneg _) (fun h => hnp (squaredNorm_eq_zero h.symm))
  have hd : (B.sub A).squaredNorm * (C.sub D).dot (D.sub C) -
      (B.sub A).dot (D.sub C) * (C.sub D).dot (B.sub A) ≠ 0 := by
    rw [hdet]
    linarith
  have ha : (B.sub A).squaredNorm ≠ 0 := by
    intro h
    have hu := squaredNorm_eq_zero h
    apply hnp
    rw [hu]
    simp [V3.cross]
  have g1 : (A.sub C).dot (A.sub B) =
      (B.sub A).squaredNorm * t + (C.sub D).dot (B.sub A) * s := by
    obtain ⟨ax, ay, az⟩ := A
    obtain ⟨bx, bY, bz⟩ := B
    obtain ⟨cx, cy, cz⟩ := C
    obtain ⟨dx, dy, dz⟩ := D
    simp only [V3.add, V3.smul, V3.sub, V3.mk.injEq] at hx
    obtain ⟨h1, h2, h3⟩ := hx
    simp only [V3.sub, V3.squaredNorm, V3.dot]
    linear_combination (ax - bx) * h1 + (ay - bY) * h2 + (az - bz) * h3
  have g2 : (A.sub C).dot (C.sub D) =
      (B.sub A).dot (D.sub C) * t + (C.sub D).dot (D.sub C) * s := by
    obtain ⟨ax, ay, az⟩ := A
    obtain ⟨bx, bY, bz⟩ := B
    obtain ⟨cx, cy, cz⟩ := C
    obtain ⟨dx, dy, dz⟩ := D
    simp only [V3.add, V3.smul, V3.sub, V3.mk.injEq] at hx
    obtain ⟨h1, h2, h3⟩ := hx
    simp only [V3.sub, V3.squaredNorm, V3.dot]
    linear_combination (cx - dx) * h1 + (cy - dy) * h2 + (cz - dz) * h3
  unfold segSegParams
  simp only
  rw [if_pos hd]
  have hs : ((B.sub A).squaredNorm * (A.sub C).dot (C.sub D) -
      (B.sub A).dot (D.sub C) * (A.sub C).dot (A.sub B)) /
      ((B.sub A).squaredNorm * (C.sub D).dot (D.sub C) -
        (B.sub A).dot (D.sub C) * (C.sub D).dot (B.sub A)) = s := by
    rw [div_eq_iff hd, g1, g2]
    ring
  rw [hs]
  have ht : ((A.sub C).dot (A.sub B) - (C.sub D).dot (B.sub A) * s) / (B.sub A).squaredNorm = t := by
    rw [div_eq_iff ha, g1]
    ring
  rw [ht]

theorem sub_self_squaredNorm (P : V3) : (P.sub P).squaredNorm = 0 := by
  simp [V3.sub, V3.squaredNorm, V3.dot]

/-- C13: `collisionLineSegToLineSeg` returns true exactly when
`distanceLineSegToLineSeg` returns distance `0` with a null pair; both happen
exactly when the system has a solution `(t, s)` with both parameters strictly
between `0` and `1` whose two points are closer than the threshold; and (for a
positive threshold) two non-parallel segments that cross at a point interior
to both give collision true and distance `0` with a null pair. -/
theorem collision_iff_zero_distance (thr : ℚ) (A B C D : V3) :
    (collisionLineSegToLineSeg thr A B C D = true ↔
      distanceLineSegToLineSeg thr A B C D = (Dist.fin 0, Pts.null)) ∧
    (collisionLineSegToLineSeg thr A B C D = true ↔
      ∃ t s, segSegParams A B C D = some (t, s) ∧ 0 < t ∧ t < 1 ∧ 0 < s ∧ s < 1 ∧
        normLt (sqDist (A.add (V3.smul t (B.sub A))) (C.add (V3.smul s (D.sub C)))) thr = true) ∧
    (∀ t s, 0 < thr → 0 < t → t < 1 → 0 < s → s < 1 →
      (B.sub A).cross (D.sub C) ≠ ⟨0, 0, 0⟩ →
      A.add (V3.smul t (B.sub A)) = C.add (V3.smul s (D.sub C)) →
      collisionLineSegToLineSeg thr A B C D = true ∧
        distanceLineSegToLineSeg thr A B C D = (Dist.fin 0, Pts.null)) := by
  have key : collisionLineSegToLineSeg thr A B C D = true ↔
      ∃ t s, segSegParams A B C D = some (t, s) ∧ 0 < t ∧ t < 1 ∧ 0 < s ∧ s < 1 ∧
        normLt (sqDist (A.add (V3.smul t (B.sub A))) (C.add (V3.smul s (D.sub C)))) thr = true := by
    rw [collision_iff_interior, segSegInterior_params]
    cases hp : segSegParams A B C D with
    | none => simp
    | some ts =>
      obtain ⟨t, s⟩ := ts
      simp only [Option.some.injEq, Prod.mk.injEq, gt_iff_lt]
      constructor
      · rintro ⟨P, Q, hPQ, hn⟩
        by_cases hc : 0 < t ∧ t < 1 ∧ 0 < s ∧ s < 1
        · rw [if_pos hc] at hPQ
          simp only [Option.some.injEq, Prod.mk.injEq] at hPQ
          obtain ⟨rfl, rfl⟩ := hPQ
          refine ⟨t, s, ⟨rfl, rfl⟩, hc.1, hc.2.1, hc.2.2.1, hc.2.2.2, ?_⟩
          rw [sqDist_comm]
          exact hn
        · rw [if_neg hc] at hPQ
          cases hPQ
      · rintro ⟨t', s', ⟨rfl, rfl⟩, h1, h2, h3, h4, hn⟩
        refine ⟨A.add (V3.smul t (B.sub A)), C.add (V3.smul s (D.sub C)), ?_, ?_⟩
        · rw [if_pos ⟨h1, h2, h3, h4⟩]
        · rw [sqDist_comm] at hn
          exact hn
  refine ⟨?_, key, ?_⟩
  · rw [collision_iff_interior, distance_null_iff_interior]
  · intro t s hthr h1 h2 h3 h4 hnp hx
    have hc : collisionLineSegToLineSeg thr A B C D = true := by
      rw [key]
      refine ⟨t, s, segSegParams_crossing A B C D t s hnp hx, h1, h2, h3, h4, ?_⟩
      rw [hx, sqDist, sub_self_squaredNorm]
      simp only [normLt, decide_eq_true_eq]
      exact ⟨hthr, mul_pos hthr hthr⟩
    refine ⟨hc, ?_⟩
    rw [distance_null_iff_interior, ← collision_iff_interior]
    exact hc

/-- The last part of `collision_iff_zero_distance` at the segments from
`(-1, 0, 0)` to `(1, 0, 0)` and from `(0, -1, 0)` to `(0, 1, 0)`, which cross at
the origin (`t = s = 1/2`). -/
theorem collision_iff_zero_distance_crossing :
    collisionLineSegToLineSeg (1/1000000) ⟨-1, 0, 0⟩ ⟨1, 0, 0⟩ ⟨0, -1, 0⟩ ⟨0, 1, 0⟩ = true ∧
      distanceLineSegToLineSeg (1/1000000) ⟨-1, 0, 0⟩ ⟨1, 0, 0⟩ ⟨0, -1, 0⟩ ⟨0, 1, 0⟩ =
        (Dist.fin 0, Pts.null) :=
  (collision_iff_zero_distance (1/1000000) ⟨-1, 0, 0⟩ ⟨1, 0, 0⟩ ⟨0, -1, 0⟩ ⟨0, 1, 0⟩).2.2
    (1/2) (1/2) (by norm_num) (by norm_num) (by norm_num) (by norm_num) (by norm_num)
    (by norm_num [V3.sub, V3.cross]) (by norm_num [V3.add, V3.smul, V3.sub])

/-! ## Distance from a segment to a point -/

theorem clamp01_of_neg {t : ℚ} (h : t < 0) : clamp01 t = 0 := by
  unfold clamp01
  rw [min_eq_right (by linarith), max_eq_left h.le]

theorem clamp01_of_gt {t : ℚ} (h : 1 < t) : clamp01 t = 1 := by
  unfold clamp01
  rw [min_eq_left h.le, max_eq_right (by norm_num)]

theorem clamp01_of_mem {t : ℚ} (h0 : ¬ t < 0) (h1 : ¬ t > 1) : clamp01 t = t := by
  unfold clamp01
  rw [min_eq_right (not_lt.1 h1), max_eq_right (not_lt.1 h0)]

theorem clamp01_mem (t : ℚ) : 0 ≤ clamp01 t ∧ clamp01 t ≤ 1 := by
  unfold clamp01
  exact ⟨le_max_left _ _, max_le (by norm_num) (min_le_left _ _)⟩

theorem lerp_zero (A B : V3) : A.add (V3.smul 0 (B.sub A)) = A := by
  apply v3_ext <;> simp [V3.add, V3.smul]

theorem lerp_one (A B : V3) : A.add (V3.smul 1 (B.sub A)) = B := by
  apply v3_ext <;> simp [V3.add, V3.smul, V3.sub]

theorem nearestOnSegment_onSegment (A B C : V3) : onSegment (nearestOnSegment A B C) A B :=
  onSegment_lerp A B _ (clamp01_mem _).1 (clamp01_mem _).2

theorem sqDist_lerp (A B C : V3) (x : ℚ) :
    sqDist (A.add (V3.smul x (B.sub A))) C =
      (A.sub C).squaredNorm - 2 * x * (C.sub A).dot (B.sub A) + x * x * (B.sub A).squaredNorm := by
  simp only [sqDist, V3.add, V3.smul, V3.sub, V3.squaredNorm, V3.dot]
  ring

/-- The clamped projection is the point of the segment nearest to `C`. -/
theorem nearestOnSegment_min (A B C : V3) (hn : (B.sub A).squaredNorm ≠ 0) (p : V3)
    (hp : onSegment p A B) : sqDist (nearestOnSegment A B C) C ≤ sqDist p C := by
  obtain ⟨x, hx0, hx1, rfl⟩ := hp
  unfold nearestOnSegment
  rw [sqDist_lerp, sqDist_lerp]
  have hnpos : 0 < (B.sub A).squaredNorm := lt_of_le_of_ne (squaredNorm_nonneg _) (Ne.symm hn)
  generalize hg : (C.sub A).dot (B.sub A) = g
  generalize (B.sub A).squaredNorm = n at hn hnpos ⊢
  generalize (A.sub C).squaredNorm = w
  have hgt : g = g / n * n := by field_simp
  generalize g / n = t at hgt ⊢
  have key : ∀ c : ℚ, (w - 2 * x * g + x * x * n) - (w - 2 * c * g + c * c * n) =
      n * ((x - c) * (x + c - 2 * t)) := by
    intro c
    rw [hgt]
    ring
  have hprod : 0 ≤ (x - clamp01 t) * (x + clamp01 t - 2 * t) := by
    by_cases h0 : t < 0
    · rw [clamp01_of_neg h0]
      exact mul_nonneg (by linarith) (by linarith)
    · by_cases h1 : t > 1
      · rw [clamp01_of_gt h1]
        have : (x - 1) * (x + 1 - 2 * t) = (1 - x) * (2 * t - x - 1) := by ring
        rw [this]
        exact mul_nonneg (by linarith) (by linarith)
      · rw [clamp01_of_mem h0 h1]
        have : (x - t) * (x + t - 2 * t) = (x - t) * (x - t) := by ring
        rw [this]
        exact mul_self_nonneg _
  have := key (clamp01 t)
  have h2 := mul_nonneg hnpos.le hprod
  linarith

theorem squaredNorm_sub_ne_zero {A B : V3} (h : A ≠ B) : (B.sub A).squaredNorm ≠ 0 := by
  intro hz
  have := squaredNorm_eq_zero hz
  apply h
  obtain ⟨ax, ay, az⟩ := A
  obtain ⟨bx, bY, bz⟩ := B
  simp only [V3.sub, V3.mk.injEq] at this ⊢
  obtain ⟨h1, h2, h3⟩ := this
  exact ⟨by linarith, by linarith, by linarith⟩

theorem distanceLineSegToPoint_eq (thr : ℚ) (A B C : V3) (hn : (B.sub A).squaredNorm ≠ 0) :
    distanceLineSegToPoint thr A B C =
      if normLt (sqDist (nearestOnSegment A B C) C) thr then (Dist.fin 0, Pts.null)
      else (Dist.fin (sqDist (nearestOnSegment A B C) C), Pts.pts (nearestOnSegment A B C) C) := by
  unfold distanceLineSegToPoint nearestOnSegment
  rw [if_neg hn]
  simp only
  by_cases h0 : (C.sub A).dot (B.sub A) / (B.sub A).squaredNorm < 0
  · rw [if_pos h0, clamp01_of_neg h0, lerp_zero, sqDist_comm]
  · rw [if_neg h0]
    by_cases h1 : (C.sub A).dot (B.sub A) / (B.sub A).squaredNorm > 1
    · rw [if_pos h1, clamp01_of_gt h1, lerp_one, sqDist_comm]
    · rw [if_neg h1, clamp01_of_mem h0 h1, sqDist_comm]

/-- C14: for `A ≠ B`, `distanceLineSegToPoint(A, B, C)` uses the point
`P = A + clamp(t, 0, 1) (B - A)`, `t = (C - A).(B - A) / |B - A|^2`; `P` lies on
the segment and no point of the segment is closer to `C`; the function returns
`(|P - C|, (P, C))`, or `(0, null)` when `|P - C|` is below the threshold. -/
theorem distanceLineSegToPoint_nearest (thr : ℚ) (A B C : V3) (hAB : A ≠ B) :
    onSegment (nearestOnSegment A B C) A B ∧
    (∀ p, onSegment p A B → sqDist (nearestOnSegment A B C) C ≤ sqDist p C) ∧
    distanceLineSegToPoint thr A B C =
      if normLt (sqDist (nearestOnSegment A B C) C) thr then (Dist.fin 0, Pts.null)
      else (Dist.fin (sqDist (nearestOnSegment A B C) C),
        Pts.pts (nearestOnSegment A B C) C) :=
  ⟨nearestOnSegment_onSegment A B C,
    nearestOnSegment_min A B C (squaredNorm_sub_ne_zero hAB),
    distanceLineSegToPoint_eq thr A B C (squaredNorm_sub_ne_zero hAB)⟩

/-- The statement of `distanceLineSegToPoint_nearest` at `A = (0, 0, 0)`,
`B = (2, 0, 0)`, `C = (1, 1, 0)`. -/
theorem distanceLineSegToPoint_nearest_witness :
    (⟨0, 0, 0⟩ : V3) ≠ ⟨2, 0, 0⟩ ∧
    distanceLineSegToPoint (1/1000000) ⟨0, 0, 0⟩ ⟨2, 0, 0⟩ ⟨1, 1, 0⟩ =
      if normLt (sqDist (nearestOnSegment ⟨0, 0, 0⟩ ⟨2, 0, 0⟩ ⟨1, 1, 0⟩) ⟨1, 1, 0⟩) (1/1000000) then
        (Dist.fin 0, Pts.null)
      else (Dist.fin (sqDist (nearestOnSegment ⟨0, 0, 0⟩ ⟨2, 0, 0⟩ ⟨1, 1, 0⟩) ⟨1, 1, 0⟩),
        Pts.pts (nearestOnSegment ⟨0, 0, 0⟩ ⟨2, 0, 0⟩ ⟨1, 1, 0⟩) ⟨1, 1, 0⟩) :=
  ⟨by decide, (distanceLineSegToPoint_nearest (1/1000000) ⟨0, 0, 0⟩ ⟨2, 0, 0⟩ ⟨1, 1, 0⟩
    (by decide)).2.2⟩

/-! ## Exactness of the segment-to-segment distance -/

/-- Moving from `t` in `[0, 1]` towards `m`: a step `l` in `[0, 1]` up to which
the point stays in `[0, 1]`, and at which it is at an end of the interval
unless the whole way is inside (`l = 1`) and `m` is strictly inside. -/
theorem exit_one (t m : ℚ) (h0 : 0 ≤ t) (h1 : t ≤ 1) :
    ∃ l : ℚ, 0 ≤ l ∧ l ≤ 1 ∧
      (∀ k, 0 ≤ k → k ≤ l → 0 ≤ t + k * (m - t) ∧ t + k * (m - t) ≤ 1) ∧
      ((t + l * (m - t) = 0 ∨ t + l * (m - t) = 1) ∨ (l = 1 ∧ 0 < m ∧ m < 1)) := by
  by_cases hm0 : m ≤ 0
  · -- leave through 0
    by_cases htm : t - m = 0
    · refine ⟨1, by norm_num, le_refl _, fun k hk0 hk1 => ?_, Or.inl (Or.inl ?_)⟩
      · have ht : t = 0 := by linarith
        have hm : m = 0 := by linarith
        rw [ht, hm]
        norm_num
      · linarith
    · have hpos : 0 < t - m := lt_of_le_of_ne (by linarith) (Ne.symm htm)
      have hl : t / (t - m) * (t - m) = t := by field_simp
      refine ⟨t / (t - m), div_nonneg h0 hpos.le, (div_le_one hpos).2 (by linarith),
        fun k hk0 hk1 => ?_, Or.inl (Or.inl ?_)⟩
      · have hk : k * (t - m) ≤ t / (t - m) * (t - m) := mul_le_mul_of_nonneg_right hk1 hpos.le
        have hk' : 0 ≤ k * (t - m) := mul_nonneg hk0 hpos.le
        constructor <;> nlinarith
      · have : t + t / (t - m) * (m - t) = t - t / (t - m) * (t - m) := by ring
        rw [this, hl]
        ring
  · by_cases hm1 : 1 ≤ m
    · by_cases htm : m - t = 0
      · refine ⟨1, by norm_num, le_refl _, fun k hk0 hk1 => ?_, Or.inl (Or.inr ?_)⟩
        · rw [htm]
          constructor <;> linarith
        · linarith
      · have hpos : 0 < m - t := lt_of_le_of_ne (by linarith) (Ne.symm htm)
        have hl : (1 - t) / (m - t) * (m - t) = 1 - t := by field_simp
        refine ⟨(1 - t) / (m - t), div_nonneg (by linarith) hpos.le,
          (div_le_one hpos).2 (by linarith), fun k hk0 hk1 => ?_, Or.inl (Or.inr ?_)⟩
        · have hk : k * (m - t) ≤ (1 - t) / (m - t) * (m - t) :=
            mul_le_mul_of_nonneg_right hk1 hpos.le
          have hk' : 0 ≤ k * (m - t) := mul_nonneg hk0 hpos.le
          constructor <;> linarith
        · rw [hl]
          ring
    · push_neg at hm0 hm1
      refine ⟨1, by norm_num, le_refl _, fun k hk0 hk1 => ?_, Or.inr ⟨rfl, hm0, hm1⟩⟩
      have e : t + k * (m - t) = (1 - k) * t + k * m := by ring
      rw [e]
      have p1 : 0 ≤ (1 - k) * t := mul_nonneg (by linarith) h0
      have p2 : 0 ≤ k * m := mul_nonneg hk0 hm0.le
      have p3 : (1 - k) * t ≤ (1 - k) * 1 := mul_le_mul_of_nonneg_left h1 (by linarith)
      have p4 : k * m ≤ k * 1 := mul_le_mul_of_nonneg_left hm1.le hk0
      constructor <;> linarith

/-- Moving from a point `(t, s)` of the unit square towards a point `(m, n)`
that is not strictly inside it, one meets the boundary of the square. -/
theorem exit_square (t s m n : ℚ) (ht0 : 0 ≤ t) (ht1 : t ≤ 1) (hs0 : 0 ≤ s) (hs1 : s ≤ 1)
    (hout : ¬ (0 < m ∧ m < 1 ∧ 0 < n ∧ n < 1)) :
    ∃ l : ℚ, 0 ≤ l ∧ l ≤ 1 ∧
      (0 ≤ t + l * (m - t) ∧ t + l * (m - t) ≤ 1) ∧ (0 ≤ s + l * (n - s) ∧ s + l * (n - s) ≤ 1) ∧
      (t + l * (m - t) = 0 ∨ t + l * (m - t) = 1 ∨ s + l * (n - s) = 0 ∨ s + l * (n - s) = 1) := by
  obtain ⟨a, a0, a1, ain, aend⟩ := exit_one t m ht0 ht1
  obtain ⟨b, b0, b1, bin, bend⟩ := exit_one s n hs0 hs1
  rcases le_total a b with hab | hab
  · refine ⟨a, a0, a1, ain a a0 (le_refl _), bin a a0 hab, ?_⟩
    rcases aend with (h | h) | ⟨ha, hm0, hm1⟩
    · exact Or.inl h
    · exact Or.inr (Or.inl h)
    · have hb : b = 1 := le_antisymm b1 (by rw [← ha]; exact hab)
      have hab' : a = b := ha.trans hb.symm
      rcases bend with (h | h) | ⟨-, hn0, hn1⟩
      · rw [hab']
        exact Or.inr (Or.inr (Or.inl h))
      · rw [hab']
        exact Or.inr (Or.inr (Or.inr h))
      · exact absurd ⟨hm0, hm1, hn0, hn1⟩ hout
  · refine ⟨b, b0, b1, ain b b0 hab, bin b b0 (le_refl _), ?_⟩
    rcases bend with (h | h) | ⟨hb, hn0, hn1⟩
    · exact Or.inr (Or.inr (Or.inl h))
    · exact Or.inr (Or.inr (Or.inr h))
    · have ha : a = 1 := le_antisymm a1 (by rw [← hb]; exact hab)
      have hab' : b = a := hb.trans ha.symm
      rcases aend with (h | h) | ⟨-, hm0, hm1⟩
      · rw [hab']
        exact Or.inl h
      · rw [hab']
        exact Or.inr (Or.inl h)
      · exact absurd ⟨hm0, hm1, hn0, hn1⟩ hout

/-- The solution of the 2 x 2 system satisfies its two equations. -/
theorem segSegParams_normal (A B C D : V3) (t s : ℚ) (h : segSegParams A B C D = some (t, s))
    (ha : (B.sub A).squaredNorm ≠ 0) :
    (B.sub A).squaredNorm * t + (C.sub D).dot (B.sub A) * s = (A.sub C).dot (A.sub B) ∧
    (B.sub A).dot (D.sub C) * t + (C.sub D).dot (D.sub C) * s = (A.sub C).dot (C.sub D) := by
  unfold segSegParams at h
  simp only at h
  split_ifs at h with hd
  simp only [Option.some.injEq, Prod.mk.injEq] at h
  obtain ⟨ht, hs⟩ := h
  generalize (B.sub A).squaredNorm = a1 at *
  generalize (B.sub A).dot (D.sub C) = a2 at *
  generalize (C.sub D).dot (B.sub A) = b1 at *
  generalize (C.sub D).dot (D.sub C) = b2 at *
  generalize (A.sub C).dot (A.sub B) = g1 at *
  generalize (A.sub C).dot (C.sub D) = g2 at *
  have hs' : s * (a1 * b2 - a2 * b1) = a1 * g2 - a2 * g1 := by
    rw [← hs]
    field_simp
  have ht' : t * a1 = g1 - b1 * s := by
    rw [← ht, hs]
    field_simp
  constructor
  · linarith
  · have : a1 * (a2 * t + b2 * s) = a1 * g2 := by
      have e : a1 * (a2 * t + b2 * s) = a2 * (t * a1) + a1 * b2 * s := by ring
      rw [e, ht']
      linarith
    exact mul_left_cancel₀ ha this

/-- Moving towards the solution of the system does not increase the distance
between the two points. -/
theorem pair_descend (A B C D : V3) (m n : ℚ) (h : segSegParams A B C D = some (m, n))
    (ha : (B.sub A).squaredNorm ≠ 0) (t s l : ℚ) (hl0 : 0 ≤ l) (hl1 : l ≤ 1) :
    sqDist (A.add (V3.smul (t + l * (m - t)) (B.sub A)))
        (C.add (V3.smul (s + l * (n - s)) (D.sub C))) ≤
      sqDist (A.add (V3.smul t (B.sub A))) (C.add (V3.smul s (D.sub C))) := by
  obtain ⟨e1, e2⟩ := segSegParams_normal A B C D m n h ha
  have hG := squaredNorm_nonneg ((V3.smul (t - m) (B.sub A)).sub (V3.smul (s - n) (D.sub C)))
  have key : sqDist (A.add (V3.smul (t + l * (m - t)) (B.sub A)))
        (C.add (V3.smul (s + l * (n - s)) (D.sub C))) -
      sqDist (A.add (V3.smul t (B.sub A))) (C.add (V3.smul s (D.sub C))) =
      ((1 - l) * (1 - l) - 1) *
        ((V3.smul (t - m) (B.sub A)).sub (V3.smul (s - n) (D.sub C))).squaredNorm := by
    simp only [sqDist, V3.add, V3.smul, V3.sub, V3.squaredNorm, V3.dot] at e1 e2 ⊢
    linear_combination (-2 * l * (t - m)) * e1 + (2 * l * (s - n)) * e2
  have hc : (1 - l) * (1 - l) - 1 ≤ 0 := by nlinarith
  have := mul_nonneg_of_nonpos_of_nonpos hc (by linarith : -(((V3.smul (t - m) (B.sub A)).sub
    (V3.smul (s - n) (D.sub C))).squaredNorm) ≤ 0)
  nlinarith

/-- With a zero determinant the direction of `CD` is a multiple of that of `AB`. -/
theorem parallel_of_det_zero (A B C D : V3)
    (hd : (B.sub A).squaredNorm * (C.sub D).dot (D.sub C) -
      (B.sub A).dot (D.sub C) * (C.sub D).dot (B.sub A) = 0) :
    (B.sub A).squaredNorm * (D.sub C).x = (B.sub A).dot (D.sub C) * (B.sub A).x ∧
    (B.sub A).squaredNorm * (D.sub C).y = (B.sub A).dot (D.sub C) * (B.sub A).y ∧
    (B.sub A).squaredNorm * (D.sub C).z = (B.sub A).dot (D.sub C) * (B.sub A).z := by
  have hz : ((V3.smul (B.sub A).squaredNorm (D.sub C)).sub
      (V3.smul ((B.sub A).dot (D.sub C)) (B.sub A))).squaredNorm = 0 := by
    have e : ((V3.smul (B.sub A).squaredNorm (D.sub C)).sub
        (V3.smul ((B.sub A).dot (D.sub C)) (B.sub A))).squaredNorm =
        -(B.sub A).squaredNorm * ((B.sub A).squaredNorm * (C.sub D).dot (D.sub C) -
          (B.sub A).dot (D.sub C) * (C.sub D).dot (B.sub A)) := by
      simp only [V3.smul, V3.sub, V3.squaredNorm, V3.dot]
      ring
    rw [e, hd, mul_zero]
  have h0 := squaredNorm_eq_zero hz
  simp only [V3.smul, V3.sub, V3.mk.injEq] at h0
  obtain ⟨h1, h2, h3⟩ := h0
  simp only [V3.sub]
  exact ⟨by linarith, by linarith, by linarith⟩

/-- For parallel segments, sliding both parameters along the common direction
keeps the vector between the two points. -/
theorem pair_slide (A B C D : V3) (ha : (B.sub A).squaredNorm ≠ 0)
    (hd : (B.sub A).squaredNorm * (C.sub D).dot (D.sub C) -
      (B.sub A).dot (D.sub C) * (C.sub D).dot (B.sub A) = 0) (t s l : ℚ) :
    sqDist (A.add (V3.smul (t + l * ((t + (B.sub A).dot (D.sub C) / (B.sub A).squaredNorm) - t))
        (B.sub A))) (C.add (V3.smul (s + l * ((s + 1) - s)) (D.sub C))) =
      sqDist (A.add (V3.smul t (B.sub A))) (C.add (V3.smul s (D.sub C))) := by
  obtain ⟨h1, h2, h3⟩ := parallel_of_det_zero A B C D hd
  generalize hc : (B.sub A).dot (D.sub C) / (B.sub A).squaredNorm = c
  have hc' : (B.sub A).dot (D.sub C) = c * (B.sub A).squaredNorm := by
    rw [← hc]
    field_simp
  rw [hc'] at h1 h2 h3
  have k1 : (D.sub C).x = c * (B.sub A).x := by
    apply mul_left_cancel₀ ha
    rw [h1]
    ring
  have k2 : (D.sub C).y = c * (B.sub A).y := by
    apply mul_left_cancel₀ ha
    rw [h2]
    ring
  have k3 : (D.sub C).z = c * (B.sub A).z := by
    apply mul_left_cancel₀ ha
    rw [h3]
    ring
  have e : (A.add (V3.smul (t + l * ((t + c) - t)) (B.sub A))).sub
      (C.add (V3.smul (s + l * ((s + 1) - s)) (D.sub C))) =
      (A.add (V3.smul t (B.sub A))).sub (C.add (V3.smul s (D.sub C))) := by
    apply v3_ext
    · simp only [V3.add, V3.smul, V3.sub] at k1 ⊢
      linear_combination (-l) * k1
    · simp only [V3.add, V3.smul, V3.sub] at k2 ⊢
      linear_combination (-l) * k2
    · simp only [V3.add, V3.smul, V3.sub] at k3 ⊢
      linear_combination (-l) * k3
  unfold sqDist
  rw [e]

theorem sqDist_symm (P Q : V3) : sqDist P Q = sqDist Q P := by
  simp only [sqDist, V3.sub, V3.squaredNorm, V3.dot]
  ring

/-- When the first test of `distanceLineSegToLineSeg` fails, every pair of
points of the two segments is at least as far apart as a pair with one point
at an end of its segment. -/
theorem boundary_pair (A B C D : V3) (ha : (B.sub A).squaredNorm ≠ 0)
    (hnone : segSegInterior A B C D = none) (t s : ℚ) (ht0 : 0 ≤ t) (ht1 : t ≤ 1)
    (hs0 : 0 ≤ s) (hs1 : s ≤ 1) :
    ∃ t' s', (0 ≤ t' ∧ t' ≤ 1) ∧ (0 ≤ s' ∧ s' ≤ 1) ∧ (t' = 0 ∨ t' = 1 ∨ s' = 0 ∨ s' = 1) ∧
      sqDist (A.add (V3.smul t' (B.sub A))) (C.add (V3.smul s' (D.sub C))) ≤
        sqDist (A.add (V3.smul t (B.sub A))) (C.add (V3.smul s (D.sub C))) := by
  rw [segSegInterior_params] at hnone
  cases hp : segSegParams A B C D with
  | some mn =>
    obtain ⟨m, n⟩ := mn
    rw [hp] at hnone
    simp only at hnone
    have hout : ¬ (0 < m ∧ m < 1 ∧ 0 < n ∧ n < 1) := by
      intro hc
      rw [if_pos hc] at hnone
      cases hnone
    obtain ⟨l, l0, l1, ht, hs, hb⟩ := exit_square t s m n ht0 ht1 hs0 hs1 hout
    exact ⟨_, _, ht, hs, hb, pair_descend A B C D m n hp ha t s l l0 l1⟩
  | none =>
    have hd : (B.sub A).squaredNorm * (C.sub D).dot (D.sub C) -
        (B.sub A).dot (D.sub C) * (C.sub D).dot (B.sub A) = 0 := by
      unfold segSegParams at hp
      simp only at hp
      by_contra hne
      rw [if_pos hne] at hp
      cases hp
    have hout : ¬ (0 < t + (B.sub A).dot (D.sub C) / (B.sub A).squaredNorm ∧
        t + (B.sub A).dot (D.sub C) / (B.sub A).squaredNorm < 1 ∧ 0 < s + 1 ∧ s + 1 < 1) := by
      rintro ⟨-, -, -, h⟩
      linarith
    obtain ⟨l, l0, l1, ht, hs, hb⟩ := exit_square t s _ _ ht0 ht1 hs0 hs1 hout
    exact ⟨_, _, ht, hs, hb, le_of_eq (pair_slide A B C D ha hd t s l)⟩

theorem dot_neg_neg (A B C : V3) : (A.sub C).dot (A.sub B) = (C.sub A).dot (B.sub A) := by
  simp only [V3.sub, V3.dot]
  ring

theorem squaredNorm_sub_comm (C D : V3) : (C.sub D).squaredNorm = (D.sub C).squaredNorm := by
  simp only [V3.sub, V3.squaredNorm, V3.dot]
  ring

theorem clamped_point (A B : V3) (t : ℚ) :
    (if t < 0 then A else if t > 1 then B else A.add (V3.smul t (B.sub A))) =
      A.add (V3.smul (clamp01 t) (B.sub A)) := by
  by_cases h0 : t < 0
  · rw [if_pos h0, clamp01_of_neg h0, lerp_zero]
  · by_cases h1 : t > 1
    · rw [if_neg h0, if_pos h1, clamp01_of_gt h1, lerp_one]
    · rw [if_neg h0, if_neg h1, clamp01_of_mem h0 h1]

theorem segSegCandidate_zero (A B C D : V3) (ha : (B.sub A).squaredNorm ≠ 0) :
    segSegCandidate A B C D 0 = some (nearestOnSegment A B C, C) := by
  unfold segSegCandidate nearestOnSegment
  simp only [true_or, if_true, if_neg ha]
  rw [← clamped_point, dot_neg_neg]
  split_ifs <;> first | rfl | simp_all

theorem segSegCandidate_one (A B C D : V3) (ha : (B.sub A).squaredNorm ≠ 0) :
    segSegCandidate A B C D 1 = some (nearestOnSegment A B D, D) := by
  unfold segSegCandidate nearestOnSegment
  simp only [one_ne_zero, if_false, or_true, if_true, if_neg ha, true_or]
  rw [← clamped_point, dot_neg_neg]
  split_ifs <;> first | rfl | simp_all

theorem segSegCandidate_two (A B C D : V3) (hc : (D.sub C).squaredNorm ≠ 0) :
    segSegCandidate A B C D 2 = some (A, nearestOnSegment C D A) := by
  have hc' : (C.sub D).squaredNorm ≠ 0 := by rwa [squaredNorm_sub_comm]
  unfold segSegCandidate nearestOnSegment
  simp only [OfNat.ofNat_ne_zero, OfNat.ofNat_ne_one, if_false, or_false, false_or, if_true,
    if_neg hc', or_true, or_self]
  rw [← clamped_point, squaredNorm_sub_comm C D]
  split_ifs <;> first | rfl | (exfalso; omega)

theorem segSegCandidate_three (A B C D : V3) (hc : (D.sub C).squaredNorm ≠ 0) :
    segSegCandidate A B C D 3 = some (B, nearestOnSegment C D B) := by
  have hc' : (C.sub D).squaredNorm ≠ 0 := by rwa [squaredNorm_sub_comm]
  unfold segSegCandidate nearestOnSegment
  simp only [OfNat.ofNat_ne_zero, OfNat.ofNat_ne_one, if_false, or_false, false_or, if_true,
    if_neg hc', or_true, or_self, Nat.reduceEqDiff]
  rw [← clamped_point, squaredNorm_sub_comm C D]
  split_ifs <;> rfl

theorem segSegFold_best (A B C D P0 Q0 P1 Q1 P2 Q2 P3 Q3 : V3)
    (h0 : segSegCandidate A B C D 0 = some (P0, Q0))
    (h1 : segSegCandidate A B C D 1 = some (P1, Q1))
    (h2 : segSegCandidate A B C D 2 = some (P2, Q2))
    (h3 : segSegCandidate A B C D 3 = some (P3, Q3)) :
    ∃ P Q, [0, 1, 2, 3].foldl (segSegStep A B C D) (Dist.inf, Pts.invalid) =
        (Dist.fin (sqDist P Q), Pts.pts P Q) ∧ onSegment P A B ∧ onSegment Q C D ∧
      sqDist P Q ≤ sqDist P0 Q0 ∧ sqDist P Q ≤ sqDist P1 Q1 ∧ sqDist P Q ≤ sqDist P2 Q2 ∧
      sqDist P Q ≤ sqDist P3 Q3 := by
  obtain ⟨a0, b0⟩ := segSegCandidate_onSegment A B C D 0 P0 Q0 h0
  obtain ⟨a1, b1⟩ := segSegCandidate_onSegment A B C D 1 P1 Q1 h1
  obtain ⟨a2, b2⟩ := segSegCandidate_onSegment A B C D 2 P2 Q2 h2
  obtain ⟨a3, b3⟩ := segSegCandidate_onSegment A B C D 3 P3 Q3 h3
  simp only [List.foldl, segSegStep, h0, h1, h2, h3, Dist.lt, if_true, ← sqDist_comm]
  split_ifs with c1 c2 c3 c3 c2 c3 c3 <;>
    simp only [Dist.lt, decide_eq_true_eq, not_lt] at * <;>
    first
      | exact ⟨P0, Q0, rfl, a0, b0, by linarith, by linarith, by linarith, by linarith⟩
      | exact ⟨P1, Q1, rfl, a1, b1, by linarith, by linarith, by linarith, by linarith⟩
      | exact ⟨P2, Q2, rfl, a2, b2, by linarith, by linarith, by linarith, by linarith⟩
      | exact ⟨P3, Q3, rfl, a3, b3, by linarith, by linarith, by linarith, by linarith⟩

theorem segSegInterior_closest (A B C D P Q : V3) (ha : (B.sub A).squaredNorm ≠ 0)
    (h : segSegInterior A B C D = some (P, Q)) : IsClosestPair P Q A B C D := by
  obtain ⟨hP, hQ⟩ := segSegInterior_onSegment A B C D P Q h
  refine ⟨hP, hQ, ?_⟩
  rw [segSegInterior_params] at h
  cases hp : segSegParams A B C D with
  | none =>
    rw [hp] at h
    cases h
  | some mn =>
    obtain ⟨m, n⟩ := mn
    rw [hp] at h
    simp only at h
    split_ifs at h
    simp only [Option.some.injEq, Prod.mk.injEq] at h
    obtain ⟨rfl, rfl⟩ := h
    rintro p q ⟨t, -, -, rfl⟩ ⟨s, -, -, rfl⟩
    have hd := pair_descend A B C D m n hp ha t s 1 (by norm_num) (le_refl _)
    rwa [show t + 1 * (m - t) = m by ring, show s + 1 * (n - s) = n by ring] at hd

theorem segSegBoundary_closest (A B C D : V3) (ha : (B.sub A).squaredNorm ≠ 0)
    (hc : (D.sub C).squaredNorm ≠ 0) (hnone : segSegInterior A B C D = none) :
    ∃ P Q, [0, 1, 2, 3].foldl (segSegStep A B C D) (Dist.inf, Pts.invalid) =
        (Dist.fin (sqDist P Q), Pts.pts P Q) ∧ IsClosestPair P Q A B C D := by
  obtain ⟨P, Q, hr, hP, hQ, d0, d1, d2, d3⟩ := segSegFold_best A B C D _ _ _ _ _ _ _ _
    (segSegCandidate_zero A B C D ha) (segSegCandidate_one A B C D ha)
    (segSegCandidate_two A B C D hc) (segSegCandidate_three A B C D hc)
  refine ⟨P, Q, hr, hP, hQ, ?_⟩
  rintro p q ⟨t, t0, t1, rfl⟩ ⟨s, s0, s1, rfl⟩
  obtain ⟨t', s', ht', hs', hb, hle⟩ := boundary_pair A B C D ha hnone t s t0 t1 s0 s1
  refine le_trans ?_ hle
  rcases hb with rfl | rfl | rfl | rfl
  · rw [lerp_zero]
    refine le_trans d2 ?_
    rw [sqDist_symm A (nearestOnSegment C D A), sqDist_symm A]
    exact nearestOnSegment_min C D A hc _ (onSegment_lerp C D s' hs'.1 hs'.2)
  · rw [lerp_one]
    refine le_trans d3 ?_
    rw [sqDist_symm B (nearestOnSegment C D B), sqDist_symm B]
    exact nearestOnSegment_min C D B hc _ (onSegment_lerp C D s' hs'.1 hs'.2)
  · rw [lerp_zero]
    exact le_trans d0 (nearestOnSegment_min A B C ha _ (onSegment_lerp A B t' ht'.1 ht'.2))
  · rw [lerp_one]
    exact le_trans d1 (nearestOnSegment_min A B D ha _ (onSegment_lerp A B t' ht'.1 ht'.2))

/-- C12: for non-degenerate segments `AB` and `CD`, `distanceLineSegToLineSeg`
returns either the exact minimum distance between the two segments with a pair
`(P, Q)` that realises it (`P` on `AB`, `Q` on `CD`, `|P - Q|` the distance
returned, no pair of points of the segments closer), or `(0, null)`, and the
latter only when the minimum distance is below the threshold. -/
theorem distanceLineSegToLineSeg_exact (thr : ℚ) (A B C D : V3) (hAB : A ≠ B) (hCD : C ≠ D) :
    (∃ P Q, distanceLineSegToLineSeg thr A B C D = (Dist.fin (sqDist P Q), Pts.pts P Q) ∧
      IsClosestPair P Q A B C D) ∨
    (distanceLineSegToLineSeg thr A B C D = (Dist.fin 0, Pts.null) ∧
      ∃ P Q, IsClosestPair P Q A B C D ∧ normLt (sqDist P Q) thr = true) := by
  have ha := squaredNorm_sub_ne_zero hAB
  have hc := squaredNorm_sub_ne_zero hCD
  unfold distanceLineSegToLineSeg
  cases hi : segSegInterior A B C D with
  | none =>
    left
    exact segSegBoundary_closest A B C D ha hc hi
  | some pq =>
    obtain ⟨P, Q⟩ := pq
    have hcl := segSegInterior_closest A B C D P Q ha hi
    simp only
    by_cases hn : normLt (Q.sub P).squaredNorm thr = true
    · right
      rw [if_pos hn]
      refine ⟨rfl, P, Q, hcl, ?_⟩
      rw [sqDist_comm]
      exact hn
    · left
      rw [if_neg hn]
      exact ⟨P, Q, by rw [sqDist_comm], hcl⟩

/-- The statement of `distanceLineSegToLineSeg_exact` at the segments from
`(0, 0, 0)` to `(1, 0, 0)` and from `(0, 1, 0)` to `(1, 2, 0)`. -/
theorem distanceLineSegToLineSeg_exact_witness :
    (⟨0, 0, 0⟩ : V3) ≠ ⟨1, 0, 0⟩ ∧ (⟨0, 1, 0⟩ : V3) ≠ ⟨1, 2, 0⟩ ∧
    ((∃ P Q, distanceLineSegToLineSeg (1/1000000) ⟨0, 0, 0⟩ ⟨1, 0, 0⟩ ⟨0, 1, 0⟩ ⟨1, 2, 0⟩ =
        (Dist.fin (sqDist P Q), Pts.pts P Q) ∧
      IsClosestPair P Q ⟨0, 0, 0⟩ ⟨1, 0, 0⟩ ⟨0, 1, 0⟩ ⟨1, 2, 0⟩) ∨
    (distanceLineSegToLineSeg (1/1000000) ⟨0, 0, 0⟩ ⟨1, 0, 0⟩ ⟨0, 1, 0⟩ ⟨1, 2, 0⟩ =
        (Dist.fin 0, Pts.null) ∧
      ∃ P Q, IsClosestPair P Q ⟨0, 0, 0⟩ ⟨1, 0, 0⟩ ⟨0, 1, 0⟩ ⟨1, 2, 0⟩ ∧
        normLt (sqDist P Q) (1/1000000) = true)) :=
  ⟨by decide, by decide,
    distanceLineSegToLineSeg_exact (1/1000000) ⟨0, 0, 0⟩ ⟨1, 0, 0⟩ ⟨0, 1, 0⟩ ⟨1, 2, 0⟩
      (by decide) (by decide)⟩

/-! ## Singular inputs of the segment primitives -/

theorem segSegInterior_of_det_zero (A B C D : V3)
    (hd : (B.sub A).squaredNorm * (C.sub D).dot (D.sub C) -
      (B.sub A).dot (D.sub C) * (C.sub D).dot (B.sub A) = 0) :
    segSegInterior A B C D = none := by
  unfold segSegInterior
  simp only [hd, ne_eq, not_true_eq_false, false_and, if_false]

theorem degenerate_det (A C D : V3) :
    (A.sub A).squaredNorm * (C.sub D).dot (D.sub C) -
      (A.sub A).dot (D.sub C) * (C.sub D).dot (A.sub A) = 0 := by
  simp only [V3.sub, V3.squaredNorm, V3.dot]
  ring

theorem segSegCandidate_degenerate (A C D : V3) (i : Nat) (hi : i = 0 ∨ i = 1) :
    segSegCandidate A A C D i = none := by
  unfold segSegCandidate
  simp only [hi, if_true, sub_self_squaredNorm]

theorem distanceLineSegToLineSeg_degenerate (thr : ℚ) (A C D : V3)
    (hc : (D.sub C).squaredNorm ≠ 0) :
    distanceLineSegToLineSeg thr A A C D =
      (Dist.fin (sqDist A (nearestOnSegment C D A)), Pts.pts A (nearestOnSegment C D A)) := by
  unfold distanceLineSegToLineSeg
  rw [segSegInterior_of_det_zero A A C D (degenerate_det A C D)]
  simp only [List.foldl, segSegStep, segSegCandidate_degenerate A C D 0 (Or.inl rfl),
    segSegCandidate_degenerate A C D 1 (Or.inr rfl), segSegCandidate_two A A C D hc,
    segSegCandidate_three A A C D hc, Dist.lt, if_true, lt_self_iff_false, decide_False,
    Bool.false_eq_true, if_false, ← sqDist_comm]

/-- C15 (amended): singular inputs are not special-cased.
`distanceLineSegToPoint(A, A, C)` has the parameter `0/0` and returns NaN with
an unusable pair; `distanceLineSegToLineSeg(A, A, C, D)` with `C ≠ D` skips
the two passes whose parameter is `0/0` and returns the distance from the
point `A` to the segment `CD`; for parallel non-degenerate segments the first
test fails and the function returns the smallest of the four boundary-clamped
cases, which is the distance of the two segments. -/
theorem singular_inputs (thr : ℚ) (A B C D : V3) :
    distanceLineSegToPoint thr A A C = (Dist.nan, Pts.invalid) ∧
    (C ≠ D →
      distanceLineSegToLineSeg thr A A C D =
        (Dist.fin (sqDist A (nearestOnSegment C D A)), Pts.pts A (nearestOnSegment C D A)) ∧
      onSegment (nearestOnSegment C D A) C D ∧
      ∀ q, onSegment q C D → sqDist A (nearestOnSegment C D A) ≤ sqDist A q) ∧
    (A ≠ B → C ≠ D → (B.sub A).cross (D.sub C) = ⟨0, 0, 0⟩ →
      distanceLineSegToLineSeg thr A B C D =
        [0, 1, 2, 3].foldl (segSegStep A B C D) (Dist.inf, Pts.invalid) ∧
      ∃ P Q, distanceLineSegToLineSeg thr A B C D = (Dist.fin (sqDist P Q), Pts.pts P Q) ∧
        IsClosestPair P Q A B C D ∧
        sqDist P Q ≤ sqDist (nearestOnSegment A B C) C ∧
        sqDist P Q ≤ sqDist (nearestOnSegment A B D) D ∧
        sqDist P Q ≤ sqDist A (nearestOnSegment C D A) ∧
        sqDist P Q ≤ sqDist B (nearestOnSegment C D B)) := by
  refine ⟨?_, ?_, ?_⟩
  · unfold distanceLineSegToPoint
    rw [if_pos (sub_self_squaredNorm A)]
  · intro hCD
    have hc := squaredNorm_sub_ne_zero hCD
    refine ⟨distanceLineSegToLineSeg_degenerate thr A C D hc,
      nearestOnSegment_onSegment C D A, fun q hq => ?_⟩
    rw [sqDist_symm A, sqDist_symm A]
    exact nearestOnSegment_min C D A hc q hq
  · intro hAB hCD hpar
    have ha := squaredNorm_sub_ne_zero hAB
    have hc := squaredNorm_sub_ne_zero hCD
    have hd : (B.sub A).squaredNorm * (C.sub D).dot (D.sub C) -
        (B.sub A).dot (D.sub C) * (C.sub D).dot (B.sub A) = 0 := by
      rw [det_eq_neg_cross, hpar]
      simp [V3.squaredNorm, V3.dot]
    have hnone := segSegInterior_of_det_zero A B C D hd
    have hfold : distanceLineSegToLineSeg thr A B C D =
        [0, 1, 2, 3].foldl (segSegStep A B C D) (Dist.inf, Pts.invalid) := by
      unfold distanceLineSegToLineSeg
      rw [hnone]
    refine ⟨hfold, ?_⟩
    obtain ⟨P, Q, hr, hP, hQ, d0, d1, d2, d3⟩ := segSegFold_best A B C D _ _ _ _ _ _ _ _
      (segSegCandidate_zero A B C D ha) (segSegCandidate_one A B C D ha)
      (segSegCandidate_two A B C D hc) (segSegCandidate_three A B C D hc)
    obtain ⟨P', Q', hr', hcl⟩ := segSegBoundary_closest A B C D ha hc hnone
    have hPQ : P' = P ∧ Q' = Q := by
      rw [hr] at hr'
      simp only [Prod.mk.injEq, Pts.pts.injEq] at hr'
      exact ⟨hr'.2.1.symm, hr'.2.2.symm⟩
    obtain ⟨rfl, rfl⟩ := hPQ
    exact ⟨P', Q', by rw [hfold, hr], hcl, d0, d1, d2, d3⟩

/-- C15 (fails as stated): for the zero-length segment `A = B = (0, 0, 0)` and
`C = (1, 0, 0)` the distance returned by `distanceLineSegToPoint` is NaN, not
`|A - C| = 1`. -/
theorem zero_length_point_distance_nan :
    (distanceLineSegToPoint (1/1000000) ⟨0, 0, 0⟩ ⟨0, 0, 0⟩ ⟨1, 0, 0⟩).1 = Dist.nan ∧
    (distanceLineSegToPoint (1/1000000) ⟨0, 0, 0⟩ ⟨0, 0, 0⟩ ⟨1, 0, 0⟩).1 ≠
      Dist.fin (sqDist ⟨0, 0, 0⟩ ⟨1, 0, 0⟩) := by
  have h : distanceLineSegToPoint (1/1000000) ⟨0, 0, 0⟩ ⟨0, 0, 0⟩ ⟨1, 0, 0⟩ =
      (Dist.nan, Pts.invalid) := by
    unfold distanceLineSegToPoint
    rw [if_pos (sub_self_squaredNorm _)]
  rw [h]
  exact ⟨rfl, by simp⟩

/-- The second part of `singular_inputs` at the zero-length segment
`A = B = (1, 0, 0)` and the segment from `(0, 1, 0)` to `(2, 1, 0)`. -/
theorem singular_inputs_witness :
    (⟨0, 1, 0⟩ : V3) ≠ ⟨2, 1, 0⟩ ∧
    distanceLineSegToLineSeg (1/1000000) ⟨1, 0, 0⟩ ⟨1, 0, 0⟩ ⟨0, 1, 0⟩ ⟨2, 1, 0⟩ =
      (Dist.fin (sqDist ⟨1, 0, 0⟩ (nearestOnSegment ⟨0, 1, 0⟩ ⟨2, 1, 0⟩ ⟨1, 0, 0⟩)),
        Pts.pts ⟨1, 0, 0⟩ (nearestOnSegment ⟨0, 1, 0⟩ ⟨2, 1, 0⟩ ⟨1, 0, 0⟩)) :=
  ⟨by decide,
    ((singular_inputs (1/1000000) ⟨1, 0, 0⟩ ⟨1, 0, 0⟩ ⟨0, 1, 0⟩ ⟨2, 1, 0⟩).2.1 (by decide)).1⟩

/-! ## Capsule against sphere -/

theorem root_plus_pos_iff (a b D : ℚ) (ha : 0 < a) (hD : 0 ≤ D) :
    normGt D b = true ↔ 0 < (-(b : ℝ) + Real.sqrt (D : ℝ)) / (2 * (a : ℝ)) := by
  have ha' : (0 : ℝ) < 2 * (a : ℝ) := by
    have : (0 : ℝ) < (a : ℝ) := by exact_mod_cast ha
    linarith
  rw [normGt_iff D b hD, div_pos_iff_of_pos_right ha']
  constructor <;> intro h <;> linarith

theorem root_plus_lt_one_iff (a b D : ℚ) (ha : 0 < a) (hD : 0 ≤ D) :
    normLt D (2 * a + b) = true ↔ (-(b : ℝ) + Real.sqrt (D : ℝ)) / (2 * (a : ℝ)) < 1 := by
  have ha' : (0 : ℝ) < 2 * (a : ℝ) := by
    have : (0 : ℝ) < (a : ℝ) := by exact_mod_cast ha
    linarith
  rw [normLt_iff D (2 * a + b) hD, div_lt_one ha']
  push_cast
  constructor <;> intro h <;> linarith

theorem root_minus_pos_iff (a b D : ℚ) (ha : 0 < a) (hD : 0 ≤ D) :
    normLt D (-b) = true ↔ 0 < (-(b : ℝ) - Real.sqrt (D : ℝ)) / (2 * (a : ℝ)) := by
  have ha' : (0 : ℝ) < 2 * (a : ℝ) := by
    have : (0 : ℝ) < (a : ℝ) := by exact_mod_cast ha
    linarith
  rw [normLt_iff D (-b) hD, div_pos_iff_of_pos_right ha']
  push_cast
  constructor <;> intro h <;> linarith

theorem root_minus_lt_one_iff (a b D : ℚ) (ha : 0 < a) (hD : 0 ≤ D) :
    normGt D (-b - 2 * a) = true ↔ (-(b : ℝ) - Real.sqrt (D : ℝ)) / (2 * (a : ℝ)) < 1 := by
  have ha' : (0 : ℝ) < 2 * (a : ℝ) := by
    have : (0 : ℝ) < (a : ℝ) := by exact_mod_cast ha
    linarith
  rw [normGt_iff D (-b - 2 * a) hD, div_lt_one ha']
  push_cast
  constructor <;> intro h <;> linarith

/-- C16 (fails on the code): the capsule axis from `A = (-1, 0, 0)` to
`B = (1, 0, 0)` passes through the centre of the sphere of radius `1/2` at the
origin; with capsule radius `1/2` both endpoints are exactly at distance
`radius + r = 1` from the centre and both roots are exactly `0` and `1`, so
`collisionCapsuleToSphere` returns false although the point `(0, 0, 0)` of the
segment is at distance `0 < 1` from the centre. -/
theorem collisionCapsuleToSphere_misses_chord :
    collisionCapsuleToSphere ⟨-1, 0, 0⟩ ⟨1, 0, 0⟩ (1/2) ⟨⟨0, 0, 0⟩, 1/2⟩ = false ∧
    onSegment ⟨0, 0, 0⟩ ⟨-1, 0, 0⟩ ⟨1, 0, 0⟩ ∧
    normLt (sqDist ⟨0, 0, 0⟩ (⟨⟨0, 0, 0⟩, 1/2⟩ : Sphere).c) (1/2 + 1/2) = true := by
  refine ⟨by decide!, ⟨1/2, by norm_num, by norm_num, ?_⟩, by decide!⟩
  simp only [V3.add, V3.smul, V3.sub, V3.mk.injEq]
  norm_num

/-- C17 (fails on the code, Scenario C): for the sphere of radius `1` at the
origin and the capsule `A = (2, 0, 0)`, `B = (3, 0, 0)` of radius `1/2`,
`distanceCapsuleToSphere` returns `√4 - 1 = 1`: the distance of the axis to the
sphere surface, from which the capsule radius is not subtracted; the claim
says `2 - 1 - 1/2 = 1/2`.  The quotient of the first angle test is `-1` here,
so the result is the same however the arguments of `acos` are rounded. -/
theorem distanceCapsuleToSphere_scenarioC (nanA nanB : Bool) :
    distanceCapsuleToSphere nanA nanB ⟨2, 0, 0⟩ ⟨3, 0, 0⟩ (1/2) ⟨⟨0, 0, 0⟩, 1⟩ =
      ⟨Dist.fin (2 * 2), 1, SpherePts.pts ⟨2, 0, 0⟩ (2 * 2)⟩ ∧ (2 : ℚ) - 1 ≠ 1/2 := by
  refine ⟨?_, by norm_num⟩
  cases nanA <;> cases nanB <;> decide!

theorem dot_law_of_cosines (A B O : V3) :
    (O.sub A).dot (B.sub A) =
      ((A.sub O).squaredNorm + (A.sub B).squaredNorm - (B.sub O).squaredNorm) / 2 := by
  simp only [V3.sub, V3.squaredNorm, V3.dot]
  ring

/-- The parameter `AO * cos(alpha) / AB` of the code is the parameter of the
projection of the centre on the line `AB`. -/
theorem sphere_param (A B O : V3) (hn : (B.sub A).squaredNorm ≠ 0) :
    ((A.sub O).squaredNorm + (A.sub B).squaredNorm - (B.sub O).squaredNorm) /
        (2 * (A.sub B).squaredNorm) =
      (O.sub A).dot (B.sub A) / (B.sub A).squaredNorm := by
  rw [dot_law_of_cosines, squaredNorm_sub_comm A B]
  field_simp

/-- When no argument of `acos` is rounded above `1`, a non-null pair of
`distanceCapsuleToSphere` has the clamped projection of the centre as its first
point, and both the distance returned and the norm the code divides by are the
distance from that point to the centre. -/
theorem distanceCapsuleToSphere_pts (A B : V3) (radius : ℚ) (obs : Sphere) (P : V3) (den : ℚ)
    (hAB : A ≠ B) (hOA : obs.c ≠ A) (hOB : obs.c ≠ B)
    (hpts : (distanceCapsuleToSphere false false A B radius obs).nearest_pts =
      SpherePts.pts P den) :
    P = nearestOnSegment A B obs.c ∧
      distanceCapsuleToSphere false false A B radius obs =
        ⟨Dist.fin (sqDist P obs.c), obs.r, SpherePts.pts P (sqDist P obs.c)⟩ := by
  have hn := squaredNorm_sub_ne_zero hAB
  have hn' : (A.sub B).squaredNorm ≠ 0 := by rwa [squaredNorm_sub_comm]
  have hnpos : 0 < (A.sub B).squaredNorm := lt_of_le_of_ne (squaredNorm_nonneg _) (Ne.symm hn')
  have hA0 : (A.sub obs.c).squaredNorm ≠ 0 := squaredNorm_sub_ne_zero hOA
  have hB0 : (B.sub obs.c).squaredNorm ≠ 0 := squaredNorm_sub_ne_zero hOB
  have hpar := sphere_param A B obs.c hn
  unfold nearestOnSegment
  rw [← hpar]
  unfold distanceCapsuleToSphere at hpts ⊢
  simp only at hpts ⊢
  generalize hAO : (A.sub obs.c).squaredNorm = AO2 at *
  generalize hBO : (B.sub obs.c).squaredNorm = BO2 at *
  generalize hABq : (A.sub B).squaredNorm = AB2 at *
  by_cases c1 : normLt AO2 (radius + obs.r) = true
  · rw [if_pos c1] at hpts
    cases hpts
  · rw [if_neg c1] at hpts ⊢
    by_cases c2 : normLt BO2 (radius + obs.r) = true
    · rw [if_pos c2] at hpts
      cases hpts
    · rw [if_neg c2] at hpts ⊢
      by_cases a1 : acuteAngle false AO2 AB2 BO2 = true
      · rw [if_pos a1] at hpts ⊢
        have a1' : 0 < AO2 + AB2 - BO2 := by
          simp only [acuteAngle, Bool.not_false, Bool.true_and, decide_eq_true_eq] at a1
          exact a1.2.2
        by_cases a2 : acuteAngle false BO2 AB2 AO2 = true
        · rw [if_pos a2] at hpts ⊢
          have a2' : 0 < BO2 + AB2 - AO2 := by
            simp only [acuteAngle, Bool.not_false, Bool.true_and, decide_eq_true_eq] at a2
            exact a2.2.2
          by_cases c3 : normLt ((4 * AO2 * AB2 - (AO2 + AB2 - BO2) ^ 2) / (4 * AB2))
              (radius + obs.r) = true
          · rw [if_pos c3] at hpts
            cases hpts
          · rw [if_neg c3] at hpts ⊢
            simp only [SpherePts.pts.injEq] at hpts
            obtain ⟨rfl, rfl⟩ := hpts
            have ht0 : ¬ (AO2 + AB2 - BO2) / (2 * AB2) < 0 :=
              not_lt.2 (div_nonneg a1'.le (by linarith))
            have ht1 : ¬ (AO2 + AB2 - BO2) / (2 * AB2) > 1 := by
              rw [gt_iff_lt, not_lt, div_le_one (by linarith)]
              linarith
            rw [clamp01_of_mem ht0 ht1]
            refine ⟨rfl, ?_⟩
            have hd : sqDist (A.add (V3.smul ((AO2 + AB2 - BO2) / (2 * AB2)) (B.sub A))) obs.c =
                (4 * AO2 * AB2 - (AO2 + AB2 - BO2) ^ 2) / (4 * AB2) := by
              rw [sqDist_lerp, dot_law_of_cosines, hAO, hBO, hABq, ← squaredNorm_sub_comm A B,
                hABq]
              field_simp
              ring
            rw [hd, ← sqDist_comm, hd]
        · rw [if_neg a2] at hpts ⊢
          simp only [SpherePts.pts.injEq] at hpts
          obtain ⟨rfl, rfl⟩ := hpts
          have a2' : BO2 + AB2 - AO2 ≤ 0 := by
            simp only [acuteAngle, Bool.not_false, Bool.true_and, decide_eq_true_eq, not_and,
              not_lt] at a2
            exact a2 hB0 hn'
          have ht1 : (AO2 + AB2 - BO2) / (2 * AB2) ≥ 1 := by
            rw [ge_iff_le, one_le_div (by linarith)]
            linarith
          have hcl : clamp01 ((AO2 + AB2 - BO2) / (2 * AB2)) = 1 := by
            rcases eq_or_lt_of_le ht1 with h | h
            · rw [← h]
              exact clamp01_of_mem (by norm_num) (by norm_num)
            · exact clamp01_of_gt h
          rw [hcl, lerp_one, if_pos (by linarith : BO2 < AO2)]
          refine ⟨rfl, ?_⟩
          simp only [sqDist, hBO]
      · rw [if_neg a1] at hpts ⊢
        simp only [SpherePts.pts.injEq] at hpts
        obtain ⟨rfl, rfl⟩ := hpts
        have a1' : AO2 + AB2 - BO2 ≤ 0 := by
          simp only [acuteAngle, Bool.not_false, Bool.true_and, decide_eq_true_eq, not_and,
            not_lt] at a1
          exact a1 hA0 hn'
        have ht0 : (AO2 + AB2 - BO2) / (2 * AB2) ≤ 0 :=
          div_nonpos_of_nonpos_of_nonneg a1' (by linarith)
        have hcl : clamp01 ((AO2 + AB2 - BO2) / (2 * AB2)) = 0 := by
          rcases eq_or_lt_of_le ht0 with h | h
          · rw [h]
            exact clamp01_of_mem (by norm_num) (by norm_num)
          · exact clamp01_of_neg h
        rw [hcl, lerp_zero, if_neg (by linarith : ¬ BO2 < AO2)]
        refine ⟨rfl, ?_⟩
        simp only [sqDist, hAO]

theorem sphere_surface_point (P O : V3) (R : ℚ) (hR : 0 ≤ R)
    (hpos : normGt (sqDist P O) R = true) (x y z : ℝ)
    (h : IsRayPoint P O ((Real.sqrt (sqDist P O : ℚ) - (R : ℝ)) / Real.sqrt (sqDist P O : ℚ))
      x y z) :
    0 ≤ (Real.sqrt (sqDist P O : ℚ) - (R : ℝ)) / Real.sqrt (sqDist P O : ℚ) ∧
    (x - (O.x : ℝ)) ^ 2 + (y - (O.y : ℝ)) ^ 2 + (z - (O.z : ℝ)) ^ 2 = (R : ℝ) ^ 2 ∧
    Real.sqrt (((P.x : ℝ) - x) ^ 2 + ((P.y : ℝ) - y) ^ 2 + ((P.z : ℝ) - z) ^ 2) =
      Real.sqrt (sqDist P O : ℚ) - (R : ℝ) := by
  have hq0 : 0 ≤ sqDist P O := squaredNorm_nonneg _
  have hq0' : (0 : ℝ) ≤ ((sqDist P O : ℚ) : ℝ) := by exact_mod_cast hq0
  have hgt : (R : ℝ) < Real.sqrt (sqDist P O : ℚ) := (normGt_iff _ _ hq0).1 hpos
  have hR' : (0 : ℝ) ≤ (R : ℝ) := by exact_mod_cast hR
  have hs : 0 < Real.sqrt (sqDist P O : ℚ) := lt_of_le_of_lt hR' hgt
  have hsq : Real.sqrt (sqDist P O : ℚ) * Real.sqrt (sqDist P O : ℚ) = ((sqDist P O : ℚ) : ℝ) :=
    Real.mul_self_sqrt hq0'
  have hqe : ((sqDist P O : ℚ) : ℝ) = ((P.x : ℝ) - (O.x : ℝ)) ^ 2 + ((P.y : ℝ) - (O.y : ℝ)) ^ 2 +
      ((P.z : ℝ) - (O.z : ℝ)) ^ 2 := by
    simp only [sqDist, V3.sub, V3.squaredNorm, V3.dot]
    push_cast
    ring
  generalize Real.sqrt (sqDist P O : ℚ) = s at *
  obtain ⟨hx, hy, hz⟩ := h
  have hk : (s - (R : ℝ)) / s = 1 - (R : ℝ) / s := by field_simp
  have hk0 : 0 ≤ (s - (R : ℝ)) / s := div_nonneg (by linarith) hs.le
  refine ⟨hk0, ?_, ?_⟩
  · rw [hx, hy, hz, hk]
    have e : ((P.x : ℝ) + (1 - (R : ℝ) / s) * ((O.x : ℝ) - (P.x : ℝ)) - (O.x : ℝ)) ^ 2 +
        ((P.y : ℝ) + (1 - (R : ℝ) / s) * ((O.y : ℝ) - (P.y : ℝ)) - (O.y : ℝ)) ^ 2 +
        ((P.z : ℝ) + (1 - (R : ℝ) / s) * ((O.z : ℝ) - (P.z : ℝ)) - (O.z : ℝ)) ^ 2 =
        ((R : ℝ) / s) ^ 2 * (((P.x : ℝ) - (O.x : ℝ)) ^ 2 + ((P.y : ℝ) - (O.y : ℝ)) ^ 2 +
          ((P.z : ℝ) - (O.z : ℝ)) ^ 2) := by ring
    rw [e, ← hqe, ← hsq]
    have e1 : ((R : ℝ) / s) ^ 2 * (s * s) = ((R : ℝ) / s * s) ^ 2 := by ring
    rw [e1, div_mul_cancel₀ _ hs.ne']
  · have e : ((P.x : ℝ) - x) ^ 2 + ((P.y : ℝ) - y) ^ 2 + ((P.z : ℝ) - z) ^ 2 =
        ((s - (R : ℝ)) / s) ^ 2 * (((P.x : ℝ) - (O.x : ℝ)) ^ 2 + ((P.y : ℝ) - (O.y : ℝ)) ^ 2 +
          ((P.z : ℝ) - (O.z : ℝ)) ^ 2) := by
      rw [hx, hy, hz]
      ring
    rw [e, ← hqe, ← hsq]
    have e2 : ((s - (R : ℝ)) / s) ^ 2 * (s * s) = (s - (R : ℝ)) ^ 2 := by
      have e3 : ((s - (R : ℝ)) / s) ^ 2 * (s * s) = ((s - (R : ℝ)) / s * s) ^ 2 := by ring
      rw [e3, div_mul_cancel₀ _ hs.ne']
    rw [e2, Real.sqrt_sq (by linarith)]

theorem nearestOnSegment_perp (A B C : V3) (hn : (B.sub A).squaredNorm ≠ 0)
    (h0 : ¬ (C.sub A).dot (B.sub A) / (B.sub A).squaredNorm < 0)
    (h1 : ¬ (C.sub A).dot (B.sub A) / (B.sub A).squaredNorm > 1) :
    ((nearestOnSegment A B C).sub C).dot (B.sub A) = 0 := by
  unfold nearestOnSegment
  rw [clamp01_of_mem h0 h1]
  have ht : (C.sub A).dot (B.sub A) / (B.sub A).squaredNorm * (B.sub A).squaredNorm =
      (C.sub A).dot (B.sub A) := div_mul_cancel₀ _ hn
  generalize (C.sub A).dot (B.sub A) / (B.sub A).squaredNorm = t at ht ⊢
  simp only [V3.add, V3.smul, V3.sub, V3.squaredNorm, V3.dot] at ht ⊢
  linear_combination ht

theorem nearestOnSegment_left (A B C : V3)
    (h : (C.sub A).dot (B.sub A) / (B.sub A).squaredNorm ≤ 0) : nearestOnSegment A B C = A := by
  unfold nearestOnSegment
  rcases eq_or_lt_of_le h with h | h
  · rw [h, clamp01_of_mem (by norm_num) (by norm_num), lerp_zero]
  · rw [clamp01_of_neg h, lerp_zero]

theorem nearestOnSegment_right (A B C : V3)
    (h : 1 ≤ (C.sub A).dot (B.sub A) / (B.sub A).squaredNorm) : nearestOnSegment A B C = B := by
  unfold nearestOnSegment
  rcases eq_or_lt_of_le h with h | h
  · rw [← h, clamp01_of_mem (by norm_num) (by norm_num), lerp_one]
  · rw [clamp01_of_gt h, lerp_one]

/-- The two angle tests of `distanceCapsuleToSphere`, when no argument of `acos`
is rounded above `1`, say that the projection of the centre on the line `AB`
falls strictly between `A` and `B`. -/
theorem acuteAngle_iff_param (A B O : V3) (hAB : A ≠ B) (hOA : O ≠ A) (hOB : O ≠ B) :
    (acuteAngle false (A.sub O).squaredNorm (A.sub B).squaredNorm (B.sub O).squaredNorm = true ↔
      0 < (O.sub A).dot (B.sub A) / (B.sub A).squaredNorm) ∧
    (acuteAngle false (B.sub O).squaredNorm (A.sub B).squaredNorm (A.sub O).squaredNorm = true ↔
      (O.sub A).dot (B.sub A) / (B.sub A).squaredNorm < 1) := by
  have hn := squaredNorm_sub_ne_zero hAB
  have hn' : (A.sub B).squaredNorm ≠ 0 := by rwa [squaredNorm_sub_comm]
  have hnpos : 0 < (A.sub B).squaredNorm := lt_of_le_of_ne (squaredNorm_nonneg _) (Ne.symm hn')
  have hA0 : (A.sub O).squaredNorm ≠ 0 := squaredNorm_sub_ne_zero hOA
  have hB0 : (B.sub O).squaredNorm ≠ 0 := squaredNorm_sub_ne_zero hOB
  rw [← sphere_param A B O hn]
  simp only [acuteAngle, Bool.not_false, Bool.true_and, decide_eq_true_eq, hA0, hB0, hn', ne_eq,
    not_false_eq_true, true_and]
  constructor
  · rw [div_pos_iff_of_pos_right (by linarith)]
  · rw [div_lt_one (by linarith)]
    constructor <;> intro h <;> linarith

/-- The witness pair in exact arithmetic: when no argument of `acos` is rounded
above `1` and `distanceCapsuleToSphere` reports no collision for a
non-degenerate segment `AB` and a sphere whose centre `O` is neither `A` nor
`B` (a pair is returned and the distance returned is positive), the link-side
point `P` of the pair is the point of `AB` nearest to `O` (the foot of the
perpendicular from `O` when both angle tests succeed, an endpoint otherwise),
the distance returned is `|P - O|` minus the sphere radius, the code divides by
`|P - O|`, and the obstacle-side point `P + d_c / |P - O| (O - P)` lies on the
ray from `P` towards `O`, on the sphere surface, at the returned distance from
`P`. -/
theorem sphere_witness_pair (A B : V3) (radius : ℚ) (obs : Sphere) (P : V3) (den : ℚ)
    (hAB : A ≠ B) (hOA : obs.c ≠ A) (hOB : obs.c ≠ B) (hR : 0 ≤ obs.r)
    (hpts : (distanceCapsuleToSphere false false A B radius obs).nearest_pts =
      SpherePts.pts P den)
    (hpos : (distanceCapsuleToSphere false false A B radius obs).d_c.gtScalar
      (distanceCapsuleToSphere false false A B radius obs).sub = true) :
    (P = nearestOnSegment A B obs.c ∧ onSegment P A B ∧
      ∀ p, onSegment p A B → sqDist P obs.c ≤ sqDist p obs.c) ∧
    (acuteAngle false (A.sub obs.c).squaredNorm (A.sub B).squaredNorm
        (B.sub obs.c).squaredNorm = true ∧
      acuteAngle false (B.sub obs.c).squaredNorm (A.sub B).squaredNorm
        (A.sub obs.c).squaredNorm = true →
        (P.sub obs.c).dot (B.sub A) = 0) ∧
    (¬ (acuteAngle false (A.sub obs.c).squaredNorm (A.sub B).squaredNorm
        (B.sub obs.c).squaredNorm = true ∧
      acuteAngle false (B.sub obs.c).squaredNorm (A.sub B).squaredNorm
        (A.sub obs.c).squaredNorm = true) →
        P = A ∨ P = B) ∧
    ((distanceCapsuleToSphere false false A B radius obs).d_c = Dist.fin (sqDist P obs.c) ∧
      (distanceCapsuleToSphere false false A B radius obs).sub = obs.r ∧
      den = sqDist P obs.c) ∧
    ∀ x y z : ℝ,
      IsRayPoint P obs.c
        ((Real.sqrt (sqDist P obs.c : ℚ) - (obs.r : ℝ)) / Real.sqrt (den : ℚ)) x y z →
      0 ≤ (Real.sqrt (sqDist P obs.c : ℚ) - (obs.r : ℝ)) / Real.sqrt (den : ℚ) ∧
      (x - (obs.c.x : ℝ)) ^ 2 + (y - (obs.c.y : ℝ)) ^ 2 + (z - (obs.c.z : ℝ)) ^ 2 =
        (obs.r : ℝ) ^ 2 ∧
      Real.sqrt (((P.x : ℝ) - x) ^ 2 + ((P.y : ℝ) - y) ^ 2 + ((P.z : ℝ) - z) ^ 2) =
        Real.sqrt (sqDist P obs.c : ℚ) - (obs.r : ℝ) := by
  have hn := squaredNorm_sub_ne_zero hAB
  obtain ⟨hP, hres⟩ := distanceCapsuleToSphere_pts A B radius obs P den hAB hOA hOB hpts
  obtain ⟨ac1, ac2⟩ := acuteAngle_iff_param A B obs.c hAB hOA hOB
  have hden : den = sqDist P obs.c := by
    rw [hres] at hpts
    simp only [SpherePts.pts.injEq, true_and] at hpts
    exact hpts.symm
  rw [hres] at hpos
  simp only [Dist.gtScalar] at hpos
  refine ⟨⟨hP, ?_, ?_⟩, ?_, ?_, ⟨by rw [hres], by rw [hres], hden⟩, ?_⟩
  · rw [hP]
    exact nearestOnSegment_onSegment A B obs.c
  · rw [hP]
    exact nearestOnSegment_min A B obs.c hn
  · rintro ⟨h1, h2⟩
    rw [hP]
    exact nearestOnSegment_perp A B obs.c hn (not_lt.2 (ac1.1 h1).le)
      (not_lt.2 (ac2.1 h2).le)
  · intro hnot
    rw [hP]
    by_cases h1 : 0 < (obs.c.sub A).dot (B.sub A) / (B.sub A).squaredNorm
    · right
      apply nearestOnSegment_right
      by_contra hc
      exact hnot ⟨ac1.2 h1, ac2.2 (not_le.1 hc)⟩
    · left
      exact nearestOnSegment_left A B obs.c (not_lt.1 h1)
  · intro x y z hray
    rw [hden] at hray ⊢
    exact sphere_surface_point P obs.c obs.r hR hpos x y z hray

/-- The statement of `sphere_witness_pair` at Scenario C (sphere of radius `1`
at the origin, `A = (2, 0, 0)`, `B = (3, 0, 0)`, capsule radius `0.5`): the
pair returned is `A` with the divisor `AO^2 = 4`. -/
theorem sphere_witness_pair_scenarioC :
    (distanceCapsuleToSphere false false ⟨2, 0, 0⟩ ⟨3, 0, 0⟩ (1/2) ⟨⟨0, 0, 0⟩, 1⟩).d_c =
        Dist.fin (sqDist ⟨2, 0, 0⟩ (⟨⟨0, 0, 0⟩, 1⟩ : Sphere).c) ∧
      (distanceCapsuleToSphere false false ⟨2, 0, 0⟩ ⟨3, 0, 0⟩ (1/2) ⟨⟨0, 0, 0⟩, 1⟩).sub =
        (⟨⟨0, 0, 0⟩, 1⟩ : Sphere).r ∧
      (2 * 2 : ℚ) = sqDist ⟨2, 0, 0⟩ (⟨⟨0, 0, 0⟩, 1⟩ : Sphere).c :=
  (sphere_witness_pair ⟨2, 0, 0⟩ ⟨3, 0, 0⟩ (1/2) ⟨⟨0, 0, 0⟩, 1⟩ ⟨2, 0, 0⟩ (2 * 2)
    (by decide) (by decide) (by decide) (by norm_num) (by decide!) (by decide!)).2.2.2.1

/-- C18 (fails on the code): sphere of radius `1` at `O = (4, 4, 0)`,
`A = (0, 0, 0)`, `B = (1, 1, 0)`, capsule radius `1/2`.  `A`, `B`, `O` are on one
line, `B` between `A` and `O`, so the point of `AB` nearest to `O` is `B`, at
`|BO| = √18`.  The exact quotient handed to `acos` for `alpha` is `1`
(`(32 + 2 - 18)^2 = 4 * 32 * 2`); the code computes `1.00000006`, `acos`
returns NaN, `alpha < M_PI / 2` fails and the branch of line 583 is taken: the
link-side point returned is `A` (with the divisor `AO`, `AO^2 = 32`), not `B`,
with the distance `√18 - 1` measured from `B`.  The obstacle-side point
`A + d_c / AO * (O - A)` is then at `√32 - (√18 - 1) = √2 + 1` from the centre,
not on the sphere.  Had the quotient not left `[-1, 1]`, the pair would start
at `B`. -/
theorem distanceCapsuleToSphere_flat_triangle (nanB : Bool) :
    distanceCapsuleToSphere true nanB ⟨0, 0, 0⟩ ⟨1, 1, 0⟩ (1/2) ⟨⟨4, 4, 0⟩, 1⟩ =
        ⟨Dist.fin 18, 1, SpherePts.pts ⟨0, 0, 0⟩ 32⟩ ∧
      distanceCapsuleToSphere false nanB ⟨0, 0, 0⟩ ⟨1, 1, 0⟩ (1/2) ⟨⟨4, 4, 0⟩, 1⟩ =
        ⟨Dist.fin 18, 1, SpherePts.pts ⟨1, 1, 0⟩ 18⟩ ∧
      nearestOnSegment ⟨0, 0, 0⟩ ⟨1, 1, 0⟩ ⟨4, 4, 0⟩ = ⟨1, 1, 0⟩ ∧
      (⟨0, 0, 0⟩ : V3) ≠ ⟨1, 1, 0⟩ ∧
      sqDist ⟨0, 0, 0⟩ ⟨4, 4, 0⟩ = 32 ∧ sqDist ⟨1, 1, 0⟩ ⟨4, 4, 0⟩ = 18 ∧
      sqDist ⟨0, 0, 0⟩ ⟨1, 1, 0⟩ = 2 ∧ ((32 : ℚ) + 2 - 18) ^ 2 = 4 * 32 * 2 ∧
      Real.sqrt 32 - (Real.sqrt 18 - 1) = Real.sqrt 2 + 1 := by
  have h32 : Real.sqrt 32 = 4 * Real.sqrt 2 := by
    rw [show (32 : ℝ) = 4 ^ 2 * 2 by norm_num, Real.sqrt_mul (by positivity),
      Real.sqrt_sq (by norm_num)]
  have h18 : Real.sqrt 18 = 3 * Real.sqrt 2 := by
    rw [show (18 : ℝ) = 3 ^ 2 * 2 by norm_num, Real.sqrt_mul (by positivity),
      Real.sqrt_sq (by norm_num)]
  refine ⟨?_, ?_, by decide!, by decide, by decide!, by decide!, by decide!, by norm_num, ?_⟩
  · cases nanB <;> decide!
  · cases nanB <;> decide!
  · rw [h32, h18]
    ring

/-- The angle test of `distanceCapsuleToSphere` on the squares of the sides is
the comparison `acos(...) < M_PI / 2` of the code when the argument of `acos`
is not rounded above `1`. -/
theorem acuteAngle_iff (p2 c2 q2 : ℚ) (hp : 0 < p2) (hc : 0 < c2) :
    acuteAngle false p2 c2 q2 = true ↔
      Real.arccos (((p2 : ℝ) + (c2 : ℝ) - (q2 : ℝ)) /
        (2 * Real.sqrt (p2 : ℝ) * Real.sqrt (c2 : ℝ))) < Real.pi / 2 := by
  have hp' : (0 : ℝ) < Real.sqrt (p2 : ℝ) := Real.sqrt_pos.2 (by exact_mod_cast hp)
  have hc' : (0 : ℝ) < Real.sqrt (c2 : ℝ) := Real.sqrt_pos.2 (by exact_mod_cast hc)
  have hden : (0 : ℝ) < 2 * Real.sqrt (p2 : ℝ) * Real.sqrt (c2 : ℝ) := by positivity
  rw [Real.arccos_lt_pi_div_two, div_pos_iff_of_pos_right hden]
  simp only [acuteAngle, Bool.not_false, Bool.true_and, decide_eq_true_eq, hp.ne', hc.ne', ne_eq,
    not_false_eq_true, true_and]
  constructor
  · intro h
    have : ((0 : ℚ) : ℝ) < ((p2 + c2 - q2 : ℚ) : ℝ) := by exact_mod_cast h
    push_cast at this
    linarith
  · intro h
    have : ((0 : ℚ) : ℝ) < ((p2 + c2 - q2 : ℚ) : ℝ) := by
      push_cast
      linarith
    exact_mod_cast this

theorem heron_nonneg (A B O : V3) :
    0 ≤ 4 * (A.sub O).squaredNorm * (A.sub B).squaredNorm -
      ((A.sub O).squaredNorm + (A.sub B).squaredNorm - (B.sub O).squaredNorm) ^ 2 := by
  have h := squaredNorm_nonneg ((A.sub O).cross (A.sub B))
  have e : 4 * (A.sub O).squaredNorm * (A.sub B).squaredNorm -
      ((A.sub O).squaredNorm + (A.sub B).squaredNorm - (B.sub O).squaredNorm) ^ 2 =
      4 * ((A.sub O).cross (A.sub B)).squaredNorm := by
    simp only [V3.sub, V3.squaredNorm, V3.dot, V3.cross]
    ring
  rw [e]
  linarith

/-- Heron's formula: the height `2 * sqrt(s (s - AB) (s - AO) (s - BO)) / AB`
computed by `distanceCapsuleToSphere` is the square root of the rational `h2`
of the model. -/
theorem heron_height (A B O : V3) (hAB : A ≠ B) :
    2 * Real.sqrt
      ((Real.sqrt ((A.sub B).squaredNorm : ℚ) + Real.sqrt ((A.sub O).squaredNorm : ℚ) +
          Real.sqrt ((B.sub O).squaredNorm : ℚ)) / 2 *
        ((Real.sqrt ((A.sub B).squaredNorm : ℚ) + Real.sqrt ((A.sub O).squaredNorm : ℚ) +
          Real.sqrt ((B.sub O).squaredNorm : ℚ)) / 2 - Real.sqrt ((A.sub B).squaredNorm : ℚ)) *
        ((Real.sqrt ((A.sub B).squaredNorm : ℚ) + Real.sqrt ((A.sub O).squaredNorm : ℚ) +
          Real.sqrt ((B.sub O).squaredNorm : ℚ)) / 2 - Real.sqrt ((A.sub O).squaredNorm : ℚ)) *
        ((Real.sqrt ((A.sub B).squaredNorm : ℚ) + Real.sqrt ((A.sub O).squaredNorm : ℚ) +
          Real.sqrt ((B.sub O).squaredNorm : ℚ)) / 2 - Real.sqrt ((B.sub O).squaredNorm : ℚ))) /
      Real.sqrt ((A.sub B).squaredNorm : ℚ) =
    Real.sqrt (((4 * (A.sub O).squaredNorm * (A.sub B).squaredNorm -
      ((A.sub O).squaredNorm + (A.sub B).squaredNorm - (B.sub O).squaredNorm) ^ 2) /
      (4 * (A.sub B).squaredNorm) : ℚ) : ℝ) := by
  have hn : (A.sub B).squaredNorm ≠ 0 := by
    rw [squaredNorm_sub_comm]
    exact squaredNorm_sub_ne_zero hAB
  have hc0 : 0 < (A.sub B).squaredNorm := lt_of_le_of_ne (squaredNorm_nonneg _) (Ne.symm hn)
  have hb0 := squaredNorm_nonneg (A.sub O)
  have hd0 := squaredNorm_nonneg (B.sub O)
  have hH := heron_nonneg A B O
  generalize (A.sub B).squaredNorm = c2 at *
  generalize (A.sub O).squaredNorm = b2 at *
  generalize (B.sub O).squaredNorm = d2 at *
  have hc0' : (0 : ℝ) < (c2 : ℝ) := by exact_mod_cast hc0
  have hb0' : (0 : ℝ) ≤ (b2 : ℝ) := by exact_mod_cast hb0
  have hd0' : (0 : ℝ) ≤ (d2 : ℝ) := by exact_mod_cast hd0
  have hH' : (0 : ℝ) ≤ 4 * (b2 : ℝ) * (c2 : ℝ) - ((b2 : ℝ) + (c2 : ℝ) - (d2 : ℝ)) ^ 2 := by
    have : ((0 : ℚ) : ℝ) ≤ ((4 * b2 * c2 - (b2 + c2 - d2) ^ 2 : ℚ) : ℝ) := by exact_mod_cast hH
    push_cast at this
    linarith
  have ec : Real.sqrt (c2 : ℝ) * Real.sqrt (c2 : ℝ) = (c2 : ℝ) := Real.mul_self_sqrt hc0'.le
  have eb : Real.sqrt (b2 : ℝ) * Real.sqrt (b2 : ℝ) = (b2 : ℝ) := Real.mul_self_sqrt hb0'
  have ed : Real.sqrt (d2 : ℝ) * Real.sqrt (d2 : ℝ) = (d2 : ℝ) := Real.mul_self_sqrt hd0'
  have hcpos : 0 < Real.sqrt (c2 : ℝ) := Real.sqrt_pos.2 hc0'
  generalize Real.sqrt (c2 : ℝ) = c at *
  generalize Real.sqrt (b2 : ℝ) = b at *
  generalize Real.sqrt (d2 : ℝ) = d at *
  have hX : (c + b + d) / 2 * ((c + b + d) / 2 - c) * ((c + b + d) / 2 - b) *
      ((c + b + d) / 2 - d) = (4 * (b2 : ℝ) * (c2 : ℝ) - ((b2 : ℝ) + (c2 : ℝ) - (d2 : ℝ)) ^ 2) / 16 := by
    rw [← ec, ← eb, ← ed]
    ring
  rw [hX]
  have hX0 : (0 : ℝ) ≤ (4 * (b2 : ℝ) * (c2 : ℝ) - ((b2 : ℝ) + (c2 : ℝ) - (d2 : ℝ)) ^ 2) / 16 := by
    positivity
  have hl : 0 ≤ 2 * Real.sqrt ((4 * (b2 : ℝ) * (c2 : ℝ) -
      ((b2 : ℝ) + (c2 : ℝ) - (d2 : ℝ)) ^ 2) / 16) / c := by positivity
  rw [← Real.sqrt_sq hl]
  congr 1
  rw [div_pow, mul_pow, Real.sq_sqrt hX0]
  push_cast
  rw [← ec]
  field_simp
  ring

/-! ## Interpolation -/

/-- C19: with `D` replaced by `|q2 - q1|` when a negative `D` is passed,
`interpolate` builds the candidate `q1 + step (q2 - q1) / D` with status
`Advanced` when `step + EQUALITY_THRESHOLD < D`, and exactly `q2` with status
`Reached` otherwise; it returns the status and the candidate when the
candidate is valid and `(Trapped, null)` when it is not.  In particular, for a
distance `D ≥ 0` and a threshold `≥ 0`, `interpolate(q1, q2, D, D)` with a
valid `q2` returns `Reached` with the coordinates of `q2`. -/
theorem interpolate_spec {K : Type} [LinearOrderedField K] (norm : List K → K) (thr : K)
    (isValid : Coords K → Bool) (q1 q2 : List K) (step D : K) :
    (step + thr < (if D < 0 then norm (vecSub q2 q1) else D) →
      interpolate norm thr isValid q1 q2 step D =
        if isValid (stepTowards q1 q2 step (if D < 0 then norm (vecSub q2 q1) else D)) then
          (Status.Advanced,
            some (stepTowards q1 q2 step (if D < 0 then norm (vecSub q2 q1) else D)))
        else (Status.Trapped, none)) ∧
    (¬ step + thr < (if D < 0 then norm (vecSub q2 q1) else D) →
      interpolate norm thr isValid q1 q2 step D =
        if isValid (Coords.vec q2) then (Status.Reached, some (Coords.vec q2))
        else (Status.Trapped, none)) ∧
    (0 ≤ thr → 0 ≤ D → isValid (Coords.vec q2) = true →
      interpolate norm thr isValid q1 q2 D D = (Status.Reached, some (Coords.vec q2))) := by
  refine ⟨fun h => ?_, fun h => ?_, fun hthr hD hv => ?_⟩
  · unfold interpolate
    simp only [if_pos h]
  · unfold interpolate
    simp only [if_neg h]
  · unfold interpolate
    have h1 : ¬ D < 0 := not_lt.2 hD
    have h2 : ¬ D + thr < D := by
      intro h
      linarith
    simp only [if_neg h1, if_neg h2, hv, if_true]

/-- The last part of `interpolate_spec` at `q1 = (0, 0)`, `q2 = (3, 4)`,
`D = 5`, every state valid. -/
theorem interpolate_spec_witness :
    interpolate (fun v => if v = [3, 4] then (5 : ℚ) else 0) (1/1000000) (fun _ => true)
        [0, 0] [3, 4] 5 5 = (Status.Reached, some (Coords.vec [3, 4])) :=
  (interpolate_spec (fun v => if v = [3, 4] then (5 : ℚ) else 0) (1/1000000) (fun _ => true)
    [0, 0] [3, 4] 5 5).2.2
    (by norm_num) (by norm_num) rfl

theorem zipWith_zero_step {K : Type} [LinearOrderedField K] (D : K) :
    ∀ (q1 q2 : List K), q1.length = q2.length →
      List.zipWith (fun a b => a + 0 * (b - a) / D) q1 q2 = q1
  | [], [], _ => rfl
  | [], _ :: _, h => by simp at h
  | _ :: _, [], h => by simp at h
  | a :: q1, b :: q2, h => by
    have hl : q1.length = q2.length := by simpa using h
    rw [List.zipWith_cons_cons, zipWith_zero_step D q1 q2 hl, zero_mul, zero_div, add_zero]

theorem vecSqNorm_nonneg {K : Type} [LinearOrderedField K] : ∀ v : List K, 0 ≤ vecSqNorm v
  | [] => by simp [vecSqNorm]
  | x :: v => by
    have h := vecSqNorm_nonneg v
    simp only [vecSqNorm, List.map_cons, List.sum_cons] at h ⊢
    have := mul_self_nonneg x
    linarith

theorem eq_of_vecSqNorm_sub_zero {K : Type} [LinearOrderedField K] :
    ∀ (q2 q1 : List K), q1.length = q2.length → vecSqNorm (vecSub q2 q1) = 0 → q2 = q1
  | [], [], _, _ => rfl
  | [], _ :: _, h, _ => by simp at h
  | _ :: _, [], h, _ => by simp at h
  | b :: q2, a :: q1, h, hz => by
    have hl : q1.length = q2.length := by simpa using h
    have h0 := vecSqNorm_nonneg (vecSub q2 q1)
    simp only [vecSub, vecSqNorm, List.zipWith_cons_cons, List.map_cons, List.sum_cons] at hz h0
    have hsq := mul_self_nonneg (b - a)
    have hba : (b - a) * (b - a) = 0 := by linarith
    have hrest : (List.map (fun x => x * x) (List.zipWith (fun b a => b - a) q2 q1)).sum = 0 := by
      linarith
    have hab : b = a := by
      have := mul_self_eq_zero.1 hba
      linarith
    rw [hab, eq_of_vecSqNorm_sub_zero q2 q1 hl hrest]

/-- C20 (amended): for a valid `q1`, a threshold `≥ 0` and `D = |q2 - q1|`,
`interpolate(q1, q2, 0, D)` returns the coordinates of `q1` with status
`Advanced` when `D` exceeds the threshold, and `q2`, whose coordinates are
those of `q1`, with status `Reached` when `D = 0`; when `0 < D ≤` threshold
the candidate is `q2` with status `Reached`, returned if `q2` is valid. -/
theorem interpolate_zero_step {K : Type} [LinearOrderedField K] (norm : List K → K) (thr : K)
    (isValid : Coords K → Bool) (q1 q2 : List K) (D : K) (hthr : 0 ≤ thr)
    (hlen : q1.length = q2.length) (hv : isValid (Coords.vec q1) = true) (hD0 : 0 ≤ D)
    (hD : D * D = vecSqNorm (vecSub q2 q1)) :
    (thr < D → interpolate norm thr isValid q1 q2 0 D =
      (Status.Advanced, some (Coords.vec q1))) ∧
    (D = 0 → q2 = q1 ∧ interpolate norm thr isValid q1 q2 0 D =
      (Status.Reached, some (Coords.vec q2))) ∧
    (0 < D → D ≤ thr → interpolate norm thr isValid q1 q2 0 D =
      if isValid (Coords.vec q2) then (Status.Reached, some (Coords.vec q2))
      else (Status.Trapped, none)) := by
  have h1 : ¬ D < 0 := not_lt.2 hD0
  refine ⟨fun h => ?_, fun h => ?_, fun hpos hle => ?_⟩
  · have hne : D ≠ 0 := by
      intro h0
      rw [h0] at h
      exact absurd h (not_lt.2 hthr)
    unfold interpolate stepTowards
    simp only [if_neg h1, zero_add, if_pos h, if_neg hne, zipWith_zero_step D q1 q2 hlen, hv,
      if_true]
  · have hq : q2 = q1 := by
      apply eq_of_vecSqNorm_sub_zero q2 q1 hlen
      rw [← hD, h, mul_zero]
    refine ⟨hq, ?_⟩
    have h2 : ¬ 0 + thr < D := by
      rw [h, zero_add]
      exact not_lt.2 hthr
    unfold interpolate
    simp only [if_neg h1, if_neg h2, hq, hv, if_true]
  · have h2 : ¬ 0 + thr < D := by
      rw [zero_add]
      exact not_lt.2 hle
    unfold interpolate
    simp only [if_neg h1, if_neg h2]

/-- C20 (fails as stated): with the threshold `10^-6`, `q1 = (0)` valid and
`q2 = (1/2000000)` at distance `D = 1/2000000 ≠ 0`, `interpolate(q1, q2, 0, D)`
returns status `Reached` (not `Advanced`) with the coordinates of `q2`, which
are not those of `q1`. -/
theorem interpolate_zero_step_below_threshold :
    interpolate (fun v => if v = [1/2000000] then (1/2000000 : ℚ) else 0) (1/1000000)
        (fun _ => true) [0] [1/2000000] 0 (1/2000000) =
      (Status.Reached, some (Coords.vec [1/2000000])) ∧
    (1/2000000 : ℚ) * (1/2000000) = vecSqNorm (vecSub [1/2000000] [0]) ∧
    (1/2000000 : ℚ) ≠ 0 ∧ ([1/2000000] : List ℚ) ≠ [0] := by
  refine ⟨by decide!, by norm_num [vecSqNorm, vecSub], by norm_num, by norm_num⟩

/-- The first part of `interpolate_zero_step` at `q1 = (0, 0)`, `q2 = (3, 4)`,
`D = 5`, every state valid. -/
theorem interpolate_zero_step_witness :
    interpolate (fun v => if v = [3, 4] then (5 : ℚ) else 0) (1/1000000) (fun _ => true)
        [0, 0] [3, 4] 0 5 = (Status.Advanced, some (Coords.vec [0, 0])) :=
  (interpolate_zero_step (fun v => if v = [3, 4] then (5 : ℚ) else 0) (1/1000000)
    (fun _ => true) [0, 0] [3, 4] 5 (by norm_num) rfl rfl (by norm_num)
    (by norm_num [vecSqNorm, vecSub])).1 (by norm_num)

/-! ## Validity of an edge -/

theorem interpolate_trapped_iff {K : Type} [LinearOrderedField K] (norm : List K → K) (thr : K)
    (isValid : Coords K → Bool) (q1 q2 : List K) (step D : K) :
    (interpolate norm thr isValid q1 q2 step D).1 = Status.Trapped ↔
      isValid (if step + thr < (if D < 0 then norm (vecSub q2 q1) else D) then
        stepTowards q1 q2 step (if D < 0 then norm (vecSub q2 q1) else D)
        else Coords.vec q2) = false := by
  unfold interpolate
  by_cases h : step + thr < (if D < 0 then norm (vecSub q2 q1) else D)
  · simp only [if_pos h]
    cases hv : isValid (stepTowards q1 q2 step (if D < 0 then norm (vecSub q2 q1) else D)) <;> simp
  · simp only [if_neg h]
    cases hv : isValid (Coords.vec q2) <;> simp

theorem interpolate_candidate {K : Type} [LinearOrderedField K] (norm : List K → K) (thr : K)
    (q1 q2 : List K) (N i : Nat) (hthr : 0 ≤ thr) :
    (if (i : K) / (N : K) * norm (vecSub q2 q1) + thr <
        (if norm (vecSub q2 q1) < 0 then norm (vecSub q2 q1) else norm (vecSub q2 q1)) then
      stepTowards q1 q2 ((i : K) / (N : K) * norm (vecSub q2 q1))
        (if norm (vecSub q2 q1) < 0 then norm (vecSub q2 q1) else norm (vecSub q2 q1))
      else Coords.vec q2) = checkedState thr q1 q2 (norm (vecSub q2 q1)) N i := by
  rw [ite_self]
  generalize norm (vecSub q2 q1) = D
  unfold checkedState
  by_cases h : (i : K) / (N : K) * D + thr < D
  · rw [if_pos h, if_neg (not_le.2 h)]
    have hD : D ≠ 0 := by
      intro h0
      rw [h0, mul_zero, zero_add] at h
      exact absurd h (not_lt.2 hthr)
    unfold stepTowards subStep
    rw [if_neg hD]
    have hf : (fun a b : K => a + (i : K) / (N : K) * D * (b - a) / D) =
        (fun a b : K => a + (i : K) / (N : K) * (b - a)) := by
      funext a b
      rw [mul_assoc, mul_comm D, ← mul_assoc, mul_div_assoc, div_self hD, mul_one]
    rw [hf]
  · rw [if_neg h, if_pos (not_lt.1 h)]

theorem isValidLoop_iff {K : Type} [LinearOrderedField K] (norm : List K → K) (thr : K)
    (isValid : Coords K → Bool) (num_checks : Nat) (q1 q2 : List K) (D : K) :
    ∀ (n i : Nat), isValidLoop norm thr isValid num_checks q1 q2 D n i = true ↔
      ∀ k, i ≤ k → k < i + n →
        (interpolate norm thr isValid q1 q2 ((k : K) / (num_checks : K) * D) D).1 ≠
          Status.Trapped
  | 0, i => by
    simp only [isValidLoop, true_iff]
    intro k h1 h2
    omega
  | n + 1, i => by
    unfold isValidLoop
    by_cases h : (interpolate norm thr isValid q1 q2 ((i : K) / (num_checks : K) * D) D).1 =
        Status.Trapped
    · rw [if_pos h]
      simp only [Bool.false_eq_true, false_iff, not_forall]
      exact ⟨i, le_refl _, by omega, fun hn => hn h⟩
    · rw [if_neg h, isValidLoop_iff norm thr isValid num_checks q1 q2 D n (i + 1)]
      constructor
      · intro hall k h1 h2
        by_cases hk : k = i
        · rw [hk]
          exact h
        · exact hall k (by omega) (by omega)
      · intro hall k h1 h2
        exact hall k (by omega) (by omega)

theorem isValidEdge_iff_checked {K : Type} [LinearOrderedField K] (norm : List K → K) (thr : K)
    (isValid : Coords K → Bool) (N : Nat) (q1 q2 : List K) (hthr : 0 ≤ thr) :
    isValidEdge norm thr isValid N q1 q2 = true ↔
      ∀ i, 1 ≤ i → i ≤ N →
        isValid (checkedState thr q1 q2 (norm (vecSub q2 q1)) N i) = true := by
  unfold isValidEdge
  simp only
  rw [isValidLoop_iff]
  constructor
  · intro h i h1 h2
    have := h i h1 (by omega)
    rw [Ne, interpolate_trapped_iff, interpolate_candidate norm thr q1 q2 N i hthr] at this
    simpa using this
  · intro h i h1 h2
    rw [Ne, interpolate_trapped_iff, interpolate_candidate norm thr q1 q2 N i hthr]
    simpa using h i h1 (by omega)

theorem checkedState_last {K : Type} [LinearOrderedField K] (thr : K) (q1 q2 : List K) (D : K)
    (N : Nat) (hN : 1 ≤ N) (hthr : 0 ≤ thr) : checkedState thr q1 q2 D N N = Coords.vec q2 := by
  unfold checkedState
  have hN' : (N : K) ≠ 0 := by
    have : (0 : K) < (N : K) := by exact_mod_cast hN
    exact this.ne'
  rw [div_self hN', one_mul, if_pos]
  linarith

/-- C21: with `D = |q2 - q1|`, `N = NUM_INTERPOLATION_VALIDITY_CHECKS >= 1` and a
threshold `>= 0`, `isValid(q1, q2)` returns `true` exactly when none of the
calls `interpolate(q1, q2, (i/N) D, D)`, `i = 1..N`, returns `Trapped`, that is
exactly when every sub-step point `q1 + (i/N)(q2 - q1)` (replaced by `q2` once
`(i/N) D + EQUALITY_THRESHOLD >= D`) is valid.  The state of the last pass is
`q2`, so a valid edge has a valid `q2`; the answer depends on the validity of
the states of the passes `1..N` only, so `q1` (the point of `i = 0`) is not
examined. -/
theorem isValid_edge_spec {K : Type} [LinearOrderedField K] (norm : List K → K) (thr : K)
    (isValid : Coords K → Bool) (N : Nat) (q1 q2 : List K) (hN : 1 ≤ N) (hthr : 0 ≤ thr) :
    (isValidEdge norm thr isValid N q1 q2 = true ↔
      ∀ i, 1 ≤ i → i ≤ N →
        (interpolate norm thr isValid q1 q2
          ((i : K) / (N : K) * norm (vecSub q2 q1)) (norm (vecSub q2 q1))).1 ≠ Status.Trapped) ∧
    (isValidEdge norm thr isValid N q1 q2 = true ↔
      ∀ i, 1 ≤ i → i ≤ N →
        isValid (checkedState thr q1 q2 (norm (vecSub q2 q1)) N i) = true) ∧
    checkedState thr q1 q2 (norm (vecSub q2 q1)) N N = Coords.vec q2 ∧
    (isValidEdge norm thr isValid N q1 q2 = true → isValid (Coords.vec q2) = true) ∧
    (∀ isValid2 : Coords K → Bool,
      (∀ i, 1 ≤ i → i ≤ N →
        isValid2 (checkedState thr q1 q2 (norm (vecSub q2 q1)) N i) =
          isValid (checkedState thr q1 q2 (norm (vecSub q2 q1)) N i)) →
      isValidEdge norm thr isValid2 N q1 q2 = isValidEdge norm thr isValid N q1 q2) := by
  have hlast := checkedState_last thr q1 q2 (norm (vecSub q2 q1)) N hN hthr
  refine ⟨?_, isValidEdge_iff_checked norm thr isValid N q1 q2 hthr, hlast, ?_, ?_⟩
  · unfold isValidEdge
    simp only
    rw [isValidLoop_iff]
    constructor
    · intro h i h1 h2
      exact h i h1 (by omega)
    · intro h i h1 h2
      exact h i h1 (by omega)
  · intro h
    have := (isValidEdge_iff_checked norm thr isValid N q1 q2 hthr).1 h N hN (le_refl _)
    rwa [hlast] at this
  · intro isValid2 hagree
    rw [Bool.eq_iff_iff, isValidEdge_iff_checked norm thr isValid2 N q1 q2 hthr,
      isValidEdge_iff_checked norm thr isValid N q1 q2 hthr]
    constructor
    · intro h i h1 h2
      rw [← hagree i h1 h2]
      exact h i h1 h2
    · intro h i h1 h2
      rw [hagree i h1 h2]
      exact h i h1 h2

/-- The statement of `isValid_edge_spec` at `q1 = (0, 0)`, `q2 = (3, 4)`,
`D = 5`, `N = 2`, where every state but `q1` is valid: the edge is valid
although `q1` is not, and `q2` is valid. -/
theorem isValid_edge_spec_witness :
    isValidEdge (fun v => if v = [3, 4] then (5 : ℚ) else 0) (1/1000000)
        (fun c => decide (c ≠ Coords.vec [0, 0])) 2 [0, 0] [3, 4] = true ∧
      (fun c => decide (c ≠ Coords.vec [(0 : ℚ), 0])) (Coords.vec [0, 0]) = false ∧
      (fun c => decide (c ≠ Coords.vec [(0 : ℚ), 0])) (Coords.vec [3, 4]) = true :=
  ⟨by decide!, by decide!,
    (isValid_edge_spec (fun v => if v = [3, 4] then (5 : ℚ) else 0) (1/1000000)
      (fun c => decide (c ≠ Coords.vec [0, 0])) 2 [0, 0] [3, 4] (by norm_num)
      (by norm_num)).2.2.2.1 (by decide!)⟩

/-! ## Random states -/

theorem randomState_none_get (dimensions : Nat) (limits : Nat → Nat → ℚ) (rand : Nat → ℚ)
    (i : Nat) (hi : i < dimensions) :
    (randomState dimensions limits rand none)[i]? =
      some (((limits i 1 - limits i 0) * rand i + limits i 0 + limits i 1) / 2) := by
  simp [randomState, List.getElem?_range, hi]

/-- C26: with the raw draw `r` as an input, `randomState()` without a centre
returns `dimensions` coordinates, the one of axis `i` being
`(min_i + max_i)/2 + r_i (max_i - min_i)/2`, which lies in `[min_i, max_i]`
whenever `min_i <= max_i` and `-1 <= r_i <= 1`; with a centre `c` the coordinate
is that sample plus `c_i`, whatever the limits are. -/
theorem randomState_spec (dimensions : Nat) (limits : Nat → Nat → ℚ) (rand : Nat → ℚ)
    (c : List ℚ) (ci : ℚ) (i : Nat) (hi : i < dimensions) (hc : (c)[i]? = some ci) :
    (randomState dimensions limits rand none).length = dimensions ∧
    (randomState dimensions limits rand none)[i]? =
      some ((limits i 0 + limits i 1) / 2 + rand i * (limits i 1 - limits i 0) / 2) ∧
    (limits i 0 ≤ limits i 1 → -1 ≤ rand i → rand i ≤ 1 →
      limits i 0 ≤ (limits i 0 + limits i 1) / 2 + rand i * (limits i 1 - limits i 0) / 2 ∧
      (limits i 0 + limits i 1) / 2 + rand i * (limits i 1 - limits i 0) / 2 ≤ limits i 1) ∧
    (randomState dimensions limits rand (some c))[i]? =
      some ((limits i 0 + limits i 1) / 2 + rand i * (limits i 1 - limits i 0) / 2 + ci) := by
  have e : ((limits i 1 - limits i 0) * rand i + limits i 0 + limits i 1) / 2 =
      (limits i 0 + limits i 1) / 2 + rand i * (limits i 1 - limits i 0) / 2 := by ring
  have hn := randomState_none_get dimensions limits rand i hi
  refine ⟨by simp [randomState], by rw [hn, e], ?_, ?_⟩
  · intro hl h1 h2
    have hd : 0 ≤ limits i 1 - limits i 0 := sub_nonneg.2 hl
    have p1 : 0 ≤ (1 + rand i) * (limits i 1 - limits i 0) := mul_nonneg (by linarith) hd
    have p2 : 0 ≤ (1 - rand i) * (limits i 1 - limits i 0) := mul_nonneg (by linarith) hd
    constructor <;> linarith
  · have hn2 : (List.map
        (fun i => ((limits i 1 - limits i 0) * rand i + limits i 0 + limits i 1) / 2)
        (List.range dimensions))[i]? =
        some (((limits i 1 - limits i 0) * rand i + limits i 0 + limits i 1) / 2) := hn
    simp only [randomState, List.getElem?_zipWith, hn2, hc, Option.map_some', Option.bind_some,
      Option.some.injEq]
    rw [e]

/-- The statement of `randomState_spec` at one axis with limits `[0, 1]` and the
draw `r = 1`: the sample is `1`, within the limits, and with the centre `(1)`
the result is `2`, outside the limits. -/
theorem randomState_spec_witness :
    randomState 1 (fun _ k => if k = 0 then 0 else 1) (fun _ => 1) none = [1] ∧
      randomState 1 (fun _ k => if k = 0 then 0 else 1) (fun _ => 1) (some [1]) = [2] ∧
      (randomState 1 (fun _ k => if k = 0 then 0 else 1) (fun _ => 1) (some [1]))[0]? =
        some ((0 + 1) / 2 + 1 * (1 - 0) / 2 + 1) :=
  ⟨by decide!, by decide!,
    (randomState_spec 1 (fun _ k => if k = 0 then 0 else 1) (fun _ => 1) [1] 1 0 (by norm_num)
      rfl).2.2.2⟩

/-! ## Validity of a configuration -/

theorem isValidObstacles_iff (thr : ℚ) (A B : V3) (radius : ℚ) :
    ∀ env : List Obstacle, isValidObstacles thr A B radius env = true ↔
      ∀ (j : Nat) (obs : Box), env[j]? = some (Obstacle.box obs) → collisionCapsuleToBox thr A B radius obs = false
  | [] => by simp [isValidObstacles]
  | Obstacle.box o :: rest => by
    unfold isValidObstacles
    by_cases h : collisionCapsuleToBox thr A B radius o = true
    · rw [if_pos h]
      simp only [Bool.false_eq_true, false_iff, not_forall]
      exact ⟨0, o, List.getElem?_cons_zero, by simp [h]⟩
    · rw [if_neg h, isValidObstacles_iff thr A B radius rest]
      constructor
      · intro hall j obs hj
        cases j with
        | zero =>
          simp only [List.getElem?_cons_zero, Option.some.injEq, Obstacle.box.injEq] at hj
          rw [← hj]
          simpa using h
        | succ j =>
          simp only [List.getElem?_cons_succ] at hj
          exact hall j obs hj
      · intro hall j obs hj
        exact hall (j + 1) obs (by simpa using hj)
  | Obstacle.sphere s :: rest => by
    unfold isValidObstacles
    rw [isValidObstacles_iff thr A B radius rest]
    constructor
    · intro hall j obs hj
      cases j with
      | zero => simp at hj
      | succ j =>
        simp only [List.getElem?_cons_succ] at hj
        exact hall j obs hj
    · intro hall j obs hj
      exact hall (j + 1) obs (by simpa using hj)

theorem isValidLinks_iff {Q : Type} (thr : ℚ) (robot : Robot Q) (env : List Obstacle)
    (XYZ : Nat → V3) :
    ∀ (n i : Nat), isValidLinks thr robot env XYZ n i = true ↔
      ∀ k, i ≤ k → k < i + n →
        isValidObstacles thr (XYZ k) (XYZ (k + 1)) (robot.getRadius k) env = true
  | 0, i => by
    simp only [isValidLinks, true_iff]
    intro k h1 h2
    omega
  | n + 1, i => by
    unfold isValidLinks
    by_cases h : isValidObstacles thr (XYZ i) (XYZ (i + 1)) (robot.getRadius i) env = true
    · rw [if_pos h, isValidLinks_iff thr robot env XYZ n (i + 1)]
      constructor
      · intro hall k h1 h2
        by_cases hk : k = i
        · rw [hk]
          exact h
        · exact hall k (by omega) (by omega)
      · intro hall k h1 h2
        exact hall k (by omega) (by omega)
    · rw [if_neg h]
      simp only [Bool.false_eq_true, false_iff, not_forall]
      exact ⟨i, le_refl _, by omega, h⟩

/-- C22 (amended): `isValid(q)` returns `true` exactly when, for every link `i`
from `i0` on (`i0 = 1` for a robot of type `xarm6`, `0` otherwise) and every
obstacle `j` that is a box, `collisionCapsuleToBox` on the capsule from
skeleton point `i` to `i + 1` with radius `getRadius(i)` reports no collision;
obstacles that are not boxes are not tested. -/
theorem isValid_iff_no_box_collision {Q : Type} (thr : ℚ) (robot : Robot Q)
    (env : List Obstacle) (q : Q) :
    isValid thr robot env q = true ↔
      ∀ (i j : Nat) (obs : Box), (if robot.xarm6 then 1 else 0) ≤ i → i < robot.numParts →
        env[j]? = some (Obstacle.box obs) →
        collisionCapsuleToBox thr (robot.computeSkeleton q i) (robot.computeSkeleton q (i + 1))
          (robot.getRadius i) obs = false := by
  unfold isValid
  simp only
  rw [isValidLinks_iff]
  constructor
  · intro h i j obs h1 h2 hj
    exact (isValidObstacles_iff thr _ _ _ env).1 (h i h1 (by omega)) j obs hj
  · intro h k h1 h2
    rw [isValidObstacles_iff]
    intro j obs hj
    exact h k j obs h1 (by omega) hj

/-- C22 (fails as stated): a robot with the single link from `(0, 0, 0)` to
`(1, 0, 0)` of radius `0.1` and the sphere of radius `0.5` about the origin as
only obstacle is valid although `collisionCapsuleToSphere` reports a
collision; and a robot of type `xarm6` whose link `0` starts at the centre of
the unit box is valid although `collisionCapsuleToBox` reports a collision
for that link. -/
theorem isValid_skips_spheres_and_first_link :
    (isValid (1/1000000)
        (⟨false, 1, fun _ i => if i = 0 then ⟨0, 0, 0⟩ else ⟨1, 0, 0⟩, fun _ => 1/10⟩ : Robot Unit)
        [Obstacle.sphere ⟨⟨0, 0, 0⟩, 1/2⟩] () = true ∧
      collisionCapsuleToSphere ⟨0, 0, 0⟩ ⟨1, 0, 0⟩ (1/10) ⟨⟨0, 0, 0⟩, 1/2⟩ = true) ∧
    (isValid (1/1000000)
        (⟨true, 2, fun _ i => if i = 0 then ⟨1/2, 1/2, 1/2⟩ else if i = 1 then ⟨1/2, 1/2, 2⟩
          else ⟨1/2, 1/2, 3⟩, fun _ => 1/10⟩ : Robot Unit)
        [Obstacle.box ⟨0, 0, 0, 1, 1, 1⟩] () = true ∧
      collisionCapsuleToBox (1/1000000) ⟨1/2, 1/2, 1/2⟩ ⟨1/2, 1/2, 2⟩ (1/10)
        ⟨0, 0, 0, 1, 1, 1⟩ = true) := by
  refine ⟨⟨by decide!, by decide!⟩, by decide!, by decide!⟩

/-! ## Fast accept and fast reject -/

theorem nearBox_iff_withinExpanded (P : V3) (radius : ℚ) (obs : Box) :
    nearBox P radius obs = true ↔
      withinExpanded P ((radius : ℝ) * Real.sqrt 3 / 3) obs := by
  simp only [nearBox, Bool.and_eq_true, ltRNew_iff, withinExpanded, v3_get_zero, v3_get_one,
    v3_get_two, box_get_zero, box_get_one, box_get_two, box_get_three, box_get_four,
    box_get_five]
  push_cast
  constructor
  · rintro ⟨⟨⟨⟨⟨h0, h1⟩, h2⟩, h3⟩, h4⟩, h5⟩
    refine ⟨?_, ?_, ?_, ?_, ?_, ?_⟩ <;> linarith
  · rintro ⟨h0, h3, h1, h4, h2, h5⟩
    refine ⟨⟨⟨⟨⟨?_, ?_⟩, ?_⟩, ?_⟩, ?_⟩, ?_⟩ <;> linarith

theorem clamp_axis (lo hi p r : ℚ) (hw : lo ≤ hi) (hr : 0 ≤ r) (h1 : ltRNew (lo - p) r = true)
    (h2 : ltRNew (p - hi) r = true) :
    lo ≤ max lo (min hi p) ∧ max lo (min hi p) ≤ hi ∧
      (max lo (min hi p) = p ∨
        3 * ((p - max lo (min hi p)) * (p - max lo (min hi p))) < r * r) := by
  refine ⟨le_max_left _ _, max_le hw (min_le_left _ _), ?_⟩
  unfold ltRNew at h1 h2
  rw [if_pos hr] at h1 h2
  simp only [decide_eq_true_eq] at h1 h2
  by_cases hlo : p < lo
  · right
    have e : max lo (min hi p) = lo := by
      rw [min_eq_right (by linarith), max_eq_left hlo.le]
    rw [e]
    rcases h1 with h1 | h1
    · linarith
    · linarith
  · by_cases hhi : hi < p
    · right
      have e : max lo (min hi p) = hi := by
        rw [min_eq_left hhi.le, max_eq_right hw]
      rw [e]
      rcases h2 with h2 | h2
      · linarith
      · linarith
    · left
      rw [min_eq_right (not_lt.1 hhi), max_eq_right (not_lt.1 hlo)]

theorem nearBox_close (P : V3) (radius : ℚ) (obs : Box) (hr : 0 ≤ radius) (hw : obs.wf)
    (h : nearBox P radius obs = true) :
    inBox (clampToBox P obs) obs ∧
      (clampToBox P obs = P ∨ sqDist P (clampToBox P obs) < radius * radius) := by
  simp only [nearBox, Bool.and_eq_true, v3_get_zero, v3_get_one,
    v3_get_two, box_get_zero, box_get_one, box_get_two, box_get_three, box_get_four,
    box_get_five] at h
  obtain ⟨⟨⟨⟨⟨h0, h1⟩, h2⟩, h3⟩, h4⟩, h5⟩ := h
  obtain ⟨w1, w2, w3⟩ := hw
  obtain ⟨x1, x2, x3⟩ := clamp_axis _ _ P.x radius w1 hr h0 h3
  obtain ⟨y1, y2, y3⟩ := clamp_axis _ _ P.y radius w2 hr h1 h4
  obtain ⟨z1, z2, z3⟩ := clamp_axis _ _ P.z radius w3 hr h2 h5
  refine ⟨⟨x1, x2, y1, y2, z1, z2⟩, ?_⟩
  simp only [clampToBox, sqDist, V3.sub, V3.squaredNorm, V3.dot]
  generalize max obs.x_min (min obs.x_max P.x) = cx at x3
  generalize max obs.y_min (min obs.y_max P.y) = cy at y3
  generalize max obs.z_min (min obs.z_max P.z) = cz at z3
  have sx := mul_self_nonneg (P.x - cx)
  have sy := mul_self_nonneg (P.y - cy)
  have sz := mul_self_nonneg (P.z - cz)
  by_cases hall : cx = P.x ∧ cy = P.y ∧ cz = P.z
  · left
    obtain ⟨e1, e2, e3⟩ := hall
    rw [e1, e2, e3]
  · right
    have hpos : 0 < radius * radius := by
      rcases x3 with x3 | x3
      · rcases y3 with y3 | y3
        · rcases z3 with z3 | z3
          · exact absurd ⟨x3, y3, z3⟩ hall
          · linarith
        · linarith
      · linarith
    have bx : 3 * ((P.x - cx) * (P.x - cx)) < radius * radius := by
      rcases x3 with x3 | x3
      · rw [x3]
        simpa using hpos
      · exact x3
    have by1 : 3 * ((P.y - cy) * (P.y - cy)) < radius * radius := by
      rcases y3 with y3 | y3
      · rw [y3]
        simpa using hpos
      · exact y3
    have bz : 3 * ((P.z - cz) * (P.z - cz)) < radius * radius := by
      rcases z3 with z3 | z3
      · rw [z3]
        simpa using hpos
      · exact z3
    linarith

/-- C28: for a radius `>= 0`, if an endpoint `P` of the segment lies strictly
within the box expanded by `radius * √3 / 3` on all three axes, then
`collisionCapsuleToBox` returns `true`, and for a box with `min <= max` the
endpoint is in the box or some point of the box is at distance strictly less
than `radius` from it. -/
theorem fast_accept_sufficient (thr : ℚ) (A B P : V3) (radius : ℚ) (obs : Box)
    (hr : 0 ≤ radius) (hP : P = A ∨ P = B)
    (h : withinExpanded P ((radius : ℝ) * Real.sqrt 3 / 3) obs) :
    collisionCapsuleToBox thr A B radius obs = true ∧
      (obs.wf → inBox P obs ∨ ∃ b, inBox b obs ∧
        Real.sqrt ((sqDist P b : ℚ) : ℝ) < (radius : ℝ)) := by
  have hn : nearBox P radius obs = true := (nearBox_iff_withinExpanded P radius obs).2 h
  constructor
  · unfold collisionCapsuleToBox
    rcases hP with hP | hP
    · rw [← hP, hn]
      simp
    · rw [← hP, hn]
      simp
  · intro hw
    obtain ⟨hb, hc | hc⟩ := nearBox_close P radius obs hr hw hn
    · left
      rw [← hc]
      exact hb
    · right
      refine ⟨clampToBox P obs, hb, ?_⟩
      have hq : (0 : ℚ) ≤ sqDist P (clampToBox P obs) := squaredNorm_nonneg _
      have := (normLt_iff (sqDist P (clampToBox P obs)) radius hq).1
        (by
          simp only [normLt, decide_eq_true_eq]
          refine ⟨?_, hc⟩
          rcases hr.lt_or_eq with h1 | h1
          · exact h1
          · rw [← h1] at hc
            simp only [mul_zero] at hc
            exact absurd hc (not_lt.2 hq))
      exact this

/-- The statement of `fast_accept_sufficient` at the unit box, radius `1` and
the endpoint `A = (-0.5, 0.5, 0.5)`, which is `0.5 < √3/3` outside the face
`x_min`. -/
theorem fast_accept_sufficient_witness :
    withinExpanded ⟨-1/2, 1/2, 1/2⟩ (((1 : ℚ) : ℝ) * Real.sqrt 3 / 3) ⟨0, 0, 0, 1, 1, 1⟩ ∧
      collisionCapsuleToBox (1/1000000) ⟨-1/2, 1/2, 1/2⟩ ⟨-3, 1/2, 1/2⟩ 1 ⟨0, 0, 0, 1, 1, 1⟩ =
        true := by
  have h : withinExpanded ⟨-1/2, 1/2, 1/2⟩ (((1 : ℚ) : ℝ) * Real.sqrt 3 / 3) ⟨0, 0, 0, 1, 1, 1⟩ :=
    (nearBox_iff_withinExpanded _ _ _).1 (by decide!)
  exact ⟨h, (fast_accept_sufficient (1/1000000) ⟨-1/2, 1/2, 1/2⟩ ⟨-3, 1/2, 1/2⟩ ⟨-1/2, 1/2, 1/2⟩ 1
    ⟨0, 0, 0, 1, 1, 1⟩ (by norm_num) (Or.inl rfl) h).1⟩

theorem beyond_not_nearBox (A B : V3) (radius : ℚ) (obs : Box) (k : Nat) (hk : k < 3)
    (hr : 0 ≤ radius) (h : beyondExpanded A B radius obs k) :
    nearBox A radius obs = false ∧ nearBox B radius obs = false := by
  have key : ∀ x : ℚ, radius < x → ltRNew x radius = false := by
    intro x hx
    unfold ltRNew
    rw [if_pos hr]
    simp only [decide_eq_false_iff_not, not_or, not_lt]
    exact ⟨by linarith, by nlinarith⟩
  unfold beyondExpanded at h
  unfold nearBox
  interval_cases k
  · rcases h with ⟨hA, hB⟩ | ⟨hA, hB⟩
    · rw [key (obs.get 0 - A.get 0) (by linarith), key (obs.get 0 - B.get 0) (by linarith)]
      simp
    · rw [key (A.get 0 - obs.get 3) (by linarith), key (B.get 0 - obs.get 3) (by linarith)]
      simp
  · rcases h with ⟨hA, hB⟩ | ⟨hA, hB⟩
    · rw [key (obs.get 1 - A.get 1) (by linarith), key (obs.get 1 - B.get 1) (by linarith)]
      simp
    · rw [key (A.get 1 - obs.get 4) (by linarith), key (B.get 1 - obs.get 4) (by linarith)]
      simp
  · rcases h with ⟨hA, hB⟩ | ⟨hA, hB⟩
    · rw [key (obs.get 2 - A.get 2) (by linarith), key (obs.get 2 - B.get 2) (by linarith)]
      simp
    · rw [key (A.get 2 - obs.get 5) (by linarith), key (B.get 2 - obs.get 5) (by linarith)]
      simp

theorem beyond_separated (A B : V3) (radius : ℚ) (obs : Box) (k : Nat) (hk : k < 3)
    (h : beyondExpanded A B radius obs k) : separated A B radius obs = true := by
  unfold beyondExpanded at h
  unfold separated
  interval_cases k <;> rcases h with h | h <;> simp [h]

theorem beyond_axis_lo (radius t a c m q : ℚ) (t0 : 0 ≤ t) (t1 : t ≤ 1)
    (hr : 0 ≤ radius) (ha : a < m - radius) (hc : c < m - radius) (hq : m ≤ q) :
    radius * radius < (a + t * (c - a) - q) * (a + t * (c - a) - q) := by
  have h1 : 0 ≤ t * (m - radius - c) := mul_nonneg t0 (by linarith)
  have h2 : 0 ≤ (1 - t) * (m - radius - a) := mul_nonneg (by linarith) (by linarith)
  have h3 : radius < q - (a + t * (c - a)) := by
    rcases t0.lt_or_eq with tp | tz
    · have : 0 < t * (m - radius - c) := mul_pos tp (by linarith)
      linarith
    · rw [← tz]
      linarith
  have h4 : 0 < (q - (a + t * (c - a)) - radius) * (q - (a + t * (c - a)) + radius) :=
    mul_pos (by linarith) (by linarith)
  linarith

theorem beyond_axis_hi (radius t a c m q : ℚ) (t0 : 0 ≤ t) (t1 : t ≤ 1)
    (hr : 0 ≤ radius) (ha : a > m + radius) (hc : c > m + radius) (hq : q ≤ m) :
    radius * radius < (a + t * (c - a) - q) * (a + t * (c - a) - q) := by
  have h2 : 0 ≤ (1 - t) * (a - m - radius) := mul_nonneg (by linarith) (by linarith)
  have h3 : radius < (a + t * (c - a)) - q := by
    rcases t0.lt_or_eq with tp | tz
    · have : 0 < t * (c - m - radius) := mul_pos tp (by linarith)
      linarith
    · rw [← tz]
      linarith
  have h4 : 0 < ((a + t * (c - a)) - q - radius) * ((a + t * (c - a)) - q + radius) :=
    mul_pos (by linarith) (by linarith)
  linarith

theorem beyond_far (A B : V3) (radius : ℚ) (obs : Box) (k : Nat) (hk : k < 3)
    (hr : 0 ≤ radius) (h : beyondExpanded A B radius obs k) (p b : V3)
    (hp : onSegment p A B) (hb : inBox b obs) : radius * radius < sqDist p b := by
  obtain ⟨t, t0, t1, px, py, pz⟩ := onSegment_coords hp
  obtain ⟨b1, b2, b3, b4, b5, b6⟩ := hb
  have sx := mul_self_nonneg (p.x - b.x)
  have sy := mul_self_nonneg (p.y - b.y)
  have sz := mul_self_nonneg (p.z - b.z)
  unfold beyondExpanded at h
  simp only [sqDist, V3.sub, V3.squaredNorm, V3.dot]
  interval_cases k
  · simp only [v3_get_zero, box_get_zero, box_get_three, Nat.reduceAdd] at h
    rcases h with ⟨hA, hB⟩ | ⟨hA, hB⟩
    · have := beyond_axis_lo radius t A.x B.x obs.x_min b.x t0 t1 hr hA hB b1
      rw [← px] at this
      linarith
    · have := beyond_axis_hi radius t A.x B.x obs.x_max b.x t0 t1 hr hA hB b2
      rw [← px] at this
      linarith
  · simp only [v3_get_one, box_get_one, box_get_four, Nat.reduceAdd] at h
    rcases h with ⟨hA, hB⟩ | ⟨hA, hB⟩
    · have := beyond_axis_lo radius t A.y B.y obs.y_min b.y t0 t1 hr hA hB b3
      rw [← py] at this
      linarith
    · have := beyond_axis_hi radius t A.y B.y obs.y_max b.y t0 t1 hr hA hB b4
      rw [← py] at this
      linarith
  · simp only [v3_get_two, box_get_two, box_get_five, Nat.reduceAdd] at h
    rcases h with ⟨hA, hB⟩ | ⟨hA, hB⟩
    · have := beyond_axis_lo radius t A.z B.z obs.z_min b.z t0 t1 hr hA hB b5
      rw [← pz] at this
      linarith
    · have := beyond_axis_hi radius t A.z B.z obs.z_max b.z t0 t1 hr hA hB b6
      rw [← pz] at this
      linarith

/-- C29: for a radius `>= 0`, if both endpoints lie beyond the box expanded by
`radius` on the same side of one axis `k` (both below `min_k - radius` or both
above `max_k + radius`), then the fast-accept test fails for both endpoints,
the fast-reject test succeeds, `collisionCapsuleToBox` returns `false`, and
every point of the segment is farther than `radius` from every point of the
box. -/
theorem fast_reject_separating_axis (thr : ℚ) (A B : V3) (radius : ℚ) (obs : Box) (k : Nat)
    (hk : k < 3) (hr : 0 ≤ radius) (h : beyondExpanded A B radius obs k) :
    nearBox A radius obs = false ∧ nearBox B radius obs = false ∧
      separated A B radius obs = true ∧
      collisionCapsuleToBox thr A B radius obs = false ∧
      ∀ p b, onSegment p A B → inBox b obs →
        (radius : ℝ) < Real.sqrt ((sqDist p b : ℚ) : ℝ) := by
  obtain ⟨nA, nB⟩ := beyond_not_nearBox A B radius obs k hk hr h
  have hs := beyond_separated A B radius obs k hk h
  refine ⟨nA, nB, hs, ?_, ?_⟩
  · unfold collisionCapsuleToBox
    rw [nA, nB, hs]
    simp
  · intro p b hp hb
    have hq : (0 : ℚ) ≤ sqDist p b := squaredNorm_nonneg _
    have hlt := beyond_far A B radius obs k hk hr h p b hp hb
    exact (normGt_iff (sqDist p b) radius hq).1
      (by
        simp only [normGt, decide_eq_true_eq]
        exact Or.inr hlt)

/-- The statement of `fast_reject_separating_axis` at the unit box, radius
`0.5` and the segment from `(2, 0, 0)` to `(3, 5, 1)`, beyond `x_max + radius`. -/
theorem fast_reject_separating_axis_witness :
    beyondExpanded ⟨2, 0, 0⟩ ⟨3, 5, 1⟩ (1/2) ⟨0, 0, 0, 1, 1, 1⟩ 0 ∧
      collisionCapsuleToBox (1/1000000) ⟨2, 0, 0⟩ ⟨3, 5, 1⟩ (1/2) ⟨0, 0, 0, 1, 1, 1⟩ = false := by
  have h : beyondExpanded ⟨2, 0, 0⟩ ⟨3, 5, 1⟩ (1/2) ⟨0, 0, 0, 1, 1, 1⟩ 0 :=
    Or.inr (by norm_num [V3.get, Box.get])
  exact ⟨h, (fast_reject_separating_axis (1/1000000) ⟨2, 0, 0⟩ ⟨3, 5, 1⟩ (1/2) ⟨0, 0, 0, 1, 1, 1⟩ 0
    (by norm_num) (by norm_num) h).2.2.2.1⟩

/-! ## The rectangle test and the edges of a face -/

/-- C27 (fails on the code): with box `[0,1] x [0,1] x [5,6]`, radius `4.2`, the
face `x_min` and the short segment from `(-0.01, 5.1, 0.9)` to
`(0.01, 5.1, 0.9)`, which crosses the plane of the face at `t = 1/2` in the
point `M = (y, z) = (5.1, 0.9)` outside both strips of the rectangle
`[0,1] x [5,6]`, `collisionCapsuleToRectangle` answers `true` although every
point of the segment is farther than the radius from every point of the
rectangle; the nearest corner `(max1, min2) = (1, 5)` is at squared distance
`33.62 > 4.2^2` from `M`, and the test of line 214 measures the distance to
`(rec(1), rec(2)) = (min2, max1) = (5, 1)` instead. -/
theorem collisionCapsuleToRectangle_wrong_corner (thr : ℚ) :
    collisionCapsuleToRectangle thr ⟨-1/100, 51/10, 9/10⟩ ⟨1/100, 51/10, 9/10⟩ (21/5)
        ⟨0, 0, 5, 1, 1, 6⟩ 0 = true ∧
      (V2.sub ⟨51/10, 9/10⟩ ⟨1, 5⟩).squaredNorm = 3362/100 ∧
      (V2.sub ⟨51/10, 9/10⟩ ⟨5, 1⟩).squaredNorm = 2/100 ∧
      ∀ p b, onSegment p ⟨-1/100, 51/10, 9/10⟩ ⟨1/100, 51/10, 9/10⟩ →
        inFace b ⟨0, 0, 5, 1, 1, 6⟩ 0 → (21/5 : ℚ) * (21/5) < sqDist p b := by
  refine ⟨?_, by norm_num [V2.sub, V2.squaredNorm], by norm_num [V2.sub, V2.squaredNorm], ?_⟩
  · simp only [collisionCapsuleToRectangle,
      crossingHits, faceRec, dropCoord, normLt, V3.get, V2.get, Box.get, V2.add, V2.sub,
      V2.smul, V2.squaredNorm]
    norm_num
  · intro p b hp hb
    obtain ⟨t, h0, h1, hx, hy, hz⟩ := onSegment_coords hp
    obtain ⟨⟨-, -, -, hb4, hb5, -⟩, -⟩ := hb
    simp only [sqDist, V3.sub, V3.squaredNorm, V3.dot]
    simp only at hy hz hb4 hb5
    rw [hy, hz]
    ring_nf
    nlinarith [sq_nonneg (p.x - b.x), mul_self_nonneg (b.y - 1), mul_self_nonneg (b.z - 5)]

/-- C30 (fails on the code): with the unit box and the segment from
`A = (-1, 0, 0.5)` to `B = (2, 0, 0.5)`, which runs in the plane of the face
`y_min`, the endpoint `A` projects onto the face `x_min` only and `B` onto the
face `x_max` only, so `num_proj = 1`; `compute` calls `checkEdges(A, 1)` for
the face `x_max`, the zero-radius rectangle test reports no crossing (the
crossing point `(0, 0.5)` lies on the border of the rectangle), the projection
`(0, 0.5)` of `A` violates no bound, `getLineSegments` returns the matrix
with both columns unassigned, and the run reads it. -/
theorem checkEdges_reads_unassigned_edges (thr radius : ℚ) :
    (projectionStage ⟨-1, 0, 1/2⟩ ⟨2, 0, 1/2⟩ ⟨0, 0, 0, 1, 1, 1⟩).d_c ≠ Dist.fin 0 ∧
      numProj (projectionStage ⟨-1, 0, 1/2⟩ ⟨2, 0, 1/2⟩ ⟨0, 0, 0, 1, 1, 1⟩).projections = 1 ∧
      (nearestProjection ⟨-1, 0, 1/2⟩ ⟨2, 0, 1/2⟩ ⟨0, 0, 0, 1, 1, 1⟩
        (projectionStage ⟨-1, 0, 1/2⟩ ⟨2, 0, 1/2⟩ ⟨0, 0, 0, 1, 1, 1⟩)).1 = 1 ∧
      firstRow (projectionStage ⟨-1, 0, 1/2⟩ ⟨2, 0, 1/2⟩ ⟨0, 0, 0, 1, 1, 1⟩).projections 1 =
        some 3 ∧
      (projectionStage ⟨-1, 0, 1/2⟩ ⟨2, 0, 1/2⟩ ⟨0, 0, 0, 1, 1, 1⟩).projections 3 0 = false ∧
      collisionCapsuleToRectangle thr ⟨-1, 0, 1/2⟩ ⟨2, 0, 1/2⟩ 0 ⟨0, 0, 0, 1, 1, 1⟩ 3 = false ∧
      getLineSegments ⟨0, 1/2⟩ 0 0 1 1 1 0 = none ∧
      distanceCapsuleToBox thr ⟨-1, 0, 1/2⟩ ⟨2, 0, 1/2⟩ radius ⟨0, 0, 0, 1, 1, 1⟩ = none := by
  have h1 : (projectionStage ⟨-1, 0, 1/2⟩ ⟨2, 0, 1/2⟩ ⟨0, 0, 0, 1, 1, 1⟩).d_c ≠ Dist.fin 0 := by
    decide!
  have h2 : numProj (projectionStage ⟨-1, 0, 1/2⟩ ⟨2, 0, 1/2⟩ ⟨0, 0, 0, 1, 1, 1⟩).projections = 1 := by
    decide!
  have h3 : (nearestProjection ⟨-1, 0, 1/2⟩ ⟨2, 0, 1/2⟩ ⟨0, 0, 0, 1, 1, 1⟩
        (projectionStage ⟨-1, 0, 1/2⟩ ⟨2, 0, 1/2⟩ ⟨0, 0, 0, 1, 1, 1⟩)).1 = 1 := by
    decide!
  have h4 : (projectionStage ⟨-1, 0, 1/2⟩ ⟨2, 0, 1/2⟩ ⟨0, 0, 0, 1, 1, 1⟩).projections 0 1 =
      false := by
    decide!
  have h5 : (projectionStage ⟨-1, 0, 1/2⟩ ⟨2, 0, 1/2⟩ ⟨0, 0, 0, 1, 1, 1⟩).projections 3 1 =
      true := by
    decide!
  have h6 : collisionCapsuleToRectangle thr ⟨-1, 0, 1/2⟩ ⟨2, 0, 1/2⟩ 0 ⟨0, 0, 0, 1, 1, 1⟩ 3 =
      false := by
    simp only [collisionCapsuleToRectangle, capsuleRectangleTail, insideRec, get3DPoint,
      crossingHits, faceRec, dropCoord, normLt, normGt, V3.get, V2.get, Box.get, V2.add,
      V2.sub, V2.smul]
    norm_num
  have h7 : getLineSegments ⟨0, 1/2⟩ 0 0 1 1 1 0 = none := by
    decide!
  refine ⟨h1, h2, h3, by decide!, by decide!, h6, h7, ?_⟩
  unfold distanceCapsuleToBox
  simp only [if_neg h1, h2, h3]
  unfold checkEdges checkEdgesFace
  simp only [h4, h5, h6]
  simp only [V3.get, Box.get]
  norm_num
  rw [h7]

/-! ## Distance and planes of a configuration -/

theorem sqrtDiff_core_nonneg (a b c : ℝ) (ha : 0 ≤ a) (hb : 0 ≤ b) (hc : 0 ≤ c) :
    (a * a - b * b - c * c < 0 ∨
      (a * a - b * b - c * c) * (a * a - b * b - c * c) < 4 * (c * c) * (b * b)) ↔
      a < b + c := by
  have hbc : 0 ≤ b * c := mul_nonneg hb hc
  constructor
  · intro h
    by_contra hn
    push_neg at hn
    have h1 : (b + c) * (b + c) ≤ a * a := mul_self_le_mul_self (by linarith) hn
    have h2 : 2 * (b * c) ≤ a * a - b * b - c * c := by linarith
    have h3 : (2 * (b * c)) * (2 * (b * c)) ≤
        (a * a - b * b - c * c) * (a * a - b * b - c * c) :=
      mul_self_le_mul_self (by linarith) h2
    rcases h with h | h
    · linarith
    · linarith
  · intro h
    have h1 : a * a < (b + c) * (b + c) := mul_self_lt_mul_self ha h
    by_cases he : a * a - b * b - c * c < 0
    · exact Or.inl he
    · right
      push_neg at he
      have h2 : a * a - b * b - c * c < 2 * (b * c) := by linarith
      have h3 := mul_self_lt_mul_self he h2
      linarith

theorem sqrtDiff_core_neg (a b c : ℝ) (ha : 0 ≤ a) (hb : 0 ≤ b) (hc : c < 0) :
    (0 < b * b - a * a - c * c ∧
      4 * (c * c) * (a * a) < (b * b - a * a - c * c) * (b * b - a * a - c * c)) ↔
      a < b + c := by
  have hac : 0 ≤ a * (-c) := mul_nonneg ha (by linarith)
  constructor
  · rintro ⟨h0, h⟩
    by_contra hn
    push_neg at hn
    have h1 : b * b ≤ (a - c) * (a - c) := mul_self_le_mul_self hb (by linarith)
    have h2 : b * b - a * a - c * c ≤ 2 * (a * (-c)) := by linarith
    have h3 := mul_self_le_mul_self h0.le h2
    linarith
  · intro h
    have h1 : (a - c) * (a - c) < b * b := mul_self_lt_mul_self (by linarith) (by linarith)
    have h2 : 2 * (a * (-c)) < b * b - a * a - c * c := by linarith
    refine ⟨by linarith, ?_⟩
    have h3 := mul_self_lt_mul_self (by linarith : (0 : ℝ) ≤ 2 * (a * (-c))) h2
    linarith

/-- The comparison of the model is the comparison of the floats `√p - r` and
`√q - s`. -/
theorem sqrtDiffLt_iff (p r q s : ℚ) (hp : 0 ≤ p) (hq : 0 ≤ q) :
    sqrtDiffLt p r q s = true ↔
      Real.sqrt (p : ℝ) - (r : ℝ) < Real.sqrt (q : ℝ) - (s : ℝ) := by
  have hp' : (0 : ℝ) ≤ (p : ℝ) := by exact_mod_cast hp
  have hq' : (0 : ℝ) ≤ (q : ℝ) := by exact_mod_cast hq
  have ep : Real.sqrt (p : ℝ) * Real.sqrt (p : ℝ) = (p : ℝ) := Real.mul_self_sqrt hp'
  have eq : Real.sqrt (q : ℝ) * Real.sqrt (q : ℝ) = (q : ℝ) := Real.mul_self_sqrt hq'
  have key : ∀ a b : ℚ, (a < b ↔ (a : ℝ) < (b : ℝ)) := fun a b => by norm_cast
  have goal : Real.sqrt (p : ℝ) - (r : ℝ) < Real.sqrt (q : ℝ) - (s : ℝ) ↔
      Real.sqrt (p : ℝ) < Real.sqrt (q : ℝ) + ((r : ℝ) - (s : ℝ)) := by
    constructor <;> intro h <;> linarith
  rw [goal]
  unfold sqrtDiffLt
  by_cases hc : r - s ≥ 0
  · have hc' : (0 : ℝ) ≤ (r : ℝ) - (s : ℝ) := by exact_mod_cast hc
    rw [if_pos hc, decide_eq_true_eq, key, key]
    push_cast
    rw [← sqrtDiff_core_nonneg _ _ _ (Real.sqrt_nonneg _) (Real.sqrt_nonneg _) hc', ep, eq]
  · have hc' : (r : ℝ) - (s : ℝ) < 0 := by
      have : r - s < 0 := not_le.1 hc
      exact_mod_cast this
    rw [if_neg hc, decide_eq_true_eq, key, key]
    push_cast
    rw [← sqrtDiff_core_neg _ _ _ (Real.sqrt_nonneg _) (Real.sqrt_nonneg _) hc', ep, eq]

theorem foldl_min_mem :
    ∀ (cs : List Clearance) (acc : Clearance),
      cs.foldl (fun acc x => if x.lt acc then x else acc) acc = acc ∨
        cs.foldl (fun acc x => if x.lt acc then x else acc) acc ∈ cs
  | [], _ => Or.inl rfl
  | x :: cs, acc => by
    simp only [List.foldl_cons, List.mem_cons]
    rcases foldl_min_mem cs (if x.lt acc then x else acc) with h | h
    · rw [h]
      by_cases hx : x.lt acc = true
      · rw [if_pos hx]
        exact Or.inr (Or.inl rfl)
      · rw [if_neg hx]
        exact Or.inl rfl
    · exact Or.inr (Or.inr h)

/-- The minimum coefficient is a coefficient of the matrix. -/
theorem minCoeff_mem (rows cols : Nat) (m : Nat → Nat → Clearance) (d : Clearance)
    (h : minCoeff rows cols m = some d) : ∃ i j, i < rows ∧ j < cols ∧ d = m i j := by
  unfold minCoeff at h
  have hmem : ∀ x, x ∈ (List.range cols).flatMap (fun j => (List.range rows).map (fun i => m i j)) →
      ∃ i j, i < rows ∧ j < cols ∧ x = m i j := by
    intro x hx
    simp only [List.mem_flatMap, List.mem_range, List.mem_map] at hx
    obtain ⟨j, hj, i, hi, e⟩ := hx
    exact ⟨i, j, hi, hj, e.symm⟩
  generalize (List.range cols).flatMap (fun j => (List.range rows).map (fun i => m i j)) = l at h hmem
  cases l with
  | nil => simp at h
  | cons c cs =>
    simp only [Option.some.injEq] at h
    rcases foldl_min_mem cs c with h1 | h1
    · rw [h] at h1
      rw [h1]
      exact hmem c (List.mem_cons_self _ _)
    · rw [h] at h1
      exact hmem d (List.mem_cons_of_mem _ h1)

/-- A matrix with a row and a column has a minimum coefficient. -/
theorem minCoeff_isSome (rows cols : Nat) (m : Nat → Nat → Clearance) (hr : 0 < rows)
    (hc : 0 < cols) : ∃ d, minCoeff rows cols m = some d := by
  unfold minCoeff
  have hmem : m 0 0 ∈ (List.range cols).flatMap (fun j => (List.range rows).map (fun i => m i j)) := by
    simp only [List.mem_flatMap, List.mem_range, List.mem_map]
    exact ⟨0, hc, 0, hr, rfl⟩
  generalize (List.range cols).flatMap (fun j => (List.range rows).map (fun i => m i j)) = l at hmem
  cases l with
  | nil => simp at hmem
  | cons c cs => exact ⟨_, rfl⟩

theorem pairStep_box (thr : ℚ) (A B : V3) (radius : ℚ) (i j : Nat) (obs : Box)
    (st : PlanesState) (res : BoxDistance)
    (he : distanceCapsuleToBox thr A B radius obs = some res) :
    pairStep thr A B radius i j (Obstacle.box obs) st =
      if (⟨res.d_c, res.sub⟩ : Clearance).nonpos then Flow.collision
      else if res.nearest_pts = Pts.null then Flow.fault
      else Flow.next
        ⟨fun a b => if a = i ∧ b = j then ⟨res.d_c, res.sub⟩ else st.distances a b,
          res.nearest_pts,
          fun b a => if b = j ∧ a = i then planeOf res.nearest_pts else st.planes b a⟩ := by
  simp only [pairStep, pairAssign, he, and_self, if_true]

theorem pairStep_box_none (thr : ℚ) (A B : V3) (radius : ℚ) (i j : Nat) (obs : Box)
    (st : PlanesState) (he : distanceCapsuleToBox thr A B radius obs = none) :
    pairStep thr A B radius i j (Obstacle.box obs) st = Flow.fault := by
  simp only [pairStep, pairAssign, he]

theorem pairStep_sphere (thr : ℚ) (A B : V3) (radius : ℚ) (i j : Nat) (s : Sphere)
    (st : PlanesState) :
    pairStep thr A B radius i j (Obstacle.sphere s) st =
      if (st.distances i j).nonpos then Flow.collision
      else if st.nearest_pts = Pts.null then Flow.fault
      else Flow.next
        ⟨st.distances, st.nearest_pts,
          fun b a => if b = j ∧ a = i then planeOf st.nearest_pts else st.planes b a⟩ := by
  simp only [pairStep, pairAssign]

theorem pairStep_next (thr : ℚ) (A B : V3) (radius : ℚ) (i j : Nat) (part : Obstacle)
    (st st1 : PlanesState) (h : pairStep thr A B radius i j part st = Flow.next st1) :
    PairDone thr A B radius i j part st st1 ∧
      ∀ a b, ¬ (a = i ∧ b = j) →
        st1.distances a b = st.distances a b ∧ st1.planes b a = st.planes b a := by
  cases part with
  | box obs =>
    cases he : distanceCapsuleToBox thr A B radius obs with
    | none =>
      rw [pairStep_box_none thr A B radius i j obs st he] at h
      simp at h
    | some res =>
      rw [pairStep_box thr A B radius i j obs st res he] at h
      by_cases hn : (⟨res.d_c, res.sub⟩ : Clearance).nonpos = true
      · rw [if_pos hn] at h
        simp at h
      · rw [if_neg hn] at h
        by_cases hp : res.nearest_pts = Pts.null
        · rw [if_pos hp] at h
          simp at h
        · rw [if_neg hp] at h
          simp only [Flow.next.injEq] at h
          subst h
          refine ⟨⟨?_, ?_, ?_⟩, ?_⟩
          · simpa using hn
          · intro obs2 ho
            simp only [Obstacle.box.injEq] at ho
            subst ho
            exact ⟨res, he, by simp, hp, by simp⟩
          · intro s hs
            simp at hs
          · intro a b hab
            have hab2 : ¬ (b = j ∧ a = i) := fun hh => hab ⟨hh.2, hh.1⟩
            simp [hab, hab2]
  | sphere s =>
    rw [pairStep_sphere] at h
    by_cases hn : (st.distances i j).nonpos = true
    · rw [if_pos hn] at h
      simp at h
    · rw [if_neg hn] at h
      by_cases hp : st.nearest_pts = Pts.null
      · rw [if_pos hp] at h
        simp at h
      · rw [if_neg hp] at h
        simp only [Flow.next.injEq] at h
        subst h
        refine ⟨⟨?_, ?_, ?_⟩, ?_⟩
        · simpa using hn
        · intro obs2 ho
          simp at ho
        · intro s2 _
          rfl
        · intro a b hab
          have hab2 : ¬ (b = j ∧ a = i) := fun hh => hab ⟨hh.2, hh.1⟩
          simp [hab2]

theorem pairDone_congr (thr : ℚ) (A B : V3) (radius : ℚ) (i j : Nat) (part : Obstacle)
    (st0 st0' st st' : PlanesState) (h : PairDone thr A B radius i j part st0 st)
    (hd : st'.distances i j = st.distances i j) (hp : st'.planes j i = st.planes j i)
    (h0 : st0'.distances i j = st0.distances i j) :
    PairDone thr A B radius i j part st0' st' := by
  obtain ⟨h1, h2, h3⟩ := h
  refine ⟨by rw [hd]; exact h1, ?_, ?_⟩
  · intro obs ho
    obtain ⟨res, e1, e2, e3, e4⟩ := h2 obs ho
    exact ⟨res, e1, by rw [hd]; exact e2, e3, by rw [hp]; exact e4⟩
  · intro s hs
    rw [hd, h0]
    exact h3 s hs

theorem obstacleLoop_next (thr : ℚ) (A B : V3) (radius : ℚ) (i : Nat) :
    ∀ (env : List Obstacle) (j0 : Nat) (st st1 : PlanesState),
      obstacleLoop thr A B radius i env j0 st = Flow.next st1 →
      (∀ (b : Nat) (part : Obstacle), env[b]? = some part →
        PairDone thr A B radius i (j0 + b) part st st1) ∧
      ∀ a b, (a ≠ i ∨ b < j0 ∨ j0 + env.length ≤ b) →
        st1.distances a b = st.distances a b ∧ st1.planes b a = st.planes b a
  | [], j0, st, st1, h => by
    simp only [obstacleLoop, Flow.next.injEq] at h
    subst h
    refine ⟨?_, fun a b _ => ⟨rfl, rfl⟩⟩
    intro b part hb
    simp at hb
  | part :: rest, j0, st, st1, h => by
    unfold obstacleLoop at h
    cases hs : pairStep thr A B radius i j0 part st with
    | collision =>
      rw [hs] at h
      simp at h
    | fault =>
      rw [hs] at h
      simp at h
    | next st2 =>
      rw [hs] at h
      simp only at h
      obtain ⟨hd, hu⟩ := pairStep_next thr A B radius i j0 part st st2 hs
      obtain ⟨ih1, ih2⟩ := obstacleLoop_next thr A B radius i rest (j0 + 1) st2 st1 h
      constructor
      · intro b part2 hb
        cases b with
        | zero =>
          simp only [List.getElem?_cons_zero, Option.some.injEq] at hb
          subst hb
          have hk := ih2 i j0 (Or.inr (Or.inl (by omega)))
          exact pairDone_congr thr A B radius i j0 part st st st2 st1 hd hk.1 hk.2 rfl
        | succ b =>
          simp only [List.getElem?_cons_succ] at hb
          have hk := ih1 b part2 hb
          have e : j0 + 1 + b = j0 + (b + 1) := by omega
          rw [e] at hk
          exact pairDone_congr thr A B radius i (j0 + (b + 1)) part2 st2 st st1 st1 hk rfl rfl
            (hu i (j0 + (b + 1)) (by omega)).1.symm
      · intro a b hab
        have h2 := ih2 a b (by
          simp only [List.length_cons] at hab
          rcases hab with hab | hab | hab
          · exact Or.inl hab
          · exact Or.inr (Or.inl (by omega))
          · exact Or.inr (Or.inr (by omega)))
        have h3 := hu a b (by
          simp only [List.length_cons] at hab
          rintro ⟨ha, hb⟩
          rcases hab with hab | hab | hab
          · exact hab ha
          · omega
          · omega)
        exact ⟨h2.1.trans h3.1, h2.2.trans h3.2⟩

theorem linkLoop_next {Q : Type} (thr : ℚ) (robot : Robot Q) (env : List Obstacle)
    (XYZ : Nat → V3) :
    ∀ (n i0 : Nat) (st st1 : PlanesState),
      linkLoop thr robot env XYZ n i0 st = Flow.next st1 →
      (∀ (a b : Nat) (part : Obstacle), i0 ≤ a → a < i0 + n → env[b]? = some part →
        PairDone thr (XYZ a) (XYZ (a + 1)) (robot.getRadius a) a b part st st1) ∧
      ∀ a b, (a < i0 ∨ i0 + n ≤ a ∨ env.length ≤ b) →
        st1.distances a b = st.distances a b ∧ st1.planes b a = st.planes b a
  | 0, i0, st, st1, h => by
    simp only [linkLoop, Flow.next.injEq] at h
    subst h
    refine ⟨?_, fun a b _ => ⟨rfl, rfl⟩⟩
    intro a b part h1 h2
    omega
  | n + 1, i0, st, st1, h => by
    unfold linkLoop at h
    cases hs : obstacleLoop thr (XYZ i0) (XYZ (i0 + 1)) (robot.getRadius i0) i0 env 0 st with
    | collision =>
      rw [hs] at h
      simp at h
    | fault =>
      rw [hs] at h
      simp at h
    | next st2 =>
      rw [hs] at h
      simp only at h
      obtain ⟨hd, hu⟩ := obstacleLoop_next thr (XYZ i0) (XYZ (i0 + 1)) (robot.getRadius i0) i0
        env 0 st st2 hs
      obtain ⟨ih1, ih2⟩ := linkLoop_next thr robot env XYZ n (i0 + 1) st2 st1 h
      constructor
      · intro a b part h1 h2 hb
        by_cases ha : a = i0
        · subst ha
          have hk := ih2 a b (Or.inl (by omega))
          have hd2 := hd b part hb
          rw [Nat.zero_add] at hd2
          exact pairDone_congr thr _ _ _ a b part st st st2 st1 hd2 hk.1 hk.2 rfl
        · have hk := ih1 a b part (by omega) (by omega) hb
          exact pairDone_congr thr _ _ _ a b part st2 st st1 st1 hk rfl rfl
            (hu a b (Or.inl ha)).1.symm
      · intro a b hab
        have h2 := ih2 a b (by
          rcases hab with hab | hab | hab
          · exact Or.inl (by omega)
          · exact Or.inr (Or.inl (by omega))
          · exact Or.inr (Or.inr hab))
        have h3 := hu a b (by
          rcases hab with hab | hab | hab
          · exact Or.inl (by omega)
          · exact Or.inl (by omega)
          · exact Or.inr (Or.inr (by omega)))
        exact ⟨h2.1.trans h3.1, h2.2.trans h3.2⟩

theorem clearance_nonpos_eq (res : BoxDistance) :
    (⟨res.d_c, res.sub⟩ : Clearance).nonpos = res.nonpos := rfl

theorem clearance_positive_eq (res : BoxDistance) :
    (⟨res.d_c, res.sub⟩ : Clearance).positive = res.positive := rfl

theorem nonpos_of_null (thr : ℚ) (A B : V3) (radius : ℚ) (obs : Box) (res : BoxDistance)
    (hr : 0 ≤ radius) (h : distanceCapsuleToBox thr A B radius obs = some res)
    (hnull : res.nearest_pts = Pts.null) : res.nonpos = true := by
  obtain ⟨h0, hs⟩ := distanceCapsuleToBox_nullZero thr A B radius obs res h hnull
  simp only [BoxDistance.nonpos, h0, decide_eq_true_eq]
  rcases hs with hs | hs <;> rw [hs]
  · exact ⟨hr, mul_nonneg hr hr⟩
  · norm_num

theorem positive_of_not_nonpos (c : Clearance) (h : c.nonpos = false) (hn : c.d_c ≠ Dist.nan) :
    c.positive = true := by
  obtain ⟨d, s⟩ := c
  cases d with
  | nan => exact absurd rfl hn
  | inf => rfl
  | fin q =>
    simp only [Clearance.nonpos, decide_eq_false_iff_not, not_and_or, not_le] at h
    simp only [Clearance.positive, Dist.gtScalar, normGt, decide_eq_true_eq]
    exact h

theorem not_negative_of_positive (c : Clearance) (h : c.positive = true) :
    c.negative = false := by
  obtain ⟨d, s⟩ := c
  cases d with
  | nan => rfl
  | inf => rfl
  | fin q =>
    simp only [Clearance.positive, Dist.gtScalar, normGt, decide_eq_true_eq] at h
    simp only [Clearance.negative, Dist.ltScalar, normLt, decide_eq_false_iff_not, not_and,
      not_lt]
    intro hs
    rcases h with h | h
    · linarith
    · exact h.le

theorem pairStep_total (thr : ℚ) (A B : V3) (radius : ℚ) (i j : Nat) (obs : Box)
    (st : PlanesState) (res : BoxDistance) (hr : 0 ≤ radius)
    (he : distanceCapsuleToBox thr A B radius obs = some res) :
    (pairStep thr A B radius i j (Obstacle.box obs) st = Flow.collision ∧ res.nonpos = true) ∨
      ∃ st1, pairStep thr A B radius i j (Obstacle.box obs) st = Flow.next st1 := by
  rw [pairStep_box thr A B radius i j obs st res he, clearance_nonpos_eq]
  by_cases hn : res.nonpos = true
  · rw [if_pos hn]
    exact Or.inl ⟨rfl, hn⟩
  · rw [if_neg hn]
    have hp : res.nearest_pts ≠ Pts.null := fun hp =>
      hn (nonpos_of_null thr A B radius obs res hr he hp)
    rw [if_neg hp]
    exact Or.inr ⟨_, rfl⟩

theorem obstacleLoop_total (thr : ℚ) (A B : V3) (radius : ℚ) (i : Nat) (hr : 0 ≤ radius) :
    ∀ (env : List Obstacle) (j0 : Nat) (st : PlanesState),
      (∀ (b : Nat) (part : Obstacle), env[b]? = some part →
        ∃ obs res, part = Obstacle.box obs ∧
          distanceCapsuleToBox thr A B radius obs = some res) →
      (obstacleLoop thr A B radius i env j0 st = Flow.collision ∧
        ∃ (b : Nat) (obs : Box) (res : BoxDistance), env[b]? = some (Obstacle.box obs) ∧
          distanceCapsuleToBox thr A B radius obs = some res ∧ res.nonpos = true) ∨
      ∃ st1, obstacleLoop thr A B radius i env j0 st = Flow.next st1
  | [], j0, st, _ => Or.inr ⟨st, rfl⟩
  | part :: rest, j0, st, hdef => by
    obtain ⟨obs, res, hp, he⟩ := hdef 0 part List.getElem?_cons_zero
    subst hp
    unfold obstacleLoop
    rcases pairStep_total thr A B radius i j0 obs st res hr he with ⟨hc, hn⟩ | ⟨st1, hs⟩
    · rw [hc]
      exact Or.inl ⟨rfl, 0, obs, res, List.getElem?_cons_zero, he, hn⟩
    · rw [hs]
      simp only
      rcases obstacleLoop_total thr A B radius i hr rest (j0 + 1) st1
        (fun b part hb => hdef (b + 1) part (by simpa using hb)) with
        ⟨hc, b, obs2, res2, hb, he2, hn⟩ | ⟨st2, hs2⟩
      · exact Or.inl ⟨hc, b + 1, obs2, res2, by simpa using hb, he2, hn⟩
      · exact Or.inr ⟨st2, hs2⟩

theorem linkLoop_total {Q : Type} (thr : ℚ) (robot : Robot Q) (env : List Obstacle)
    (XYZ : Nat → V3) (hr : ∀ i, 0 ≤ robot.getRadius i) :
    ∀ (n i0 : Nat) (st : PlanesState),
      (∀ (a b : Nat) (part : Obstacle), i0 ≤ a → a < i0 + n → env[b]? = some part →
        ∃ obs res, part = Obstacle.box obs ∧
          distanceCapsuleToBox thr (XYZ a) (XYZ (a + 1)) (robot.getRadius a) obs = some res) →
      (linkLoop thr robot env XYZ n i0 st = Flow.collision ∧
        ∃ (a b : Nat) (obs : Box) (res : BoxDistance), i0 ≤ a ∧ a < i0 + n ∧
          env[b]? = some (Obstacle.box obs) ∧
          distanceCapsuleToBox thr (XYZ a) (XYZ (a + 1)) (robot.getRadius a) obs = some res ∧
          res.nonpos = true) ∨
      ∃ st1, linkLoop thr robot env XYZ n i0 st = Flow.next st1
  | 0, i0, st, _ => Or.inr ⟨st, rfl⟩
  | n + 1, i0, st, hdef => by
    unfold linkLoop
    rcases obstacleLoop_total thr (XYZ i0) (XYZ (i0 + 1)) (robot.getRadius i0) i0 (hr i0) env 0 st
      (fun b part hb => hdef i0 b part (le_refl _) (by omega) hb) with
      ⟨hc, b, obs, res, hb, he, hn⟩ | ⟨st1, hs⟩
    · rw [hc]
      exact Or.inl ⟨rfl, i0, b, obs, res, le_refl _, by omega, hb, he, hn⟩
    · rw [hs]
      simp only
      rcases linkLoop_total thr robot env XYZ hr n (i0 + 1) st1
        (fun a b part h1 h2 hb => hdef a b part (by omega) (by omega) hb) with
        ⟨hc, a, b, obs, res, h1, h2, hb, he, hn⟩ | ⟨st2, hs2⟩
      · exact Or.inl ⟨hc, a, b, obs, res, by omega, by omega, hb, he, hn⟩
      · exact Or.inr ⟨st2, hs2⟩

theorem computeDistanceAndPlanes_cases {Q : Type} (thr : ℚ) (junk : Nat → Nat → Clearance)
    (robot : Robot Q) (env : List Obstacle) (q : Q) (hr : ∀ i, 0 ≤ robot.getRadius i)
    (hdef : AllPairsDefined thr robot env q) :
    (SomePairNonpos thr robot env q ∧
      computeDistanceAndPlanes thr junk robot env q = some ⟨⟨Dist.fin 0, 0⟩, none⟩) ∨
    (¬ SomePairNonpos thr robot env q ∧
      ∃ st, linkLoop thr robot env (robot.computeSkeleton q)
          (robot.numParts - (if robot.xarm6 then 1 else 0)) (if robot.xarm6 then 1 else 0)
          ⟨junk, Pts.null, fun _ _ => none⟩ = Flow.next st) := by
  have hdef2 : ∀ (a b : Nat) (part : Obstacle), (if robot.xarm6 then 1 else 0) ≤ a →
      a < (if robot.xarm6 then 1 else 0) + (robot.numParts - (if robot.xarm6 then 1 else 0)) →
      env[b]? = some part →
      ∃ obs res, part = Obstacle.box obs ∧
        distanceCapsuleToBox thr (robot.computeSkeleton q a) (robot.computeSkeleton q (a + 1))
          (robot.getRadius a) obs = some res := by
    intro a b part h1 h2 hb
    obtain ⟨obs, res, e1, e2, -⟩ := hdef a b part (by omega) hb
    exact ⟨obs, res, e1, e2⟩
  rcases linkLoop_total thr robot env (robot.computeSkeleton q) hr
      (robot.numParts - (if robot.xarm6 then 1 else 0)) (if robot.xarm6 then 1 else 0)
      ⟨junk, Pts.null, fun _ _ => none⟩ hdef2 with
    ⟨hc, a, b, obs, res, h1, h2, hb, he, hn⟩ | ⟨st1, hs⟩
  · left
    refine ⟨⟨a, b, obs, res, h1, by omega, hb, he, hn⟩, ?_⟩
    unfold computeDistanceAndPlanes
    simp only [hc]
  · right
    refine ⟨?_, st1, hs⟩
    rintro ⟨a, b, obs, res, h1, h2, hb, he, hn⟩
    obtain ⟨hd, -⟩ := linkLoop_next thr robot env (robot.computeSkeleton q) _ _ _ _ hs
    obtain ⟨n1, n2, -⟩ := hd a b (Obstacle.box obs) h1 (by omega) hb
    obtain ⟨res2, e1, e2, -, -⟩ := n2 obs rfl
    rw [he] at e1
    simp only [Option.some.injEq] at e1
    subst e1
    rw [e2, clearance_nonpos_eq, hn] at n1
    simp at n1

/-- C23 (amended): for links of radius `>= 0` and an environment of boxes on
which the engine returns a number for every pair, `computeDistanceAndPlanes`
returns `(0, no plane table)` if some evaluated pair has a clearance `<= 0`;
otherwise, for a robot that is not of type `xarm6`, with at least one link and
one obstacle, it returns a strictly positive distance with a plane table.
For such a robot the returned distance is never negative and the table is
absent exactly when the distance is the float `0`.  `computeDistance` is the
first component of the result. -/
theorem computeDistanceAndPlanes_result {Q : Type} (thr : ℚ)
    (junk : Nat → Nat → Clearance) (robot : Robot Q) (env : List Obstacle) (q : Q)
    (hr : ∀ i, 0 ≤ robot.getRadius i) (hdef : AllPairsDefined thr robot env q) :
    (SomePairNonpos thr robot env q →
      computeDistanceAndPlanes thr junk robot env q = some ⟨⟨Dist.fin 0, 0⟩, none⟩) ∧
    (robot.xarm6 = false → 0 < robot.numParts → env ≠ [] →
      ¬ SomePairNonpos thr robot env q →
      ∃ d planes, computeDistanceAndPlanes thr junk robot env q = some ⟨d, some planes⟩ ∧
        d.positive = true) ∧
    (robot.xarm6 = false → 0 < robot.numParts → env ≠ [] →
      ∃ res, computeDistanceAndPlanes thr junk robot env q = some res ∧
        res.d.negative = false ∧ (res.planes.isNone = true ↔ res.d = ⟨Dist.fin 0, 0⟩)) ∧
    computeDistance thr junk robot env q =
      (computeDistanceAndPlanes thr junk robot env q).map (fun r => r.d) := by
  have part2 : robot.xarm6 = false → 0 < robot.numParts → env ≠ [] →
      ¬ SomePairNonpos thr robot env q →
      ∃ d planes, computeDistanceAndPlanes thr junk robot env q = some ⟨d, some planes⟩ ∧
        d.positive = true := by
    intro hx hn he hE
    rcases computeDistanceAndPlanes_cases thr junk robot env q hr hdef with ⟨h1, -⟩ | ⟨-, st, hs⟩
    · exact absurd h1 hE
    · have hlen : 0 < env.length := List.length_pos.2 he
      obtain ⟨d, hd⟩ := minCoeff_isSome robot.numParts env.length st.distances hn hlen
      refine ⟨d, st.planes, ?_, ?_⟩
      · unfold computeDistanceAndPlanes
        simp only [hs, hd]
      · obtain ⟨a, b, ha, hb, e⟩ := minCoeff_mem _ _ _ _ hd
        have hb2 : env[b]? = some env[b] := List.getElem?_eq_getElem hb
        obtain ⟨obs, res, e1, e2, e3⟩ := hdef a b _ ha hb2
        obtain ⟨hdone, -⟩ := linkLoop_next thr robot env (robot.computeSkeleton q) _ _ _ _ hs
        rw [hx] at hdone
        obtain ⟨n1, n2, -⟩ := hdone a b _ (Nat.zero_le _) (by
          simp only [Bool.false_eq_true, if_false]
          omega) hb2
        obtain ⟨res2, f1, f2, -, -⟩ := n2 obs e1
        rw [e2] at f1
        simp only [Option.some.injEq] at f1
        subst f1
        rw [e]
        apply positive_of_not_nonpos _ n1
        rw [f2]
        exact e3
  refine ⟨?_, part2, ?_, rfl⟩
  · intro hE
    rcases computeDistanceAndPlanes_cases thr junk robot env q hr hdef with ⟨-, h⟩ | ⟨h1, -⟩
    · exact h
    · exact absurd hE h1
  · intro hx hn he
    rcases computeDistanceAndPlanes_cases thr junk robot env q hr hdef with ⟨-, h⟩ | ⟨h1, -⟩
    · refine ⟨_, h, by decide!, ?_⟩
      simp
    · obtain ⟨d, planes, h, hp⟩ := part2 hx hn he h1
      refine ⟨_, h, not_negative_of_positive d hp, ?_⟩
      simp only [Option.isNone_some, Bool.false_eq_true, false_iff]
      intro hd
      rw [hd] at hp
      revert hp
      decide!

theorem engine_scenarioA (thr : ℚ) :
    distanceCapsuleToBox thr ⟨-1, 1/2, 1/2⟩ ⟨-1/10, 1/2, 1/2⟩ (1/20) ⟨0, 0, 0, 1, 1, 1⟩ =
      some ⟨Dist.fin (1/100), 1/20, Pts.pts ⟨-1/10, 1/2, 1/2⟩ ⟨0, 1/2, 1/2⟩⟩ := by
  rw [distanceCapsuleToBox_sameFace thr _ _ (1/20) _ 0 false (by norm_num)
    (by norm_num [Box.wf])
    (inFrontOf_of_strict _ _ _ _ (inFrontOfStrict_cube_lo (-1) (by norm_num)))
    (inFrontOf_of_strict _ _ _ _ (inFrontOfStrict_cube_lo (-1/10) (by norm_num)))]
  norm_num [faceDist, faceIndex, setCoord, V3.get, Box.get]

/-- C23 (fails as stated): four runs with `EQUALITY_THRESHOLD = 10^-6` and the
unit box.  A link of length zero at `(2, 2, 2)` has the clearance NaN, which
is not `<= 0`, and the run returns NaN with a plane table.  For a robot of
type `xarm6` whose link `1` has the clearance `0.05`, row `0` of `distances` is
never written, and if the memory holds `-1` there the run returns `-1` with a
plane table.  For a sphere as only obstacle nothing is written to
`distances(0, 0)`, and if the memory holds `-1` the run returns `(0, null)`
although no pair was evaluated.  Without obstacles the minimum of an empty
matrix is taken. -/
theorem computeDistanceAndPlanes_undefined_cases :
    ((computeDistanceAndPlanes (1/1000000) (fun _ _ => ⟨Dist.inf, 0⟩)
        (⟨false, 1, fun _ _ => ⟨2, 2, 2⟩, fun _ => 1/10⟩ : Robot Unit)
        [Obstacle.box ⟨0, 0, 0, 1, 1, 1⟩] ()).map (fun r => (r.d, r.planes.isSome)) =
        some (⟨Dist.nan, 1/10⟩, true) ∧
      (⟨Dist.nan, 1/10⟩ : Clearance).positive = false) ∧
    ((computeDistanceAndPlanes (1/1000000) (fun _ _ => ⟨Dist.fin 0, 1⟩)
        (⟨true, 2, fun _ i => if i = 0 then ⟨5, 5, 5⟩ else if i = 1 then ⟨-1, 1/2, 1/2⟩
          else ⟨-1/10, 1/2, 1/2⟩, fun _ => 1/20⟩ : Robot Unit)
        [Obstacle.box ⟨0, 0, 0, 1, 1, 1⟩] ()).map (fun r => (r.d, r.planes.isSome)) =
        some (⟨Dist.fin 0, 1⟩, true) ∧
      (⟨Dist.fin 0, 1⟩ : Clearance).negative = true ∧
      (⟨Dist.fin (1/100), 1/20⟩ : Clearance).positive = true) ∧
    (computeDistanceAndPlanes (1/1000000) (fun _ _ => ⟨Dist.fin 0, 1⟩)
        (⟨false, 1, fun _ i => if i = 0 then ⟨-1, 1/2, 1/2⟩ else ⟨-1/10, 1/2, 1/2⟩,
          fun _ => 1/20⟩ : Robot Unit)
        [Obstacle.sphere ⟨⟨5, 5, 5⟩, 1⟩] ()).map (fun r => (r.d, r.planes.isSome)) =
        some (⟨Dist.fin 0, 0⟩, false) ∧
    (computeDistanceAndPlanes (1/1000000) (fun _ _ => ⟨Dist.fin 0, 1⟩)
        (⟨false, 1, fun _ i => if i = 0 then ⟨-1, 1/2, 1/2⟩ else ⟨-1/10, 1/2, 1/2⟩,
          fun _ => 1/20⟩ : Robot Unit)
        [] ()).isNone = true := by
  refine ⟨⟨by decide!, by decide!⟩, ⟨by decide!, by decide!, by decide!⟩, by decide!, by decide!⟩

/-- The statement of `computeDistanceAndPlanes_result` at Scenario A:
one link from `(-1, 0.5, 0.5)` to `(-0.1, 0.5, 0.5)` of radius `0.05` and the
unit box; the clearance is `0.05` and a plane table is returned. -/
theorem computeDistanceAndPlanes_result_witness :
    AllPairsDefined (1/1000000)
        (⟨false, 1, fun _ i => if i = 0 then ⟨-1, 1/2, 1/2⟩ else ⟨-1/10, 1/2, 1/2⟩,
          fun _ => 1/20⟩ : Robot Unit) [Obstacle.box ⟨0, 0, 0, 1, 1, 1⟩] () ∧
      ∃ d planes, computeDistanceAndPlanes (1/1000000) (fun _ _ => ⟨Dist.fin 0, 1⟩)
          (⟨false, 1, fun _ i => if i = 0 then ⟨-1, 1/2, 1/2⟩ else ⟨-1/10, 1/2, 1/2⟩,
            fun _ => 1/20⟩ : Robot Unit) [Obstacle.box ⟨0, 0, 0, 1, 1, 1⟩] () =
          some ⟨d, some planes⟩ ∧ d.positive = true := by
  have hdef : AllPairsDefined (1/1000000)
      (⟨false, 1, fun _ i => if i = 0 then ⟨-1, 1/2, 1/2⟩ else ⟨-1/10, 1/2, 1/2⟩,
        fun _ => 1/20⟩ : Robot Unit) [Obstacle.box ⟨0, 0, 0, 1, 1, 1⟩] () := by
    intro i j part hi hj
    have hi0 : i = 0 := by simpa using hi
    subst hi0
    cases j with
    | zero =>
      simp only [List.getElem?_cons_zero, Option.some.injEq] at hj
      subst hj
      exact ⟨_, _, rfl, engine_scenarioA _, by simp⟩
    | succ j => simp at hj
  have hno : ¬ SomePairNonpos (1/1000000)
      (⟨false, 1, fun _ i => if i = 0 then ⟨-1, 1/2, 1/2⟩ else ⟨-1/10, 1/2, 1/2⟩,
        fun _ => 1/20⟩ : Robot Unit) [Obstacle.box ⟨0, 0, 0, 1, 1, 1⟩] () := by
    rintro ⟨i, j, obs, res, -, hi, hj, he, hn⟩
    have hi0 : i = 0 := by simpa using hi
    subst hi0
    cases j with
    | zero =>
      simp only [List.getElem?_cons_zero, Option.some.injEq, Obstacle.box.injEq] at hj
      subst hj
      have he2 := engine_scenarioA (1/1000000)
      simp only [Nat.zero_add, if_true, one_ne_zero, if_false] at he
      rw [he2] at he
      simp only [Option.some.injEq] at he
      subst he
      revert hn
      decide!
    | succ j => simp at hj
  exact ⟨hdef, (computeDistanceAndPlanes_result (1/1000000) (fun _ _ => ⟨Dist.fin 0, 1⟩)
    (⟨false, 1, fun _ i => if i = 0 then ⟨-1, 1/2, 1/2⟩ else ⟨-1/10, 1/2, 1/2⟩,
      fun _ => 1/20⟩ : Robot Unit) [Obstacle.box ⟨0, 0, 0, 1, 1, 1⟩] ()
    (fun _ => by norm_num) hdef).2.1 rfl (by norm_num) (by simp) hno⟩

/-- C24 (fails on the code): a robot of type `xarm6` with two links, link `1`
running from `(-1, 0.5, 0.5)` to `(-0.1, 0.5, 0.5)` with radius `0.05`, and the
unit box as only obstacle.  The only evaluated pair is `(1, 0)`, with the
clearance `√(1/100) - 1/20 = 0.05`, but `distances.minCoeff()` runs over the
whole `2 x 1` matrix, whose entry `(0, 0)` was never written: the result is the
smaller of that entry and `0.05`, for instance `0.01` if the memory holds
`0.01`. -/
theorem computeDistance_xarm6_reads_unassigned_row (thr : ℚ) (junk : Nat → Nat → Clearance) :
    distanceCapsuleToBox thr ⟨-1, 1/2, 1/2⟩ ⟨-1/10, 1/2, 1/2⟩ (1/20) ⟨0, 0, 0, 1, 1, 1⟩ =
      some ⟨Dist.fin (1/100), 1/20, Pts.pts ⟨-1/10, 1/2, 1/2⟩ ⟨0, 1/2, 1/2⟩⟩ ∧
    computeDistance thr junk
        (⟨true, 2, fun _ i => if i = 0 then ⟨5, 5, 5⟩ else if i = 1 then ⟨-1, 1/2, 1/2⟩
          else ⟨-1/10, 1/2, 1/2⟩, fun _ => 1/20⟩ : Robot Unit)
        [Obstacle.box ⟨0, 0, 0, 1, 1, 1⟩] () =
      some (if (⟨Dist.fin (1/100), 1/20⟩ : Clearance).lt (junk 0 0) then ⟨Dist.fin (1/100), 1/20⟩
        else junk 0 0) ∧
    computeDistance thr (fun _ _ => ⟨Dist.fin (1/10000), 0⟩)
        (⟨true, 2, fun _ i => if i = 0 then ⟨5, 5, 5⟩ else if i = 1 then ⟨-1, 1/2, 1/2⟩
          else ⟨-1/10, 1/2, 1/2⟩, fun _ => 1/20⟩ : Robot Unit)
        [Obstacle.box ⟨0, 0, 0, 1, 1, 1⟩] () = some ⟨Dist.fin (1/10000), 0⟩ := by
  have he := engine_scenarioA thr
  have hn : (⟨Dist.fin (1/100), 1/20⟩ : Clearance).nonpos = false := by decide!
  have key : ∀ junk : Nat → Nat → Clearance, computeDistance thr junk
        (⟨true, 2, fun _ i => if i = 0 then ⟨5, 5, 5⟩ else if i = 1 then ⟨-1, 1/2, 1/2⟩
          else ⟨-1/10, 1/2, 1/2⟩, fun _ => 1/20⟩ : Robot Unit)
        [Obstacle.box ⟨0, 0, 0, 1, 1, 1⟩] () =
      some (if (⟨Dist.fin (1/100), 1/20⟩ : Clearance).lt (junk 0 0) then ⟨Dist.fin (1/100), 1/20⟩
        else junk 0 0) := by
    intro junk
    unfold computeDistance computeDistanceAndPlanes
    simp only [if_true, Nat.add_one_sub_one, linkLoop, obstacleLoop, Nat.reduceAdd,
      one_ne_zero, if_false, OfNat.ofNat_ne_zero, OfNat.ofNat_ne_one,
      pairStep_box thr _ _ _ 1 0 _ _ _ he, hn, Bool.false_eq_true]
    simp [minCoeff, List.range_succ, List.flatMap]
  refine ⟨he, key junk, ?_⟩
  rw [key]
  decide!

/-- C25 (amended): when `computeDistanceAndPlanes(q)` returns a plane table, for
every obstacle `j` that is a box and every evaluated link `i` (from `i0` on) the
engine returned a result with a pair that is not null, and column `i` of
`planes[j]` was written from that pair: if the pair is `(P, Q)` the column is
`(Q, P - Q)`, and for a box with `min <= max` the point `P` lies on the link and
`Q` on the surface of the box. -/
theorem planes_hold_witness_pairs {Q : Type} (thr : ℚ) (junk : Nat → Nat → Clearance)
    (robot : Robot Q) (env : List Obstacle) (q : Q) (d : Clearance)
    (planes : Nat → Nat → Option (V3 × V3))
    (h : computeDistanceAndPlanes thr junk robot env q = some ⟨d, some planes⟩)
    (i j : Nat) (obs : Box) (hi0 : (if robot.xarm6 then 1 else 0) ≤ i) (hi : i < robot.numParts)
    (hj : env[j]? = some (Obstacle.box obs)) :
    ∃ res, distanceCapsuleToBox thr (robot.computeSkeleton q i) (robot.computeSkeleton q (i + 1))
        (robot.getRadius i) obs = some res ∧ res.nearest_pts ≠ Pts.null ∧
      planes j i = planeOf res.nearest_pts ∧
      ∀ P Q, res.nearest_pts = Pts.pts P Q → planes j i = some (Q, P.sub Q) ∧
        (obs.wf → onSegment P (robot.computeSkeleton q i) (robot.computeSkeleton q (i + 1)) ∧
          onSurface Q obs) := by
  unfold computeDistanceAndPlanes at h
  simp only at h
  cases hl : linkLoop thr robot env (robot.computeSkeleton q)
      (robot.numParts - (if robot.xarm6 then 1 else 0)) (if robot.xarm6 then 1 else 0)
      ⟨junk, Pts.null, fun _ _ => none⟩ with
  | collision =>
    rw [hl] at h
    simp at h
  | fault =>
    rw [hl] at h
    simp at h
  | next st =>
    rw [hl] at h
    simp only at h
    cases hm : minCoeff robot.numParts env.length st.distances with
    | none =>
      rw [hm] at h
      simp at h
    | some d2 =>
      rw [hm] at h
      simp only [Option.some.injEq, DistanceAndPlanes.mk.injEq] at h
      obtain ⟨-, hp⟩ := h
      subst hp
      obtain ⟨hdone, -⟩ := linkLoop_next thr robot env (robot.computeSkeleton q) _ _ _ _ hl
      obtain ⟨-, n2, -⟩ := hdone i j _ hi0 (by omega) hj
      obtain ⟨res, e1, -, e3, e4⟩ := n2 obs rfl
      refine ⟨res, e1, e3, e4, ?_⟩
      intro P Q hpq
      refine ⟨by rw [e4, hpq]; rfl, ?_⟩
      intro hw
      rcases distanceCapsuleToBox_pair thr _ _ _ obs hw res e1 with hres | ⟨-, hb⟩
      · rw [hres] at hpq
        simp at hpq
      · obtain ⟨h1, h2, -⟩ := hb P Q hpq
        exact ⟨h1, h2⟩

/-- The statement of `planes_hold_witness_pairs` at Scenario A: one link from
`(-1, 0.5, 0.5)` to `(-0.1, 0.5, 0.5)` of radius `0.05` and the unit box; the
column is `(Q, P - Q)` with `P = (-0.1, 0.5, 0.5)` and `Q = (0, 0.5, 0.5)`. -/
theorem planes_hold_witness_pairs_scenarioA :
    ∃ d planes, computeDistanceAndPlanes (1/1000000) (fun _ _ => ⟨Dist.fin 0, 1⟩)
        (⟨false, 1, fun _ i => if i = 0 then ⟨-1, 1/2, 1/2⟩ else ⟨-1/10, 1/2, 1/2⟩,
          fun _ => 1/20⟩ : Robot Unit) [Obstacle.box ⟨0, 0, 0, 1, 1, 1⟩] () =
        some ⟨d, some planes⟩ ∧ planes 0 0 = some (⟨0, 1/2, 1/2⟩, ⟨-1/10, 0, 0⟩) := by
  have hres : ∃ d planes, computeDistanceAndPlanes (1/1000000) (fun _ _ => ⟨Dist.fin 0, 1⟩)
      (⟨false, 1, fun _ i => if i = 0 then ⟨-1, 1/2, 1/2⟩ else ⟨-1/10, 1/2, 1/2⟩,
        fun _ => 1/20⟩ : Robot Unit) [Obstacle.box ⟨0, 0, 0, 1, 1, 1⟩] () =
      some ⟨d, some planes⟩ := by
    have he := engine_scenarioA (1/1000000)
    have hn : (⟨Dist.fin (1/100), 1/20⟩ : Clearance).nonpos = false := by decide!
    unfold computeDistanceAndPlanes
    simp only [Bool.false_eq_true, if_false, Nat.sub_zero, linkLoop, obstacleLoop, if_true,
      Nat.zero_add, one_ne_zero, pairStep_box (1/1000000) _ _ _ 0 0 _ _ _ he, hn]
    simp [minCoeff, List.range_succ, List.flatMap]
  obtain ⟨d, planes, h⟩ := hres
  refine ⟨d, planes, h, ?_⟩
  obtain ⟨res, e1, -, -, e4⟩ := planes_hold_witness_pairs (1/1000000) (fun _ _ => ⟨Dist.fin 0, 1⟩)
    (⟨false, 1, fun _ i => if i = 0 then ⟨-1, 1/2, 1/2⟩ else ⟨-1/10, 1/2, 1/2⟩,
      fun _ => 1/20⟩ : Robot Unit) [Obstacle.box ⟨0, 0, 0, 1, 1, 1⟩] () d planes h 0 0
    ⟨0, 0, 0, 1, 1, 1⟩ (by simp) (by norm_num) rfl
  have he := engine_scenarioA (1/1000000)
  simp only [Nat.zero_add, if_true, one_ne_zero, if_false] at e1
  rw [he] at e1
  simp only [Option.some.injEq] at e1
  subst e1
  have := (e4 _ _ rfl).1
  rw [this]
  norm_num [V3.sub]

/-- C25 (fails as stated): with the unit box as obstacle `0` and a sphere of
radius `1` about `(5, 5, 5)` as obstacle `1`, one link from `(-1, 0.5, 0.5)` to
`(-0.1, 0.5, 0.5)`, and the never-written entry `distances(0, 1)` holding a
positive float, the run returns a plane table whose column for the sphere is
the column of the box, written from the pair `P = (-0.1, 0.5, 0.5)`,
`Q = (0, 0.5, 0.5)` that the engine returned for the box; `Q` is not on the
sphere. -/
theorem planes_column_of_sphere_is_stale :
    (computeDistanceAndPlanes (1/1000000) (fun _ _ => ⟨Dist.fin 1, 0⟩)
        (⟨false, 1, fun _ i => if i = 0 then ⟨-1, 1/2, 1/2⟩ else ⟨-1/10, 1/2, 1/2⟩,
          fun _ => 1/20⟩ : Robot Unit)
        [Obstacle.box ⟨0, 0, 0, 1, 1, 1⟩, Obstacle.sphere ⟨⟨5, 5, 5⟩, 1⟩] ()).map
        (fun r => r.planes.map (fun p => (p 0 0, p 1 0))) =
      some (some (some (⟨0, 1/2, 1/2⟩, ⟨-1/10, 0, 0⟩), some (⟨0, 1/2, 1/2⟩, ⟨-1/10, 0, 0⟩))) ∧
    distanceCapsuleToBox (1/1000000) ⟨-1, 1/2, 1/2⟩ ⟨-1/10, 1/2, 1/2⟩ (1/20)
        ⟨0, 0, 0, 1, 1, 1⟩ =
      some ⟨Dist.fin (1/100), 1/20, Pts.pts ⟨-1/10, 1/2, 1/2⟩ ⟨0, 1/2, 1/2⟩⟩ ∧
    sqDist ⟨0, 1/2, 1/2⟩ ⟨5, 5, 5⟩ ≠ 1 * 1 := by
  refine ⟨by decide!, by decide!, by decide!⟩

theorem clearance_lt_irrefl (a : Clearance) : a.lt a = false := by
  obtain ⟨d, s⟩ := a
  cases d with
  | nan => rfl
  | inf => rfl
  | fin q =>
    simp only [Clearance.lt, sqrtDiffLt, sub_self, ge_iff_le, le_refl, if_true, mul_zero,
      sub_zero, zero_mul, lt_self_iff_false, or_self, decide_False]

theorem clearance_lt_trans (a b c : Clearance) (ha : a.regular) (hb : b.regular)
    (hc : c.regular) (h1 : a.lt b = true) (h2 : b.lt c = true) : a.lt c = true := by
  obtain ⟨da, sa⟩ := a
  obtain ⟨db, sb⟩ := b
  obtain ⟨dc, sc⟩ := c
  cases da with
  | nan => simp [Clearance.lt] at h1
  | inf => simp [Clearance.lt] at h1
  | fin p =>
    cases db with
    | nan => simp [Clearance.lt] at h2
    | inf => simp [Clearance.lt] at h2
    | fin q =>
      cases dc with
      | nan => simp [Clearance.lt] at h2
      | inf => rfl
      | fin r =>
        have hp : 0 ≤ p := ha.2 p rfl
        have hq : 0 ≤ q := hb.2 q rfl
        have hr : 0 ≤ r := hc.2 r rfl
        simp only [Clearance.lt] at h1 h2 ⊢
        rw [sqrtDiffLt_iff p sa q sb hp hq] at h1
        rw [sqrtDiffLt_iff q sb r sc hq hr] at h2
        rw [sqrtDiffLt_iff p sa r sc hp hr]
        exact lt_trans h1 h2

theorem foldl_min_le :
    ∀ (cs seen : List Clearance) (acc : Clearance),
      (∀ x, x ∈ cs → x.regular) → (∀ x, x ∈ seen → x.regular) → acc.regular →
      (∀ x, x ∈ seen → x.lt acc = false) →
      ∀ x, x ∈ seen ++ cs →
        x.lt (cs.foldl (fun acc x => if x.lt acc then x else acc) acc) = false
  | [], seen, acc, _, _, _, hs => by
    intro x hx
    simp only [List.append_nil] at hx
    exact hs x hx
  | y :: cs, seen, acc, hcs, hseen, hacc, hs => by
    intro x hx
    simp only [List.foldl_cons]
    have hy : y.regular := hcs y (List.mem_cons_self _ _)
    have hmem : x ∈ (seen ++ [y]) ++ cs := by simpa using hx
    apply foldl_min_le cs (seen ++ [y]) (if y.lt acc then y else acc)
      (fun z hz => hcs z (List.mem_cons_of_mem _ hz)) _ _ _ x hmem
    · intro z hz
      rcases List.mem_append.1 hz with hz | hz
      · exact hseen z hz
      · simp only [List.mem_singleton] at hz
        rw [hz]
        exact hy
    · by_cases hlt : y.lt acc = true
      · rw [if_pos hlt]
        exact hy
      · rw [if_neg hlt]
        exact hacc
    · intro z hz
      rcases List.mem_append.1 hz with hz | hz
      · by_cases hlt : y.lt acc = true
        · rw [if_pos hlt]
          by_contra hcon
          have hzy : z.lt y = true := by simpa using hcon
          have := clearance_lt_trans z y acc (hseen z hz) hy hacc hzy hlt
          rw [hs z hz] at this
          simp at this
        · rw [if_neg hlt]
          exact hs z hz
      · simp only [List.mem_singleton] at hz
        rw [hz]
        by_cases hlt : y.lt acc = true
        · rw [if_pos hlt]
          exact clearance_lt_irrefl y
        · rw [if_neg hlt]
          simpa using hlt

/-- No coefficient of a matrix of regular clearances is smaller than the
minimum coefficient. -/
theorem minCoeff_le (rows cols : Nat) (m : Nat → Nat → Clearance) (d : Clearance)
    (hreg : ∀ i j, i < rows → j < cols → (m i j).regular)
    (h : minCoeff rows cols m = some d) :
    ∀ i j, i < rows → j < cols → (m i j).lt d = false := by
  unfold minCoeff at h
  have hmem : ∀ x, x ∈ (List.range cols).flatMap (fun j => (List.range rows).map (fun i => m i j)) →
      x.regular := by
    intro x hx
    simp only [List.mem_flatMap, List.mem_range, List.mem_map] at hx
    obtain ⟨j, hj, i, hi, e⟩ := hx
    rw [← e]
    exact hreg i j hi hj
  have hin : ∀ i j, i < rows → j < cols →
      m i j ∈ (List.range cols).flatMap (fun j => (List.range rows).map (fun i => m i j)) := by
    intro i j hi hj
    simp only [List.mem_flatMap, List.mem_range, List.mem_map]
    exact ⟨j, hj, i, hi, rfl⟩
  generalize (List.range cols).flatMap (fun j => (List.range rows).map (fun i => m i j)) = l
    at h hmem hin
  cases l with
  | nil => simp at h
  | cons c cs =>
    simp only [Option.some.injEq] at h
    intro i j hi hj
    rw [← h]
    apply foldl_min_le cs [c] c (fun x hx => hmem x (List.mem_cons_of_mem _ hx))
      (fun x hx => by
        simp only [List.mem_singleton] at hx
        rw [hx]
        exact hmem c (List.mem_cons_self _ _)) (hmem c (List.mem_cons_self _ _))
      (fun x hx => by
        simp only [List.mem_singleton] at hx
        rw [hx]
        exact clearance_lt_irrefl c)
    simpa using hin i j hi hj

theorem distanceCapsuleToBox_sub (thr : ℚ) (A B : V3) (radius : ℚ) (obs : Box)
    (res : BoxDistance) (h : distanceCapsuleToBox thr A B radius obs = some res) :
    res.sub = radius ∨ res.sub = 0 := by
  unfold distanceCapsuleToBox at h
  simp only at h
  by_cases h0 : (projectionStage A B obs).d_c = Dist.fin 0
  · rw [if_pos h0] at h
    simp only [Option.some.injEq] at h
    rw [← h]
    exact Or.inr rfl
  · rw [if_neg h0] at h
    by_cases h1 : numProj (projectionStage A B obs).projections > 0
    · rw [if_pos h1] at h
      by_cases h2 : numProj (projectionStage A B obs).projections = 1
      · rw [if_pos h2] at h
        generalize checkEdges thr A B obs _ _ _ _ = ce at h
        cases ce with
        | none => simp at h
        | some r =>
          simp only [Option.some.injEq] at h
          rw [← h]
          exact Or.inl rfl
      · rw [if_neg h2] at h
        simp only [Option.some.injEq] at h
        rw [← h]
        exact Or.inl rfl
    · rw [if_neg h1] at h
      simp only [Option.some.injEq] at h
      rw [← h]
      exact Or.inl rfl

theorem regular_of_not_nonpos (c : Clearance) (hs : 0 ≤ c.sub) (h : c.nonpos = false)
    (hn : c.d_c ≠ Dist.nan) : c.regular := by
  refine ⟨hn, ?_⟩
  intro q hq
  obtain ⟨d, s⟩ := c
  simp only at hq hs
  subst hq
  simp only [Clearance.nonpos, decide_eq_false_iff_not, not_and_or, not_le] at h
  rcases h with h | h
  · linarith
  · have := mul_nonneg hs hs
    linarith

/-- For a robot that is not of type `xarm6`, with radii `>= 0`, in an
environment of boxes on which the engine returns a number for every pair and
no pair has a clearance `<= 0`, the distance returned by `computeDistance` is
the clearance of some (link, box) pair and no pair has a smaller clearance. -/
theorem computeDistance_min_of_pairs {Q : Type} (thr : ℚ) (junk : Nat → Nat → Clearance)
    (robot : Robot Q) (env : List Obstacle) (q : Q) (hx : robot.xarm6 = false)
    (hr : ∀ i, 0 ≤ robot.getRadius i) (hdef : AllPairsDefined thr robot env q)
    (hno : ¬ SomePairNonpos thr robot env q) (d : Clearance)
    (h : computeDistance thr junk robot env q = some d) :
    (∃ (i j : Nat) (obs : Box) (res : BoxDistance), i < robot.numParts ∧
      env[j]? = some (Obstacle.box obs) ∧
      distanceCapsuleToBox thr (robot.computeSkeleton q i) (robot.computeSkeleton q (i + 1))
        (robot.getRadius i) obs = some res ∧ d = ⟨res.d_c, res.sub⟩) ∧
    ∀ (i j : Nat) (obs : Box) (res : BoxDistance), i < robot.numParts →
      env[j]? = some (Obstacle.box obs) →
      distanceCapsuleToBox thr (robot.computeSkeleton q i) (robot.computeSkeleton q (i + 1))
        (robot.getRadius i) obs = some res →
      (⟨res.d_c, res.sub⟩ : Clearance).lt d = false := by
  rcases computeDistanceAndPlanes_cases thr junk robot env q hr hdef with ⟨h1, -⟩ | ⟨-, st, hs⟩
  · exact absurd h1 hno
  · unfold computeDistance computeDistanceAndPlanes at h
    simp only [hs] at h
    cases hm : minCoeff robot.numParts env.length st.distances with
    | none =>
      rw [hm] at h
      simp at h
    | some d2 =>
      rw [hm] at h
      simp only [Option.map_some', Option.some.injEq] at h
      subst h
      obtain ⟨hdone, -⟩ := linkLoop_next thr robot env (robot.computeSkeleton q) _ _ _ _ hs
      rw [hx] at hdone
      have entry : ∀ a b, a < robot.numParts → b < env.length →
          ∃ obs res, env[b]? = some (Obstacle.box obs) ∧
            distanceCapsuleToBox thr (robot.computeSkeleton q a)
              (robot.computeSkeleton q (a + 1)) (robot.getRadius a) obs = some res ∧
            st.distances a b = ⟨res.d_c, res.sub⟩ ∧ (st.distances a b).regular := by
        intro a b ha hb
        have hb2 : env[b]? = some env[b] := List.getElem?_eq_getElem hb
        obtain ⟨obs, res, e1, e2, e3⟩ := hdef a b _ ha hb2
        obtain ⟨n1, n2, -⟩ := hdone a b _ (Nat.zero_le _) (by
          simp only [Bool.false_eq_true, if_false]
          omega) hb2
        obtain ⟨res2, f1, f2, -, -⟩ := n2 obs e1
        rw [e2] at f1
        simp only [Option.some.injEq] at f1
        subst f1
        refine ⟨obs, res, by rw [hb2, e1], e2, f2, ?_⟩
        apply regular_of_not_nonpos _ _ n1
        · rw [f2]
          exact e3
        · rw [f2]
          rcases distanceCapsuleToBox_sub thr _ _ _ obs res e2 with hsub | hsub
          · simp only [hsub]
            exact hr a
          · simp only [hsub]
            exact le_refl 0
      constructor
      · obtain ⟨a, b, ha, hb, e⟩ := minCoeff_mem _ _ _ _ hm
        obtain ⟨obs, res, e1, e2, e3, -⟩ := entry a b ha hb
        exact ⟨a, b, obs, res, ha, e1, e2, by rw [e, e3]⟩
      · intro i j obs res hi hj he
        have hjl : j < env.length := by
          by_contra hcon
          rw [List.getElem?_eq_none (not_lt.1 hcon)] at hj
          simp at hj
        obtain ⟨obs2, res2, e1, e2, e3, -⟩ := entry i j hi hjl
        rw [hj] at e1
        simp only [Option.some.injEq, Obstacle.box.injEq] at e1
        subst e1
        rw [he] at e2
        simp only [Option.some.injEq] at e2
        subst e2
        rw [← e3]
        exact minCoeff_le _ _ _ _ (fun a b ha hb => (entry a b ha hb).choose_spec.choose_spec.2.2.2)
          hm i j hi hjl

/-! ## Monotonicity in the radius -/

theorem normLt_mono (sq r1 r2 : ℚ) (h12 : r1 ≤ r2) (h : normLt sq r1 = true) :
    normLt sq r2 = true := by
  simp only [normLt, decide_eq_true_eq] at h ⊢
  obtain ⟨h0, h1⟩ := h
  have : r1 * r1 ≤ r2 * r2 := mul_self_le_mul_self h0.le h12
  exact ⟨by linarith, by linarith⟩

theorem normGt_anti (sq r1 r2 : ℚ) (h1 : 0 ≤ r1) (h12 : r1 ≤ r2) (h : normGt sq r2 = true) :
    normGt sq r1 = true := by
  simp only [normGt, decide_eq_true_eq] at h ⊢
  have : r1 * r1 ≤ r2 * r2 := mul_self_le_mul_self h1 h12
  rcases h with h | h
  · linarith
  · exact Or.inr (by linarith)

theorem ltScalar_mono (d : Dist) (r1 r2 : ℚ) (h12 : r1 ≤ r2) (h : d.ltScalar r1 = true) :
    d.ltScalar r2 = true := by
  cases d with
  | nan => simp [Dist.ltScalar] at h
  | inf => simp [Dist.ltScalar] at h
  | fin q => exact normLt_mono q r1 r2 h12 h

theorem gtScalar_anti (d : Dist) (r1 r2 : ℚ) (h1 : 0 ≤ r1) (h12 : r1 ≤ r2)
    (h : d.gtScalar r2 = true) : d.gtScalar r1 = true := by
  cases d with
  | nan => simp [Dist.gtScalar] at h
  | inf => rfl
  | fin q => exact normGt_anti q r1 r2 h1 h12 h

theorem ltRNew_mono (x r1 r2 : ℚ) (h1 : 0 ≤ r1) (h12 : r1 ≤ r2) (h : ltRNew x r1 = true) :
    ltRNew x r2 = true := by
  unfold ltRNew at h ⊢
  rw [if_pos h1] at h
  rw [if_pos (le_trans h1 h12)]
  simp only [decide_eq_true_eq] at h ⊢
  have : r1 * r1 ≤ r2 * r2 := mul_self_le_mul_self h1 h12
  rcases h with h | h
  · exact Or.inl h
  · exact Or.inr (by linarith)

theorem nearBox_mono (P : V3) (r1 r2 : ℚ) (obs : Box) (h1 : 0 ≤ r1) (h12 : r1 ≤ r2)
    (h : nearBox P r1 obs = true) : nearBox P r2 obs = true := by
  simp only [nearBox, Bool.and_eq_true] at h ⊢
  obtain ⟨⟨⟨⟨⟨n0, n1⟩, n2⟩, n3⟩, n4⟩, n5⟩ := h
  exact ⟨⟨⟨⟨⟨ltRNew_mono _ _ _ h1 h12 n0, ltRNew_mono _ _ _ h1 h12 n1⟩,
    ltRNew_mono _ _ _ h1 h12 n2⟩, ltRNew_mono _ _ _ h1 h12 n3⟩, ltRNew_mono _ _ _ h1 h12 n4⟩,
    ltRNew_mono _ _ _ h1 h12 n5⟩

theorem separated_anti (A B : V3) (r1 r2 : ℚ) (obs : Box) (h12 : r1 ≤ r2)
    (h : separated A B r2 obs = true) : separated A B r1 obs = true := by
  simp only [separated, Bool.or_eq_true, decide_eq_true_eq] at h ⊢
  rcases h with ((((h | h) | h) | h) | h) | h
  · exact Or.inl (Or.inl (Or.inl (Or.inl (Or.inl ⟨by linarith [h.1], by linarith [h.2]⟩))))
  · exact Or.inl (Or.inl (Or.inl (Or.inl (Or.inr ⟨by linarith [h.1], by linarith [h.2]⟩))))
  · exact Or.inl (Or.inl (Or.inl (Or.inr ⟨by linarith [h.1], by linarith [h.2]⟩)))
  · exact Or.inl (Or.inl (Or.inr ⟨by linarith [h.1], by linarith [h.2]⟩))
  · exact Or.inl (Or.inr ⟨by linarith [h.1], by linarith [h.2]⟩)
  · exact Or.inr ⟨by linarith [h.1], by linarith [h.2]⟩

theorem crossingHits_mono (M : V2) (rct : Rec4) (r1 r2 : ℚ) (h12 : r1 ≤ r2)
    (h : crossingHits M rct r1 = true) : crossingHits M rct r2 = true := by
  simp only [crossingHits, Bool.or_eq_true, Bool.and_eq_true, decide_eq_true_eq] at h ⊢
  rcases h with ((((h | h) | h) | h) | h) | h
  · exact Or.inl (Or.inl (Or.inl (Or.inl (Or.inl
      ⟨by linarith [h.1], by linarith [h.2.1], h.2.2.1, h.2.2.2⟩))))
  · exact Or.inl (Or.inl (Or.inl (Or.inl (Or.inr
      ⟨by linarith [h.1], by linarith [h.2.1], h.2.2.1, h.2.2.2⟩))))
  · exact Or.inl (Or.inl (Or.inl (Or.inr ⟨h.1, normLt_mono _ _ _ h12 h.2⟩)))
  · exact Or.inl (Or.inl (Or.inr ⟨h.1, normLt_mono _ _ _ h12 h.2⟩))
  · exact Or.inl (Or.inr ⟨h.1, normLt_mono _ _ _ h12 h.2⟩)
  · exact Or.inr ⟨h.1, normLt_mono _ _ _ h12 h.2⟩

theorem capsuleRectangleTail_mono (thr : ℚ) (A B : V3) (r1 r2 : ℚ) (rct : Rec4)
    (A_rec B_rec : V2) (A_proj B_proj : V3) (oc : ℚ) (c : Nat) (h12 : r1 ≤ r2)
    (h : capsuleRectangleTail thr A B r1 rct A_rec B_rec A_proj B_proj oc c = true) :
    capsuleRectangleTail thr A B r2 rct A_rec B_rec A_proj B_proj oc c = true := by
  unfold capsuleRectangleTail at h ⊢
  simp only at h ⊢
  by_cases hr : r1 > 0
  · have hr2 : r2 > 0 := lt_of_lt_of_le hr h12
    rw [if_pos hr] at h
    rw [if_pos hr2]
    by_cases hA : insideRec A_rec rct = true
    · rw [if_pos hA] at h ⊢
      by_cases hB : insideRec B_rec rct = true
      · rw [if_pos hB] at h ⊢
        exact ltScalar_mono _ _ _ h12 h
      · rw [if_neg hB] at h ⊢
        exact ltScalar_mono _ _ _ h12 h
    · rw [if_neg hA] at h ⊢
      by_cases hB : insideRec B_rec rct = true
      · rw [if_pos hB] at h ⊢
        exact ltScalar_mono _ _ _ h12 h
      · rw [if_neg hB] at h ⊢
        by_cases hc : (checkCases thr A B rct A_rec oc c).ltScalar r1 = true
        · rw [if_pos (ltScalar_mono _ _ _ h12 hc)]
        · rw [if_neg hc] at h
          by_cases hc2 : (checkCases thr A B rct A_rec oc c).ltScalar r2 = true
          · rw [if_pos hc2]
          · rw [if_neg hc2]
            exact ltScalar_mono _ _ _ h12 h
  · rw [if_neg hr] at h
    simp at h

theorem collisionCapsuleToRectangle_mono (thr : ℚ) (A B : V3) (r1 r2 : ℚ) (obs : Box)
    (coord : Nat) (h1 : 0 ≤ r1) (h12 : r1 ≤ r2)
    (h : collisionCapsuleToRectangle thr A B r1 obs coord = true) :
    collisionCapsuleToRectangle thr A B r2 obs coord = true := by
  unfold collisionCapsuleToRectangle at h ⊢
  simp only at h ⊢
  generalize (if coord > 2 then coord - 3 else coord) = k at h ⊢
  generalize (dropCoord A k).add (V2.smul ((obs.get coord - A.get k) / (B.get k - A.get k))
    ((dropCoord B k).sub (dropCoord A k))) = M at h ⊢
  by_cases ht : B.get k - A.get k ≠ 0 ∧ (obs.get coord - A.get k) / (B.get k - A.get k) > 0 ∧
      (obs.get coord - A.get k) / (B.get k - A.get k) < 1
  · rw [if_pos ht] at h ⊢
    by_cases hx2 : (M.get 0 > (faceRec obs k).r0 - r2 ∧ M.get 0 < (faceRec obs k).r2 + r2 ∧
        M.get 1 > (faceRec obs k).r1 - r2 ∧ M.get 1 < (faceRec obs k).r3 + r2) ∧
        crossingHits M (faceRec obs k) r2 = true
    · rw [if_pos hx2]
    · rw [if_neg hx2]
      by_cases hx1 : (M.get 0 > (faceRec obs k).r0 - r1 ∧ M.get 0 < (faceRec obs k).r2 + r1 ∧
          M.get 1 > (faceRec obs k).r1 - r1 ∧ M.get 1 < (faceRec obs k).r3 + r1) ∧
          crossingHits M (faceRec obs k) r1 = true
      · exfalso
        apply hx2
        obtain ⟨⟨a, b, c, d⟩, e⟩ := hx1
        exact ⟨⟨by linarith, by linarith, by linarith, by linarith⟩,
          crossingHits_mono _ _ _ _ h12 e⟩
      · rw [if_neg hx1] at h
        exact capsuleRectangleTail_mono thr A B r1 r2 _ _ _ _ _ _ _ h12 h
  · rw [if_neg ht] at h ⊢
    by_cases hg1 : (Dist.min (Dist.fin (A.sub (get3DPoint (dropCoord A k) (obs.get coord) k)).squaredNorm)
        (Dist.fin (B.sub (get3DPoint (dropCoord B k) (obs.get coord) k)).squaredNorm)).gtScalar r1 = true
    · rw [if_pos hg1] at h
      simp at h
    · rw [if_neg hg1] at h
      have hg2 : ¬ (Dist.min
          (Dist.fin (A.sub (get3DPoint (dropCoord A k) (obs.get coord) k)).squaredNorm)
          (Dist.fin (B.sub (get3DPoint (dropCoord B k) (obs.get coord) k)).squaredNorm)).gtScalar
            r2 = true := fun hg => hg1 (gtScalar_anti _ _ _ h1 h12 hg)
      rw [if_neg hg2]
      exact capsuleRectangleTail_mono thr A B r1 r2 _ _ _ _ _ _ _ h12 h

theorem axisTest_mono (thr : ℚ) (A B : V3) (r1 r2 : ℚ) (obs : Box) (k : Nat) (h1 : 0 ≤ r1)
    (h12 : r1 ≤ r2) (h : axisTest thr A B r1 obs k = true) :
    axisTest thr A B r2 obs k = true := by
  unfold axisTest at h ⊢
  by_cases ha : A.get k < obs.get k
  · rw [if_pos ha] at h ⊢
    exact collisionCapsuleToRectangle_mono thr A B r1 r2 obs k h1 h12 h
  · rw [if_neg ha] at h ⊢
    by_cases hb : A.get k > obs.get (k + 3)
    · rw [if_pos hb] at h ⊢
      exact collisionCapsuleToRectangle_mono thr A B r1 r2 obs (k + 3) h1 h12 h
    · rw [if_neg hb] at h
      simp at h

theorem collisionCapsuleToBox_or (thr : ℚ) (A B : V3) (radius : ℚ) (obs : Box) :
    collisionCapsuleToBox thr A B radius obs =
      ((nearBox A radius obs || nearBox B radius obs) ||
        (!separated A B radius obs &&
          (axisTest thr A B radius obs 0 || axisTest thr A B radius obs 1 ||
            axisTest thr A B radius obs 2))) := by
  unfold collisionCapsuleToBox
  cases nearBox A radius obs <;> cases nearBox B radius obs <;>
    cases separated A B radius obs <;> cases axisTest thr A B radius obs 0 <;>
    cases axisTest thr A B radius obs 1 <;> cases axisTest thr A B radius obs 2 <;> rfl

/-- C31: `collisionCapsuleToBox` is monotone in the capsule radius: for every
segment `AB`, box and radii `0 <= r1 <= r2`, if the call with `r1` returns
`true` then the call with `r2` returns `true`. -/
theorem collisionCapsuleToBox_mono_radius (thr : ℚ) (A B : V3) (r1 r2 : ℚ) (obs : Box)
    (h1 : 0 ≤ r1) (h12 : r1 ≤ r2) (h : collisionCapsuleToBox thr A B r1 obs = true) :
    collisionCapsuleToBox thr A B r2 obs = true := by
  rw [collisionCapsuleToBox_or] at h ⊢
  simp only [Bool.or_eq_true, Bool.and_eq_true, Bool.not_eq_true'] at h ⊢
  rcases h with (h | h) | ⟨hs, h⟩
  · exact Or.inl (Or.inl (nearBox_mono A r1 r2 obs h1 h12 h))
  · exact Or.inl (Or.inr (nearBox_mono B r1 r2 obs h1 h12 h))
  · right
    constructor
    · cases hs2 : separated A B r2 obs with
      | false => rfl
      | true =>
        rw [separated_anti A B r1 r2 obs h12 hs2] at hs
        simp at hs
    · rcases h with (h | h) | h
      · exact Or.inl (Or.inl (axisTest_mono thr A B r1 r2 obs 0 h1 h12 h))
      · exact Or.inl (Or.inr (axisTest_mono thr A B r1 r2 obs 1 h1 h12 h))
      · exact Or.inr (axisTest_mono thr A B r1 r2 obs 2 h1 h12 h)

/-- The statement of `collisionCapsuleToBox_mono_radius` at the unit box, the
segment from `(-1, 0.5, 2)` to `(2, 0.5, 1.2)`, which passes above the edge
`x = 0, z = 1` of the box, and the radii `0.75 <= 2`: the call with `0.75`
returns `true` through the face tests, and so does the call with `2`. -/
theorem collisionCapsuleToBox_mono_radius_witness :
    (0 : ℚ) ≤ 3/4 ∧ (3/4 : ℚ) ≤ 2 ∧
      collisionCapsuleToBox (1/1000000) ⟨-1, 1/2, 2⟩ ⟨2, 1/2, 6/5⟩ (3/4) ⟨0, 0, 0, 1, 1, 1⟩ = true ∧
      collisionCapsuleToBox (1/1000000) ⟨-1, 1/2, 2⟩ ⟨2, 1/2, 6/5⟩ 2 ⟨0, 0, 0, 1, 1, 1⟩ = true :=
  ⟨by norm_num, by norm_num, by decide!,
    collisionCapsuleToBox_mono_radius (1/1000000) ⟨-1, 1/2, 2⟩ ⟨2, 1/2, 6/5⟩ (3/4) 2
      ⟨0, 0, 0, 1, 1, 1⟩ (by norm_num) (by norm_num) (by decide!)⟩

end RealVectorSpace
